import Mathlib

/-!
# OTTL: path-context rewriter, binding-time path model and argument binder

A shallow embedding of `pkg/ottl/paths.go` and `pkg/ottl/functions.go`, of
`Validate` in `exporter/syslogexporter/config.go` and of the package
`internal/coreinternal/timeutils/internal/localizedtime`, followed by the
properties proved about them.

Conventions of the embedding:

* a Go `string` is its sequence of bytes (`GoString`), `len` is `List.length`;
* a Go call that can end in a run-time panic (slice bounds, nil dereference)
  returns `Option`/`Outcome` with a dedicated panic value;
* a Go `error` value is a constructor of `OttlError` carrying the arguments of
  the format string that builds its message;
* declarations of the package that live outside the embedded files (the
  grammar types and their parser, the converter and math-expression binders)
  are parameters, collected in `Sig`, `Grammar` and `Parser`.
-/

namespace Ottl

/-! ## Strings and errors -/

/-- A Go string: an immutable sequence of bytes. -/
abbrev GoString := List UInt8

/-- The bytes of an ASCII literal. -/
def ascii (s : String) : GoString := s.toList.map (fun c => UInt8.ofNat c.toNat)

/-- The byte `.`, separator of path segments. -/
def dot : GoString := [46]

/-- The slice expression `s[lo:hi]`: `none` is the run-time panic Go raises
when the bounds are not `lo <= hi <= len(s)`. -/
def goSlice (s : GoString) (lo hi : Nat) : Option GoString :=
  if lo ≤ hi ∧ hi ≤ s.length then some ((s.drop lo).take (hi - lo)) else none

/-- The slice expression `s[lo:]`, which is `s[lo:len(s)]`. -/
def goSliceFrom (s : GoString) (lo : Nat) : Option GoString :=
  goSlice s lo s.length

/-- The errors built by the embedded code. Each constructor stands for one
`fmt.Errorf`/`errors.New` call site and carries the arguments that identify
the error; the rendering of the context-names set (a Go map, iterated in an
unspecified order) is not part of the value. -/
inductive OttlError where
  /-- Message: unknown context "%s" for parser %T, valid options are: %s. -/
  | unknownContext (context : GoString)
  /-- An error returned by `parseStatement`. -/
  | syntaxError (msg : GoString)
  /-- Message: cannot make a path from zero fields. -/
  | zeroFields
  /-- Message: context "%s" from path "%s" is not valid, it must be replaced by one of: %s. -/
  | invalidContext (context pathText : GoString)
  /-- Message: missing context name for path "%s", possibly valid options are: %s. -/
  | missingContext (pathText : GoString)
  /-- Message: the path section %q was not used by the context - this likely
  means you are using extra path sections. -/
  | pathSectionNotUsed (name : GoString)
  /-- Message: the keys indexing %q were not used by the context - this likely
  means you are trying to index a path that does not support indexing. -/
  | keysNotUsed (name : GoString)
  /-- An error returned by code supplied from outside the embedded files (the
  path resolver, the converter binder, the math-expression binder). -/
  | external (msg : GoString)
  deriving DecidableEq

/-- The result of a Go call of type `(T, error)` that returns its value only
when the error is nil. -/
inductive Outcome (α : Type) where
  /-- The call returned a value and a nil error. -/
  | ok (a : α)
  /-- The call returned a non-nil error. -/
  | error (e : OttlError)
  /-- The call ended in a run-time panic. -/
  | panic
  deriving DecidableEq

/-! ## paths.go: the context rewriter -/

/-- The loop of `writeStatementWithPathsContext`. `sb` is the content of the
string builder and `left` the loop variable of that name; the list holds the
offsets not yet visited, so `i+1 >= len(offsets)` holds exactly when the rest
is empty. -/
def writeStatementLoop (contextPrefix statement : GoString) :
    Nat → GoString → List Nat → Option GoString
  | _, sb, [] => some sb
  | left, sb, offset :: rest =>
    match goSlice statement left offset with
    | none => none
    | some piece =>
      if rest.isEmpty then
        match goSliceFrom statement offset with
        | none => none
        | some tail =>
          writeStatementLoop contextPrefix statement left (sb ++ piece ++ contextPrefix ++ tail) rest
      else
        writeStatementLoop contextPrefix statement offset (sb ++ piece ++ contextPrefix) rest

/-- The function `writeStatementWithPathsContext` of paths.go. Offsets are
byte positions of the lexer, hence natural numbers. `sb.Grow` only reserves
capacity and has no counterpart here. -/
def writeStatementWithPathsContext (context statement : GoString) (offsets : List Nat) :
    Option GoString :=
  if offsets.length = 0 then some statement
  else writeStatementLoop (context ++ dot) statement 0 [] offsets

/-- The text the rewriter is specified to emit, piece by piece:
`S[left:o1]`, `S[o1:o2]`, ..., `S[ok:]`. -/
def statementPieces (S : GoString) : Nat → List Nat → List GoString
  | left, [] => [S.drop left]
  | left, o :: rest => (S.drop left).take (o - left) :: statementPieces S o rest

/-- Deleting `n` bytes at each offset of the original statement from a
rewritten text: copy up to the next offset, skip `n` bytes, go on. -/
def deleteInserted (n : Nat) : GoString → Nat → List Nat → GoString
  | out, _, [] => out
  | out, left, o :: rest =>
    out.take (o - left) ++ deleteInserted n ((out.drop (o - left)).drop n) o rest

/-! ## Declarations of the package outside the embedded files -/

/-- The types and library functions the embedded code uses and that are
declared elsewhere: the float64 literal type with `strconv.FormatFloat(f, 'f',
10, 64)`, the grammar nodes `converter`, `mathExpression`, `editor` and
`booleanExpression`, and the interfaces `Getter[K]` and `GetSetter[K]` with the
conversion of the second to the first. -/
structure Sig where
  float64 : Type
  formatFloat : float64 → GoString
  converter : Type
  mathExpression : Type
  editor : Type
  booleanExpression : Type
  Getter : Type
  GetSetter : Type
  asGetter : GetSetter → Getter

/-! ## The grammar nodes read by the embedded code -/

mutual
/-- The grammar node `path`: `Pos.Offset`, `Context` and `Fields`. -/
inductive path (σ : Sig) where
  | mk (Offset : Nat) (Context : GoString) (Fields : List (field σ))
/-- The grammar node `field`: a name and its keys. -/
inductive field (σ : Sig) where
  | mk (Name : GoString) (Keys : List (key σ))
/-- The grammar node `key`; each pointer field is an `Option`. -/
inductive key (σ : Sig) where
  | mk (String : Option GoString) (Int : Option Int)
      (Expression : Option (mathExprLiteral σ)) (MathExpression : Option σ.mathExpression)
/-- The grammar node behind `key.Expression`, with the fields the embedded
code reads. -/
inductive mathExprLiteral (σ : Sig) where
  | mk (Path : Option (path σ)) (Float : Option σ.float64) (Int : Option Int)
      (Converter : Option σ.converter)
end

/-- Field `Pos.Offset`. -/
def path.Offset {σ : Sig} : path σ → Nat
  | .mk o _ _ => o

/-- Field `Context`. -/
def path.Context {σ : Sig} : path σ → GoString
  | .mk _ c _ => c

/-- Field `Fields`. -/
def path.Fields {σ : Sig} : path σ → List (field σ)
  | .mk _ _ fs => fs

/-- Field `Name`. -/
def field.Name {σ : Sig} : field σ → GoString
  | .mk n _ => n

/-- Field `Keys`. -/
def field.Keys {σ : Sig} : field σ → List (key σ)
  | .mk _ ks => ks

/-- Field `String`. -/
def key.String {σ : Sig} : key σ → Option GoString
  | .mk s _ _ _ => s

/-- Field `Int`. -/
def key.Int {σ : Sig} : key σ → Option Int
  | .mk _ i _ _ => i

/-- Field `Expression`. -/
def key.Expression {σ : Sig} : key σ → Option (mathExprLiteral σ)
  | .mk _ _ e _ => e

/-- Field `MathExpression`. -/
def key.MathExpression {σ : Sig} : key σ → Option σ.mathExpression
  | .mk _ _ _ m => m

/-- The call `strconv.FormatInt(i, 10)`. -/
def formatInt (i : Int) : GoString := ascii (toString i)

/-! ## functions.go: original text of a path -/

mutual
/-- The function `buildOriginalText`. -/
def buildOriginalText {σ : Sig} : path σ → GoString
  | .mk _ ctx fs =>
    (if ctx ≠ [] then ctx ++ (if fs.length > 0 then dot else []) else [])
      ++ buildOriginalFieldsText fs
/-- The loop over `path.Fields` in `buildOriginalText`; `i != len(path.Fields)-1`
holds exactly when fields remain. -/
def buildOriginalFieldsText {σ : Sig} : List (field σ) → GoString
  | [] => []
  | .mk name keys :: rest =>
    name ++ (if keys.length > 0 then buildOriginalKeysText keys else [])
      ++ (if rest.length ≠ 0 then dot else []) ++ buildOriginalFieldsText rest
/-- The function `buildOriginalKeysText`. -/
def buildOriginalKeysText {σ : Sig} : List (key σ) → GoString
  | [] => []
  | .mk s i e _ :: rest =>
    ascii "["
      ++ (match i with | some n => formatInt n | none => [])
      ++ (match s with | some str => str | none => [])
      ++ buildOriginalExpressionText e
      ++ ascii "]" ++ buildOriginalKeysText rest
/-- The branch `k.Expression != nil` of `buildOriginalKeysText`. -/
def buildOriginalExpressionText {σ : Sig} : Option (mathExprLiteral σ) → GoString
  | none => []
  | some (.mk pth fl il _) =>
    (match pth with | some q => buildOriginalText q | none => [])
      ++ (match fl with | some f => σ.formatFloat f | none => [])
      ++ (match il with | some n => formatInt n | none => [])
end

/-! ## functions.go: the binding-time path chain -/

/-- The struct `baseKey`; a nil pointer or nil interface is `none`. -/
structure baseKey (σ : Sig) where
  s : Option GoString
  i : Option Int
  g : Option σ.Getter

/-- A pointer `*basePath[K]`: nil, or the struct it points to with the fields
`context`, `name`, `keys` (`none` is the nil slice), `nextPath`, `fetched`,
`fetchedKeys` and `originalText`. -/
inductive basePath (σ : Sig) where
  | nil
  | mk (context name : GoString) (keys : Option (List (baseKey σ))) (nextPath : basePath σ)
      (fetched fetchedKeys : Bool) (originalText : GoString)

/-- The segments of a chain from its head on: the head, its `nextPath`, and
so on until nil. -/
def basePath.segments {σ : Sig} : basePath σ → List (basePath σ)
  | .nil => []
  | .mk c n k nx f fk t => .mk c n k nx f fk t :: nx.segments

/-- Method `Context()`; the zero value stands in for the call on nil, which the
embedded code never makes. -/
def basePath.Context {σ : Sig} : basePath σ → GoString
  | .nil => []
  | .mk c _ _ _ _ _ _ => c

/-- Method `Name()`; the zero value stands in for the call on nil. -/
def basePath.Name {σ : Sig} : basePath σ → GoString
  | .nil => []
  | .mk _ n _ _ _ _ _ => n

/-- Method `String()`; the zero value stands in for the call on nil. -/
def basePath.String {σ : Sig} : basePath σ → GoString
  | .nil => []
  | .mk _ _ _ _ _ _ t => t

/-- Field `keys`; the zero value stands in for the read through nil. -/
def basePath.keys {σ : Sig} : basePath σ → Option (List (baseKey σ))
  | .nil => none
  | .mk _ _ k _ _ _ _ => k

/-- Field `nextPath`; the zero value stands in for the read through nil. -/
def basePath.nextPath {σ : Sig} : basePath σ → basePath σ
  | .nil => .nil
  | .mk _ _ _ nx _ _ _ => nx

/-- Field `fetched`; the zero value stands in for the read through nil. -/
def basePath.fetched {σ : Sig} : basePath σ → Bool
  | .nil => false
  | .mk _ _ _ _ f _ _ => f

/-- Field `fetchedKeys`; the zero value stands in for the read through nil. -/
def basePath.fetchedKeys {σ : Sig} : basePath σ → Bool
  | .nil => false
  | .mk _ _ _ _ _ fk _ => fk

/-- The assignment `p.fetched = true` through a non-nil pointer; nil is left
as it is, and the callers below treat the nil case themselves. -/
def basePath.setFetched {σ : Sig} : basePath σ → basePath σ
  | .nil => .nil
  | .mk c n k nx _ fk t => .mk c n k nx true fk t

/-- The state of the receiver after the method call `Next()`: when `nextPath`
is not nil its `fetched` flag is set. The call returns `nextPath`. -/
def basePath.Next {σ : Sig} : basePath σ → basePath σ
  | .nil => .nil
  | .mk c n k nx f fk t => .mk c n k nx.setFetched f fk t

/-- The state of the receiver after the method call `Keys()`: when `keys` is
not nil, `fetchedKeys` is set. The call returns `keys`. -/
def basePath.Keys {σ : Sig} : basePath σ → basePath σ
  | .nil => .nil
  | .mk c n k nx f fk t => .mk c n k nx f (if k.isSome then true else fk) t

/-- Method `isComplete()`: `ok` is the nil error. -/
def basePath.isComplete {σ : Sig} : basePath σ → Outcome Unit
  | .nil => .panic
  | .mk _ name keys nextPath fetched fetchedKeys _ =>
    if !fetched then .error (.pathSectionNotUsed name)
    else if keys.isSome && !fetchedKeys then .error (.keysNotUsed name)
    else
      match nextPath with
      | .nil => .ok ()
      | .mk c n k nx f fk t => (basePath.mk c n k nx f fk t).isComplete

/-- A method call a path resolver makes on the chain it was handed. The chain
is addressed from its head: segment `0` is the head, segment `i + 1` the
`nextPath` of segment `i`. -/
inductive PathCall where
  /-- The call `Next()` on segment `i`. -/
  | next (i : Nat)
  /-- The call `Keys()` on segment `i`. -/
  | keys (i : Nat)
  deriving DecidableEq

/-- The chain after `f` has acted on its segment `i`; a chain with no such
segment is left as it is. -/
def basePath.updateAt {σ : Sig} (f : basePath σ → basePath σ) : Nat → basePath σ → basePath σ
  | 0, p => f p
  | _ + 1, .nil => .nil
  | i + 1, .mk c n k nx fl fk t => .mk c n k (basePath.updateAt f i nx) fl fk t

/-- The chain after one call of the resolver. -/
def PathCall.apply {σ : Sig} : PathCall → basePath σ → basePath σ
  | .next i, p => p.updateAt basePath.Next i
  | .keys i, p => p.updateAt basePath.Keys i

/-- The chain after the calls of the resolver, in the order they were made. -/
def runCalls {σ : Sig} (calls : List PathCall) (ip : basePath σ) : basePath σ :=
  calls.foldl (fun s c => c.apply s) ip

/-- The receiver `Parser[K]` with the fields the embedded code reads:
`pathContextNames` (a Go set, here the list of its members) and `pathParser`;
and the methods it calls that are defined outside the embedded files,
`newGetterFromConverter` and `evaluateMathExpression`. A path resolver sees the
chain only through the interface `Path[K]`, so it is given by the method calls
it makes on the chain and the value it returns. -/
structure Parser (σ : Sig) where
  pathContextNames : List GoString
  pathParser : basePath σ → List PathCall × Except OttlError σ.GetSetter
  newGetterFromConverter : σ.converter → Except OttlError σ.Getter
  evaluateMathExpression : σ.mathExpression → Except OttlError σ.Getter

/-- Method `parsePathContext`, with its three return values. -/
def Parser.parsePathContext {σ : Sig} (p : Parser σ) (pth : path σ) :
    GoString × List (field σ) × Option OttlError :=
  let hasPathContextNames : Bool := decide (p.pathContextNames.length > 0)
  if pth.Context ≠ [] then
    if !hasPathContextNames then
      ([], field.mk pth.Context [] :: pth.Fields, none)
    else if pth.Context ∉ p.pathContextNames then
      ([], pth.Fields, some (.invalidContext pth.Context (buildOriginalText pth)))
    else
      (pth.Context, pth.Fields, none)
  else if hasPathContextNames then
    ([], [], some (.missingContext (buildOriginalText pth)))
  else
    ([], pth.Fields, none)

/-- Method `parsePath`: the resolver runs on the chain, then `isComplete` is
called on the chain as the resolver left it. -/
def Parser.parsePath {σ : Sig} (p : Parser σ) (ip : basePath σ) : Outcome σ.GetSetter :=
  match p.pathParser ip with
  | (_, .error err) => .error err
  | (calls, .ok g) =>
    match (runCalls calls ip).isComplete with
    | .ok _ => .ok g
    | .error err => .error err
    | .panic => .panic

/-- The statements of the loop body of `newKeys` that follow the branch
`Expression.Path != nil`: the converter branch and the math-expression branch,
each overwriting `getter`. -/
def Parser.newKeyGetterRest {σ : Sig} (p : Parser σ) (conv : Option σ.converter)
    (math : Option σ.mathExpression) (getter : Option σ.Getter) :
    Outcome (Option σ.Getter) :=
  match (match conv with
         | none => Except.ok getter
         | some c =>
           match p.newGetterFromConverter c with
           | .ok g => Except.ok (some g)
           | .error err => Except.error err) with
  | .error err => .error err
  | .ok getter1 =>
    match math with
    | none => .ok getter1
    | some m =>
      match p.evaluateMathExpression m with
      | .ok g => .ok (some g)
      | .error err => .error err

mutual
/-- The size of a grammar path, the measure along which the binding of paths
nested in keys descends. -/
def path.weight {σ : Sig} : path σ → Nat
  | .mk _ _ fs => 4 + fieldsWeight fs
/-- The size of a list of fields. -/
def fieldsWeight {σ : Sig} : List (field σ) → Nat
  | [] => 0
  | .mk _ ks :: rest => 2 + keysWeight ks + fieldsWeight rest
/-- The size of a list of keys. -/
def keysWeight {σ : Sig} : List (key σ) → Nat
  | [] => 0
  | .mk _ _ e _ :: rest => 1 + expressionWeight e + keysWeight rest
/-- The size of a key expression. -/
def expressionWeight {σ : Sig} : Option (mathExprLiteral σ) → Nat
  | none => 0
  | some (.mk none _ _ _) => 1
  | some (.mk (some q) _ _ _) => 2 + q.weight
end

mutual
/-- Method `newPath`. The loop runs from the last field to the first, so it is
`newPathLoop` on the list of fields; `current.fetched = true` on a nil
`current` is a nil dereference. -/
def Parser.newPath {σ : Sig} (p : Parser σ) (pth : path σ) : Outcome (basePath σ) :=
  if pth.Fields.length = 0 then .error .zeroFields
  else
    match (p.parsePathContext pth).2.2 with
    | some err => .error err
    | none =>
      match p.newPathLoop (p.parsePathContext pth).1 (buildOriginalText pth)
          (p.parsePathContext pth).2.1 with
      | .error err => .error err
      | .panic => .panic
      | .ok .nil => .panic
      | .ok (.mk c n k nx _ fk _) => .ok (.mk c n k nx true fk (buildOriginalText pth))
termination_by (pth.weight, 0)
decreasing_by
  apply Prod.Lex.left
  cases pth with
  | mk o c fs =>
    simp only [Parser.parsePathContext, path.Context, path.Fields, path.weight]
    split_ifs <;> simp [fieldsWeight, keysWeight]
/-- The loop of `newPath`: the value of `current` after the iterations for
the given fields, the last field first. -/
def Parser.newPathLoop {σ : Sig} (p : Parser σ) (pathContext originalText : GoString) :
    List (field σ) → Outcome (basePath σ)
  | [] => .ok .nil
  | .mk name fkeys :: rest =>
    match p.newPathLoop pathContext originalText rest with
    | .error err => .error err
    | .panic => .panic
    | .ok current =>
      match p.newKeys fkeys with
      | .error err => .error err
      | .panic => .panic
      | .ok keys => .ok (.mk pathContext name keys current false false originalText)
termination_by fs => (fieldsWeight fs, 0)
decreasing_by
  all_goals simp only [fieldsWeight]
  · apply Prod.Lex.left; omega
  · apply Prod.Lex.left; omega
/-- Method `newKeys`: nil for no keys, else the slice filled by the loop. -/
def Parser.newKeys {σ : Sig} (p : Parser σ) (keys : List (key σ)) :
    Outcome (Option (List (baseKey σ))) :=
  if keys.length = 0 then .ok none
  else
    match p.newKeysLoop keys with
    | .error err => .error err
    | .panic => .panic
    | .ok ks => .ok (some ks)
termination_by (keysWeight keys, 1)
decreasing_by
  exact Prod.Lex.right _ (by omega)
/-- The loop of `newKeys`, from the first key to the last. -/
def Parser.newKeysLoop {σ : Sig} (p : Parser σ) : List (key σ) → Outcome (List (baseKey σ))
  | [] => .ok []
  | .mk s i none m :: rest =>
    match p.newKeyGetterRest none m none with
    | .error err => .error err
    | .panic => .panic
    | .ok getter =>
      match p.newKeysLoop rest with
      | .error err => .error err
      | .panic => .panic
      | .ok ks => .ok ({ s := s, i := i, g := getter } :: ks)
  | .mk s i (some (.mk none _ _ conv)) m :: rest =>
    match p.newKeyGetterRest conv m none with
    | .error err => .error err
    | .panic => .panic
    | .ok getter =>
      match p.newKeysLoop rest with
      | .error err => .error err
      | .panic => .panic
      | .ok ks => .ok ({ s := s, i := i, g := getter } :: ks)
  | .mk s i (some (.mk (some q) _ _ conv)) m :: rest =>
    match p.buildGetSetterFromPath q with
    | .error err => .error err
    | .panic => .panic
    | .ok g =>
      match p.newKeyGetterRest conv m (some (σ.asGetter g)) with
      | .error err => .error err
      | .panic => .panic
      | .ok getter =>
        match p.newKeysLoop rest with
        | .error err => .error err
        | .panic => .panic
        | .ok ks => .ok ({ s := s, i := i, g := getter } :: ks)
termination_by ks => (keysWeight ks, 0)
decreasing_by
  all_goals simp only [keysWeight, expressionWeight]
  all_goals apply Prod.Lex.left; omega
/-- Method `buildGetSetterFromPath`. -/
def Parser.buildGetSetterFromPath {σ : Sig} (p : Parser σ) (pth : path σ) : Outcome σ.GetSetter :=
  match p.newPath pth with
  | .error err => .error err
  | .panic => .panic
  | .ok np => p.parsePath np
termination_by (pth.weight, 1)
decreasing_by
  exact Prod.Lex.right _ (by omega)
end

/-! ## paths.go: collecting the paths of a statement -/

/-- The struct `parsedStatement`. -/
structure parsedStatement (σ : Sig) where
  Editor : σ.editor
  WhereClause : Option σ.booleanExpression

/-- The declarations of the grammar used by paths.go and defined outside the
embedded files: the function `parseStatement`, and for `editor` and
`booleanExpression` the paths on which `accept` calls `visitPath`, in the
order of the calls. -/
structure Grammar (σ : Sig) where
  parseStatement : GoString → Except OttlError (parsedStatement σ)
  editorAccept : σ.editor → List (path σ)
  booleanExpressionAccept : σ.booleanExpression → List (path σ)

/-- The function `getParsedStatementPaths`: the visitor appends each visited
path to `paths`. -/
def getParsedStatementPaths {σ : Sig} (γ : Grammar σ) (ps : parsedStatement σ) :
    List (path σ) :=
  γ.editorAccept ps.Editor ++
    (match ps.WhereClause with
     | some w => γ.booleanExpressionAccept w
     | none => [])

/-- The function `getBooleanExpressionPaths`. -/
def getBooleanExpressionPaths {σ : Sig} (γ : Grammar σ) (be : σ.booleanExpression) :
    List (path σ) :=
  γ.booleanExpressionAccept be

/-- The loop of `AppendStatementPathsContext` that fills
`missingContextOffsets`. -/
def missingContextOffsets {σ : Sig} (names : List GoString) (paths : List (path σ)) :
    List Nat :=
  paths.foldl (fun acc it => if it.Context ∉ names then acc ++ [it.Offset] else acc) []

/-- Method `AppendStatementPathsContext`, with its two return values; `none`
is a run-time panic. -/
def Parser.AppendStatementPathsContext {σ : Sig} (p : Parser σ) (γ : Grammar σ)
    (context statement : GoString) : Option (GoString × Option OttlError) :=
  if context ∉ p.pathContextNames then
    some (statement, some (.unknownContext context))
  else
    match γ.parseStatement statement with
    | .error err => some ([], some err)
    | .ok parsed =>
      if (getParsedStatementPaths γ parsed).length = 0 then some (statement, none)
      else
        match writeStatementWithPathsContext context statement
            (missingContextOffsets p.pathContextNames (getParsedStatementPaths γ parsed)) with
        | none => none
        | some out => some (out, none)

/-- The segment `i` of a chain: the head for `0`, the `nextPath` of segment
`i` for `i + 1`; nil when the chain is shorter. -/
def basePath.nth {σ : Sig} : basePath σ → Nat → basePath σ
  | p, 0 => p
  | .nil, _ + 1 => .nil
  | .mk _ _ _ nx _ _ _, i + 1 => nx.nth i

/-- The chain `q` has the segments of `p` with the same keys, and every flag
set in `p` is set in `q`. -/
def FlagsGrow {σ : Sig} (p q : basePath σ) : Prop :=
  ∀ j, (q.nth j = .nil ↔ p.nth j = .nil) ∧ (q.nth j).keys = (p.nth j).keys
    ∧ ((p.nth j).fetched = true → (q.nth j).fetched = true)
    ∧ ((p.nth j).fetchedKeys = true → (q.nth j).fetchedKeys = true)

/-! ## Sample parsers and paths -/

/-- The calls of a resolver that walks the chain from segment `i` on: `Keys()`
on each segment that carries keys, and `Next()` on each segment until it
returns nil. -/
def basePath.walk {σ : Sig} : basePath σ → Nat → List PathCall
  | .nil, _ => []
  | .mk _ _ k nx _ _ _, i =>
    (if k.isSome then [PathCall.keys i] else []) ++ [PathCall.next i] ++ nx.walk (i + 1)

/-- A signature in which a getter is the text of the path it reads, and an
editor or boolean expression is the list of the paths it holds, each given by
offset, context and field name. -/
def sampleSig : Sig where
  float64 := Nat
  formatFloat := fun _ => []
  converter := GoString
  mathExpression := GoString
  editor := List (Nat × GoString × GoString)
  booleanExpression := List (Nat × GoString × GoString)
  Getter := GoString
  GetSetter := GoString
  asGetter := id

/-- A parser with the context names `span` and `log`; its resolver reads
every segment and all keys. -/
def spanLogParser : Parser sampleSig where
  pathContextNames := [ascii "span", ascii "log"]
  pathParser := fun ip => (ip.walk 0, .ok ip.String)
  newGetterFromConverter := fun c => .ok c
  evaluateMathExpression := fun m => .ok m

/-- A parser without context names whose resolver knows no path. -/
def legacyParser : Parser sampleSig where
  pathContextNames := []
  pathParser := fun _ => ([], .error (.external (ascii "invalid path")))
  newGetterFromConverter := fun c => .ok c
  evaluateMathExpression := fun m => .ok m

/-- The path `foo.attributes["k"]` at offset 4. -/
def fooAttributesPath : path sampleSig :=
  .mk 4 (ascii "foo") [.mk (ascii "attributes") [.mk (some (ascii "k")) none none none]]

/-- The path `span.attributes["k"].value` at offset 4. -/
def spanAttributesPath : path sampleSig :=
  .mk 4 (ascii "span")
    [.mk (ascii "attributes") [.mk (some (ascii "k")) none none none], .mk (ascii "value") []]

/-- The path `resource.attributes[body]` at offset 4, whose key is the path
`body` at offset 24. -/
def resourceKeyPath : path sampleSig :=
  .mk 4 (ascii "resource")
    [.mk (ascii "attributes")
      [.mk none none (some (.mk (some (.mk 24 [] [.mk (ascii "body") []])) none none none)) none]]

/-- The chain `newPath` builds for `span.attributes["k"].value`. -/
def spanAttributesChain : basePath sampleSig :=
  .mk (ascii "span") (ascii "attributes") (some [⟨some (ascii "k"), none, none⟩])
    (.mk (ascii "span") (ascii "value") none .nil false false (ascii "span.attributes[k].value"))
    true false (ascii "span.attributes[k].value")

/-- The path `resource.attributes["k"]` at offset 4. -/
def resourceAttributesPath : path sampleSig :=
  .mk 4 (ascii "resource") [.mk (ascii "attributes") [.mk (some (ascii "k")) none none none]]

/-- The paths an editor or boolean expression of `sampleSig` holds. -/
def samplePaths (e : List (Nat × GoString × GoString)) : List (path sampleSig) :=
  e.map (fun x => path.mk x.1 x.2.1 [field.mk x.2.2 []])

/-- A grammar for `sampleSig` that knows the statement
`set(attributes["k"], value)`, with and without the context `span` on its two
paths, and rejects every other text. -/
def sampleGrammar : Grammar sampleSig where
  parseStatement := fun s =>
    if s = ascii "set(attributes[\"k\"], value)" then
      .ok { Editor := [(4, [], ascii "attributes"), (21, [], ascii "value")],
            WhereClause := none }
    else if s = ascii "set(span.attributes[\"k\"], span.value)" then
      .ok { Editor := [(4, ascii "span", ascii "attributes"), (26, ascii "span", ascii "value")],
            WhereClause := none }
    else .error (.syntaxError s)
  editorAccept := samplePaths
  booleanExpressionAccept := samplePaths

/-- The statement `set(attributes["k"], value)` as `sampleGrammar` parses it. -/
def sampleParsed : parsedStatement sampleSig :=
  { Editor := [(4, [], ascii "attributes"), (21, [], ascii "value")], WhereClause := none }

/-- The statement `set(span.attributes["k"], span.value)` as `sampleGrammar`
parses it. -/
def sampleParsedSpan : parsedStatement sampleSig :=
  { Editor := [(4, ascii "span", ascii "attributes"), (26, ascii "span", ascii "value")],
    WhereClause := none }

/-! ## The source text of a path -/

/-- The source texts of the grammar nodes that `buildOriginalText` does not
print from their parts: float literals, converters and math expressions. -/
structure SourceTexts (σ : Sig) where
  floatText : σ.float64 → GoString
  converterText : σ.converter → GoString
  mathExpressionText : σ.mathExpression → GoString

/-- Modelled from the spec: the escaping of the content of a string literal
(§4.1, strings use double quotes with the escape sequences `\"` and `\\`). The
parser that undoes it is not among the embedded files. -/
def escapeString : GoString → GoString
  | [] => []
  | c :: rest => (if c = 34 ∨ c = 92 then [92, c] else [c]) ++ escapeString rest

/-- Modelled from the spec: the source text of a string literal with the
value `s` (§4.1). -/
def stringLiteralText (s : GoString) : GoString :=
  [34] ++ escapeString s ++ [34]

mutual
/-- Modelled from the spec: the source text from which the parser, which is
not among the embedded files, reads a path when no whitespace separates the
tokens and integers are written in decimal form, by the grammar of §4.1:
`path := (IDENT ".")? IDENT keys? ("." IDENT keys?)*`. -/
def pathSourceText {σ : Sig} (τ : SourceTexts σ) : path σ → GoString
  | .mk _ ctx fs => (if ctx ≠ [] then ctx ++ dot else []) ++ fieldsSourceText τ fs
/-- Modelled from the spec: the fields of a path, separated by dots (§4.1). -/
def fieldsSourceText {σ : Sig} (τ : SourceTexts σ) : List (field σ) → GoString
  | [] => []
  | .mk name keys :: rest =>
    name ++ keysSourceText τ keys ++ (if rest.length ≠ 0 then dot else [])
      ++ fieldsSourceText τ rest
/-- Modelled from the spec: the keys of a field,
`keys := ( "[" (INT | STRING | expr) "]" )+` (§4.1). -/
def keysSourceText {σ : Sig} (τ : SourceTexts σ) : List (key σ) → GoString
  | [] => []
  | .mk s i e m :: rest =>
    ascii "["
      ++ (match s, i, m with
          | some str, _, _ => stringLiteralText str
          | none, some n, _ => formatInt n
          | none, none, some x => τ.mathExpressionText x
          | none, none, none => expressionSourceText τ e)
      ++ ascii "]" ++ keysSourceText τ rest
/-- Modelled from the spec: a key expression, which is a path, a converter
or a numeric literal (§3). -/
def expressionSourceText {σ : Sig} (τ : SourceTexts σ) :
    Option (mathExprLiteral σ) → GoString
  | none => []
  | some (.mk (some q) _ _ _) => pathSourceText τ q
  | some (.mk none (some f) _ _) => τ.floatText f
  | some (.mk none none (some n) _) => formatInt n
  | some (.mk none none none (some c)) => τ.converterText c
  | some (.mk none none none none) => []
end

/-- The keys of `path.integerKeys`: each key has its `Int` set and nothing
else. -/
def keysInteger {σ : Sig} : List (key σ) → Bool
  | [] => true
  | .mk none (some _) none none :: rest => keysInteger rest
  | _ :: _ => false

/-- The fields of `path.integerKeys`. -/
def fieldsIntegerKeys {σ : Sig} : List (field σ) → Bool
  | [] => true
  | .mk _ keys :: rest => keysInteger keys && fieldsIntegerKeys rest

/-- A path with at least one field whose keys are all integer keys. -/
def path.integerKeys {σ : Sig} : path σ → Bool
  | .mk _ _ fs => decide (fs.length ≠ 0) && fieldsIntegerKeys fs

/-- The source texts for `sampleSig`, in which a converter and a math
expression are given by their text. -/
def sampleSourceTexts : SourceTexts sampleSig where
  floatText := fun _ => ascii "1.5"
  converterText := fun c => c
  mathExpressionText := fun m => m

/-- The path `attributes[Len(name)]` at offset 4, whose key is a converter. -/
def converterKeyPath : path sampleSig :=
  .mk 4 [] [.mk (ascii "attributes")
    [.mk none none (some (.mk none none none (some (ascii "Len(name)")))) none]]

/-- The path `span.events[0].name` at offset 4, with an integer key. -/
def integerKeyPath : path sampleSig :=
  .mk 4 (ascii "span")
    [.mk (ascii "events") [.mk none (some 0) none none], .mk (ascii "name") []]

/-- The path `span.attributes[log.body]` at offset 4, whose key is held as a
math expression, given in `sampleSig` by its text. -/
def mathExpressionKeyPath : path sampleSig :=
  .mk 4 (ascii "span")
    [.mk (ascii "attributes") [.mk none none none (some (ascii "log.body"))]]

/-- The path `span.attributes[body]` at offset 4, whose key is the path `body`
at offset 20, a path without context. -/
def spanKeyPath : path sampleSig :=
  .mk 4 (ascii "span")
    [.mk (ascii "attributes")
      [.mk none none (some (.mk (some (.mk 20 [] [.mk (ascii "body") []])) none none none)) none]]
/-! ## functions.go: the argument binder

The binder works by reflection on the argument record of a function. A Go
type is a `GoType`, a Go value of any type is a `Val`, and the argument record
is the list of its fields with their declared types and current values. The
record is well typed: the value of a field of type `T` is a value of `T`. -/

/-- The grammar node `value`, with the fields the embedded code reads and
`MathExpression`; a `list` is given by its `Values`. -/
inductive value (σ : Sig) where
  | mk (Literal : Option (mathExprLiteral σ)) (MathExpression : Option σ.mathExpression)
      (Bytes : Option GoString) (String : Option GoString) (Bool : Option Bool)
      (Enum : Option GoString) (List : Option (List (value σ)))

/-- Field `Literal`. -/
def value.Literal {σ : Sig} : value σ → Option (mathExprLiteral σ)
  | .mk l _ _ _ _ _ _ => l

/-- Field `Bytes`. -/
def value.Bytes {σ : Sig} : value σ → Option GoString
  | .mk _ _ b _ _ _ _ => b

/-- Field `String`. -/
def value.String {σ : Sig} : value σ → Option GoString
  | .mk _ _ _ s _ _ _ => s

/-- Field `Bool`. -/
def value.Bool {σ : Sig} : value σ → Option Bool
  | .mk _ _ _ _ b _ _ => b

/-- Field `Enum`. -/
def value.Enum {σ : Sig} : value σ → Option GoString
  | .mk _ _ _ _ _ e _ => e

/-- Field `List`, as the `Values` of the list. -/
def value.List {σ : Sig} : value σ → Option (List (value σ))
  | .mk _ _ _ _ _ _ l => l

/-- The grammar node `argument`. -/
structure argument (σ : Sig) where
  Name : GoString
  Value : value σ
  FunctionName : Option GoString

/-- The grammar node `editor`, as the binder reads it. -/
structure editor (σ : Sig) where
  Function : GoString
  Arguments : List (argument σ)

/-- The values of `reflect.Kind` the embedded code tells apart. -/
inductive Kind where
  | String | Uint8 | Float64 | Int64 | Slice | Struct | Interface | Pointer | Other
  deriving DecidableEq

/-- A Go type as reflection shows it: a type that is not a slice, with its
name and kind; a slice type with its name (empty for `[]T`) and element type;
and the three generic wrappers of the package. -/
inductive GoType where
  | basic (name : GoString) (kind : Kind)
  | slice (name : GoString) (elem : GoType)
  | Optional (T : GoType)
  | LiteralGetter (V G : GoType)
  | SliceGetter (T : GoType)
  deriving DecidableEq

/-- Method `reflect.Type.Name`. The name of an instantiated generic type
starts with the name of the generic type; its type arguments are shown by
their names. -/
def GoType.Name : GoType → GoString
  | .basic name _ => name
  | .slice name _ => name
  | .Optional T => ascii "Optional" ++ (ascii "[" ++ T.Name ++ ascii "]")
  | .LiteralGetter V G =>
    ascii "LiteralGetter" ++ (ascii "[" ++ V.Name ++ ascii "," ++ G.Name ++ ascii "]")
  | .SliceGetter T => ascii "SliceGetter" ++ (ascii "[" ++ T.Name ++ ascii "]")

/-- Method `reflect.Type.Kind`. -/
def GoType.Kind : GoType → Kind
  | .basic _ kind => kind
  | .slice _ _ => .Slice
  | .Optional _ => .Struct
  | .LiteralGetter _ _ => .Struct
  | .SliceGetter _ => .Struct

/-- Method `reflect.Type.Elem` on a slice type; `none` is the panic on a type
without element type. -/
def GoType.Elem : GoType → Option GoType
  | .slice _ elem => some elem
  | _ => none

/-- The call `reflect.SliceOf(t)`. -/
def sliceOf (t : GoType) : GoType := .slice [] t

/-- The call `strings.HasPrefix(s, pre)`. -/
def hasPrefix (s pre : GoString) : Bool := pre.isPrefixOf s

/-- The struct `Optional[T]` holding values of the universe `V`; `T` is its
type parameter. -/
structure Optional (V : Type) where
  T : GoType
  val : V
  hasValue : Bool

/-- The struct `LiteralGetter[K, V, G]`; `V` and `G` are its type parameters. -/
structure LiteralGetter (W : Type) where
  V : GoType
  G : GoType
  getter : W

/-- The struct `SliceGetter[K, T]`; `T` is its type parameter. -/
structure SliceGetter (V : Type) where
  T : GoType
  literal : Bool
  getter : V

/-- The typed getters `buildStandardGetterSetter` makes with the constructors
`newStandardStringGetter`, ..., `newStandardByteSliceLikeGetter`. -/
inductive GetterKind where
  | StringGetter | StringLikeGetter | FloatGetter | FloatLikeGetter | IntGetter
  | IntLikeGetter | PMapGetter | PSliceGetter | DurationGetter | TimeGetter | BoolGetter
  | BoolLikeGetter | ByteSliceLikeGetter
  deriving DecidableEq

/-- A Go value as the binder builds and stores it. `nil` is the nil interface
and stands for the zero value of a type that is not one of the three wrappers.
A `standard` value is `newStandard<kind>(getter)`; `pmapGetSetter` is the
struct `StandardPMapGetSetter` made from a getter; `slice T vs` is a `[]T`;
`functionGetter name` is the struct `StandardFunctionGetter` with the factory
registered under `name` and the telemetry settings of the parser;
`standardGetter` is the struct of that name made by
`createStandardSliceGetter`, with its `literal` flag, the item type, and what
its `getter` closure reads: a constant (`constant = true`) or a `Get` of the
source. -/
inductive Val (σ : Sig) where
  | nil
  | Enum (e : Int)
  | string (s : GoString)
  | float64 (f : σ.float64)
  | int64 (i : Int)
  | bool (b : Bool)
  | bytes (b : GoString)
  | getter (g : σ.Getter)
  | getSetter (g : σ.GetSetter)
  | standard (kind : GetterKind) (getter : Val σ)
  | pmapGetSetter (getter : Val σ)
  | slice (T : GoType) (vs : List (Val σ))
  | functionGetter (name : GoString)
  | standardGetter (literal : Bool) (constant : Bool) (source : Val σ) (itemType : GoType)
  | Optional (o : Optional (Val σ))
  | LiteralGetter (l : LiteralGetter (Val σ))
  | SliceGetter (s : SliceGetter (Val σ))

/-- The zero value of a type. -/
def zeroOf {σ : Sig} : GoType → Val σ
  | .basic _ _ => .nil
  | .slice _ _ => .nil
  | .Optional T => .Optional ⟨T, zeroOf T, false⟩
  | .LiteralGetter V G => .LiteralGetter ⟨V, G, .nil⟩
  | .SliceGetter T => .SliceGetter ⟨T, false, .nil⟩

/-- The errors of the argument binder. Each constructor stands for one call
site of `fmt.Errorf` or `errors.New` and carries the arguments of its message;
`ottl` is an error returned unchanged from the path code or from code outside
the embedded files. -/
inductive BindError where
  /-- An error of `newPath`, `parsePath` or of code outside the embedded
  files, returned as it is. -/
  | ottl (e : OttlError)
  /-- Message: undefined function %q. -/
  | undefinedFunction (name : GoString)
  /-- Message: factory for %q must return a pointer to an Arguments value in
  its CreateDefaultArguments method. -/
  | factoryNotPointer (name : GoString)
  /-- Message: error while parsing arguments for call to %q: %w. -/
  | parsingArguments (name : GoString) (cause : BindError)
  /-- Message: couldn't create function: %w. -/
  | createFunction (cause : BindError)
  /-- Message: unnamed argument used after named argument. -/
  | unnamedAfterNamed
  /-- Message: incorrect number of arguments. Expected: %d Received: %d. -/
  | incorrectNumberOfArguments (expected received : Nat)
  /-- Message: no such parameter: %s. -/
  | noSuchParameter (name : GoString)
  /-- Message: optional type is not manageable by the OTTL parser. This is an
  error in the OTTL. -/
  | optionalNotManageable
  /-- Message: invalid function name given. -/
  | invalidFunctionName
  /-- Message: undefined function %s. -/
  | undefinedFunctionGetter (name : GoString)
  /-- Message: SliceGetter is not a typedValueWrapper. This is a bug in the OTTL. -/
  | sliceGetterNotWrapper
  /-- Message: LiteralGetter is not a typedValueWrapper. This is a bug in the OTTL. -/
  | literalGetterNotWrapper
  /-- Message: getter type %T does not support literal values. -/
  | notLiteralGetter
  /-- Message: invalid argument at position %v: %w. -/
  | invalidArgument (position : Nat) (cause : BindError)
  /-- Message: slice parameter must be a byte slice literal. -/
  | mustBeByteSlice
  /-- Message: must be a list of type %v. -/
  | mustBeList (name : GoString)
  /-- Message: error while parsing list argument at index %v: %w. -/
  | listArgument (index : Nat) (cause : BindError)
  /-- Message: invalid element type at list index %v, must be of type %v. -/
  | invalidElementType (index : Nat) (name : GoString)
  /-- Message: unsupported slice type %q for function. -/
  | unsupportedSliceType (name : GoString)
  /-- Message: type %q is not a setter and cannot be used as PMapGetSetter. -/
  | notSetter (name : GoString)
  /-- Message: unsupported argument type: %s. -/
  | unsupportedArgumentType (name : GoString)
  /-- Message: must be an Enum. -/
  | mustBeEnum
  /-- Message: must be a string. -/
  | mustBeString
  /-- Message: must be a float. -/
  | mustBeFloat
  /-- Message: must be an int. -/
  | mustBeInt
  /-- Message: must be a bool. -/
  | mustBeBool
  /-- Message: must be a path. -/
  | mustBePath
  /-- Message: cannot set value of type %q to an Optional of type %q. -/
  | cannotSetOptional (T : GoType)
  /-- Message: cannot set value of type %s to a Getter of type %s. -/
  | cannotSetLiteralGetter (G : GoType)
  /-- Message: cannot set value of type %s to a SliceGetter of type %s. -/
  | cannotSetSliceGetter (T : GoType)
  deriving DecidableEq

/-- The result of a call of the binder of type `(T, error)` or `error` that
returns the zero value of `T` with every non-nil error. -/
inductive BindResult (α : Type) where
  /-- The call returned a value and a nil error. -/
  | ok (a : α)
  /-- The call returned a non-nil error. -/
  | error (e : BindError)
  /-- The call ended in a run-time panic. -/
  | panic

/-! ### Optional -/

/-- The zero value of `Optional[T]`, given the zero value of `T`. -/
def Optional.zero {V : Type} (T : GoType) (zero : V) : Optional V :=
  { T := T, val := zero, hasValue := false }

/-- Method `getWrappedType` of `Optional[T]`. -/
def Optional.getWrappedType {V : Type} (o : Optional V) : GoType := o.T

/-- Method `setWrappedValue` of `Optional[T]`: the Optional after the call and
the error returned. `typeAssert v T` is the type assertion `v.(T)`. -/
def Optional.setWrappedValue {V : Type} (typeAssert : V → GoType → Bool) (o : Optional V)
    (v : V) : Optional V × Option BindError :=
  if typeAssert v o.T then ({ o with val := v, hasValue := true }, none)
  else (o, some (.cannotSetOptional o.T))

/-- Method `getRawValue` of `Optional[T]`: a pointer to `val`, here the value
it points to. -/
def Optional.getRawValue {V : Type} (o : Optional V) : V := o.val

/-- Method `IsEmpty`. -/
def Optional.IsEmpty {V : Type} (o : Optional V) : Bool := !o.hasValue

/-- Method `Get`. -/
def Optional.Get {V : Type} (o : Optional V) : V := o.val

/-- Method `GetOr`. -/
def Optional.GetOr {V : Type} (o : Optional V) (value : V) : V :=
  if !o.hasValue then value else o.val

/-- The function `NewTestingOptional`. -/
def NewTestingOptional {V : Type} (T : GoType) (val : V) : Optional V :=
  { T := T, val := val, hasValue := true }

/-! ### LiteralGetter and SliceGetter as wrappers -/

/-- Method `getWrappedType` of `LiteralGetter[K, V, G]`. -/
def LiteralGetter.getWrappedType {W : Type} (l : LiteralGetter W) : GoType := l.G

/-- Method `setWrappedValue` of `LiteralGetter[K, V, G]`. -/
def LiteralGetter.setWrappedValue {W : Type} (typeAssert : W → GoType → Bool)
    (l : LiteralGetter W) (v : W) : LiteralGetter W × Option BindError :=
  if typeAssert v l.G then ({ l with getter := v }, none)
  else (l, some (.cannotSetLiteralGetter l.G))

/-- Method `getWrappedType` of `SliceGetter[K, T]`. -/
def SliceGetter.getWrappedType {V : Type} (s : SliceGetter V) : GoType := s.T

/-- The interface type `Getter[K]`. -/
def getterType : GoType := .basic (ascii "Getter") .Interface

/-- The interface type `Setter[K]`. -/
def setterType : GoType := .basic (ascii "Setter") .Interface

/-- Method `setWrappedValue` of `SliceGetter[K, T]`: the value must be a
`Getter[K]`. -/
def SliceGetter.setWrappedValue {V : Type} (typeAssert : V → GoType → Bool)
    (s : SliceGetter V) (v : V) : SliceGetter V × Option BindError :=
  if typeAssert v getterType then ({ s with getter := v }, none)
  else (s, some (.cannotSetSliceGetter s.T))

/-! ### Factories and the parser of the binder -/

/-- A field of the argument record: its Go name, its declared type (`Typ`,
the result of `Type()`) and its current value. -/
structure StructField (σ : Sig) where
  Name : GoString
  Typ : GoType
  value : Val σ

/-- What `CreateDefaultArguments` returns: nil, a pointer to an argument
record with the given fields, or a value that is not a pointer. -/
inductive DefaultArguments where
  | nil
  | pointer (fields : List (GoString × GoType))
  | nonPointer

/-- The interface `Factory[K]`: the result of `CreateDefaultArguments`, and
`CreateFunction` as a function of its `args` (nil, or the filled record); its
`FunctionContext` holds nothing but the telemetry settings of the parser. `E`
is the type `ExprFunc[K]`. -/
structure Factory (σ : Sig) (E : Type) where
  CreateDefaultArguments : DefaultArguments
  CreateFunction : Option (List (StructField σ)) → Except OttlError E

/-- The receiver `Parser[K]` as the argument binder reads it: the fields and
methods of `Parser`, the fields `functions` (a Go map) and `enumParser`, the
method `newGetter`, which is defined outside the embedded files, the library
function `strcase.ToCamel`, and two relations of the Go language: `typeAssert
v T`, the type assertion `v.(T)`, which also decides whether `reflect.Value.Set`
accepts `v` for a field of type `T`; and `literalGetter v`, which for a value
implementing the interface `literalGetter` gives what its methods `isLiteral`
and `getLiteral` return. -/
structure ArgParser (σ : Sig) (E : Type) extends Parser σ where
  functions : GoString → Option (Factory σ E)
  enumParser : Option GoString → Except OttlError Int
  newGetter : value σ → Except OttlError σ.Getter
  toCamel : GoString → GoString
  typeAssert : Val σ → GoType → Bool
  literalGetter : Val σ → Option (Bool × Except OttlError (Val σ))

/-- The struct `Expr[K]`; `none` is the nil `exprFunc` of the zero value. -/
structure Expr (E : Type) where
  exprFunc : Option E

/-! ### Building the value of one argument -/

/-- The interface type of the package with the given name, as type argument
of `buildSlice`. -/
def interfaceType (name : GoString) : GoType := .basic name .Interface

/-- Method `buildStandardGetterSetter`. -/
def Parser.buildStandardGetterSetter {σ : Sig} {E : Type} (p : ArgParser σ E)
    (name : GoString) (getter : Val σ) : Except BindError (Val σ) :=
  if hasPrefix name (ascii "Setter") || hasPrefix name (ascii "GetSetter")
      || hasPrefix name (ascii "Getter") then .ok getter
  else if hasPrefix name (ascii "StringGetter") then .ok (.standard .StringGetter getter)
  else if hasPrefix name (ascii "StringLikeGetter") then
    .ok (.standard .StringLikeGetter getter)
  else if hasPrefix name (ascii "FloatGetter") then .ok (.standard .FloatGetter getter)
  else if hasPrefix name (ascii "FloatLikeGetter") then .ok (.standard .FloatLikeGetter getter)
  else if hasPrefix name (ascii "IntGetter") then .ok (.standard .IntGetter getter)
  else if hasPrefix name (ascii "IntLikeGetter") then .ok (.standard .IntLikeGetter getter)
  else if hasPrefix name (ascii "PMapGetSetter") then
    if p.typeAssert getter setterType then .ok (.pmapGetSetter getter)
    else .error (.notSetter name)
  else if hasPrefix name (ascii "PMapGetter") then .ok (.standard .PMapGetter getter)
  else if hasPrefix name (ascii "PSliceGetter") then .ok (.standard .PSliceGetter getter)
  else if hasPrefix name (ascii "DurationGetter") then .ok (.standard .DurationGetter getter)
  else if hasPrefix name (ascii "TimeGetter") then .ok (.standard .TimeGetter getter)
  else if hasPrefix name (ascii "BoolGetter") then .ok (.standard .BoolGetter getter)
  else if hasPrefix name (ascii "BoolLikeGetter") then .ok (.standard .BoolLikeGetter getter)
  else if hasPrefix name (ascii "ByteSliceLikeGetter") then
    .ok (.standard .ByteSliceLikeGetter getter)
  else .error (.unsupportedArgumentType name)

/-- Method `buildArg`. -/
def Parser.buildArg {σ : Sig} {E : Type} (p : ArgParser σ E) (argVal : value σ)
    (argType : GoType) : BindResult (Val σ) :=
  if argType.Name = ascii "Enum" then
    match p.enumParser argVal.Enum with
    | .error _ => .error .mustBeEnum
    | .ok arg => .ok (.Enum arg)
  else if argType.Name = ascii "string" then
    match argVal.String with
    | none => .error .mustBeString
    | some s => .ok (.string s)
  else if argType.Name = ascii "float64" then
    match argVal.Literal with
    | some (.mk _ (some f) _ _) => .ok (.float64 f)
    | _ => .error .mustBeFloat
  else if argType.Name = ascii "int64" then
    match argVal.Literal with
    | some (.mk _ _ (some i) _) => .ok (.int64 i)
    | _ => .error .mustBeInt
  else if argType.Name = ascii "bool" then
    match argVal.Bool with
    | none => .error .mustBeBool
    | some b => .ok (.bool b)
  else if hasPrefix argType.Name (ascii "Setter") || hasPrefix argType.Name (ascii "GetSetter")
      || hasPrefix argType.Name (ascii "PMapGetSetter") then
    match argVal.Literal with
    | some (.mk (some pth) _ _ _) =>
      match p.toParser.buildGetSetterFromPath pth with
      | .error err => .error (.ottl err)
      | .panic => .panic
      | .ok gs =>
        match Parser.buildStandardGetterSetter p argType.Name (.getSetter gs) with
        | .error err => .error err
        | .ok v => .ok v
    | _ => .error .mustBePath
  else
    match p.newGetter argVal with
    | .error err => .error (.ottl err)
    | .ok arg =>
      match Parser.buildStandardGetterSetter p argType.Name (.getter arg) with
      | .error err => .error err
      | .ok gs => .ok gs

/-- The loop of `buildSlice`: the values appended to `vals` from index `j` on. -/
def buildSliceLoop {σ : Sig} (typeAssert : Val σ → GoType → Bool) (T elem : GoType)
    (buildArg : value σ → GoType → BindResult (Val σ)) (name : GoString) :
    Nat → List (value σ) → BindResult (List (Val σ))
  | _, [] => .ok []
  | j, v :: rest =>
    match buildArg v elem with
    | .error err => .error (.listArgument j err)
    | .panic => .panic
    | .ok untypedVal =>
      if typeAssert untypedVal T then
        match buildSliceLoop typeAssert T elem buildArg name (j + 1) rest with
        | .error err => .error err
        | .panic => .panic
        | .ok vals => .ok (untypedVal :: vals)
      else .error (.invalidElementType j name)

/-- The function `buildSlice[T]`; `T` is its type parameter and `typeAssert`
the type assertion of the language. `argType.Elem()` is evaluated in each
iteration and panics on a type without element type. -/
def buildSlice {σ : Sig} (typeAssert : Val σ → GoType → Bool) (T : GoType) (argVal : value σ)
    (argType : GoType) (buildArg : value σ → GoType → BindResult (Val σ)) (name : GoString) :
    BindResult (Val σ) :=
  match argVal.List with
  | none => .error (.mustBeList name)
  | some [] => .ok (.slice T [])
  | some (v :: rest) =>
    match argType.Elem with
    | none => .panic
    | some elem =>
      match buildSliceLoop typeAssert T elem buildArg name 0 (v :: rest) with
      | .error err => .error err
      | .panic => .panic
      | .ok vals => .ok (.slice T vals)

/-- Method `buildSliceArg`. -/
def Parser.buildSliceArg {σ : Sig} {E : Type} (p : ArgParser σ E) (argVal : value σ)
    (argType : GoType) : BindResult (Val σ) :=
  match argType.Elem with
  | none => .panic
  | some elem =>
    if elem.Name = ascii "uint8" then
      match argVal.Bytes with
      | none => .error .mustBeByteSlice
      | some b => .ok (.bytes b)
    else if elem.Name = ascii "string" then
      buildSlice p.typeAssert (.basic (ascii "string") .String) argVal argType
        (Parser.buildArg p) elem.Name
    else if elem.Name = ascii "float64" then
      buildSlice p.typeAssert (.basic (ascii "float64") .Float64) argVal argType
        (Parser.buildArg p) elem.Name
    else if elem.Name = ascii "int64" then
      buildSlice p.typeAssert (.basic (ascii "int64") .Int64) argVal argType
        (Parser.buildArg p) elem.Name
    else if hasPrefix elem.Name (ascii "Getter") then
      buildSlice p.typeAssert (interfaceType (ascii "Getter")) argVal argType
        (Parser.buildArg p) elem.Name
    else if hasPrefix elem.Name (ascii "PMapGetter") then
      buildSlice p.typeAssert (interfaceType (ascii "PMapGetter")) argVal argType
        (Parser.buildArg p) elem.Name
    else if hasPrefix elem.Name (ascii "PSliceGetter") then
      buildSlice p.typeAssert (interfaceType (ascii "PSliceGetter")) argVal argType
        (Parser.buildArg p) elem.Name
    else if hasPrefix elem.Name (ascii "StringGetter") then
      buildSlice p.typeAssert (interfaceType (ascii "StringGetter")) argVal argType
        (Parser.buildArg p) elem.Name
    else if hasPrefix elem.Name (ascii "StringLikeGetter") then
      buildSlice p.typeAssert (interfaceType (ascii "StringLikeGetter")) argVal argType
        (Parser.buildArg p) elem.Name
    else if hasPrefix elem.Name (ascii "FloatGetter") then
      buildSlice p.typeAssert (interfaceType (ascii "FloatGetter")) argVal argType
        (Parser.buildArg p) elem.Name
    else if hasPrefix elem.Name (ascii "FloatLikeGetter") then
      buildSlice p.typeAssert (interfaceType (ascii "FloatLikeGetter")) argVal argType
        (Parser.buildArg p) elem.Name
    else if hasPrefix elem.Name (ascii "IntGetter") then
      buildSlice p.typeAssert (interfaceType (ascii "IntGetter")) argVal argType
        (Parser.buildArg p) elem.Name
    else if hasPrefix elem.Name (ascii "IntLikeGetter") then
      buildSlice p.typeAssert (interfaceType (ascii "IntLikeGetter")) argVal argType
        (Parser.buildArg p) elem.Name
    else if hasPrefix elem.Name (ascii "DurationGetter") then
      buildSlice p.typeAssert (interfaceType (ascii "DurationGetter")) argVal argType
        (Parser.buildArg p) elem.Name
    else if hasPrefix elem.Name (ascii "TimeGetter") then
      buildSlice p.typeAssert (interfaceType (ascii "TimeGetter")) argVal argType
        (Parser.buildArg p) elem.Name
    else .error (.unsupportedSliceType elem.Name)

/-- Whether every element of a built slice is a literal getter that reports
literal: the loop over `sliceValue` in `createStandardSliceGetter`. A byte is
no literal getter. -/
def allLiterals {σ : Sig} (literalGetter : Val σ → Option (Bool × Except OttlError (Val σ)))
    (vs : List (Val σ)) : Bool :=
  vs.all (fun rawVal =>
    match literalGetter rawVal with
    | some (isLiteral, _) => isLiteral
    | none => false)

/-- The part of `createStandardSliceGetter` that runs when the getter is
built: it returns the struct `standardGetter`. Its function parameter
`buildSliceItemGetter` is used only inside the closure stored in the struct. -/
def createStandardSliceGetter {σ : Sig}
    (literalGetter : Val σ → Option (Bool × Except OttlError (Val σ)))
    (argVal : value σ) (sliceItemType : GoType)
    (buildSliceArg : value σ → GoType → BindResult (Val σ))
    (buildGetter : value σ → Except OttlError σ.Getter) : BindResult (Val σ) :=
  let isLiteral : Bool :=
    match sliceItemType.Kind with
    | .String => true
    | .Uint8 => true
    | .Float64 => true
    | .Int64 => true
    | _ => false
  match argVal.List with
  | some _ =>
    match buildSliceArg argVal (sliceOf sliceItemType) with
    | .error err => .error err
    | .panic => .panic
    | .ok slice =>
      let isLiteral2 : Bool :=
        match slice with
        | .slice _ (v :: vs) => if !isLiteral then allLiterals literalGetter (v :: vs) else isLiteral
        | .bytes (_ :: _) => if !isLiteral then false else isLiteral
        | _ => isLiteral
      .ok (.standardGetter isLiteral2 true slice sliceItemType)
  | none =>
    match buildGetter argVal with
    | .error err => .error (.ottl err)
    | .ok argValGetter =>
      match literalGetter (.getter argValGetter) with
      | some (true, litValues) =>
        match litValues with
        | .error err => .error (.ottl err)
        | .ok values => .ok (.standardGetter true true values sliceItemType)
      | _ => .ok (.standardGetter false false (.getter argValGetter) sliceItemType)

/-! ### buildArgs and newFunctionCall -/

/-- The first loop of `buildArgs`, with its variable `seenNamed`: whether it
returns the error for an unnamed argument after a named one. -/
def namedOrderViolated {σ : Sig} : Bool → List (argument σ) → Bool
  | _, [] => false
  | seenNamed, a :: rest =>
    if !seenNamed && decide (a.Name ≠ []) then namedOrderViolated true rest
    else if seenNamed && decide (a.Name = []) then true
    else namedOrderViolated seenNamed rest

/-- The second loop of `buildArgs`: the number of fields whose type name does
not start with `Optional`. -/
def requiredArgs {σ : Sig} (argsVal : List (StructField σ)) : Nat :=
  argsVal.countP (fun f => !hasPrefix f.Typ.Name (ascii "Optional"))

/-- The call `argsVal.FieldByName(name)` as the index of the field found;
`none` is the invalid `reflect.Value`. -/
def fieldByName {σ : Sig} (name : GoString) : List (StructField σ) → Option Nat
  | [] => none
  | f :: rest =>
    if f.Name = name then some 0
    else
      match fieldByName name rest with
      | none => none
      | some k => some (k + 1)

/-- The record with the value of field `k` replaced. -/
def setFieldValue {σ : Sig} (argsVal : List (StructField σ)) (k : Nat) (v : Val σ) :
    List (StructField σ) :=
  argsVal.modify (fun f => { f with value := v }) k

/-- The `typedValueWrapper` behind `fieldVal` in the cases for `SliceGetter`
and `LiteralGetter`: the value `getRawValue()` points to for an optional
field, else the field itself. -/
def wrappedField {σ : Sig} (isOptional : Bool) (fv : Val σ) : Val σ :=
  if isOptional then
    match fv with
    | .Optional o => o.getRawValue
    | v => v
  else fv

/-- The field after the wrapper behind `fieldVal` was changed in place. -/
def setWrappedField {σ : Sig} (isOptional : Bool) (fv w : Val σ) : Val σ :=
  if isOptional then
    match fv with
    | .Optional o => .Optional { o with val := w }
    | v => v
  else w

/-- The `switch` of `buildArgs` for the argument at position `i`: the value
of the field after the case ran (the cases for `SliceGetter` and
`LiteralGetter` set the wrapper in place), and `val` or the error returned.
`fieldType` is the type of the field, unwrapped when the field is optional,
and `fv` the value of the field. Errors of the last two cases are wrapped
with the position; the other cases return theirs as they are. A field whose
value is not of its type makes the case panic. -/
def Parser.buildArgsValue {σ : Sig} {E : Type} (p : ArgParser σ E) (i : Nat) (arg : argument σ)
    (isOptional : Bool) (fieldType : GoType) (fv : Val σ) : Val σ × BindResult (Val σ) :=
  if hasPrefix fieldType.Name (ascii "FunctionGetter") then
    match (match arg.Value.Enum, arg.FunctionName with
           | some e, _ => some e
           | none, some n => some n
           | none, none => none) with
    | none => (fv, .error .invalidFunctionName)
    | some name =>
      match p.functions name with
      | none => (fv, .error (.undefinedFunctionGetter name))
      | some _ => (fv, .ok (.functionGetter name))
  else if hasPrefix fieldType.Name (ascii "SliceGetter") then
    match fieldType with
    | .SliceGetter T =>
      match wrappedField isOptional fv with
      | .SliceGetter fieldVal =>
        match createStandardSliceGetter p.literalGetter arg.Value T (Parser.buildSliceArg p)
            p.newGetter with
        | .error err => (fv, .error err)
        | .panic => (fv, .panic)
        | .ok get =>
          match fieldVal.setWrappedValue p.typeAssert get with
          | (_, some err) => (fv, .error err)
          | (fieldVal2, none) =>
            (setWrappedField isOptional fv (.SliceGetter fieldVal2), .ok (.SliceGetter fieldVal2))
      | _ => (fv, .panic)
    | _ => (fv, .error .sliceGetterNotWrapper)
  else if hasPrefix fieldType.Name (ascii "LiteralGetter") then
    match fieldType with
    | .LiteralGetter _ G =>
      match wrappedField isOptional fv with
      | .LiteralGetter fieldVal =>
        match Parser.buildArg p arg.Value G with
        | .error err => (fv, .error err)
        | .panic => (fv, .panic)
        | .ok buildArg =>
          match p.literalGetter buildArg with
          | none => (fv, .error .notLiteralGetter)
          | some _ =>
            match fieldVal.setWrappedValue p.typeAssert buildArg with
            | (_, some err) => (fv, .error err)
            | (fieldVal2, none) =>
              (setWrappedField isOptional fv (.LiteralGetter fieldVal2),
                .ok (.LiteralGetter fieldVal2))
      | _ => (fv, .panic)
    | _ => (fv, .error .literalGetterNotWrapper)
  else if fieldType.Kind = .Slice then
    match Parser.buildSliceArg p arg.Value fieldType with
    | .error err => (fv, .error (.invalidArgument i err))
    | .panic => (fv, .panic)
    | .ok val => (fv, .ok val)
  else
    match Parser.buildArg p arg.Value fieldType with
    | .error err => (fv, .error (.invalidArgument i err))
    | .panic => (fv, .panic)
    | .ok val => (fv, .ok val)

/-- The field an argument targets: the field at the position of an unnamed
argument (`argsVal.Field(i)` panics when there is none), the field named
`strcase.ToCamel(edArg.Name)` for a named one. -/
def Parser.targetField {σ : Sig} {E : Type} (p : ArgParser σ E)
    (argsVal : List (StructField σ)) (i : Nat) (edArg : argument σ) : BindResult Nat :=
  if edArg.Name = [] then
    if i < argsVal.length then .ok i else .panic
  else
    match fieldByName (p.toCamel edArg.Name) argsVal with
    | none => .error (.noSuchParameter edArg.Name)
    | some k => .ok k

/-- One iteration of the third loop of `buildArgs`, for the argument `edArg`
at position `i`: the record after the iteration and its outcome. -/
def Parser.buildArgsStep {σ : Sig} {E : Type} (p : ArgParser σ E) (i : Nat)
    (edArg : argument σ) (argsVal : List (StructField σ)) :
    List (StructField σ) × BindResult Unit :=
  match Parser.targetField p argsVal i edArg with
  | .error err => (argsVal, .error err)
  | .panic => (argsVal, .panic)
  | .ok k =>
    match argsVal[k]? with
    | none => (argsVal, .panic)
    | some field =>
      match (if hasPrefix field.Typ.Name (ascii "Optional") then
               (match field.Typ with
                | .Optional T => some T
                | _ => none)
             else some field.Typ) with
      | none => (argsVal, .error .optionalNotManageable)
      | some fieldType =>
        match Parser.buildArgsValue p i edArg (hasPrefix field.Typ.Name (ascii "Optional"))
            fieldType field.value with
        | (fv, .error err) => (setFieldValue argsVal k fv, .error err)
        | (fv, .panic) => (setFieldValue argsVal k fv, .panic)
        | (fv, .ok val) =>
          if hasPrefix field.Typ.Name (ascii "Optional") then
            match fv with
            | .Optional optionalFieldRef =>
              match optionalFieldRef.setWrappedValue p.typeAssert val with
              | (_, some err) => (setFieldValue argsVal k fv, .error err)
              | (o, none) => (setFieldValue argsVal k (.Optional o), .ok ())
            | _ => (setFieldValue argsVal k fv, .panic)
          else if p.typeAssert val field.Typ then (setFieldValue argsVal k val, .ok ())
          else (setFieldValue argsVal k fv, .panic)

/-- The third loop of `buildArgs`, from position `i` on. -/
def Parser.buildArgsLoop {σ : Sig} {E : Type} (p : ArgParser σ E) :
    Nat → List (argument σ) → List (StructField σ) → List (StructField σ) × BindResult Unit
  | _, [], argsVal => (argsVal, .ok ())
  | i, edArg :: rest, argsVal =>
    match Parser.buildArgsStep p i edArg argsVal with
    | (argsVal2, .ok _) => Parser.buildArgsLoop p (i + 1) rest argsVal2
    | (argsVal2, .error err) => (argsVal2, .error err)
    | (argsVal2, .panic) => (argsVal2, .panic)

/-- Method `buildArgs`: the record after the call and the error returned. -/
def Parser.buildArgs {σ : Sig} {E : Type} (p : ArgParser σ E) (ed : editor σ)
    (argsVal : List (StructField σ)) : List (StructField σ) × BindResult Unit :=
  if namedOrderViolated false ed.Arguments then (argsVal, .error .unnamedAfterNamed)
  else if ed.Arguments.length < requiredArgs argsVal
      || ed.Arguments.length > argsVal.length then
    (argsVal, .error (.incorrectNumberOfArguments argsVal.length ed.Arguments.length))
  else Parser.buildArgsLoop p 0 ed.Arguments argsVal

/-- The record `reflect.New` makes for the fields of the default arguments:
every field has the zero value of its type. -/
def freshRecord {σ : Sig} (fields : List (GoString × GoType)) : List (StructField σ) :=
  fields.map (fun f => { Name := f.1, Typ := f.2, value := zeroOf f.2 })

/-- The end of `newFunctionCall`: the call of `CreateFunction` and the two
`return` statements after it. -/
def createFunctionCall {σ : Sig} {E : Type} (f : Factory σ E)
    (args : Option (List (StructField σ))) : Expr E × Option BindError :=
  match f.CreateFunction args with
  | .error err => ({ exprFunc := none }, some (.createFunction (.ottl err)))
  | .ok fn => ({ exprFunc := some fn }, none)

/-- Method `newFunctionCall`, with its two return values; `none` is a
run-time panic. -/
def Parser.newFunctionCall {σ : Sig} {E : Type} (p : ArgParser σ E) (ed : editor σ) :
    Option (Expr E × Option BindError) :=
  match p.functions ed.Function with
  | none => some ({ exprFunc := none }, some (.undefinedFunction ed.Function))
  | some f =>
    match f.CreateDefaultArguments with
    | .nil => some (createFunctionCall f none)
    | .nonPointer => some ({ exprFunc := none }, some (.factoryNotPointer ed.Function))
    | .pointer fields =>
      match Parser.buildArgs p ed (freshRecord fields) with
      | (_, .panic) => none
      | (_, .error err) =>
        some ({ exprFunc := none }, some (.parsingArguments ed.Function err))
      | (args, .ok _) => some (createFunctionCall f (some args))

/-! ### Notions used to state the properties of the binder -/

/-- Some unnamed argument occurs after a named argument. -/
def UnnamedAfterNamed {σ : Sig} (args : List (argument σ)) : Prop :=
  ∃ (i j : Nat) (a b : argument σ), i < j ∧ args[i]? = some a ∧ args[j]? = some b ∧ a.Name ≠ [] ∧ b.Name = []

/-- The errors that the third loop of `buildArgs` can return: all but the
errors of the two checks before it and those of `newFunctionCall`. -/
def BindError.ofArgument : BindError → Bool
  | .unnamedAfterNamed => false
  | .incorrectNumberOfArguments _ _ => false
  | .undefinedFunction _ => false
  | .factoryNotPointer _ => false
  | .parsingArguments _ _ => false
  | .createFunction _ => false
  | _ => true

/-! ### Sample functions and editors -/

/-- A type assertion for the sample values: a string is a `string`, an
integer an `int64`, nil is of no type, and every other value passes. -/
def sampleTypeAssert : Val sampleSig → GoType → Bool
  | .string _, T => decide (T = .basic (ascii "string") .String)
  | .int64 _, T => decide (T = .basic (ascii "int64") .Int64)
  | .nil, _ => false
  | _, _ => true

/-- A stand-in for `strcase.ToCamel` on one lower-case word: the first letter
in upper case. -/
def sampleToCamel : GoString → GoString
  | [] => []
  | c :: rest => (if 97 ≤ c.toNat ∧ c.toNat ≤ 122 then UInt8.ofNat (c.toNat - 32) else c) :: rest

/-- The fields of the argument record of the sample function `truncate`:
`Limit int64` and `Suffix Optional[string]`. -/
def truncateFields : List (GoString × GoType) :=
  [(ascii "Limit", .basic (ascii "int64") .Int64),
   (ascii "Suffix", .Optional (.basic (ascii "string") .String))]

/-- The factory of the sample function `truncate`. -/
def truncateFactory : Factory sampleSig GoString where
  CreateDefaultArguments := .pointer truncateFields
  CreateFunction := fun _ => .ok (ascii "truncate")

/-- The factory of the sample function `noop`, which takes no arguments:
`CreateDefaultArguments` returns nil. -/
def noopFactory : Factory sampleSig GoString where
  CreateDefaultArguments := .nil
  CreateFunction := fun _ => .ok (ascii "noop")

/-- A parser with the functions `truncate` and `noop`. An expression function
is given by its name, and the getter of a string literal by the string. -/
def sampleArgParser : ArgParser sampleSig GoString where
  toParser := spanLogParser
  functions := fun name =>
    if name = ascii "truncate" then some truncateFactory
    else if name = ascii "noop" then some noopFactory
    else none
  enumParser := fun _ => .error (.external (ascii "no enums"))
  newGetter := fun v =>
    match v.String with
    | some s => .ok s
    | none => .error (.external (ascii "no value field set"))
  toCamel := sampleToCamel
  typeAssert := sampleTypeAssert
  literalGetter := fun _ => none

/-- The value of the integer literal `n`. -/
def intValue (n : Int) : value sampleSig :=
  .mk (some (.mk none none (some n) none)) none none none none none none

/-- The value of the string literal with content `s`. -/
def stringValue (s : GoString) : value sampleSig :=
  .mk none none none (some s) none none none

/-- The editor `truncate(5, suffix="...")`. -/
def truncateEditor : editor sampleSig where
  Function := ascii "truncate"
  Arguments := [⟨[], intValue 5, none⟩, ⟨ascii "suffix", stringValue (ascii "..."), none⟩]

/-- The editor `truncate(limit=5, 7)`, with an unnamed argument after a named
one. -/
def unnamedAfterNamedEditor : editor sampleSig where
  Function := ascii "truncate"
  Arguments := [⟨ascii "limit", intValue 5, none⟩, ⟨[], intValue 7, none⟩]

/-- The editor `truncate()`. -/
def noArgumentsEditor : editor sampleSig where
  Function := ascii "truncate"
  Arguments := []

/-- The editor `truncate(suffix="a", suffix="b")`, whose two arguments have
the same name. -/
def sameNameEditor : editor sampleSig where
  Function := ascii "truncate"
  Arguments := [⟨ascii "suffix", stringValue (ascii "a"), none⟩,
                ⟨ascii "suffix", stringValue (ascii "b"), none⟩]

/-- The editor `noop(1)`. -/
def noopEditor : editor sampleSig where
  Function := ascii "noop"
  Arguments := [⟨[], intValue 1, none⟩]


/-- The names and types of the fields of a record, in order: what
`reflect.Type` gives for the record. -/
def recordType {σ : Sig} (argsVal : List (StructField σ)) : List (GoString × GoType) :=
  argsVal.map (fun f => (f.Name, f.Typ))

/-- The type `string`. -/
def stringType : GoType := .basic (ascii "string") .String

/-- The named argument `suffix="s"`. -/
def suffixArgument (s : GoString) : argument sampleSig :=
  ⟨ascii "suffix", stringValue s, none⟩

/-- The argument record of `truncate` with `Limit` at its zero value and
`Suffix` holding the Optional `o`. -/
def suffixRecord (o : Optional (Val sampleSig)) : List (StructField sampleSig) :=
  [⟨ascii "Limit", .basic (ascii "int64") .Int64, .nil⟩,
   ⟨ascii "Suffix", .Optional stringType, .Optional o⟩]

/-- The fields of an argument record with the one field `Extra OptionalExtra`,
where `OptionalExtra` is a struct type that is not `Optional[T]`. -/
def extraFields : List (GoString × GoType) :=
  [(ascii "Extra", .basic (ascii "OptionalExtra") .Struct)]

/-! ### More sample arguments -/

/-- The value of the float literal that `sampleSig` denotes by `f`. -/
def floatValue (f : Nat) : value sampleSig :=
  .mk (some (.mk none (some (show sampleSig.float64 from f)) none none)) none none none none
    none none

/-- The value that is the path `pth`. -/
def pathValue (pth : path sampleSig) : value sampleSig :=
  .mk (some (.mk (some pth) none none none)) none none none none none none

/-- A parser without context names; its resolver reads every segment and all
keys. -/
def plainParser : Parser sampleSig where
  pathContextNames := []
  pathParser := fun ip => (ip.walk 0, .ok ip.String)
  newGetterFromConverter := fun c => .ok c
  evaluateMathExpression := fun m => .ok m

/-- The path `body` at offset 16. -/
def bodyPath : path sampleSig := .mk 16 [] [.mk (ascii "body") []]

/-- The interface type `FunctionGetter[K]`. -/
def functionGetterType : GoType := interfaceType (ascii "FunctionGetter")

/-- The first four fields of the argument record of `replace_pattern`:
`Target GetSetter[K]`, `RegexPattern string`, `Replacement StringGetter[K]` and
`Function Optional[FunctionGetter[K]]`. -/
def replacePatternFields : List (GoString × GoType) :=
  [(ascii "Target", interfaceType (ascii "GetSetter")),
   (ascii "RegexPattern", stringType),
   (ascii "Replacement", interfaceType (ascii "StringGetter")),
   (ascii "Function", .Optional functionGetterType)]

/-- A factory with the given default arguments whose `CreateFunction` returns
the function called `name`. -/
def sampleFactory (name : GoString) (defaults : DefaultArguments) :
    Factory sampleSig GoString where
  CreateDefaultArguments := defaults
  CreateFunction := fun _ => .ok name

/-- A parser with the functions `replace_pattern` and `SHA256`, over
`plainParser`. -/
def replaceArgParser : ArgParser sampleSig GoString where
  toParser := plainParser
  functions := fun name =>
    if name = ascii "replace_pattern" then
      some (sampleFactory (ascii "replace_pattern") (.pointer replacePatternFields))
    else if name = ascii "SHA256" then
      some (sampleFactory (ascii "SHA256") (.pointer [(ascii "Target", stringType)]))
    else none
  enumParser := fun _ => .error (.external (ascii "no enums"))
  newGetter := fun v =>
    match v.String with
    | some s => .ok s
    | none => .error (.external (ascii "no value field set"))
  toCamel := sampleToCamel
  typeAssert := sampleTypeAssert
  literalGetter := fun _ => none

/-- The value that is the enum symbol `name`. -/
def enumValue (name : GoString) : value sampleSig :=
  .mk none none none none none (some name) none

/-- The editor `replace_pattern(body, "a", "b", SHA256)`. -/
def replacePatternEditor : editor sampleSig where
  Function := ascii "replace_pattern"
  Arguments := [⟨[], pathValue bodyPath, none⟩, ⟨[], stringValue (ascii "a"), none⟩,
                ⟨[], stringValue (ascii "b"), none⟩, ⟨[], enumValue (ascii "SHA256"), none⟩]

/-- The argument record of `replace_pattern` after `buildArgs` ran for the
editor `replace_pattern(body, "a", "b", SHA256)`. -/
def replacePatternRecord : List (StructField sampleSig) :=
  [⟨ascii "Target", interfaceType (ascii "GetSetter"), .getSetter (ascii "body")⟩,
   ⟨ascii "RegexPattern", stringType, .string (ascii "a")⟩,
   ⟨ascii "Replacement", interfaceType (ascii "StringGetter"),
      .standard .StringGetter (.getter (ascii "b"))⟩,
   ⟨ascii "Function", .Optional functionGetterType,
      .Optional (NewTestingOptional functionGetterType (.functionGetter (ascii "SHA256")))⟩]

/-- The chain `newPath` builds for the path `body`. -/
def bodyChain : basePath sampleSig :=
  .mk [] (ascii "body") none .nil true false (ascii "body")

/-- The interface type `StringGetter[K]`. -/
def stringGetterType : GoType := interfaceType (ascii "StringGetter")

/-- The fields of the argument record of the sample function `is_match`:
`Pattern LiteralGetter[K, string, StringGetter[K]]`. -/
def isMatchFields : List (GoString × GoType) :=
  [(ascii "Pattern", .LiteralGetter stringType stringGetterType)]

/-- A parser with the function `is_match`, over `plainParser`. A getter is the
source text of the value it reads: a string literal in its quotes, a path as
`buildOriginalText` writes it. Every standard typed getter implements the
interface `literalGetter`, and reports literal when its source is a string
literal. -/
def literalArgParser : ArgParser sampleSig GoString where
  toParser := plainParser
  functions := fun name =>
    if name = ascii "is_match" then
      some (sampleFactory (ascii "is_match") (.pointer isMatchFields))
    else none
  enumParser := fun _ => .error (.external (ascii "no enums"))
  newGetter := fun v =>
    match v.String with
    | some s => .ok (ascii "\"" ++ s ++ ascii "\"")
    | none =>
      match v.Literal with
      | some (.mk (some pth) _ _ _) => .ok (buildOriginalText pth)
      | _ => .error (.external (ascii "no value field set"))
  toCamel := sampleToCamel
  typeAssert := sampleTypeAssert
  literalGetter := fun v =>
    match v with
    | .standard _ (.getter g) => some (hasPrefix g (ascii "\""), .ok (.string g))
    | _ => none

/-- The editor `is_match(body)`. -/
def isMatchEditor : editor sampleSig where
  Function := ascii "is_match"
  Arguments := [⟨[], pathValue bodyPath, none⟩]

/-! ### LiteralGetter: reading the literal -/

/-- The errors of `LiteralGetter.GetLiteral`. -/
inductive GetLiteralError where
  /-- Message: getter of type %T is not a literal getter. -/
  | notLiteralGetter
  /-- The error that `getLiteral` of the wrapped getter returned. -/
  | getLiteral (e : OttlError)
  /-- Message: value is not of expected type %T, got %T instead. -/
  | notExpectedType
  deriving DecidableEq

/-- Method `IsLiteral` of `LiteralGetter`. `literalGetter g` is the type
assertion `any(g).(literalGetter)`, with what the methods `isLiteral` and
`getLiteral` of `g` return when it holds. -/
def LiteralGetter.IsLiteral {W X : Type}
    (literalGetter : W → Option (Bool × Except OttlError X)) (l : LiteralGetter W) : Bool :=
  match literalGetter l.getter with
  | none => false
  | some (isLiteral, _) => isLiteral

/-- Method `GetLiteral` of `LiteralGetter[K, V, G]`; `typeAssert val V` is the
type assertion `val.(V)`. -/
def LiteralGetter.GetLiteral {W X : Type}
    (literalGetter : W → Option (Bool × Except OttlError X)) (typeAssert : X → GoType → Bool)
    (l : LiteralGetter W) : Except GetLiteralError X :=
  match literalGetter l.getter with
  | none => .error .notLiteralGetter
  | some (_, .error err) => .error (.getLiteral err)
  | some (_, .ok val) => if typeAssert val l.V then .ok val else .error .notExpectedType

/-- The struct `mockLiteralGetter[K, V]`. Its methods call the function in
`valueGetter` with `context.Background()` and the zero `K` only, so the field
is given by what that call returns. -/
structure mockLiteralGetter (X : Type) where
  valueGetter : Except OttlError X
  literal : Bool

/-- Method `Get` of `mockLiteralGetter`. -/
def mockLiteralGetter.Get {X : Type} (m : mockLiteralGetter X) : Except OttlError X :=
  m.valueGetter

/-- Method `isLiteral` of `mockLiteralGetter`. -/
def mockLiteralGetter.isLiteral {X : Type} (m : mockLiteralGetter X) : Bool := m.literal

/-- Method `getLiteral` of `mockLiteralGetter`. -/
def mockLiteralGetter.getLiteral {X : Type} (m : mockLiteralGetter X) : Except OttlError X :=
  m.valueGetter

/-- The type assertion `any(m).(literalGetter)` on a `mockLiteralGetter`, which
has the two methods of the interface. -/
def mockLiteralGetter.literalGetter {X : Type} (m : mockLiteralGetter X) :
    Option (Bool × Except OttlError X) :=
  some (m.isLiteral, m.getLiteral)

/-- The function `NewTestingLiteralGetter[K, V, G]`. `get` is what `getter.Get`
returns for `context.Background()` and the zero `K`; `isG` tells whether a
`mockLiteralGetter[K, V]` is a `G`, and `none` is the panic of the type
assertion `any(mockedGetter).(G)` when it is not. -/
def NewTestingLiteralGetter {X : Type} (isG : Bool) (V G : GoType) (literal : Bool)
    (get : Except OttlError X) : Option (LiteralGetter (mockLiteralGetter X)) :=
  if isG then some { V := V, G := G, getter := { valueGetter := get, literal := literal } }
  else none

/-- The struct `standardGetter[K]`, with its field `getter` given by what the
function returns for `context.Background()` and the zero `K`. -/
structure standardGetter (X : Type) where
  getter : Except OttlError X
  literal : Bool

/-- Method `isLiteral` of `standardGetter`. -/
def standardGetter.isLiteral {X : Type} (s : standardGetter X) : Bool := s.literal

/-- Method `getLiteral` of `standardGetter`: `Get` with `context.Background()`
and the zero `K`. -/
def standardGetter.getLiteral {X : Type} (s : standardGetter X) : Except OttlError X :=
  s.getter

/-- The type assertion `any(s).(literalGetter)` on a `standardGetter`. -/
def standardGetter.literalGetter {X : Type} (s : standardGetter X) :
    Option (Bool × Except OttlError X) :=
  some (s.isLiteral, s.getLiteral)

/-- The type `any`. -/
def anyType : GoType := .basic [] .Interface

/-- The type assertion of `sampleTypeAssert`, with `any` holding every value
but nil. -/
def anyTypeAssert : Val sampleSig → GoType → Bool
  | .nil, _ => false
  | v, T => decide (T = anyType) || sampleTypeAssert v T

/-! ### Slice getters -/

/-- Method `isLiteral` of the struct `standardGetter`, on a value:
`none` when the value is not a `standardGetter`. -/
def Val.isLiteral {σ : Sig} : Val σ → Option Bool
  | .standardGetter literal _ _ _ => some literal
  | _ => none

/-- The value that is the list with the given values. -/
def listValue (vs : List (value sampleSig)) : value sampleSig :=
  .mk none none none none none none (some vs)
/-- Modelled from the spec: a key as the parser, which is not among the
embedded files, builds it for one of the kinds of the data model (§3, a key is
an integer, a string, or an expression yielding a value): a string key has
`String` set, an integer key has `Int` set, and an expression key (a path, a
converter or a numeric literal) has its math expression in `MathExpression`, or
a path or a converter in `Expression`. -/
def key.parsed {σ : Sig} (k : key σ) : Bool :=
  k.String.isSome || k.Int.isSome || k.MathExpression.isSome
    || (match k.Expression with
        | some (.mk q _ _ c) => q.isSome || c.isSome
        | none => false)

/-! ## exporter/syslogexporter/config.go -/

namespace syslogexporter

/-- The error values `errUnsupportedPort`, `errInvalidEndpoint`,
`errUnsupportedNetwork`, `errUnsupportedProtocol` and `errOctetCounting`. -/
inductive ConfigError where
  /-- Message: unsupported port: port is required, must be in the range 1-65535. -/
  | errUnsupportedPort
  /-- Message: invalid endpoint: endpoint is required but it is not configured. -/
  | errInvalidEndpoint
  /-- Message: unsupported network: network is required, only tcp/udp/unix supported. -/
  | errUnsupportedNetwork
  /-- Message: unsupported protocol: Only rfc5424 and rfc3164 supported. -/
  | errUnsupportedProtocol
  /-- Message: octet counting is only supported for rfc5424 protocol. -/
  | errOctetCounting
  deriving DecidableEq

/-- The struct `Config`, with the fields that `Validate` reads. -/
structure Config where
  Endpoint : GoString
  Port : Int
  Network : GoString
  Protocol : GoString
  EnableOctetCounting : Bool
  deriving DecidableEq

/-- Modelled from the spec: the constant `confignet.TransportTypeTCP` of the
collector library, the network option `tcp` of `config.go`. -/
def TransportTypeTCP : GoString := ascii "tcp"

/-- Modelled from the spec: the constant `confignet.TransportTypeUDP` of the
collector library, the network option `udp` of `config.go`. -/
def TransportTypeUDP : GoString := ascii "udp"

/-- Modelled from the spec: the constant `confignet.TransportTypeUnix` of the
collector library, the network option `unix` of `config.go`. -/
def TransportTypeUnix : GoString := ascii "unix"

/-- Modelled from the spec: the constant `protocolRFC3164Str`, declared in
another file of the package; the protocol option `rfc3164` of `config.go`. -/
def protocolRFC3164Str : GoString := ascii "rfc3164"

/-- Modelled from the spec: the constant `protocolRFC5424Str`, declared in
another file of the package; the protocol option `rfc5424` of `config.go`, the
value of `DefaultProtocol`. -/
def protocolRFC5424Str : GoString := ascii "rfc5424"

/-- Method `Validate`: the configuration after the call, whose `Network` is in
lower case, and the error returned; `none` is nil and `some errs` is
`errors.Join(errs...)`. `toLower` is `strings.ToLower`. -/
def Config.Validate (toLower : GoString → GoString) (cfg : Config) :
    Config × Option (List ConfigError) :=
  let network := toLower cfg.Network
  let invalidFields1 : List ConfigError :=
    if network = TransportTypeTCP ∨ network = TransportTypeUDP then
      if cfg.Port < 1 ∨ cfg.Port > 65535 then [.errUnsupportedPort] else []
    else if network = TransportTypeUnix then []
    else [.errUnsupportedNetwork]
  let invalidFields2 : List ConfigError :=
    if cfg.Endpoint = [] then invalidFields1 ++ [.errInvalidEndpoint] else invalidFields1
  let invalidFields3 : List ConfigError :=
    if cfg.Protocol = protocolRFC3164Str then invalidFields2
    else if cfg.Protocol = protocolRFC5424Str then invalidFields2
    else invalidFields2 ++ [.errUnsupportedProtocol]
  let invalidFields4 : List ConfigError :=
    if cfg.EnableOctetCounting = true ∧ cfg.Protocol ≠ protocolRFC5424Str then
      invalidFields3 ++ [.errOctetCounting]
    else invalidFields3
  ({ cfg with Network := network },
    if invalidFields4.length > 0 then some invalidFields4 else none)

/-- A stand-in for `strings.ToLower` on ASCII text. -/
def asciiToLower (s : GoString) : GoString :=
  s.map (fun c => if 65 ≤ c.toNat ∧ c.toNat ≤ 90 then UInt8.ofNat (c.toNat + 32) else c)

end syslogexporter

/-- A configuration with the network `TCP`, no port, no endpoint, the protocol
`rfc3164` and octet counting. -/
def syslogexporter.sampleConfig : syslogexporter.Config where
  Endpoint := []
  Port := 0
  Network := ascii "TCP"
  Protocol := ascii "rfc3164"
  EnableOctetCounting := true

/-! ## internal/coreinternal/timeutils/internal/localizedtime -/

namespace localizedtime

/-- The byte of an ASCII character. -/
def byte (c : Char) : UInt8 := UInt8.ofNat c.toNat

/-- The table `longDayNamesStd`. -/
def longDayNamesStd : List GoString :=
  [ascii "Sunday", ascii "Monday", ascii "Tuesday", ascii "Wednesday", ascii "Thursday",
   ascii "Friday", ascii "Saturday"]

/-- The table `shortDayNamesStd`. -/
def shortDayNamesStd : List GoString :=
  [ascii "Sun", ascii "Mon", ascii "Tue", ascii "Wed", ascii "Thu", ascii "Fri", ascii "Sat"]

/-- The table `shortMonthNamesStd`. -/
def shortMonthNamesStd : List GoString :=
  [ascii "Jan", ascii "Feb", ascii "Mar", ascii "Apr", ascii "May", ascii "Jun", ascii "Jul",
   ascii "Aug", ascii "Sep", ascii "Oct", ascii "Nov", ascii "Dec"]

/-- The table `longMonthNamesStd`. -/
def longMonthNamesStd : List GoString :=
  [ascii "January", ascii "February", ascii "March", ascii "April", ascii "May", ascii "June",
   ascii "July", ascii "August", ascii "September", ascii "October", ascii "November",
   ascii "December"]

/-- The table `dayPeriodsStd`. -/
def dayPeriodsStd : List GoString := [ascii "AM", ascii "PM"]

/-- The errors of the package: `ErrLayoutMismatch`, the struct
`ErrUnsupportedLayoutElem`, the error of `nextNonSpaceValue`, and an error
returned by `time.Parse` or `time.ParseInLocation`. -/
inductive TimeError where
  /-- Message: value does not match the layout. -/
  | ErrLayoutMismatch
  /-- Message: layout element "%s" is not support by the language "%s". -/
  | ErrUnsupportedLayoutElem (LayoutElem Language : GoString)
  /-- Message: next non-space value not found. -/
  | nextNonSpaceValueNotFound
  /-- An error of the package `time`. -/
  | external (msg : GoString)
  deriving DecidableEq

/-- The result of a call that returns a value or an error: the value with a
nil error, the error, a run-time panic (an index or a slice out of range), or
the end of the fuel given to a loop. -/
inductive Result (α : Type) where
  | ok (a : α)
  | error (e : TimeError)
  | panic
  | outOfFuel
  deriving DecidableEq

/-- The interface `Locale`, by what its methods return; `Language` is the
text `Language().String()`. -/
structure Locale where
  Language : GoString
  LongDayNames : List GoString
  ShortDayNames : List GoString
  LongMonthNames : List GoString
  ShortMonthNames : List GoString
  DayPeriods : List GoString
  deriving DecidableEq

/-- The call `unicode.IsSpace(rune(b))` for a byte `b`: the white space of
Latin-1. -/
def isSpace (b : UInt8) : Bool :=
  b = 9 || b = 10 || b = 11 || b = 12 || b = 13 || b = 32 || b = 0x85 || b = 0xA0

/-- The call `unicode.ToUpper(rune(b))` for a byte `b`, as a code point. -/
def toUpper (b : UInt8) : Nat :=
  if 97 ≤ b.toNat ∧ b.toNat ≤ 122 then b.toNat - 32
  else if b.toNat = 0xB5 then 0x39C
  else if 0xE0 ≤ b.toNat ∧ b.toNat ≤ 0xFE ∧ b.toNat ≠ 0xF7 then b.toNat - 32
  else if b.toNat = 0xFF then 0x178
  else b.toNat

/-- The bytes of `string(rune(b))` for a byte `b`, which `sb.WriteRune(rune(b))`
writes and the conversion `string(b)` gives: the UTF-8 encoding of the code
point `b`. -/
def runeBytes (b : UInt8) : GoString :=
  if b.toNat < 128 then [b]
  else [UInt8.ofNat (0xC0 + b.toNat / 64), UInt8.ofNat (0x80 + b.toNat % 64)]

/-- The function `newUnsupportedLayoutElemError`. -/
def newUnsupportedLayoutElemError (elem : GoString) (locale : Locale) : TimeError :=
  .ErrUnsupportedLayoutElem elem locale.Language

/-- The function `startsWithLowerCase`. -/
def startsWithLowerCase (value : GoString) : Bool :=
  match value with
  | [] => false
  | c :: _ => decide (byte 'a' ≤ c ∧ c ≤ byte 'z')

/-- The number of white-space bytes at the start of `s`. -/
def countSpaces : GoString → Nat
  | [] => 0
  | c :: cs => if isSpace c then countSpaces cs + 1 else 0

/-- The loop `for newOffset < len(val) && unicode.IsSpace(rune(val[newOffset]))`
that starts `lookup` and `nextNonSpaceValue`: the value of `newOffset` after it. -/
def skipSpaces (val : GoString) (offset : Nat) : Nat :=
  offset + countSpaces (val.drop offset)

/-- The second loop of `nextNonSpaceValue`, on the bytes of `value` from
`newOffset` on: the values of `newOffset` and `val` it returns. -/
def nextNonSpaceLoop (max : Nat) : GoString → Nat → GoString → Nat × GoString
  | [], newOffset, val => (newOffset, val)
  | c :: cs, newOffset, val =>
    if !isSpace c then
      if (val ++ runeBytes c).length = max then (newOffset + 1, val ++ runeBytes c)
      else nextNonSpaceLoop max cs (newOffset + 1) (val ++ runeBytes c)
    else (newOffset, val)

/-- The function `nextNonSpaceValue`, with `newOffset` and `val` of a return
with a nil error. -/
def nextNonSpaceValue (value : GoString) (offset max : Nat) : Result (Nat × GoString) :=
  if skipSpaces value offset > value.length then .error .nextNonSpaceValueNotFound
  else
    .ok (nextNonSpaceLoop max (value.drop (skipSpaces value offset)) (skipSpaces value offset) [])

/-- The function `writeNextNonSpaceValue`: the offset returned and the content
of the builder after the call. -/
def writeNextNonSpaceValue (value : GoString) (offset max : Nat) (sb : GoString) :
    Result (Nat × GoString) :=
  match nextNonSpaceValue value offset max with
  | .ok (nextValOffset, val) => .ok (nextValOffset, sb ++ val)
  | .error err => .error err
  | .panic => .panic
  | .outOfFuel => .outOfFuel

/-- The loop of `lookup` over the lookup table from index `i` on, with the
values of `stdValue` and `value` before it; `equalFold` is `strings.EqualFold`. -/
def lookupLoop (equalFold : GoString → GoString → Bool) (val : GoString) (newOffset : Nat)
    (stdTab : List GoString) : Nat → List GoString → GoString → GoString →
    Result (GoString × GoString)
  | _, [], stdValue, value => .ok (stdValue, value)
  | i, v :: rest, stdValue, value =>
    if stdValue ≠ [] ∧ v.length ≤ value.length then
      lookupLoop equalFold val newOffset stdTab (i + 1) rest stdValue value
    else if newOffset + v.length > val.length then
      lookupLoop equalFold val newOffset stdTab (i + 1) rest stdValue value
    else
      match goSlice val newOffset (newOffset + v.length) with
      | none => .panic
      | some candidate =>
        if candidate.length = v.length ∧ equalFold candidate v = true then
          match stdTab[i]? with
          | none => .panic
          | some std => lookupLoop equalFold val newOffset stdTab (i + 1) rest std candidate
        else lookupLoop equalFold val newOffset stdTab (i + 1) rest stdValue value

/-- The function `lookup`, with its three return values. -/
def lookup (equalFold : GoString → GoString → Bool) (lookupTab : List GoString) (offset : Nat)
    (val : GoString) (stdTab : List GoString) : Result (Nat × GoString × GoString) :=
  if skipSpaces val offset > val.length then .ok (offset, [], val)
  else
    match lookupLoop equalFold val (skipSpaces val offset) stdTab 0 lookupTab [] [] with
    | .ok (stdValue, value) => .ok (skipSpaces val offset, stdValue, value)
    | .error err => .error err
    | .panic => .panic
    | .outOfFuel => .outOfFuel

/-- The function `writeLayoutValue`: the offset returned and the content of
the builder after the call. -/
def writeLayoutValue (equalFold : GoString → GoString → Bool) (lookupTab stdTab : List GoString)
    (valueOffset : Nat) (value sb : GoString) : Result (Nat × GoString) :=
  match lookup equalFold lookupTab valueOffset value stdTab with
  | .ok (newOffset, foundStdValue, val) =>
    if foundStdValue = [] then .error .ErrLayoutMismatch
    else .ok (newOffset + val.length, sb ++ foundStdValue)
  | .error err => .error err
  | .panic => .panic
  | .outOfFuel => .outOfFuel

/-- The state of the loop of `Format` inside an iteration: the variable
`written`, the two offsets and the content of the builder. -/
structure FormatState where
  written : Bool
  layoutOffset : Nat
  valueOffset : Nat
  sb : GoString
  deriving DecidableEq

/-- The statements that the cases `J` and `M` of the switch of `Format` share,
from the test `layoutElem == ""` on. -/
def FormatNamedElem (equalFold : GoString → GoString → Bool) (value : GoString)
    (locale : Locale) (layoutElem : GoString) (lookupTab stdTab : List GoString)
    (s : FormatState) : Result FormatState :=
  if layoutElem = [] then .ok s
  else if lookupTab.length = 0 then .error (newUnsupportedLayoutElemError layoutElem locale)
  else
    match writeLayoutValue equalFold lookupTab stdTab s.valueOffset value s.sb with
    | .ok (valueOffset, sb) =>
      .ok { written := true, layoutOffset := s.layoutOffset + layoutElem.length,
            valueOffset := valueOffset, sb := sb }
    | .error err => .error err
    | .panic => .panic
    | .outOfFuel => .outOfFuel

/-- The case `J` of the switch of `Format`. -/
def FormatCaseJ (equalFold : GoString → GoString → Bool) (layout value : GoString)
    (locale : Locale) (s : FormatState) : Result FormatState :=
  if layout.length ≥ s.layoutOffset + 3
      ∧ goSlice layout s.layoutOffset (s.layoutOffset + 3) = some (ascii "Jan") then
    if layout.length ≥ s.layoutOffset + 7
        ∧ goSlice layout s.layoutOffset (s.layoutOffset + 7) = some (ascii "January") then
      FormatNamedElem equalFold value locale (ascii "January") locale.LongMonthNames
        longMonthNamesStd s
    else
      match goSliceFrom layout (s.layoutOffset + 3) with
      | none => .panic
      | some rest =>
        if !startsWithLowerCase rest then
          FormatNamedElem equalFold value locale (ascii "Jan") locale.ShortMonthNames
            shortMonthNamesStd s
        else FormatNamedElem equalFold value locale [] [] [] s
  else .ok s

/-- The case `M` of the switch of `Format`. -/
def FormatCaseM (equalFold : GoString → GoString → Bool) (layout value : GoString)
    (locale : Locale) (s : FormatState) : Result FormatState :=
  if layout.length ≥ s.layoutOffset + 3
      ∧ goSlice layout s.layoutOffset (s.layoutOffset + 3) = some (ascii "Mon") then
    if layout.length ≥ s.layoutOffset + 6
        ∧ goSlice layout s.layoutOffset (s.layoutOffset + 6) = some (ascii "Monday") then
      FormatNamedElem equalFold value locale (ascii "Monday") locale.LongDayNames
        longDayNamesStd s
    else
      match goSliceFrom layout (s.layoutOffset + 3) with
      | none => .panic
      | some rest =>
        if !startsWithLowerCase rest then
          FormatNamedElem equalFold value locale (ascii "Mon") locale.ShortDayNames
            shortDayNamesStd s
        else FormatNamedElem equalFold value locale [] [] [] s
  else .ok s

/-- The case `P`, `p` of the switch of `Format`. -/
def FormatCaseP (equalFold : GoString → GoString → Bool) (layout value : GoString)
    (locale : Locale) (s : FormatState) : Result FormatState :=
  if layout.length ≥ s.layoutOffset + 2 then
    match layout[s.layoutOffset + 1]? with
    | none => .panic
    | some c =>
      if toUpper c = (byte 'M').toNat then
        if locale.DayPeriods.length = 0 then
          .error (newUnsupportedLayoutElemError (ascii "PM") locale)
        else
          match writeLayoutValue equalFold locale.DayPeriods dayPeriodsStd s.valueOffset value
              s.sb with
          | .ok (valueOffset, sb) =>
            .ok { written := true, layoutOffset := s.layoutOffset + 2,
                  valueOffset := valueOffset, sb := sb }
          | .error err => .error err
          | .panic => .panic
          | .outOfFuel => .outOfFuel
      else .ok s
  else .ok s

/-- The first `if` statement of the case `_` of the switch of `Format`. -/
def FormatCaseUnderscore2 (layout value : GoString) (s : FormatState) : Result FormatState :=
  if layout.length ≥ s.layoutOffset + 2 then
    match layout[s.layoutOffset + 1]? with
    | none => .panic
    | some c =>
      if c = byte '2' then
        let layoutElemSize : Nat :=
          if layout.length ≥ s.layoutOffset + 5
              ∧ goSlice layout (s.layoutOffset + 1) (s.layoutOffset + 5) = some (ascii "2006") then
            if value.length ≥ s.valueOffset + 5 then 5 else 0
          else if value.length ≥ s.valueOffset + 2 then 2 else 0
        if layoutElemSize > 0 then
          match writeNextNonSpaceValue value s.valueOffset layoutElemSize s.sb with
          | .ok (valueOffset, sb) =>
            .ok { written := true, layoutOffset := s.layoutOffset + layoutElemSize,
                  valueOffset := valueOffset, sb := sb }
          | .error err => .error err
          | .panic => .panic
          | .outOfFuel => .outOfFuel
        else .ok s
      else .ok s
  else .ok s

/-- The second `if` statement of the case `_` of the switch of `Format`. -/
def FormatCaseUnderscore3 (layout value : GoString) (s : FormatState) : Result FormatState :=
  if layout.length ≥ s.layoutOffset + 3 then
    match layout[s.layoutOffset + 1]?, layout[s.layoutOffset + 2]? with
    | some c1, some c2 =>
      if c1 = byte '_' ∧ c2 = byte '2' then
        if value.length ≥ s.valueOffset + 3 then
          match writeNextNonSpaceValue value s.valueOffset 3 s.sb with
          | .ok (valueOffset, sb) =>
            .ok { written := true, layoutOffset := s.layoutOffset + 3,
                  valueOffset := valueOffset, sb := sb }
          | .error err => .error err
          | .panic => .panic
          | .outOfFuel => .outOfFuel
        else .ok s
      else .ok s
    | _, _ => .panic
  else .ok s

/-- The switch of `Format` on the byte `c` of the layout at `layoutOffset`. -/
def FormatSwitch (equalFold : GoString → GoString → Bool) (layout value : GoString)
    (locale : Locale) (c : UInt8) (s : FormatState) : Result FormatState :=
  if c = byte 'J' then FormatCaseJ equalFold layout value locale s
  else if c = byte 'M' then FormatCaseM equalFold layout value locale s
  else if c = byte 'P' ∨ c = byte 'p' then FormatCaseP equalFold layout value locale s
  else if c = byte '_' then
    match FormatCaseUnderscore2 layout value s with
    | .ok s2 => FormatCaseUnderscore3 layout value s2
    | .error err => .error err
    | .panic => .panic
    | .outOfFuel => .outOfFuel
  else .ok s

/-- The statement `if !written` that ends the body of the loop of `Format`. -/
def FormatNotWritten (value : GoString) (s : FormatState) : Result FormatState :=
  if !s.written then
    if value.length > s.valueOffset then
      match value[s.valueOffset]? with
      | none => .panic
      | some b =>
        .ok { s with layoutOffset := s.layoutOffset + 1,
                     valueOffset := s.valueOffset + (runeBytes b).length,
                     sb := s.sb ++ runeBytes b }
    else .ok { s with layoutOffset := s.layoutOffset + 1 }
  else .ok s

/-- The body of the loop of `Format`, run with the two offsets and the content
of the builder: their values after the iteration. -/
def FormatStep (equalFold : GoString → GoString → Bool) (layout value : GoString)
    (locale : Locale) (layoutOffset valueOffset : Nat) (sb : GoString) :
    Result (Nat × Nat × GoString) :=
  match layout[layoutOffset]? with
  | none => .panic
  | some c =>
    match FormatSwitch equalFold layout value locale c
        { written := false, layoutOffset := layoutOffset, valueOffset := valueOffset,
          sb := sb } with
    | .ok s =>
      match FormatNotWritten value s with
      | .ok s2 => .ok (s2.layoutOffset, s2.valueOffset, s2.sb)
      | .error err => .error err
      | .panic => .panic
      | .outOfFuel => .outOfFuel
    | .error err => .error err
    | .panic => .panic
    | .outOfFuel => .outOfFuel

/-- The loop of `Format`, run for at most `fuel` iterations: the value offset
and the content of the builder at its end. -/
def FormatLoop (equalFold : GoString → GoString → Bool) (layout value : GoString)
    (locale : Locale) : Nat → Nat → Nat → GoString → Result (Nat × GoString)
  | fuel, layoutOffset, valueOffset, sb =>
    if layoutOffset < layout.length then
      match fuel with
      | 0 => .outOfFuel
      | fuel + 1 =>
        match FormatStep equalFold layout value locale layoutOffset valueOffset sb with
        | .ok (layoutOffset2, valueOffset2, sb2) =>
          FormatLoop equalFold layout value locale fuel layoutOffset2 valueOffset2 sb2
        | .error err => .error err
        | .panic => .panic
        | .outOfFuel => .outOfFuel
    else .ok (valueOffset, sb)

/-- The function `Format`. Each iteration of its loop moves the layout offset
forward, so the length of the layout is fuel enough. -/
def Format (equalFold : GoString → GoString → Bool) (layout value : GoString)
    (locale : Locale) : Result GoString :=
  match FormatLoop equalFold layout value locale layout.length 0 0 [] with
  | .ok (valueOffset, sb) =>
    if value.length ≥ valueOffset then
      match goSliceFrom value valueOffset with
      | none => .panic
      | some rest => .ok (sb ++ rest)
    else .ok sb
  | .error err => .error err
  | .panic => .panic
  | .outOfFuel => .outOfFuel

/-- The package `time` and `strings.EqualFold`: the type `time.Time` with its
zero value, the type `*time.Location`, and the functions `time.Parse` and
`time.ParseInLocation` with their two return values, the error by its message. -/
structure TimeLib where
  Time : Type
  zero : Time
  Location : Type
  Parse : GoString → GoString → Time × Option GoString
  ParseInLocation : GoString → GoString → Location → Time × Option GoString
  EqualFold : GoString → GoString → Bool

/-- The function `Parse`, with its two return values; `none` is for a panic
or the end of the fuel in `Format`. -/
def Parse (lib : TimeLib) (layout value : GoString) (locale : Locale) :
    Option (lib.Time × Option TimeError) :=
  match Format lib.EqualFold layout value locale with
  | .ok pv => some ((lib.Parse layout pv).1, (lib.Parse layout pv).2.map .external)
  | .error err => some (lib.zero, some err)
  | .panic => none
  | .outOfFuel => none

/-- The function `ParseInLocation`, with its two return values. -/
def ParseInLocation (lib : TimeLib) (layout value : GoString) (locale : Locale)
    (location : lib.Location) : Option (lib.Time × Option TimeError) :=
  match Format lib.EqualFold layout value locale with
  | .ok pv =>
    some ((lib.ParseInLocation layout pv location).1,
      (lib.ParseInLocation layout pv location).2.map .external)
  | .error err => some (lib.zero, some err)
  | .panic => none
  | .outOfFuel => none

end localizedtime

namespace localizedtime

/-- The translatable element of a layout that starts at `offset`, by the name
`Format` reports for it: `January`; `Jan` when no lower-case letter follows it;
`Monday`; `Mon` when no lower-case letter follows it; and `PM` for the day
period, a `P` or `p` followed by an `M` or `m`. -/
def layoutElemAt (layout : GoString) (offset : Nat) : Option GoString :=
  if (ascii "January").isPrefixOf (layout.drop offset) then some (ascii "January")
  else if (ascii "Jan").isPrefixOf (layout.drop offset)
      ∧ startsWithLowerCase (layout.drop (offset + 3)) = false then some (ascii "Jan")
  else if (ascii "Monday").isPrefixOf (layout.drop offset) then some (ascii "Monday")
  else if (ascii "Mon").isPrefixOf (layout.drop offset)
      ∧ startsWithLowerCase (layout.drop (offset + 3)) = false then some (ascii "Mon")
  else
    match layout.drop offset with
    | c :: d :: _ =>
      if (c = byte 'P' ∨ c = byte 'p') ∧ (d = byte 'M' ∨ d = byte 'm') then some (ascii "PM")
      else none
    | _ => none

/-- The table of a locale for a translatable element: the long and the short
month names for `January` and `Jan`, the long and the short day names for
`Monday` and `Mon`, and the day periods for `PM`. -/
def Locale.tableOf (locale : Locale) (elem : GoString) : List GoString :=
  if elem = ascii "January" then locale.LongMonthNames
  else if elem = ascii "Jan" then locale.ShortMonthNames
  else if elem = ascii "Monday" then locale.LongDayNames
  else if elem = ascii "Mon" then locale.ShortDayNames
  else locale.DayPeriods

/-- A locale for the language `xx` that has month names and nothing else. -/
def monthsLocale : Locale where
  Language := ascii "xx"
  LongDayNames := []
  ShortDayNames := []
  LongMonthNames := longMonthNamesStd
  ShortMonthNames := shortMonthNamesStd
  DayPeriods := []

/-- A stand-in for the package `time` whose times are texts: parsing returns
the value it is given. `EqualFold` is equality. -/
def textTimeLib : TimeLib where
  Time := GoString
  zero := []
  Location := Unit
  Parse := fun _ value => (value, none)
  ParseInLocation := fun _ value _ => (value, none)
  EqualFold := fun a b => decide (a = b)

end localizedtime

/-! ### Slice getters at run time -/

/-- A value of type `any` that a getter yields at run time, by what the
embedded code reads of it: the nil interface; a `pcommon.Slice`, with the
elements of `AsRaw()`; a `pcommon.Value`, with the elements of
`Slice().AsRaw()` when `Type()` is `pcommon.ValueTypeSlice` and the text of
`Type()`; and any other value, with its dynamic type and, when the type is of
kind slice, its elements. -/
inductive AnyValue (σ : Sig) where
  | nil
  | pcommonSlice (raw : List (Val σ))
  | pcommonValue (slice : Option (List (Val σ))) (typ : GoString)
  | value (typ : GoType) (elems : List (Val σ))

/-- The call `reflect.TypeOf(values)`, the dynamic type of a value: `none` is
the nil `reflect.Type`, which `reflect.TypeOf` returns for the nil interface.
`pcommon.Slice` and `pcommon.Value` are struct types. -/
def AnyValue.TypeOf {σ : Sig} : AnyValue σ → Option GoType
  | .value typ _ => some typ
  | .pcommonSlice _ => some (.basic (ascii "Slice") .Struct)
  | .pcommonValue _ _ => some (.basic (ascii "Value") .Struct)
  | .nil => none

/-- The elements of a value at run time: `Index(i).Interface()` for the
indices below `Len()` of a value of kind slice. -/
def AnyValue.elems {σ : Sig} : AnyValue σ → List (Val σ)
  | .nil => []
  | .pcommonSlice raw => raw
  | .pcommonValue slice _ => slice.getD []
  | .value _ elems => elems

/-- The errors of a slice getter at run time. -/
inductive SliceGetError where
  /-- The error that the `Get` of the wrapped or the source getter returned. -/
  | getter (e : OttlError)
  /-- Message: expected a slice, got %q, with the text of a `pcommon.ValueType`. -/
  | expectedSliceValue (typ : GoString)
  /-- Message: expected a slice, got %q, with a `reflect.Kind`. -/
  | expectedSliceKind (kind : Kind)
  /-- The error that `buildSliceItemGetter` returned. -/
  | itemGetter (e : BindError)
  /-- Message: invalid slice value; expected a slice of %s, got %T. -/
  | invalidSliceValue (T : GoType)
  /-- Message: invalid slice item type: %T, expected %s. -/
  | invalidSliceItemType (T : GoType)
  /-- Message: SliceGetter value is not a literal. -/
  | notLiteral

/-- The result of a call at run time: the value with a nil error, the error,
or a run-time panic. -/
inductive GetResult (α : Type) where
  | ok (a : α)
  | error (e : SliceGetError)
  | panic

/-- The loop over `sliceValue` in the function that `createStandardSliceGetter`
stores in the field `getter`: the value of `res` it builds. `elemType` is
`rawVal.Type()`, the element type of the slice; `literal v` is the struct
`literal[K]` with the value `v`. -/
def createStandardSliceGetterLoop {σ : Sig}
    (buildSliceItemGetter : GoString → Val σ → Except BindError (Val σ))
    (literal : Val σ → Val σ) (sliceItemType elemType : GoType) :
    List (Val σ) → GetResult (List (Val σ))
  | [] => .ok []
  | rawVal :: rest =>
    if elemType = sliceItemType then
      match createStandardSliceGetterLoop buildSliceItemGetter literal sliceItemType elemType
          rest with
      | .ok res => .ok (rawVal :: res)
      | .error err => .error err
      | .panic => .panic
    else
      match buildSliceItemGetter sliceItemType.Name (literal rawVal) with
      | .error err => .error (.itemGetter err)
      | .ok itemGetter =>
        match createStandardSliceGetterLoop buildSliceItemGetter literal sliceItemType elemType
            rest with
        | .ok res => .ok (itemGetter :: res)
        | .error err => .error err
        | .panic => .panic

/-- The statements after the type switch in the function that
`createStandardSliceGetter` stores in the field `getter`: the loop over the
elements and the return of `res`, a `[]any`. -/
def createStandardSliceGetterRest {σ : Sig}
    (buildSliceItemGetter : GoString → Val σ → Except BindError (Val σ))
    (literal : Val σ → Val σ) (sliceItemType elemType : GoType) (elems : List (Val σ)) :
    GetResult (AnyValue σ) :=
  match createStandardSliceGetterLoop buildSliceItemGetter literal sliceItemType elemType
      elems with
  | .ok res => .ok (.value (sliceOf anyType) res)
  | .error err => .error err
  | .panic => .panic

/-- The function that `createStandardSliceGetter` stores in the field `getter`
of the struct `standardGetter` it returns, run when the getter is evaluated.
`valueGetter` is what the call `valueGetter(ctx, tCtx)` returns. In the default
case of the type switch, the method `Kind` called on the nil `reflect.Type`
panics; a type of kind slice has an element type. -/
def createStandardSliceGetterFunc {σ : Sig}
    (buildSliceItemGetter : GoString → Val σ → Except BindError (Val σ))
    (literal : Val σ → Val σ) (sliceItemType : GoType)
    (valueGetter : Except OttlError (AnyValue σ)) : GetResult (AnyValue σ) :=
  match valueGetter with
  | .error err => .error (.getter err)
  | .ok values =>
    match values with
    | .pcommonSlice raw =>
      createStandardSliceGetterRest buildSliceItemGetter literal sliceItemType anyType raw
    | .pcommonValue none typ => .error (.expectedSliceValue typ)
    | .pcommonValue (some raw) _ =>
      createStandardSliceGetterRest buildSliceItemGetter literal sliceItemType anyType raw
    | values =>
      if values.TypeOf = some (sliceOf sliceItemType) then .ok values
      else
        match values.TypeOf with
        | none => .panic
        | some valuesType =>
          if valuesType.Kind ≠ .Slice then .error (.expectedSliceKind valuesType.Kind)
          else
            match valuesType.Elem with
            | none => .panic
            | some elemType =>
              createStandardSliceGetterRest buildSliceItemGetter literal sliceItemType elemType
                values.elems

/-- The loop of `SliceGetter.Get` over a `[]any`: the value of `res` it builds;
`typeAssert v T` is the type assertion `v.(T)`. -/
def SliceGetter.GetLoop {σ : Sig} (typeAssert : Val σ → GoType → Bool) (T : GoType) :
    List (Val σ) → GetResult (List (Val σ))
  | [] => .ok []
  | v :: rest =>
    if typeAssert v T then
      match SliceGetter.GetLoop typeAssert T rest with
      | .ok res => .ok (v :: res)
      | .error err => .error err
      | .panic => .panic
    else .error (.invalidSliceItemType T)

/-- Method `Get` of `SliceGetter[K, T]`, with the elements of the slice it
returns. `getterGet` is what the call `s.getter.Get(ctx, tCtx)` returns or its
panic. A value is a `[]T` when its dynamic type is the slice type of `T`, and a
`[]any` when it is the slice type of `any`. -/
def SliceGetter.Get {σ : Sig} (typeAssert : Val σ → GoType → Bool) (s : SliceGetter (Val σ))
    (getterGet : GetResult (AnyValue σ)) : GetResult (List (Val σ)) :=
  match getterGet with
  | .error err => .error err
  | .panic => .panic
  | .ok val =>
    if val.TypeOf = some (sliceOf s.T) then .ok val.elems
    else if val.TypeOf = some (sliceOf anyType) then SliceGetter.GetLoop typeAssert s.T val.elems
    else .error (.invalidSliceValue s.T)

/-- Method `isLiteral` of `SliceGetter[K, T]`. `isLiteral g` is the type
assertion `g.(literalGetter)`, with what the method `isLiteral` of `g` returns
when it holds. -/
def SliceGetter.isLiteral {V : Type} (isLiteral : V → Option Bool) (s : SliceGetter V) : Bool :=
  match isLiteral s.getter with
  | some b => b
  | none => false

/-- Method `getLiteral` of `SliceGetter[K, T]`. -/
def SliceGetter.getLiteral {σ : Sig} (typeAssert : Val σ → GoType → Bool)
    (s : SliceGetter (Val σ)) (getterGet : GetResult (AnyValue σ)) :
    GetResult (List (Val σ)) :=
  if !s.literal then .error .notLiteral
  else SliceGetter.Get typeAssert s getterGet

/-! ### More sample records and editors -/

/-- The editor `truncate(suffix="x")`, which names the optional parameter
only. -/
def suffixOnlyEditor : editor sampleSig where
  Function := ascii "truncate"
  Arguments := [suffixArgument (ascii "x")]

/-- The fields of the argument record of a sample function with the one
parameter `Values SliceGetter[K, string]`. -/
def sliceGetterFields : List (GoString × GoType) :=
  [(ascii "Values", .SliceGetter stringType)]

/-- An editor whose one argument is the list `["a"]`. -/
def sliceGetterEditor : editor sampleSig where
  Function := ascii "concat"
  Arguments := [⟨[], listValue [stringValue (ascii "a")], none⟩]

/-- The text of the sub-path of `pth` that starts at its field `i`: what
`buildOriginalText` writes for a path with the fields of `pth` from `i` on and
no context, the representation of segment `i` and the segments after it. -/
def subPathText {σ : Sig} (pth : path σ) (i : Nat) : GoString :=
  buildOriginalText (.mk pth.Offset [] (pth.Fields.drop i))

/-! ### Notions used to state the properties of `lookup` -/

namespace localizedtime

/-- The entry `v` of a lookup table equals, without regard to case, the bytes
of `val` that start at the offset `n`: there are `len(v)` bytes from `n` on, and
`equalFold` holds for them and `v`. -/
def matchesAt (equalFold : GoString → GoString → Bool) (val : GoString) (n : Nat)
    (v : GoString) : Bool :=
  decide (n + v.length ≤ val.length) && equalFold ((val.drop n).take v.length) v

/-- Entry `k` of the table, `v`, is the longest entry that matches `val` at the
offset `n`, and the earliest one among the matching entries of its length. -/
def IsLongestMatch (equalFold : GoString → GoString → Bool) (val : GoString) (n : Nat)
    (lookupTab : List GoString) (k : Nat) (v : GoString) : Prop :=
  lookupTab[k]? = some v ∧ matchesAt equalFold val n v = true
    ∧ (∀ (j : Nat) (w : GoString), lookupTab[j]? = some w → matchesAt equalFold val n w = true →
        w.length ≤ v.length)
    ∧ (∀ (j : Nat) (w : GoString), j < k → lookupTab[j]? = some w → matchesAt equalFold val n w = true →
        w.length < v.length)

end localizedtime
end Ottl

/-! ## Properties of the context rewriter -/

namespace Ottl

theorem goSlice_eq_some {s : GoString} {lo hi : Nat} (h1 : lo ≤ hi) (h2 : hi ≤ s.length) :
    goSlice s lo hi = some ((s.drop lo).take (hi - lo)) := by
  simp [goSlice, h1, h2]

theorem goSliceFrom_eq_some {s : GoString} {lo : Nat} (h : lo ≤ s.length) :
    goSliceFrom s lo = some (s.drop lo) := by
  unfold goSliceFrom
  rw [goSlice_eq_some h (le_refl _)]
  congr 1
  apply List.take_of_length_le
  simp

theorem intercalate_cons_cons {α : Type} (sep a b : List α) (rest : List (List α)) :
    List.intercalate sep (a :: b :: rest) = a ++ sep ++ List.intercalate sep (b :: rest) := by
  simp [List.intercalate, List.intersperse]

theorem intercalate_singleton {α : Type} (sep a : List α) :
    List.intercalate sep [a] = a := by
  simp [List.intercalate, List.intersperse]

theorem statementPieces_ne_nil (S : GoString) (left : Nat) (offsets : List Nat) :
    ∃ a rest, statementPieces S left offsets = a :: rest := by
  cases offsets <;> simp [statementPieces]

theorem statementPieces_length (S : GoString) (offsets : List Nat) :
    ∀ left, (statementPieces S left offsets).length = offsets.length + 1 := by
  induction offsets with
  | nil => intro left; simp [statementPieces]
  | cons o rest ih => intro left; simp [statementPieces, ih]

theorem take_drop_append_drop (S : GoString) {left o : Nat} (h : left ≤ o) :
    (S.drop left).take (o - left) ++ S.drop o = S.drop left := by
  have : S.drop o = (S.drop left).drop (o - left) := by
    rw [List.drop_drop]; congr 1; omega
  rw [this, List.take_append_drop]

theorem statementPieces_flatten (S : GoString) (offsets : List Nat) :
    ∀ left, List.Pairwise (· ≤ ·) offsets → (∀ o ∈ offsets, left ≤ o) →
      (statementPieces S left offsets).flatten = S.drop left := by
  induction offsets with
  | nil => intro left _ _; simp [statementPieces]
  | cons o rest ih =>
    intro left hs hl
    rw [List.pairwise_cons] at hs
    simp only [statementPieces, List.flatten_cons]
    rw [ih o hs.2 hs.1]
    exact take_drop_append_drop S (hl o (List.mem_cons_self _ _))

theorem writeStatementLoop_eq (P S : GoString) (offsets : List Nat) :
    ∀ left sb, offsets ≠ [] → List.Pairwise (· ≤ ·) offsets →
      (∀ o ∈ offsets, left ≤ o ∧ o ≤ S.length) →
      writeStatementLoop P S left sb offsets
        = some (sb ++ List.intercalate P (statementPieces S left offsets)) := by
  induction offsets with
  | nil => intro _ _ h; exact absurd rfl h
  | cons o rest ih =>
    intro left sb _ hs hb
    rw [List.pairwise_cons] at hs
    have ho := hb o (List.mem_cons_self _ _)
    rw [writeStatementLoop, goSlice_eq_some ho.1 ho.2]
    cases rest with
    | nil =>
      simp only [List.isEmpty_nil, if_true]
      rw [goSliceFrom_eq_some ho.2]
      simp [writeStatementLoop, statementPieces, intercalate_cons_cons, intercalate_singleton]
    | cons o2 rest2 =>
      simp only [List.isEmpty_cons, Bool.false_eq_true, if_false]
      rw [ih o _ (by simp) hs.2 (fun x hx => ⟨hs.1 x hx, (hb x (List.mem_cons_of_mem _ hx)).2⟩)]
      simp [statementPieces, intercalate_cons_cons]

theorem intercalate_length {α : Type} (sep : List α) (xs : List (List α)) (a : List α) :
    (List.intercalate sep (a :: xs)).length
      = (a :: xs).flatten.length + xs.length * sep.length := by
  induction xs generalizing a with
  | nil => simp [intercalate_singleton]
  | cons b rest ih =>
    rw [intercalate_cons_cons, List.length_append, List.length_append, ih b]
    simp only [List.flatten_cons, List.length_append, List.length_cons]
    ring

theorem deleteInserted_intercalate (P S : GoString) (offsets : List Nat) :
    ∀ left, List.Pairwise (· ≤ ·) offsets → (∀ o ∈ offsets, left ≤ o ∧ o ≤ S.length) →
      deleteInserted P.length (List.intercalate P (statementPieces S left offsets)) left offsets
        = S.drop left := by
  induction offsets with
  | nil => intro left _ _; simp [deleteInserted, statementPieces, intercalate_singleton]
  | cons o rest ih =>
    intro left hs hb
    rw [List.pairwise_cons] at hs
    have ho := hb o (List.mem_cons_self _ _)
    obtain ⟨a, r, hr⟩ := statementPieces_ne_nil S o rest
    have ih2 := ih o hs.2 (fun x hx => ⟨hs.1 x hx, (hb x (List.mem_cons_of_mem _ hx)).2⟩)
    simp only [statementPieces, deleteInserted]
    rw [hr] at ih2 ⊢
    rw [intercalate_cons_cons]
    have hlen : ((S.drop left).take (o - left)).length = o - left := by
      simp; omega
    rw [List.append_assoc, List.take_left' hlen, List.drop_left' hlen, List.drop_left, ih2]
    exact take_drop_append_drop S ho.1

/-- C1: for a non-empty ascending list of offsets, none beyond the end of the
statement, `writeStatementWithPathsContext` returns the pieces `S[0:o1]`,
`S[o1:o2]`, ..., `S[ok:]` of the statement joined by `C + "."`; the pieces
concatenate to `S`, the result is `len(S) + k*(len(C)+1)` bytes long, and
deleting the `k` inserted prefixes from it gives `S` back. -/
theorem writeStatementWithPathsContext_spec (C S : GoString) (offsets : List Nat)
    (hne : offsets ≠ []) (hsorted : List.Pairwise (· ≤ ·) offsets)
    (hle : ∀ o ∈ offsets, o ≤ S.length) :
    ∃ out, writeStatementWithPathsContext C S offsets = some out
      ∧ out = List.intercalate (C ++ dot) (statementPieces S 0 offsets)
      ∧ (statementPieces S 0 offsets).length = offsets.length + 1
      ∧ (statementPieces S 0 offsets).flatten = S
      ∧ out.length = S.length + offsets.length * (C.length + 1)
      ∧ deleteInserted (C.length + 1) out 0 offsets = S := by
  have hb : ∀ o ∈ offsets, 0 ≤ o ∧ o ≤ S.length := fun o ho => ⟨Nat.zero_le _, hle o ho⟩
  have hflat : (statementPieces S 0 offsets).flatten = S := by
    rw [statementPieces_flatten S offsets 0 hsorted (fun o _ => Nat.zero_le o)]; rfl
  have hlenP : (C ++ dot).length = C.length + 1 := by simp [dot]
  refine ⟨List.intercalate (C ++ dot) (statementPieces S 0 offsets), ?_, rfl,
    statementPieces_length S offsets 0, hflat, ?_, ?_⟩
  · unfold writeStatementWithPathsContext
    rw [if_neg (by simpa using hne), writeStatementLoop_eq _ S offsets 0 [] hne hsorted hb]
    simp
  · obtain ⟨a, r, hr⟩ := statementPieces_ne_nil S 0 offsets
    have hl := statementPieces_length S offsets 0
    rw [hr] at hflat hl
    rw [hr, intercalate_length, hflat, hlenP]
    simp only [List.length_cons] at hl
    have : r.length = offsets.length := by omega
    rw [this]
  · have := deleteInserted_intercalate (C ++ dot) S offsets 0 hsorted hb
    rw [hlenP] at this
    rw [this]; rfl

/-- C1, the statement of the rewriter's end-to-end scenario: context `span`,
statement `set(attributes["k"], value)`, offsets 4 and 21. -/
theorem writeStatementWithPathsContext_spec_witness :
    ([4, 21] : List Nat) ≠ [] ∧ List.Pairwise (· ≤ ·) ([4, 21] : List Nat)
      ∧ writeStatementWithPathsContext (ascii "span") (ascii "set(attributes[\"k\"], value)")
          [4, 21] = some (ascii "set(span.attributes[\"k\"], span.value)")
      ∧ ∃ out, writeStatementWithPathsContext (ascii "span")
            (ascii "set(attributes[\"k\"], value)") [4, 21] = some out
          ∧ out = List.intercalate (ascii "span" ++ dot)
              (statementPieces (ascii "set(attributes[\"k\"], value)") 0 [4, 21])
          ∧ (statementPieces (ascii "set(attributes[\"k\"], value)") 0 [4, 21]).length
              = ([4, 21] : List Nat).length + 1
          ∧ (statementPieces (ascii "set(attributes[\"k\"], value)") 0 [4, 21]).flatten
              = ascii "set(attributes[\"k\"], value)"
          ∧ out.length = (ascii "set(attributes[\"k\"], value)").length
              + ([4, 21] : List Nat).length * ((ascii "span").length + 1)
          ∧ deleteInserted ((ascii "span").length + 1) out 0 [4, 21]
              = ascii "set(attributes[\"k\"], value)" :=
  ⟨by decide, by decide, by decide,
    writeStatementWithPathsContext_spec (ascii "span") (ascii "set(attributes[\"k\"], value)")
      [4, 21] (by decide) (by decide) (by decide)⟩

theorem missingContextOffsets_foldl {σ : Sig} (names : List GoString) (paths : List (path σ)) :
    ∀ acc : List Nat,
      paths.foldl (fun acc it => if it.Context ∉ names then acc ++ [it.Offset] else acc) acc
        = acc ++ (paths.filter (fun it => decide (it.Context ∉ names))).map path.Offset := by
  induction paths with
  | nil => intro acc; simp
  | cons it rest ih =>
    intro acc
    rw [List.foldl_cons, ih]
    by_cases h : it.Context ∈ names
    · simp [h]
    · simp [h]

theorem missingContextOffsets_eq {σ : Sig} (names : List GoString) (paths : List (path σ)) :
    missingContextOffsets names paths
      = (paths.filter (fun it => decide (it.Context ∉ names))).map path.Offset := by
  unfold missingContextOffsets
  rw [missingContextOffsets_foldl]
  simp

/-- C2: for a context of the context-names set and a statement that parses,
`AppendStatementPathsContext` returns what `writeStatementWithPathsContext`
makes of the statement and the start offsets of exactly the parsed paths whose
`Context` is not in the set, one offset per such path and in the order of the
paths; a path whose `Context` is in the set contributes no offset. -/
theorem AppendStatementPathsContext_injection_points {σ : Sig} (p : Parser σ) (γ : Grammar σ)
    (C S : GoString) (parsed : parsedStatement σ)
    (hC : C ∈ p.pathContextNames) (hparse : γ.parseStatement S = .ok parsed) :
    p.AppendStatementPathsContext γ C S
        = (writeStatementWithPathsContext C S
            (((getParsedStatementPaths γ parsed).filter
              (fun it => decide (it.Context ∉ p.pathContextNames))).map path.Offset)).map
            (fun out => (out, none))
      ∧ (((getParsedStatementPaths γ parsed).filter
            (fun it => decide (it.Context ∉ p.pathContextNames))).map path.Offset).length
          = (getParsedStatementPaths γ parsed).countP
              (fun it => decide (it.Context ∉ p.pathContextNames)) := by
  constructor
  · unfold Parser.AppendStatementPathsContext
    rw [if_neg (by simpa using hC), hparse]
    simp only
    rw [missingContextOffsets_eq]
    by_cases h0 : (getParsedStatementPaths γ parsed).length = 0
    · rw [if_pos h0]
      have : getParsedStatementPaths γ parsed = [] := List.length_eq_zero.mp h0
      simp [this, writeStatementWithPathsContext]
    · rw [if_neg h0]
      cases writeStatementWithPathsContext C S _ <;> rfl
  · rw [List.length_map, List.countP_eq_length_filter]

/-- C3: for a context of the context-names set and a statement that parses and
holds no path, or only paths whose `Context` is in the set,
`AppendStatementPathsContext` returns the statement itself and no error. -/
theorem AppendStatementPathsContext_unchanged {σ : Sig} (p : Parser σ) (γ : Grammar σ)
    (C S : GoString) (parsed : parsedStatement σ)
    (hC : C ∈ p.pathContextNames) (hparse : γ.parseStatement S = .ok parsed)
    (hall : ∀ it ∈ getParsedStatementPaths γ parsed, it.Context ∈ p.pathContextNames) :
    p.AppendStatementPathsContext γ C S = some (S, none) := by
  unfold Parser.AppendStatementPathsContext
  rw [if_neg (by simpa using hC), hparse]
  simp only
  split_ifs with h0
  · rfl
  · have : missingContextOffsets p.pathContextNames (getParsedStatementPaths γ parsed) = [] := by
      rw [missingContextOffsets_eq]
      simp only [List.map_eq_nil_iff, List.filter_eq_nil_iff]
      intro it hit
      simpa using hall it hit
    rw [this]
    simp [writeStatementWithPathsContext]

/-- C5: a context that is not in the context-names set (so every context when
the set is empty) makes `AppendStatementPathsContext` return the statement
unchanged together with the unknown-context error, whatever the parser makes
of the statement. -/
theorem AppendStatementPathsContext_unknown_context {σ : Sig} (p : Parser σ) (γ : Grammar σ)
    (C S : GoString) (hC : C ∉ p.pathContextNames) :
    p.AppendStatementPathsContext γ C S = some (S, some (.unknownContext C)) := by
  unfold Parser.AppendStatementPathsContext
  rw [if_pos hC]

end Ottl

/-! ## Properties of path materialization -/

namespace Ottl

theorem parsePathContext_blank {σ : Sig} (p : Parser σ) (pth : path σ)
    (hnames : 0 < p.pathContextNames.length) (hctx : pth.Context = []) :
    p.parsePathContext pth = ([], [], some (.missingContext (buildOriginalText pth))) := by
  simp [Parser.parsePathContext, hctx, hnames]

theorem parsePathContext_invalid {σ : Sig} (p : Parser σ) (pth : path σ)
    (hnames : 0 < p.pathContextNames.length) (hctx : pth.Context ≠ [])
    (hmem : pth.Context ∉ p.pathContextNames) :
    p.parsePathContext pth
      = ([], pth.Fields, some (.invalidContext pth.Context (buildOriginalText pth))) := by
  simp [Parser.parsePathContext, hctx, hnames, hmem]

theorem parsePathContext_valid {σ : Sig} (p : Parser σ) (pth : path σ)
    (hnames : 0 < p.pathContextNames.length) (hctx : pth.Context ≠ [])
    (hmem : pth.Context ∈ p.pathContextNames) :
    p.parsePathContext pth = (pth.Context, pth.Fields, none) := by
  simp [Parser.parsePathContext, hctx, hnames, hmem]

theorem parsePathContext_legacy {σ : Sig} (p : Parser σ) (pth : path σ)
    (hnames : p.pathContextNames = []) :
    p.parsePathContext pth
      = ([], (if pth.Context ≠ [] then field.mk pth.Context [] :: pth.Fields else pth.Fields),
          none) := by
  by_cases hctx : pth.Context = [] <;> simp [Parser.parsePathContext, hctx, hnames]

theorem newPath_of_parsePathContext_error {σ : Sig} (p : Parser σ) (pth : path σ)
    (hfields : pth.Fields ≠ []) (err : OttlError)
    (herr : (p.parsePathContext pth).2.2 = some err) :
    p.newPath pth = .error err := by
  rw [Parser.newPath, if_neg (by simpa using hfields)]
  simp only [herr]

theorem newPath_of_parsePathContext_ok {σ : Sig} (p : Parser σ) (pth : path σ)
    (hfields : pth.Fields ≠ []) (herr : (p.parsePathContext pth).2.2 = none) :
    p.newPath pth =
      match p.newPathLoop (p.parsePathContext pth).1 (buildOriginalText pth)
          (p.parsePathContext pth).2.1 with
      | .error err => .error err
      | .panic => .panic
      | .ok .nil => .panic
      | .ok (.mk c n k nx _ fk _) => .ok (.mk c n k nx true fk (buildOriginalText pth)) := by
  rw [Parser.newPath, if_neg (by simpa using hfields)]
  simp only [herr]

end Ottl

namespace Ottl

theorem newPathLoop_nil {σ : Sig} (p : Parser σ) (pc text : GoString) :
    p.newPathLoop pc text [] = .ok .nil := by
  rw [Parser.newPathLoop]

theorem newPathLoop_cons_ok {σ : Sig} (p : Parser σ) (pc text : GoString) (f : field σ)
    (rest : List (field σ)) (c : basePath σ) :
    p.newPathLoop pc text (f :: rest) = .ok c ↔
      ∃ cur keys, p.newPathLoop pc text rest = .ok cur ∧ p.newKeys f.Keys = .ok keys
        ∧ c = .mk pc f.Name keys cur false false text := by
  cases f with
  | mk name fkeys =>
    rw [Parser.newPathLoop]
    simp only [field.Keys, field.Name]
    cases h1 : p.newPathLoop pc text rest with
    | error e => simp
    | panic => simp
    | ok cur =>
      cases h2 : p.newKeys fkeys with
      | error e => simp
      | panic => simp
      | ok keys =>
        simp only [Outcome.ok.injEq]
        constructor
        · intro h; exact ⟨cur, keys, rfl, rfl, h.symm⟩
        · rintro ⟨cur2, keys2, hc, hk, rfl⟩
          rw [hc, hk]

/-- The chain built by the loop of `newPath`: one segment per field, in the
order of the fields, all with flags unset. -/
theorem newPathLoop_shape {σ : Sig} (p : Parser σ) (pc text : GoString)
    (fields : List (field σ)) :
    ∀ c, p.newPathLoop pc text fields = .ok c →
      List.Forall₂ (fun s f => s.Name = f.Name ∧ p.newKeys f.Keys = .ok s.keys)
          c.segments fields
        ∧ (∀ s ∈ c.segments, s.Context = pc ∧ s.String = text ∧ s.fetched = false
            ∧ s.fetchedKeys = false) := by
  induction fields with
  | nil =>
    intro c hc
    rw [newPathLoop_nil] at hc
    cases hc
    simp [basePath.segments]
  | cons f rest ih =>
    intro c hc
    obtain ⟨cur, keys, h1, h2, rfl⟩ := (newPathLoop_cons_ok p pc text f rest c).mp hc
    obtain ⟨ih1, ih2⟩ := ih cur h1
    constructor
    · simp only [basePath.segments]
      exact List.Forall₂.cons ⟨rfl, h2⟩ ih1
    · intro s hs
      simp only [basePath.segments, List.mem_cons] at hs
      rcases hs with rfl | hs
      · simp [basePath.Context, basePath.String, basePath.fetched, basePath.fetchedKeys]
      · exact ih2 s hs

theorem newPathLoop_succeeds_iff {σ : Sig} (p : Parser σ) (pc text : GoString)
    (fields : List (field σ)) :
    (∃ c, p.newPathLoop pc text fields = .ok c) ↔
      ∀ f ∈ fields, ∃ keys, p.newKeys f.Keys = .ok keys := by
  induction fields with
  | nil => simp [newPathLoop_nil]
  | cons f rest ih =>
    constructor
    · rintro ⟨c, hc⟩
      obtain ⟨cur, keys, h1, h2, _⟩ := (newPathLoop_cons_ok p pc text f rest c).mp hc
      intro g hg
      rcases List.mem_cons.mp hg with rfl | hg
      · exact ⟨keys, h2⟩
      · exact ih.mp ⟨cur, h1⟩ g hg
    · intro h
      obtain ⟨cur, h1⟩ := ih.mpr (fun g hg => h g (List.mem_cons_of_mem _ hg))
      obtain ⟨keys, h2⟩ := h f (List.mem_cons_self _ _)
      exact ⟨_, (newPathLoop_cons_ok p pc text f rest _).mpr ⟨cur, keys, h1, h2, rfl⟩⟩

theorem newKeys_nil {σ : Sig} (p : Parser σ) : p.newKeys [] = .ok none := by
  rw [Parser.newKeys]; simp

/-- What a successful `newPath` returns, in terms of what `parsePathContext`
resolved. -/
theorem newPath_ok_shape {σ : Sig} (p : Parser σ) (pth : path σ) (chain : basePath σ)
    (h : p.newPath pth = .ok chain) :
    pth.Fields ≠ [] ∧ (p.parsePathContext pth).2.2 = none
      ∧ List.Forall₂ (fun s f => s.Name = f.Name ∧ p.newKeys f.Keys = .ok s.keys)
          chain.segments (p.parsePathContext pth).2.1
      ∧ (∀ s ∈ chain.segments, s.Context = (p.parsePathContext pth).1
          ∧ s.String = buildOriginalText pth ∧ s.fetchedKeys = false)
      ∧ chain.fetched = true
      ∧ (∀ s ∈ chain.nextPath.segments, s.fetched = false) := by
  have hf : pth.Fields ≠ [] := by
    intro h0
    rw [Parser.newPath, if_pos (by simp [h0])] at h
    cases h
  refine ⟨hf, ?_⟩
  cases herr : (p.parsePathContext pth).2.2 with
  | some err =>
    rw [newPath_of_parsePathContext_error p pth hf err herr] at h
    cases h
  | none =>
    refine ⟨rfl, ?_⟩
    rw [newPath_of_parsePathContext_ok p pth hf herr] at h
    cases hl : p.newPathLoop (p.parsePathContext pth).1 (buildOriginalText pth)
        (p.parsePathContext pth).2.1 with
    | error e => rw [hl] at h; cases h
    | panic => rw [hl] at h; cases h
    | ok cur =>
      rw [hl] at h
      obtain ⟨s1, s2⟩ := newPathLoop_shape p _ _ _ cur hl
      cases cur with
      | nil => cases h
      | mk c n k nx f fk t =>
        simp only [Outcome.ok.injEq] at h
        subst h
        simp only [basePath.segments] at s1 s2 ⊢
        refine ⟨?_, ?_, rfl, ?_⟩
        · generalize (p.parsePathContext pth).2.1 = fs at s1
          cases s1 with
          | cons hd tl => exact List.Forall₂.cons hd tl
        · intro s hs
          rcases List.mem_cons.mp hs with rfl | hs
          · have := s2 _ (List.mem_cons_self _ _)
            exact ⟨this.1, rfl, this.2.2.2⟩
          · have := s2 s (List.mem_cons_of_mem _ hs)
            exact ⟨this.1, this.2.1, this.2.2.2⟩
        · intro s hs
          simp only [basePath.nextPath] at hs
          exact (s2 s (List.mem_cons_of_mem _ hs)).2.2.1

end Ottl

namespace Ottl

/-- For a parser with a non-empty context-names set and a path with at
least one field, `parsePathContext` returns the missing-context error exactly
when the path's context is blank, the invalid-context error exactly when the
context is non-blank and not in the set, and otherwise no error together with
the path's context and its fields unchanged; `newPath` returns the two errors
in the same two cases. -/
theorem parsePathContext_cases {σ : Sig} (p : Parser σ) (pth : path σ)
    (hnames : 0 < p.pathContextNames.length) (hfields : pth.Fields ≠ []) :
    ((∃ t, (p.parsePathContext pth).2.2 = some (.missingContext t)) ↔ pth.Context = [])
      ∧ ((∃ c t, (p.parsePathContext pth).2.2 = some (.invalidContext c t)) ↔
          (pth.Context ≠ [] ∧ pth.Context ∉ p.pathContextNames))
      ∧ ((p.parsePathContext pth).2.2 = none ↔
          (pth.Context ≠ [] ∧ pth.Context ∈ p.pathContextNames))
      ∧ (pth.Context = [] →
          (p.parsePathContext pth).2.2 = some (.missingContext (buildOriginalText pth))
            ∧ p.newPath pth = .error (.missingContext (buildOriginalText pth)))
      ∧ (pth.Context ≠ [] → pth.Context ∉ p.pathContextNames →
          (p.parsePathContext pth).2.2
              = some (.invalidContext pth.Context (buildOriginalText pth))
            ∧ p.newPath pth = .error (.invalidContext pth.Context (buildOriginalText pth)))
      ∧ (pth.Context ≠ [] → pth.Context ∈ p.pathContextNames →
          p.parsePathContext pth = (pth.Context, pth.Fields, none)) := by
  by_cases hctx : pth.Context = []
  · have h := parsePathContext_blank p pth hnames hctx
    refine ⟨?_, ?_, ?_, ?_, ?_, ?_⟩
    · simp [h, hctx]
    · simp [h, hctx]
    · simp [h, hctx]
    · intro _
      exact ⟨by rw [h], newPath_of_parsePathContext_error p pth hfields _ (by rw [h])⟩
    · intro hne; exact absurd hctx hne
    · intro hne; exact absurd hctx hne
  · by_cases hmem : pth.Context ∈ p.pathContextNames
    · have h := parsePathContext_valid p pth hnames hctx hmem
      refine ⟨?_, ?_, ?_, ?_, ?_, ?_⟩
      · simp [h, hctx]
      · simp [h, hctx, hmem]
      · simp [h, hctx, hmem]
      · intro h0; exact absurd h0 hctx
      · intro _ hn; exact absurd hmem hn
      · intro _ _; exact h
    · have h := parsePathContext_invalid p pth hnames hctx hmem
      refine ⟨?_, ?_, ?_, ?_, ?_, ?_⟩
      · simp [h, hctx]
      · simp [h, hctx, hmem]
      · simp [h, hctx, hmem]
      · intro h0; exact absurd h0 hctx
      · intro _ _
        exact ⟨by rw [h], newPath_of_parsePathContext_error p pth hfields _ (by rw [h])⟩
      · intro _ hm; exact absurd hm hmem

/-- C8: a path with zero fields is rejected with an error, and on every path
on which `newPath` succeeds the chain has one segment per resolved field, in
source order and with the keys built from the field's keys; every segment
carries the context resolved by `parsePathContext` and the original text of the
path; the head has `fetched = true`, every other segment `fetched = false`, and
every segment `fetchedKeys = false`. -/
theorem newPath_chain_invariant {σ : Sig} (p : Parser σ) (pth : path σ) :
    (pth.Fields = [] → p.newPath pth = .error .zeroFields)
      ∧ ∀ chain, p.newPath pth = .ok chain →
          List.Forall₂ (fun s f => s.Name = f.Name ∧ p.newKeys f.Keys = .ok s.keys)
              chain.segments (p.parsePathContext pth).2.1
            ∧ chain.segments.length = (p.parsePathContext pth).2.1.length
            ∧ chain.segments.map basePath.Name
                = (p.parsePathContext pth).2.1.map field.Name
            ∧ (∀ s ∈ chain.segments, s.Context = (p.parsePathContext pth).1
                ∧ s.String = buildOriginalText pth ∧ s.fetchedKeys = false)
            ∧ chain.fetched = true
            ∧ (∀ s ∈ chain.nextPath.segments, s.fetched = false) := by
  constructor
  · intro h0
    rw [Parser.newPath, if_pos (by simp [h0])]
  · intro chain h
    obtain ⟨_, _, h1, h2, h3, h4⟩ := newPath_ok_shape p pth chain h
    refine ⟨h1, h1.length_eq, ?_, h2, h3, h4⟩
    generalize (p.parsePathContext pth).2.1 = fs at h1
    generalize chain.segments = ss at h1
    induction h1 with
    | nil => rfl
    | cons hd _ ih => simp [hd.1, ih]

end Ottl

namespace Ottl

theorem parsePathContext_fields_ne_nil {σ : Sig} (p : Parser σ) (pth : path σ)
    (hfields : pth.Fields ≠ []) (herr : (p.parsePathContext pth).2.2 = none) :
    (p.parsePathContext pth).2.1 ≠ [] := by
  revert herr
  simp only [Parser.parsePathContext]
  split_ifs <;> simp [hfields]

theorem newPath_succeeds_iff {σ : Sig} (p : Parser σ) (pth : path σ) :
    (∃ chain, p.newPath pth = .ok chain) ↔
      pth.Fields ≠ [] ∧ (p.parsePathContext pth).2.2 = none
        ∧ ∀ f ∈ (p.parsePathContext pth).2.1, ∃ keys, p.newKeys f.Keys = .ok keys := by
  constructor
  · rintro ⟨chain, h⟩
    obtain ⟨h1, h2, h3, _⟩ := newPath_ok_shape p pth chain h
    refine ⟨h1, h2, ?_⟩
    generalize (p.parsePathContext pth).2.1 = fs at h3
    generalize chain.segments = ss at h3
    induction h3 with
    | nil => simp
    | cons hd _ ih =>
      intro f hf
      rcases List.mem_cons.mp hf with rfl | hf
      · exact ⟨_, hd.2⟩
      · exact ih f hf
  · rintro ⟨h1, h2, h3⟩
    obtain ⟨cur, hcur⟩ := (newPathLoop_succeeds_iff p (p.parsePathContext pth).1
      (buildOriginalText pth) _).mpr h3
    rw [newPath_of_parsePathContext_ok p pth h1 h2, hcur]
    cases cur with
    | nil =>
      have hs := (newPathLoop_shape p _ _ _ _ hcur).1
      simp only [basePath.segments] at hs
      cases hfs : (p.parsePathContext pth).2.1 with
      | nil => exact absurd hfs (parsePathContext_fields_ne_nil p pth h1 h2)
      | cons f rest => rw [hfs] at hs; cases hs
    | mk c n k nx f fk t => exact ⟨_, rfl⟩

theorem forall₂_names {σ : Sig} (p : Parser σ) (ss : List (basePath σ)) (fs : List (field σ))
    (h : List.Forall₂ (fun s f => s.Name = f.Name ∧ p.newKeys f.Keys = .ok s.keys) ss fs) :
    ss.map basePath.Name = fs.map field.Name := by
  induction h with
  | nil => rfl
  | cons hd _ ih => simp [hd.1, ih]

/-- C7 as amended: in legacy mode (empty context-names set), on a path with at
least one field `newPath` succeeds exactly when the keys of every field can be
built; every chain it returns has `Context() = ""` on all segments; with a
non-blank context `c` and fields `f1..fn` the chain has `n+1` segments named
`c, f1, ..., fn` in that order and its first segment carries no keys; with a
blank context the segments are named `f1, ..., fn`. -/
theorem newPath_legacy_chain {σ : Sig} (p : Parser σ) (pth : path σ)
    (hnames : p.pathContextNames = []) (hfields : pth.Fields ≠ []) :
    ((∃ chain, p.newPath pth = .ok chain) ↔
        ∀ f ∈ pth.Fields, ∃ keys, p.newKeys f.Keys = .ok keys)
      ∧ ∀ chain, p.newPath pth = .ok chain →
          (∀ s ∈ chain.segments, s.Context = [])
            ∧ (pth.Context ≠ [] →
                chain.segments.map basePath.Name = pth.Context :: pth.Fields.map field.Name
                  ∧ chain.segments.length = pth.Fields.length + 1
                  ∧ chain.keys = none)
            ∧ (pth.Context = [] →
                chain.segments.map basePath.Name = pth.Fields.map field.Name) := by
  have hl := parsePathContext_legacy p pth hnames
  constructor
  · rw [newPath_succeeds_iff, hl]
    simp only [hfields, ne_eq, not_false_eq_true, true_and]
    by_cases hctx : pth.Context = []
    · simp [hctx]
    · simp [hctx, field.Keys, newKeys_nil]
  · intro chain h
    obtain ⟨_, _, h1, h2, _, _⟩ := newPath_ok_shape p pth chain h
    rw [hl] at h1 h2
    refine ⟨fun s hs => (h2 s hs).1, ?_, ?_⟩
    · intro hctx
      simp only [hctx, ne_eq, not_false_eq_true, if_true] at h1
      have hn := forall₂_names p _ _ h1
      have hlen := h1.length_eq
      refine ⟨by simpa [field.Name] using hn, by simpa using hlen, ?_⟩
      cases chain with
      | nil => simp [basePath.segments] at hlen
      | mk c n k nx f fk t =>
        simp only [basePath.segments] at h1
        cases h1 with
        | cons hd _ =>
          have := hd.2
          simp only [field.Keys, newKeys_nil, Outcome.ok.injEq, basePath.keys] at this
          simp [basePath.keys, ← this]
    · intro hctx
      simp only [hctx, ne_eq, not_true_eq_false, if_false] at h1
      exact forall₂_names p _ _ h1

theorem newPath_resourceAttributesPath :
    ∀ f ∈ resourceAttributesPath.Fields, ∃ keys, legacyParser.newKeys f.Keys = .ok keys := by
  intro f hf
  simp only [resourceAttributesPath, path.Fields, List.mem_singleton] at hf
  subst hf
  simp [Parser.newKeys, Parser.newKeysLoop, field.Keys, Parser.newKeyGetterRest]

/-- C7 as amended, at the path `resource.attributes["k"]`, whose only key is a
string. -/
theorem newPath_legacy_chain_witness :
    legacyParser.pathContextNames = [] ∧ resourceAttributesPath.Fields ≠ []
      ∧ ∃ chain, legacyParser.newPath resourceAttributesPath = .ok chain
          ∧ chain.segments.map basePath.Name = [ascii "resource", ascii "attributes"] :=
  ⟨rfl, by simp [resourceAttributesPath, path.Fields],
    ((newPath_legacy_chain legacyParser resourceAttributesPath rfl
        (by simp [resourceAttributesPath, path.Fields])).1.mpr
        newPath_resourceAttributesPath).elim
      (fun chain h => ⟨chain, h,
        ((newPath_legacy_chain legacyParser resourceAttributesPath rfl
          (by simp [resourceAttributesPath, path.Fields])).2 chain h).2.1 (by decide) |>.1⟩)⟩

/-- C7 as stated fails: in legacy mode the path `resource.attributes[body]` has
a non-blank context and one field, and `newPath` returns the error of the
resolver that rejects the path `body` of its key. -/
theorem newPath_legacy_counterexample :
    legacyParser.pathContextNames = [] ∧ resourceKeyPath.Context ≠ []
      ∧ resourceKeyPath.Fields.length = 1
      ∧ legacyParser.newPath resourceKeyPath = .error (.external (ascii "invalid path")) := by
  have h1 : ascii "resource" ≠ [] := by decide
  refine ⟨rfl, by decide, rfl, ?_⟩
  simp [Parser.newPath, Parser.newPathLoop, Parser.newKeys, Parser.newKeysLoop,
    Parser.buildGetSetterFromPath, Parser.parsePath, resourceKeyPath, legacyParser, path.Fields,
    Parser.parsePathContext, path.Context, h1]

theorem newPath_spanAttributesPath :
    spanLogParser.newPath spanAttributesPath = .ok spanAttributesChain := by
  have h1 : ascii "span" ≠ [] := by decide
  simp [Parser.newPath, Parser.newPathLoop, Parser.newKeys, Parser.newKeysLoop,
    Parser.buildGetSetterFromPath, Parser.parsePath, spanAttributesPath, spanLogParser,
    path.Fields, Parser.parsePathContext, path.Context, h1, Parser.newKeyGetterRest]
  rfl

/-- C8 at the path `span.attributes["k"].value` for the context names `span`
and `log`. -/
theorem newPath_chain_invariant_witness :
    spanLogParser.newPath spanAttributesPath = .ok spanAttributesChain
      ∧ spanAttributesChain.segments.map basePath.Name = [ascii "attributes", ascii "value"]
      ∧ spanAttributesChain.fetched = true
      ∧ (∀ s ∈ spanAttributesChain.nextPath.segments, s.fetched = false) :=
  ⟨newPath_spanAttributesPath,
    ((newPath_chain_invariant spanLogParser spanAttributesPath).2 spanAttributesChain
      newPath_spanAttributesPath).2.2.1,
    ((newPath_chain_invariant spanLogParser spanAttributesPath).2 spanAttributesChain
      newPath_spanAttributesPath).2.2.2.2.1,
    ((newPath_chain_invariant spanLogParser spanAttributesPath).2 spanAttributesChain
      newPath_spanAttributesPath).2.2.2.2.2⟩

end Ottl

/-! ## Properties of path completeness -/

namespace Ottl

theorem isComplete_mk_iff {σ : Sig} (c n : GoString) (k : Option (List (baseKey σ)))
    (nx : basePath σ) (f fk : Bool) (t : GoString) :
    (basePath.mk c n k nx f fk t).isComplete = .ok () ↔
      f = true ∧ (k ≠ none → fk = true) ∧ (nx ≠ .nil → nx.isComplete = .ok ()) := by
  cases f <;> cases fk <;> cases k <;> cases nx <;> simp [basePath.isComplete]

theorem isComplete_iff_segments {σ : Sig} (p : basePath σ) :
    p ≠ .nil →
      (p.isComplete = .ok () ↔
        ∀ s ∈ p.segments, s.fetched = true ∧ (s.keys ≠ none → s.fetchedKeys = true)) := by
  induction p with
  | nil => intro h; exact absurd rfl h
  | mk c n k nx f fk t ih =>
    intro _
    rw [isComplete_mk_iff]
    simp only [basePath.segments, List.mem_cons, forall_eq_or_imp]
    by_cases hnx : nx = .nil
    · subst hnx
      simp [basePath.segments, basePath.fetched, basePath.keys, basePath.fetchedKeys]
    · rw [ih hnx]
      simp only [basePath.fetched, basePath.keys, basePath.fetchedKeys]
      constructor
      · rintro ⟨h1, h2, h3⟩
        exact ⟨⟨h1, h2⟩, h3 hnx⟩
      · rintro ⟨⟨h1, h2⟩, h3⟩
        exact ⟨h1, h2, fun _ => h3⟩

/-- C9: on a chain in any flag state, `isComplete` called on the head returns
no error if and only if every segment has `fetched = true` and every segment
that carries keys has `fetchedKeys = true`. -/
theorem isComplete_iff_all_fetched {σ : Sig} (p : basePath σ) (hp : p ≠ .nil) :
    p.isComplete = .ok () ↔
      ∀ s ∈ p.segments, s.fetched = true ∧ (s.keys ≠ none → s.fetchedKeys = true) :=
  isComplete_iff_segments p hp

end Ottl

namespace Ottl

/-- C9 at the chain of `span.attributes["k"].value` as `newPath` returns it:
the second segment is not fetched, and `isComplete` fails. -/
theorem isComplete_iff_all_fetched_witness :
    spanAttributesChain ≠ .nil
      ∧ (spanAttributesChain.isComplete = .ok () ↔
          ∀ s ∈ spanAttributesChain.segments,
            s.fetched = true ∧ (s.keys ≠ none → s.fetchedKeys = true)) :=
  ⟨by simp [spanAttributesChain],
    isComplete_iff_all_fetched spanAttributesChain (by simp [spanAttributesChain])⟩

end Ottl

namespace Ottl

theorem nth_nil {σ : Sig} (j : Nat) : (basePath.nil : basePath σ).nth j = .nil := by
  cases j <;> rfl

theorem nth_zero {σ : Sig} (p : basePath σ) : p.nth 0 = p := by
  cases p <;> rfl

theorem nth_mk_succ {σ : Sig} (c n : GoString) (k : Option (List (baseKey σ)))
    (nx : basePath σ) (f fk : Bool) (t : GoString) (j : Nat) :
    (basePath.mk c n k nx f fk t).nth (j + 1) = nx.nth j := rfl

theorem nth_add {σ : Sig} (p : basePath σ) (i j : Nat) : (p.nth i).nth j = p.nth (i + j) := by
  induction i generalizing p with
  | zero => simp [basePath.nth]
  | succ i ih =>
    cases p with
    | nil => simp [nth_nil]
    | mk c n k nx f fk t =>
      rw [nth_mk_succ, ih, show i + 1 + j = (i + j) + 1 by omega, nth_mk_succ]

theorem FlagsGrow.refl {σ : Sig} (p : basePath σ) : FlagsGrow p p :=
  fun _ => ⟨Iff.rfl, rfl, id, id⟩

theorem FlagsGrow.trans {σ : Sig} {p q r : basePath σ} (h1 : FlagsGrow p q)
    (h2 : FlagsGrow q r) : FlagsGrow p r := fun j =>
  ⟨(h2 j).1.trans (h1 j).1, (h2 j).2.1.trans (h1 j).2.1,
    fun h => (h2 j).2.2.1 ((h1 j).2.2.1 h), fun h => (h2 j).2.2.2 ((h1 j).2.2.2 h)⟩

theorem FlagsGrow.mk {σ : Sig} (c n : GoString) (k : Option (List (baseKey σ)))
    {nx nx2 : basePath σ} (f fk : Bool) (t : GoString) (h : FlagsGrow nx nx2) :
    FlagsGrow (basePath.mk c n k nx f fk t) (basePath.mk c n k nx2 f fk t) := by
  intro j
  cases j with
  | zero => simp [basePath.nth, basePath.keys, basePath.fetched, basePath.fetchedKeys]
  | succ j => simpa only [nth_mk_succ] using h j

theorem FlagsGrow.setFetched {σ : Sig} (p : basePath σ) : FlagsGrow p p.setFetched := by
  intro j
  cases p with
  | nil => exact FlagsGrow.refl _ j
  | mk c n k nx f fk t =>
    cases j with
    | zero =>
      simp [basePath.nth, basePath.setFetched, basePath.keys, basePath.fetched,
        basePath.fetchedKeys]
    | succ j => exact FlagsGrow.refl nx j

theorem FlagsGrow.Next {σ : Sig} (p : basePath σ) : FlagsGrow p p.Next := by
  cases p with
  | nil => exact FlagsGrow.refl _
  | mk c n k nx f fk t => exact FlagsGrow.mk c n k f fk t (FlagsGrow.setFetched nx)

theorem FlagsGrow.Keys {σ : Sig} (p : basePath σ) : FlagsGrow p p.Keys := by
  cases p with
  | nil => exact FlagsGrow.refl _
  | mk c n k nx f fk t =>
    intro j
    cases j with
    | zero =>
      cases k <;>
        simp [basePath.nth, basePath.Keys, basePath.keys, basePath.fetched,
          basePath.fetchedKeys]
    | succ j => exact FlagsGrow.refl nx j

theorem FlagsGrow.updateAt {σ : Sig} (f : basePath σ → basePath σ)
    (hf : ∀ p, FlagsGrow p (f p)) (i : Nat) :
    ∀ p : basePath σ, FlagsGrow p (p.updateAt f i) := by
  induction i with
  | zero => intro p; simpa [basePath.updateAt] using hf p
  | succ i ih =>
    intro p
    cases p with
    | nil => exact FlagsGrow.refl _
    | mk c n k nx fl fk t =>
      simp only [basePath.updateAt]
      exact FlagsGrow.mk c n k fl fk t (ih nx)

theorem FlagsGrow.apply {σ : Sig} (c : PathCall) (p : basePath σ) : FlagsGrow p (c.apply p) := by
  cases c with
  | next i => exact FlagsGrow.updateAt _ FlagsGrow.Next i p
  | keys i => exact FlagsGrow.updateAt _ FlagsGrow.Keys i p

theorem FlagsGrow.runCalls {σ : Sig} (calls : List PathCall) :
    ∀ p : basePath σ, FlagsGrow p (runCalls calls p) := by
  induction calls with
  | nil => intro p; exact FlagsGrow.refl p
  | cons c rest ih =>
    intro p
    simp only [Ottl.runCalls, List.foldl_cons]
    exact FlagsGrow.trans (FlagsGrow.apply c p) (ih _)

theorem nth_updateAt {σ : Sig} (f : basePath σ → basePath σ) (i : Nat) :
    ∀ p : basePath σ, p.nth i ≠ .nil → (p.updateAt f i).nth i = f (p.nth i) := by
  induction i with
  | zero => intro p _; simp [nth_zero, basePath.updateAt]
  | succ i ih =>
    intro p hp
    cases p with
    | nil => simp [basePath.nth] at hp
    | mk c n k nx fl fk t =>
      simp only [basePath.updateAt, nth_mk_succ] at hp ⊢
      exact ih nx hp

theorem fetched_after_next {σ : Sig} (p : basePath σ) (i : Nat) (h : p.nth (i + 1) ≠ .nil) :
    (((PathCall.next i).apply p).nth (i + 1)).fetched = true := by
  have hi : p.nth i ≠ .nil := by
    intro h0
    apply h
    rw [← nth_add, h0, nth_nil]
  simp only [PathCall.apply]
  rw [← nth_add, nth_updateAt _ i p hi]
  rw [← nth_add] at h
  cases hq : p.nth i with
  | nil => exact absurd hq hi
  | mk c n k nx f fk t =>
    rw [hq] at h
    simp only [basePath.Next, basePath.nth] at h ⊢
    cases nx with
    | nil => exact absurd rfl h
    | mk c2 n2 k2 nx2 f2 fk2 t2 => rfl

theorem fetchedKeys_after_keys {σ : Sig} (p : basePath σ) (i : Nat)
    (h : (p.nth i).keys ≠ none) :
    (((PathCall.keys i).apply p).nth i).fetchedKeys = true := by
  have hi : p.nth i ≠ .nil := by
    intro h0
    rw [h0] at h
    exact h rfl
  simp only [PathCall.apply]
  rw [nth_updateAt _ i p hi]
  cases hq : p.nth i with
  | nil => exact absurd hq hi
  | mk c n k nx f fk t =>
    rw [hq] at h
    cases k with
    | none => exact absurd rfl h
    | some ks => rfl

theorem runCalls_append {σ : Sig} (l1 l2 : List PathCall) (p : basePath σ) :
    runCalls (l1 ++ l2) p = runCalls l2 (runCalls l1 p) := by
  simp [runCalls, List.foldl_append]

theorem fetched_of_next_mem {σ : Sig} (calls : List PathCall) (p : basePath σ) (i : Nat)
    (hmem : PathCall.next i ∈ calls) (h : p.nth (i + 1) ≠ .nil) :
    ((runCalls calls p).nth (i + 1)).fetched = true := by
  obtain ⟨l1, l2, rfl⟩ := List.append_of_mem hmem
  rw [runCalls_append]
  have g1 := FlagsGrow.runCalls l1 p
  have hne : (runCalls l1 p).nth (i + 1) ≠ .nil := fun h0 => h ((g1 (i + 1)).1.mp h0)
  have hset := fetched_after_next (runCalls l1 p) i hne
  have g2 := FlagsGrow.runCalls l2 ((PathCall.next i).apply (runCalls l1 p))
  simp only [runCalls, List.foldl_cons] at g2 ⊢
  exact (g2 (i + 1)).2.2.1 hset

theorem fetchedKeys_of_keys_mem {σ : Sig} (calls : List PathCall) (p : basePath σ) (i : Nat)
    (hmem : PathCall.keys i ∈ calls) (h : (p.nth i).keys ≠ none) :
    ((runCalls calls p).nth i).fetchedKeys = true := by
  obtain ⟨l1, l2, rfl⟩ := List.append_of_mem hmem
  rw [runCalls_append]
  have g1 := FlagsGrow.runCalls l1 p
  have hne : ((runCalls l1 p).nth i).keys ≠ none := by rw [(g1 i).2.1]; exact h
  have hset := fetchedKeys_after_keys (runCalls l1 p) i hne
  have g2 := FlagsGrow.runCalls l2 ((PathCall.keys i).apply (runCalls l1 p))
  simp only [runCalls, List.foldl_cons] at g2 ⊢
  exact (g2 i).2.2.2 hset

theorem segments_getElem? {σ : Sig} (p : basePath σ) (i : Nat) (s : basePath σ) :
    p.segments[i]? = some s ↔ p.nth i = s ∧ s ≠ .nil := by
  induction i generalizing p with
  | zero =>
    cases p with
    | nil => simp [basePath.segments, basePath.nth]; intro h; exact h.symm
    | mk c n k nx f fk t =>
      simp only [basePath.segments, List.getElem?_cons_zero, Option.some.injEq, basePath.nth]
      constructor
      · rintro rfl; exact ⟨rfl, by simp⟩
      · rintro ⟨h, _⟩; exact h
  | succ i ih =>
    cases p with
    | nil => simp [basePath.segments, nth_nil]; intro h; exact h.symm
    | mk c n k nx f fk t =>
      simp only [basePath.segments, List.getElem?_cons_succ, nth_mk_succ]
      exact ih nx

theorem mem_segments_iff {σ : Sig} (p : basePath σ) (s : basePath σ) :
    s ∈ p.segments ↔ ∃ i, p.nth i = s ∧ s ≠ .nil := by
  rw [List.mem_iff_getElem?]
  simp only [segments_getElem?]

theorem segments_length_lt {σ : Sig} (p : basePath σ) (i : Nat) :
    i < p.segments.length ↔ p.nth i ≠ .nil := by
  induction i generalizing p with
  | zero => cases p <;> simp [basePath.segments, basePath.nth]
  | succ i ih =>
    cases p with
    | nil => simp [basePath.segments, nth_nil]
    | mk c n k nx f fk t =>
      simp only [basePath.segments, List.length_cons, Nat.add_lt_add_iff_right, nth_mk_succ]
      exact ih nx

end Ottl

namespace Ottl

theorem isComplete_runCalls {σ : Sig} (chain : basePath σ) (calls : List PathCall)
    (hne : chain ≠ .nil) (hhead : chain.fetched = true)
    (hnext : ∀ i, i + 1 < chain.segments.length → PathCall.next i ∈ calls)
    (hkeys : ∀ i s, chain.segments[i]? = some s → s.keys ≠ none → PathCall.keys i ∈ calls) :
    (runCalls calls chain).isComplete = .ok () := by
  have g := FlagsGrow.runCalls calls chain
  have hne2 : runCalls calls chain ≠ .nil := by
    intro h0
    have := (g 0).1
    rw [nth_zero, nth_zero] at this
    exact hne (this.mp h0)
  rw [isComplete_iff_segments _ hne2]
  intro s hs
  obtain ⟨j, hj, hsn⟩ := (mem_segments_iff _ s).mp hs
  subst hj
  have hcj : chain.nth j ≠ .nil := fun h0 => hsn ((g j).1.mpr h0)
  constructor
  · cases j with
    | zero =>
      apply (g 0).2.2.1
      rw [nth_zero]; exact hhead
    | succ i =>
      exact fetched_of_next_mem calls chain i
        (hnext i ((segments_length_lt chain (i + 1)).mpr hcj)) hcj
  · intro hk
    rw [(g j).2.1] at hk
    exact fetchedKeys_of_keys_mem calls chain j
      (hkeys j (chain.nth j) ((segments_getElem? chain j _).mpr ⟨rfl, hcj⟩) hk) hk

theorem mem_walk_next {σ : Sig} (p : basePath σ) :
    ∀ start i, p.nth i ≠ .nil → PathCall.next (start + i) ∈ p.walk start := by
  induction p with
  | nil => intro start i h; exact absurd (nth_nil i) h
  | mk c n k nx f fk t ih =>
    intro start i h
    cases i with
    | zero => simp [basePath.walk]
    | succ i =>
      rw [nth_mk_succ] at h
      have := ih (start + 1) i h
      simp only [basePath.walk, List.mem_append]
      right
      rwa [show start + (i + 1) = start + 1 + i by omega]

theorem mem_walk_keys {σ : Sig} (p : basePath σ) :
    ∀ start i, (p.nth i).keys ≠ none → PathCall.keys (start + i) ∈ p.walk start := by
  induction p with
  | nil => intro start i h; rw [nth_nil] at h; exact absurd rfl h
  | mk c n k nx f fk t ih =>
    intro start i h
    cases i with
    | zero =>
      rw [nth_zero] at h
      simp only [basePath.keys] at h
      cases k with
      | none => exact absurd rfl h
      | some ks => simp [basePath.walk]
    | succ i =>
      rw [nth_mk_succ] at h
      have := ih (start + 1) i h
      simp only [basePath.walk, List.mem_append]
      right
      rwa [show start + (i + 1) = start + 1 + i by omega]

/-- C10: on a chain built by `newPath`, after a resolver has called `Next()` on
every segment that has a successor and `Keys()` on every segment that carries
keys, in any order and among any other calls, `isComplete` on the head returns
no error; in particular after the walk from the head that calls `Keys()` on
each keyed segment and `Next()` on each segment until it returns nil. -/
theorem isComplete_after_full_read {σ : Sig} (p : Parser σ) (pth : path σ)
    (chain : basePath σ) (hnew : p.newPath pth = .ok chain) :
    (∀ calls : List PathCall,
        (∀ i, i + 1 < chain.segments.length → PathCall.next i ∈ calls) →
        (∀ i s, chain.segments[i]? = some s → s.keys ≠ none → PathCall.keys i ∈ calls) →
        (runCalls calls chain).isComplete = .ok ())
      ∧ (runCalls (chain.walk 0) chain).isComplete = .ok () := by
  obtain ⟨hf, herr, hshape, _, hhead, _⟩ := newPath_ok_shape p pth chain hnew
  have hne : chain ≠ .nil := by
    intro h0
    subst h0
    have := hshape.length_eq
    simp only [basePath.segments, List.length_nil] at this
    exact parsePathContext_fields_ne_nil p pth hf herr (List.length_eq_zero.mp this.symm)
  refine ⟨fun calls h1 h2 => isComplete_runCalls chain calls hne hhead h1 h2, ?_⟩
  apply isComplete_runCalls chain _ hne hhead
  · intro i hi
    have h := mem_walk_next chain 0 i (fun h0 => by
      have h1 := (segments_length_lt chain (i + 1)).mp hi
      apply h1
      rw [← nth_add, h0, nth_nil])
    simpa using h
  · intro i s hs hk
    obtain ⟨rfl, _⟩ := (segments_getElem? chain i s).mp hs
    simpa using mem_walk_keys chain 0 i hk

/-- C10 at the chain of `span.attributes["k"].value`: after the walk that reads
the keys of `attributes` and calls `Next()` on both segments, `isComplete`
returns no error. -/
theorem isComplete_after_full_read_witness :
    spanLogParser.newPath spanAttributesPath = .ok spanAttributesChain
      ∧ spanAttributesChain.walk 0 = [PathCall.keys 0, PathCall.next 0, PathCall.next 1]
      ∧ (runCalls (spanAttributesChain.walk 0) spanAttributesChain).isComplete = .ok () :=
  ⟨newPath_spanAttributesPath, by decide,
    (isComplete_after_full_read spanLogParser spanAttributesPath spanAttributesChain
      newPath_spanAttributesPath).2⟩

end Ottl

/-! ## The rewriter on the sample statement -/

namespace Ottl

theorem sampleGrammar_parse :
    sampleGrammar.parseStatement (ascii "set(attributes[\"k\"], value)") = .ok sampleParsed := by
  rfl

theorem sampleGrammar_parse_span :
    sampleGrammar.parseStatement (ascii "set(span.attributes[\"k\"], span.value)")
      = .ok sampleParsedSpan := by
  rfl

/-- C2 at the statement `set(attributes["k"], value)` and the context `span`:
both paths lack a context, the offsets are 4 and 21, and the result is
`set(span.attributes["k"], span.value)`. -/
theorem AppendStatementPathsContext_injection_points_witness :
    ascii "span" ∈ spanLogParser.pathContextNames
      ∧ ((getParsedStatementPaths sampleGrammar sampleParsed).filter
            (fun it => decide (it.Context ∉ spanLogParser.pathContextNames))).map path.Offset
          = [4, 21]
      ∧ spanLogParser.AppendStatementPathsContext sampleGrammar (ascii "span")
            (ascii "set(attributes[\"k\"], value)")
          = some (ascii "set(span.attributes[\"k\"], span.value)", none) :=
  ⟨by decide, by decide,
    (AppendStatementPathsContext_injection_points spanLogParser sampleGrammar (ascii "span")
      (ascii "set(attributes[\"k\"], value)") sampleParsed (by decide) sampleGrammar_parse).1⟩

/-- C3 at the statement `set(span.attributes["k"], span.value)`, whose two
paths carry the context `span`. -/
theorem AppendStatementPathsContext_unchanged_witness :
    ascii "span" ∈ spanLogParser.pathContextNames
      ∧ (∀ it ∈ getParsedStatementPaths sampleGrammar sampleParsedSpan,
          it.Context ∈ spanLogParser.pathContextNames)
      ∧ spanLogParser.AppendStatementPathsContext sampleGrammar (ascii "span")
            (ascii "set(span.attributes[\"k\"], span.value)")
          = some (ascii "set(span.attributes[\"k\"], span.value)", none) :=
  ⟨by decide, by decide,
    AppendStatementPathsContext_unchanged spanLogParser sampleGrammar (ascii "span")
      (ascii "set(span.attributes[\"k\"], span.value)") sampleParsedSpan (by decide)
      sampleGrammar_parse_span (by decide)⟩

/-- C5 at a parser with an empty context-names set and a statement that does
not parse. -/
theorem AppendStatementPathsContext_unknown_context_witness :
    ascii "span" ∉ legacyParser.pathContextNames
      ∧ legacyParser.AppendStatementPathsContext sampleGrammar (ascii "span") (ascii "set(")
          = some (ascii "set(", some (.unknownContext (ascii "span"))) :=
  ⟨by decide,
    AppendStatementPathsContext_unknown_context legacyParser sampleGrammar (ascii "span")
      (ascii "set(") (by decide)⟩

end Ottl

/-! ## Omitted reads and the result of `parsePath` -/

namespace Ottl

theorem name_setFetched {σ : Sig} (p : basePath σ) : p.setFetched.Name = p.Name := by
  cases p <;> rfl

theorem name_nth_setFetched {σ : Sig} (p : basePath σ) (j : Nat) :
    (p.setFetched.nth j).Name = (p.nth j).Name := by
  cases p with
  | nil => rfl
  | mk c n k nx f fk t => cases j <;> rfl

theorem name_nth_Next {σ : Sig} (p : basePath σ) (j : Nat) :
    (p.Next.nth j).Name = (p.nth j).Name := by
  cases p with
  | nil => rfl
  | mk c n k nx f fk t =>
    cases j with
    | zero => rfl
    | succ j => exact name_nth_setFetched nx j

theorem name_nth_Keys {σ : Sig} (p : basePath σ) (j : Nat) :
    (p.Keys.nth j).Name = (p.nth j).Name := by
  cases p with
  | nil => rfl
  | mk c n k nx f fk t => cases j <;> rfl

theorem name_nth_updateAt {σ : Sig} (f : basePath σ → basePath σ)
    (hf : ∀ p j, ((f p).nth j).Name = (p.nth j).Name) (i : Nat) :
    ∀ (p : basePath σ) (j : Nat), ((p.updateAt f i).nth j).Name = (p.nth j).Name := by
  induction i with
  | zero => intro p j; simpa [basePath.updateAt] using hf p j
  | succ i ih =>
    intro p j
    cases p with
    | nil => rfl
    | mk c n k nx fl fk t =>
      cases j with
      | zero => rfl
      | succ j => simpa only [basePath.updateAt, nth_mk_succ] using ih nx j

theorem name_nth_runCalls {σ : Sig} (calls : List PathCall) :
    ∀ (p : basePath σ) (j : Nat), ((runCalls calls p).nth j).Name = (p.nth j).Name := by
  induction calls with
  | nil => intro p j; rfl
  | cons c rest ih =>
    intro p j
    simp only [runCalls, List.foldl_cons]
    have h := ih (c.apply p) j
    simp only [runCalls] at h
    rw [h]
    cases c with
    | next i => exact name_nth_updateAt _ name_nth_Next i p j
    | keys i => exact name_nth_updateAt _ name_nth_Keys i p j

/-- The converse of `fetched_after_next`: one call sets the `fetched` flag of
segment `k` only if it is `Next()` on the segment before `k`. -/
theorem fetched_apply_imp {σ : Sig} (c : PathCall) :
    ∀ (p : basePath σ) (k : Nat), ((c.apply p).nth k).fetched = true →
      (p.nth k).fetched = true ∨ ∃ j, c = PathCall.next j ∧ k = j + 1 := by
  cases c with
  | keys i =>
    intro p k h
    left
    revert h
    simp only [PathCall.apply]
    induction i generalizing p k with
    | zero =>
      simp only [basePath.updateAt]
      cases p with
      | nil => exact id
      | mk c n ks nx f fk t => cases k <;> exact id
    | succ i ih =>
      cases p with
      | nil => exact id
      | mk c n ks nx f fk t =>
        cases k with
        | zero => exact id
        | succ k => simpa only [basePath.updateAt, nth_mk_succ] using ih nx k
  | next i =>
    intro p k h
    by_cases hk : k = i + 1
    · exact Or.inr ⟨i, rfl, hk⟩
    · left
      revert h
      simp only [PathCall.apply]
      induction i generalizing p k with
      | zero =>
        simp only [basePath.updateAt]
        cases p with
        | nil => exact id
        | mk c n ks nx f fk t =>
          cases k with
          | zero => exact id
          | succ k =>
            cases k with
            | zero => exact absurd rfl hk
            | succ k =>
              cases nx with
              | nil => exact id
              | mk c2 n2 k2 nx2 f2 fk2 t2 => exact id
      | succ i ih =>
        cases p with
        | nil => exact id
        | mk c n ks nx f fk t =>
          cases k with
          | zero => exact id
          | succ k =>
            simp only [basePath.updateAt, nth_mk_succ]
            exact ih nx k (fun h => hk (by omega))

theorem fetchedKeys_apply_imp {σ : Sig} (c : PathCall) :
    ∀ (p : basePath σ) (k : Nat), ((c.apply p).nth k).fetchedKeys = true →
      (p.nth k).fetchedKeys = true ∨ c = PathCall.keys k := by
  cases c with
  | next i =>
    intro p k h
    left
    revert h
    simp only [PathCall.apply]
    induction i generalizing p k with
    | zero =>
      simp only [basePath.updateAt]
      cases p with
      | nil => exact id
      | mk c n ks nx f fk t =>
        cases k with
        | zero => exact id
        | succ k =>
          cases nx with
          | nil => exact id
          | mk c2 n2 k2 nx2 f2 fk2 t2 => cases k <;> exact id
    | succ i ih =>
      cases p with
      | nil => exact id
      | mk c n ks nx f fk t =>
        cases k with
        | zero => exact id
        | succ k => simpa only [basePath.updateAt, nth_mk_succ] using ih nx k
  | keys i =>
    intro p k h
    by_cases hk : k = i
    · exact Or.inr (by rw [hk])
    · left
      revert h
      simp only [PathCall.apply]
      induction i generalizing p k with
      | zero =>
        simp only [basePath.updateAt]
        cases p with
        | nil => exact id
        | mk c n ks nx f fk t =>
          cases k with
          | zero => exact absurd rfl hk
          | succ k => exact id
      | succ i ih =>
        cases p with
        | nil => exact id
        | mk c n ks nx f fk t =>
          cases k with
          | zero => exact id
          | succ k =>
            simp only [basePath.updateAt, nth_mk_succ]
            exact ih nx k (fun h => hk (by omega))

theorem fetched_runCalls_imp {σ : Sig} (calls : List PathCall) :
    ∀ (p : basePath σ) (k : Nat), ((runCalls calls p).nth (k + 1)).fetched = true →
      (p.nth (k + 1)).fetched = true ∨ PathCall.next k ∈ calls := by
  induction calls with
  | nil => intro p k h; exact Or.inl h
  | cons c rest ih =>
    intro p k h
    simp only [runCalls, List.foldl_cons] at h
    rcases ih (c.apply p) k h with h1 | h1
    · rcases fetched_apply_imp c p (k + 1) h1 with h2 | ⟨j, hc, hj⟩
      · exact Or.inl h2
      · right
        have : j = k := by omega
        subst this
        rw [hc]
        exact List.mem_cons_self _ _
    · exact Or.inr (List.mem_cons_of_mem _ h1)

theorem fetchedKeys_runCalls_imp {σ : Sig} (calls : List PathCall) :
    ∀ (p : basePath σ) (k : Nat), ((runCalls calls p).nth k).fetchedKeys = true →
      (p.nth k).fetchedKeys = true ∨ PathCall.keys k ∈ calls := by
  induction calls with
  | nil => intro p k h; exact Or.inl h
  | cons c rest ih =>
    intro p k h
    simp only [runCalls, List.foldl_cons] at h
    rcases ih (c.apply p) k h with h1 | h1
    · rcases fetchedKeys_apply_imp c p k h1 with h2 | hc
      · exact Or.inl h2
      · right
        rw [hc]
        exact List.mem_cons_self _ _
    · exact Or.inr (List.mem_cons_of_mem _ h1)

/-- The first check of `isComplete` that fails decides its error: all segments
before `i` pass both checks and segment `i` is not fetched. -/
theorem isComplete_first_unfetched {σ : Sig} (i : Nat) :
    ∀ p : basePath σ, p.nth i ≠ .nil → (p.nth i).fetched = false →
      (∀ j, j < i → (p.nth j).fetched = true
        ∧ ((p.nth j).keys ≠ none → (p.nth j).fetchedKeys = true)) →
      p.isComplete = .error (.pathSectionNotUsed (p.nth i).Name) := by
  induction i with
  | zero =>
    intro p hne hf _
    rw [nth_zero] at hne hf ⊢
    cases p with
    | nil => exact absurd rfl hne
    | mk c n k nx f fk t =>
      simp only [basePath.fetched] at hf
      subst hf
      cases nx <;> simp [basePath.isComplete, basePath.Name]
  | succ i ih =>
    intro p hne hf hall
    cases p with
    | nil => exact absurd (nth_nil _) hne
    | mk c n k nx f fk t =>
      have h0 := hall 0 (Nat.succ_pos i)
      rw [nth_zero] at h0
      simp only [basePath.fetched, basePath.keys, basePath.fetchedKeys] at h0
      rw [nth_mk_succ] at hne hf ⊢
      have hnx : nx ≠ .nil := by
        intro h; apply hne; rw [h, nth_nil]
      have hrec := ih nx hne hf (fun j hj => by
        have := hall (j + 1) (by omega)
        rwa [nth_mk_succ] at this)
      rw [← hrec]
      obtain ⟨hf0, hk0⟩ := h0
      subst hf0
      cases nx with
      | nil => exact absurd rfl hnx
      | mk c2 n2 k2 nx2 f2 fk2 t2 =>
        cases k with
        | none => simp [basePath.isComplete]
        | some ks =>
          have := hk0 (by simp)
          subst this
          simp [basePath.isComplete]

/-- The first check of `isComplete` that fails decides its error: all segments
before `i` pass both checks, segment `i` is fetched and carries keys that were
not fetched. -/
theorem isComplete_first_unfetched_keys {σ : Sig} (i : Nat) :
    ∀ p : basePath σ, (p.nth i).fetched = true → (p.nth i).keys ≠ none →
      (p.nth i).fetchedKeys = false →
      (∀ j, j < i → (p.nth j).fetched = true
        ∧ ((p.nth j).keys ≠ none → (p.nth j).fetchedKeys = true)) →
      p.isComplete = .error (.keysNotUsed (p.nth i).Name) := by
  induction i with
  | zero =>
    intro p hf hk hfk _
    rw [nth_zero] at hf hk hfk ⊢
    cases p with
    | nil => simp [basePath.fetched] at hf
    | mk c n k nx f fk t =>
      simp only [basePath.fetched, basePath.keys, basePath.fetchedKeys] at hf hk hfk
      subst hf hfk
      cases k with
      | none => exact absurd rfl hk
      | some ks => cases nx <;> simp [basePath.isComplete, basePath.Name]
  | succ i ih =>
    intro p hf hk hfk hall
    cases p with
    | nil => rw [nth_nil] at hf; simp [basePath.fetched] at hf
    | mk c n k nx f fk t =>
      have h0 := hall 0 (Nat.succ_pos i)
      rw [nth_zero] at h0
      simp only [basePath.fetched, basePath.keys, basePath.fetchedKeys] at h0
      rw [nth_mk_succ] at hf hk hfk ⊢
      have hnx : nx ≠ .nil := by
        intro h; rw [h, nth_nil] at hf; simp [basePath.fetched] at hf
      have hrec := ih nx hf hk hfk (fun j hj => by
        have := hall (j + 1) (by omega)
        rwa [nth_mk_succ] at this)
      rw [← hrec]
      obtain ⟨hf0, hk0⟩ := h0
      subst hf0
      cases nx with
      | nil => exact absurd rfl hnx
      | mk c2 n2 k2 nx2 f2 fk2 t2 =>
        cases k with
        | none => simp [basePath.isComplete]
        | some ks =>
          have := hk0 (by simp)
          subst this
          simp [basePath.isComplete]

end Ottl

namespace Ottl

theorem newPath_initial_flags {σ : Sig} (p : Parser σ) (pth : path σ) (chain : basePath σ)
    (hnew : p.newPath pth = .ok chain) :
    chain.fetched = true ∧ (∀ k, (chain.nth (k + 1)).fetched = false)
      ∧ (∀ k, (chain.nth k).fetchedKeys = false) := by
  obtain ⟨_, _, _, h2, h3, h4⟩ := newPath_ok_shape p pth chain hnew
  refine ⟨h3, ?_, ?_⟩
  · intro k
    by_cases hn : chain.nth (k + 1) = .nil
    · rw [hn]; rfl
    · apply h4
      rw [mem_segments_iff]
      refine ⟨k, ?_, hn⟩
      cases chain with
      | nil => rw [nth_nil] at hn; exact absurd rfl hn
      | mk c n ks nx f fk t => rfl
  · intro k
    by_cases hn : chain.nth k = .nil
    · rw [hn]; rfl
    · exact (h2 _ ((mem_segments_iff chain _).mpr ⟨k, rfl, hn⟩)).2.2

theorem nth_ne_nil_of_le {σ : Sig} (p : basePath σ) (i j : Nat) (hij : j ≤ i)
    (h : p.nth i ≠ .nil) : p.nth j ≠ .nil := by
  intro h0
  apply h
  obtain ⟨d, rfl⟩ := Nat.exists_eq_add_of_le hij
  rw [← nth_add, h0, nth_nil]

/-- C11: on a chain built by `newPath`, (a) if the resolver called `Next()` on
every segment before the keyed segment `i`, read the keys of every keyed
segment before `i`, and never called `Keys()` on segment `i`, then `isComplete`
fails with the keys-not-used error naming segment `i`; (b) if the resolver
called `Next()` on every segment before `i` but never on segment `i`, which has
a successor, and read the keys of every keyed segment up to `i`, then
`isComplete` fails with the path-section-not-used error naming the successor
of `i`. -/
theorem isComplete_omitted_read {σ : Sig} (p : Parser σ) (pth : path σ) (chain : basePath σ)
    (hnew : p.newPath pth = .ok chain) (calls : List PathCall) (i : Nat) (s : basePath σ) :
    (chain.segments[i]? = some s → s.keys ≠ none → PathCall.keys i ∉ calls →
        (∀ j, j < i → PathCall.next j ∈ calls) →
        (∀ j t, j < i → chain.segments[j]? = some t → t.keys ≠ none →
          PathCall.keys j ∈ calls) →
        (runCalls calls chain).isComplete = .error (.keysNotUsed s.Name))
      ∧ (chain.segments[i + 1]? = some s → PathCall.next i ∉ calls →
          (∀ j, j < i → PathCall.next j ∈ calls) →
          (∀ j t, j ≤ i → chain.segments[j]? = some t → t.keys ≠ none →
            PathCall.keys j ∈ calls) →
          (runCalls calls chain).isComplete = .error (.pathSectionNotUsed s.Name)) := by
  obtain ⟨hhead, hfetched0, hkeys0⟩ := newPath_initial_flags p pth chain hnew
  have g := FlagsGrow.runCalls calls chain
  -- every segment up to the bound passes both checks
  have hpass : ∀ bound, chain.nth bound ≠ .nil →
      (∀ j, j < bound → PathCall.next j ∈ calls) →
      (∀ j t, j < bound → chain.segments[j]? = some t → t.keys ≠ none →
        PathCall.keys j ∈ calls) →
      ∀ j, j < bound → ((runCalls calls chain).nth j).fetched = true
        ∧ (((runCalls calls chain).nth j).keys ≠ none →
            ((runCalls calls chain).nth j).fetchedKeys = true) := by
    intro bound hb hnext hkeys j hj
    have hjn : chain.nth j ≠ .nil := nth_ne_nil_of_le chain bound j (Nat.le_of_lt hj) hb
    constructor
    · cases j with
      | zero =>
        apply (g 0).2.2.1
        rw [nth_zero]; exact hhead
      | succ j => exact fetched_of_next_mem calls chain j (hnext j (by omega)) hjn
    · intro hk
      rw [(g j).2.1] at hk
      exact fetchedKeys_of_keys_mem calls chain j
        (hkeys j _ hj ((segments_getElem? chain j _).mpr ⟨rfl, hjn⟩) hk) hk
  constructor
  · intro hs hk hnot hnext hkeys
    obtain ⟨rfl, hne⟩ := (segments_getElem? chain i s).mp hs
    rw [← name_nth_runCalls calls chain i]
    apply isComplete_first_unfetched_keys i
    · cases i with
      | zero =>
        apply (g 0).2.2.1
        rw [nth_zero]; exact hhead
      | succ i => exact fetched_of_next_mem calls chain i (hnext i (by omega)) hne
    · rw [(g i).2.1]; exact hk
    · cases hfk : ((runCalls calls chain).nth i).fetchedKeys with
      | false => rfl
      | true =>
        rcases fetchedKeys_runCalls_imp calls chain i hfk with h | h
        · rw [hkeys0 i] at h; cases h
        · exact absurd h hnot
    · exact hpass i hne hnext hkeys
  · intro hs hnot hnext hkeys
    obtain ⟨rfl, hne⟩ := (segments_getElem? chain (i + 1) s).mp hs
    rw [← name_nth_runCalls calls chain (i + 1)]
    apply isComplete_first_unfetched (i + 1)
    · exact fun h0 => hne ((g (i + 1)).1.mp h0)
    · cases hf : ((runCalls calls chain).nth (i + 1)).fetched with
      | false => rfl
      | true =>
        rcases fetched_runCalls_imp calls chain i hf with h | h
        · rw [hfetched0 i] at h; cases h
        · exact absurd h hnot
    · intro j hj
      have hin : chain.nth i ≠ .nil := nth_ne_nil_of_le chain (i + 1) i (by omega) hne
      by_cases hji : j < i
      · exact hpass i hin hnext (fun j t hj' => hkeys j t (Nat.le_of_lt hj')) j hji
      · have : j = i := by omega
        subst this
        constructor
        · cases j with
          | zero =>
            apply (g 0).2.2.1
            rw [nth_zero]; exact hhead
          | succ j => exact fetched_of_next_mem calls chain j (hnext j (by omega)) hin
        · intro hk
          rw [(g j).2.1] at hk
          exact fetchedKeys_of_keys_mem calls chain j
            (hkeys j _ (le_refl _) ((segments_getElem? chain j _).mpr ⟨rfl, hin⟩) hk) hk

/-- C11 at the chain of `span.attributes["k"].value`: a resolver that calls
only `Next()` on the head leaves the keys of `attributes` unread, and one that
calls only `Keys()` on the head never reaches `value`. -/
theorem isComplete_omitted_read_witness :
    spanLogParser.newPath spanAttributesPath = .ok spanAttributesChain
      ∧ (runCalls [PathCall.next 0] spanAttributesChain).isComplete
          = .error (.keysNotUsed (ascii "attributes"))
      ∧ (runCalls [PathCall.keys 0] spanAttributesChain).isComplete
          = .error (.pathSectionNotUsed (ascii "value")) :=
  ⟨newPath_spanAttributesPath,
    (isComplete_omitted_read spanLogParser spanAttributesPath spanAttributesChain
      newPath_spanAttributesPath [PathCall.next 0] 0 spanAttributesChain).1 rfl
      (by simp [spanAttributesChain, basePath.keys]) (by decide) (fun j hj => absurd hj (Nat.not_lt_zero j))
      (fun j _ hj => absurd hj (Nat.not_lt_zero j)),
    (isComplete_omitted_read spanLogParser spanAttributesPath spanAttributesChain
      newPath_spanAttributesPath [PathCall.keys 0] 0 spanAttributesChain.nextPath).2 rfl
      (by decide) (fun j hj => absurd hj (Nat.not_lt_zero j))
      (fun j t hj ht _ => by
        have : j = 0 := by omega
        subst this
        exact List.mem_cons_self _ _)⟩

/-- C12: `parsePath` returns the error of the path resolver when the resolver
fails, the error of `isComplete` when the resolver succeeds and the chain it
leaves is not complete, and exactly the resolver's GetSetter when the resolver
succeeds and the chain is complete; so it returns a GetSetter only in the last
case, and that GetSetter is the resolver's. -/
theorem parsePath_result {σ : Sig} (p : Parser σ) (ip : basePath σ) :
    (∀ calls err, p.pathParser ip = (calls, .error err) → p.parsePath ip = .error err)
      ∧ (∀ calls g err, p.pathParser ip = (calls, .ok g) →
          (runCalls calls ip).isComplete = .error err → p.parsePath ip = .error err)
      ∧ (∀ calls g, p.pathParser ip = (calls, .ok g) →
          (runCalls calls ip).isComplete = .ok () → p.parsePath ip = .ok g)
      ∧ (∀ g, p.parsePath ip = .ok g →
          (p.pathParser ip).2 = .ok g
            ∧ (runCalls (p.pathParser ip).1 ip).isComplete = .ok ()) := by
  refine ⟨?_, ?_, ?_, ?_⟩
  · intro calls err h
    simp [Parser.parsePath, h]
  · intro calls g err h hc
    simp [Parser.parsePath, h, hc]
  · intro calls g h hc
    simp [Parser.parsePath, h, hc]
  · intro g h
    unfold Parser.parsePath at h
    rcases hp : p.pathParser ip with ⟨calls, r⟩
    rw [hp] at h
    cases r with
    | error err => simp at h
    | ok g2 =>
      simp only at h
      cases hc : (runCalls calls ip).isComplete with
      | ok u => rw [hc] at h; simp at h; exact ⟨by rw [h], rfl⟩
      | error err => rw [hc] at h; simp at h
      | panic => rw [hc] at h; simp at h

/-- C12 at the chain of `span.attributes["k"].value` and the resolver of
`spanLogParser`, which reads every segment and all keys. -/
theorem parsePath_result_witness :
    spanLogParser.pathParser spanAttributesChain
        = (spanAttributesChain.walk 0, .ok (ascii "span.attributes[k].value"))
      ∧ (runCalls (spanAttributesChain.walk 0) spanAttributesChain).isComplete = .ok ()
      ∧ spanLogParser.parsePath spanAttributesChain = .ok (ascii "span.attributes[k].value") :=
  ⟨rfl, by decide,
    (parsePath_result spanLogParser spanAttributesChain).2.2.1
      (spanAttributesChain.walk 0) (ascii "span.attributes[k].value") rfl (by decide)⟩

end Ottl

/-! ## Original text and source text of a path -/

namespace Ottl

/-- C13 as stated fails: the path `resource.attributes["k"]` has the source
text `resource.attributes["k"]` and the original text `resource.attributes[k]`,
the path `attributes[Len(name)]` has the original text `attributes[]`, and the
path `span.attributes[log.body]`, whose key is held as a math expression, has
the original text `span.attributes[]`. -/
theorem buildOriginalText_round_trip_counterexample :
    pathSourceText sampleSourceTexts resourceAttributesPath
        = ascii "resource.attributes[\"k\"]"
      ∧ buildOriginalText resourceAttributesPath = ascii "resource.attributes[k]"
      ∧ buildOriginalText resourceAttributesPath
          ≠ pathSourceText sampleSourceTexts resourceAttributesPath
      ∧ pathSourceText sampleSourceTexts converterKeyPath = ascii "attributes[Len(name)]"
      ∧ buildOriginalText converterKeyPath = ascii "attributes[]"
      ∧ pathSourceText sampleSourceTexts mathExpressionKeyPath
          = ascii "span.attributes[log.body]"
      ∧ buildOriginalText mathExpressionKeyPath = ascii "span.attributes[]" := by
  refine ⟨by decide, by decide, by decide, by decide, by decide, by decide, by decide⟩

end Ottl

namespace Ottl

theorem buildOriginalKeysText_eq_source {σ : Sig} (τ : SourceTexts σ) :
    ∀ ks : List (key σ), keysInteger ks = true →
      buildOriginalKeysText ks = keysSourceText τ ks
  | [], _ => by simp [buildOriginalKeysText, keysSourceText]
  | .mk none (some n) none none :: rest, h => by
    simp only [keysInteger] at h
    simp [buildOriginalKeysText, keysSourceText, buildOriginalExpressionText,
      buildOriginalKeysText_eq_source τ rest h]
  | .mk (some _) _ _ _ :: _, h => by simp [keysInteger] at h
  | .mk none none _ _ :: _, h => by simp [keysInteger] at h
  | .mk none (some _) (some _) _ :: _, h => by simp [keysInteger] at h
  | .mk none (some _) none (some _) :: _, h => by simp [keysInteger] at h

theorem buildOriginalFieldsText_eq_source {σ : Sig} (τ : SourceTexts σ) :
    ∀ fs : List (field σ), fieldsIntegerKeys fs = true →
      buildOriginalFieldsText fs = fieldsSourceText τ fs
  | [], _ => by simp [buildOriginalFieldsText, fieldsSourceText]
  | .mk name keys :: rest, h => by
    simp only [fieldsIntegerKeys, Bool.and_eq_true] at h
    simp only [buildOriginalFieldsText, fieldsSourceText]
    rw [buildOriginalFieldsText_eq_source τ rest h.2, ← buildOriginalKeysText_eq_source τ keys h.1]
    cases keys with
    | nil => simp [buildOriginalKeysText]
    | cons k ks => simp

theorem buildOriginalText_eq_source {σ : Sig} (τ : SourceTexts σ) :
    ∀ P : path σ, P.integerKeys = true → buildOriginalText P = pathSourceText τ P
  | .mk _ ctx fs, h => by
    simp only [path.integerKeys, Bool.and_eq_true, decide_eq_true_eq] at h
    simp only [buildOriginalText, pathSourceText]
    rw [buildOriginalFieldsText_eq_source τ fs h.2]
    have : fs.length > 0 := Nat.pos_of_ne_zero h.1
    simp [this]

end Ottl

namespace Ottl

/-- C13 as amended: for every path with at least one field whose keys are all
integer keys, `buildOriginalText` equals the source text of the path written
without whitespace and with its integers in decimal form; and on every chain
`newPath` builds from the path, `String()` of each segment returns that
text. -/
theorem buildOriginalText_round_trip {σ : Sig} (τ : SourceTexts σ) (P : path σ)
    (h : P.integerKeys = true) :
    buildOriginalText P = pathSourceText τ P
      ∧ ∀ (p : Parser σ) (chain : basePath σ), p.newPath P = .ok chain →
          ∀ s ∈ chain.segments, s.String = pathSourceText τ P := by
  have h1 := buildOriginalText_eq_source τ P h
  refine ⟨h1, ?_⟩
  intro p chain hnew s hs
  obtain ⟨_, _, _, h2, _, _⟩ := newPath_ok_shape p P chain hnew
  rw [← h1]
  exact (h2 s hs).2.1

/-- C13 as amended, at the path `span.events[0].name`. -/
theorem buildOriginalText_round_trip_witness :
    integerKeyPath.integerKeys = true
      ∧ buildOriginalText integerKeyPath = ascii "span.events[0].name"
      ∧ pathSourceText sampleSourceTexts integerKeyPath = ascii "span.events[0].name"
      ∧ buildOriginalText integerKeyPath = pathSourceText sampleSourceTexts integerKeyPath :=
  ⟨by decide, by decide, by decide,
    (buildOriginalText_round_trip sampleSourceTexts integerKeyPath (by decide)).1⟩

end Ottl

/-! ## Properties of the argument binder -/

namespace Ottl

theorem buildStandardGetterSetter_error {σ : Sig} {E : Type} (p : ArgParser σ E)
    (name : GoString) (getter : Val σ) (err : BindError)
    (h : Parser.buildStandardGetterSetter p name getter = .error err) :
    err.ofArgument = true := by
  unfold Parser.buildStandardGetterSetter at h
  by_cases hc : (hasPrefix name (ascii "Setter") || hasPrefix name (ascii "GetSetter")
      || hasPrefix name (ascii "Getter")) = true
  · rw [if_pos hc] at h
    cases h
  rw [if_neg hc] at h
  clear hc
  by_cases hc : hasPrefix name (ascii "StringGetter") = true
  · rw [if_pos hc] at h
    cases h
  rw [if_neg hc] at h
  clear hc
  by_cases hc : hasPrefix name (ascii "StringLikeGetter") = true
  · rw [if_pos hc] at h
    cases h
  rw [if_neg hc] at h
  clear hc
  by_cases hc : hasPrefix name (ascii "FloatGetter") = true
  · rw [if_pos hc] at h
    cases h
  rw [if_neg hc] at h
  clear hc
  by_cases hc : hasPrefix name (ascii "FloatLikeGetter") = true
  · rw [if_pos hc] at h
    cases h
  rw [if_neg hc] at h
  clear hc
  by_cases hc : hasPrefix name (ascii "IntGetter") = true
  · rw [if_pos hc] at h
    cases h
  rw [if_neg hc] at h
  clear hc
  by_cases hc : hasPrefix name (ascii "IntLikeGetter") = true
  · rw [if_pos hc] at h
    cases h
  rw [if_neg hc] at h
  clear hc
  by_cases hc : hasPrefix name (ascii "PMapGetSetter") = true
  · rw [if_pos hc] at h
    split at h
    · cases h
    · cases h; rfl
  rw [if_neg hc] at h
  clear hc
  by_cases hc : hasPrefix name (ascii "PMapGetter") = true
  · rw [if_pos hc] at h
    cases h
  rw [if_neg hc] at h
  clear hc
  by_cases hc : hasPrefix name (ascii "PSliceGetter") = true
  · rw [if_pos hc] at h
    cases h
  rw [if_neg hc] at h
  clear hc
  by_cases hc : hasPrefix name (ascii "DurationGetter") = true
  · rw [if_pos hc] at h
    cases h
  rw [if_neg hc] at h
  clear hc
  by_cases hc : hasPrefix name (ascii "TimeGetter") = true
  · rw [if_pos hc] at h
    cases h
  rw [if_neg hc] at h
  clear hc
  by_cases hc : hasPrefix name (ascii "BoolGetter") = true
  · rw [if_pos hc] at h
    cases h
  rw [if_neg hc] at h
  clear hc
  by_cases hc : hasPrefix name (ascii "BoolLikeGetter") = true
  · rw [if_pos hc] at h
    cases h
  rw [if_neg hc] at h
  clear hc
  by_cases hc : hasPrefix name (ascii "ByteSliceLikeGetter") = true
  · rw [if_pos hc] at h
    cases h
  rw [if_neg hc] at h
  clear hc
  cases h
  rfl

theorem buildArg_error {σ : Sig} {E : Type} (p : ArgParser σ E) (argVal : value σ)
    (argType : GoType) (err : BindError) (h : Parser.buildArg p argVal argType = .error err) :
    err.ofArgument = true := by
  unfold Parser.buildArg at h
  by_cases hc : argType.Name = ascii "Enum"
  · rw [if_pos hc] at h
    (repeat' split at h) <;> first | (cases h; done) | (cases h; rfl)
  rw [if_neg hc] at h
  clear hc
  by_cases hc : argType.Name = ascii "string"
  · rw [if_pos hc] at h
    (repeat' split at h) <;> first | (cases h; done) | (cases h; rfl)
  rw [if_neg hc] at h
  clear hc
  by_cases hc : argType.Name = ascii "float64"
  · rw [if_pos hc] at h
    (repeat' split at h) <;> first | (cases h; done) | (cases h; rfl)
  rw [if_neg hc] at h
  clear hc
  by_cases hc : argType.Name = ascii "int64"
  · rw [if_pos hc] at h
    (repeat' split at h) <;> first | (cases h; done) | (cases h; rfl)
  rw [if_neg hc] at h
  clear hc
  by_cases hc : argType.Name = ascii "bool"
  · rw [if_pos hc] at h
    (repeat' split at h) <;> first | (cases h; done) | (cases h; rfl)
  rw [if_neg hc] at h
  clear hc
  by_cases hc : (hasPrefix argType.Name (ascii "Setter") || hasPrefix argType.Name (ascii "GetSetter")
      || hasPrefix argType.Name (ascii "PMapGetSetter")) = true
  · rw [if_pos hc] at h
    (repeat' split at h) <;> first
      | (cases h; done)
      | (cases h; rfl)
      | (cases h; exact buildStandardGetterSetter_error p _ _ _ (by assumption))
  rw [if_neg hc] at h
  clear hc
  (repeat' split at h) <;> first
    | (cases h; done)
    | (cases h; rfl)
    | (cases h; exact buildStandardGetterSetter_error p _ _ _ (by assumption))

theorem buildSliceLoop_error {σ : Sig} (typeAssert : Val σ → GoType → Bool) (T elem : GoType)
    (buildArg : value σ → GoType → BindResult (Val σ)) (name : GoString)
    (values : List (value σ)) :
    ∀ (j : Nat) (err : BindError),
      buildSliceLoop typeAssert T elem buildArg name j values = .error err →
      err.ofArgument = true := by
  induction values with
  | nil => intro j err h; simp [buildSliceLoop] at h
  | cons v rest ih =>
    intro j err h
    simp only [buildSliceLoop] at h
    split at h
    · cases h; rfl
    · cases h
    · split at h
      · split at h
        · cases h; exact ih _ _ (by assumption)
        · cases h
        · cases h
      · cases h; rfl

theorem buildSlice_error {σ : Sig} (typeAssert : Val σ → GoType → Bool) (T : GoType)
    (argVal : value σ) (argType : GoType)
    (buildArg : value σ → GoType → BindResult (Val σ)) (name : GoString)
    (err : BindError)
    (h : buildSlice typeAssert T argVal argType buildArg name = .error err) :
    err.ofArgument = true := by
  unfold buildSlice at h
  split at h
  · cases h; rfl
  · cases h
  · split at h
    · cases h
    · split at h
      · cases h; exact buildSliceLoop_error typeAssert T _ buildArg name _ _ _ (by assumption)
      · cases h
      · cases h

theorem buildSliceArg_error {σ : Sig} {E : Type} (p : ArgParser σ E) (argVal : value σ)
    (argType : GoType) (err : BindError)
    (h : Parser.buildSliceArg p argVal argType = .error err) : err.ofArgument = true := by
  unfold Parser.buildSliceArg at h
  split at h
  · cases h
  rename_i elem _
  by_cases hc : elem.Name = ascii "uint8"
  · rw [if_pos hc] at h
    split at h
    · cases h; rfl
    · cases h
  rw [if_neg hc] at h
  clear hc
  by_cases hc : elem.Name = ascii "string"
  · rw [if_pos hc] at h
    exact buildSlice_error _ _ _ _ _ _ err h
  rw [if_neg hc] at h
  clear hc
  by_cases hc : elem.Name = ascii "float64"
  · rw [if_pos hc] at h
    exact buildSlice_error _ _ _ _ _ _ err h
  rw [if_neg hc] at h
  clear hc
  by_cases hc : elem.Name = ascii "int64"
  · rw [if_pos hc] at h
    exact buildSlice_error _ _ _ _ _ _ err h
  rw [if_neg hc] at h
  clear hc
  by_cases hc : hasPrefix elem.Name (ascii "Getter") = true
  · rw [if_pos hc] at h
    exact buildSlice_error _ _ _ _ _ _ err h
  rw [if_neg hc] at h
  clear hc
  by_cases hc : hasPrefix elem.Name (ascii "PMapGetter") = true
  · rw [if_pos hc] at h
    exact buildSlice_error _ _ _ _ _ _ err h
  rw [if_neg hc] at h
  clear hc
  by_cases hc : hasPrefix elem.Name (ascii "PSliceGetter") = true
  · rw [if_pos hc] at h
    exact buildSlice_error _ _ _ _ _ _ err h
  rw [if_neg hc] at h
  clear hc
  by_cases hc : hasPrefix elem.Name (ascii "StringGetter") = true
  · rw [if_pos hc] at h
    exact buildSlice_error _ _ _ _ _ _ err h
  rw [if_neg hc] at h
  clear hc
  by_cases hc : hasPrefix elem.Name (ascii "StringLikeGetter") = true
  · rw [if_pos hc] at h
    exact buildSlice_error _ _ _ _ _ _ err h
  rw [if_neg hc] at h
  clear hc
  by_cases hc : hasPrefix elem.Name (ascii "FloatGetter") = true
  · rw [if_pos hc] at h
    exact buildSlice_error _ _ _ _ _ _ err h
  rw [if_neg hc] at h
  clear hc
  by_cases hc : hasPrefix elem.Name (ascii "FloatLikeGetter") = true
  · rw [if_pos hc] at h
    exact buildSlice_error _ _ _ _ _ _ err h
  rw [if_neg hc] at h
  clear hc
  by_cases hc : hasPrefix elem.Name (ascii "IntGetter") = true
  · rw [if_pos hc] at h
    exact buildSlice_error _ _ _ _ _ _ err h
  rw [if_neg hc] at h
  clear hc
  by_cases hc : hasPrefix elem.Name (ascii "IntLikeGetter") = true
  · rw [if_pos hc] at h
    exact buildSlice_error _ _ _ _ _ _ err h
  rw [if_neg hc] at h
  clear hc
  by_cases hc : hasPrefix elem.Name (ascii "DurationGetter") = true
  · rw [if_pos hc] at h
    exact buildSlice_error _ _ _ _ _ _ err h
  rw [if_neg hc] at h
  clear hc
  by_cases hc : hasPrefix elem.Name (ascii "TimeGetter") = true
  · rw [if_pos hc] at h
    exact buildSlice_error _ _ _ _ _ _ err h
  rw [if_neg hc] at h
  clear hc
  cases h
  rfl

end Ottl

namespace Ottl

theorem createStandardSliceGetter_error {σ : Sig}
    (literalGetter : Val σ → Option (Bool × Except OttlError (Val σ)))
    (argVal : value σ) (sliceItemType : GoType)
    (buildSliceArg : value σ → GoType → BindResult (Val σ))
    (buildGetter : value σ → Except OttlError σ.Getter)
    (hb : ∀ v t err, buildSliceArg v t = .error err → err.ofArgument = true)
    (err : BindError)
    (h : createStandardSliceGetter literalGetter argVal sliceItemType buildSliceArg buildGetter
      = .error err) : err.ofArgument = true := by
  unfold createStandardSliceGetter at h
  simp only at h
  split at h
  · split at h
    · cases h; exact hb _ _ _ (by assumption)
    · cases h
    · cases h
  · split at h
    · cases h; rfl
    · split at h
      · split at h
        · cases h; rfl
        · cases h
      · cases h

theorem Optional_setWrappedValue_error {V : Type} (typeAssert : V → GoType → Bool)
    (o o2 : Optional V) (v : V) (err : BindError)
    (h : o.setWrappedValue typeAssert v = (o2, some err)) : err.ofArgument = true := by
  unfold Optional.setWrappedValue at h
  split at h
  · cases h
  · cases h; rfl

theorem LiteralGetter_setWrappedValue_error {W : Type} (typeAssert : W → GoType → Bool)
    (l l2 : LiteralGetter W) (v : W) (err : BindError)
    (h : l.setWrappedValue typeAssert v = (l2, some err)) : err.ofArgument = true := by
  unfold LiteralGetter.setWrappedValue at h
  split at h
  · cases h
  · cases h; rfl

theorem SliceGetter_setWrappedValue_error {V : Type} (typeAssert : V → GoType → Bool)
    (s s2 : SliceGetter V) (v : V) (err : BindError)
    (h : s.setWrappedValue typeAssert v = (s2, some err)) : err.ofArgument = true := by
  unfold SliceGetter.setWrappedValue at h
  split at h
  · cases h
  · cases h; rfl

theorem buildArgsValue_error {σ : Sig} {E : Type} (p : ArgParser σ E) (i : Nat)
    (arg : argument σ) (isOptional : Bool) (fieldType : GoType) (fv fv2 : Val σ)
    (err : BindError)
    (h : Parser.buildArgsValue p i arg isOptional fieldType fv = (fv2, .error err)) :
    err.ofArgument = true := by
  unfold Parser.buildArgsValue at h
  by_cases hc : hasPrefix fieldType.Name (ascii "FunctionGetter") = true
  · rw [if_pos hc] at h
    (repeat' split at h) <;> first
      | (cases h; done)
      | (cases h; rfl)
  rw [if_neg hc] at h
  clear hc
  by_cases hc : hasPrefix fieldType.Name (ascii "SliceGetter") = true
  · rw [if_pos hc] at h
    (repeat' split at h) <;> first
      | (cases h; done)
      | (cases h; rfl)
      | (cases h
         exact createStandardSliceGetter_error _ _ _ _ _ (buildSliceArg_error p) _
           (by assumption))
      | (cases h; exact SliceGetter_setWrappedValue_error _ _ _ _ _ (by assumption))
  rw [if_neg hc] at h
  clear hc
  by_cases hc : hasPrefix fieldType.Name (ascii "LiteralGetter") = true
  · rw [if_pos hc] at h
    (repeat' split at h) <;> first
      | (cases h; done)
      | (cases h; rfl)
      | (cases h; exact buildArg_error p _ _ _ (by assumption))
      | (cases h; exact LiteralGetter_setWrappedValue_error _ _ _ _ _ (by assumption))
  rw [if_neg hc] at h
  clear hc
  (repeat' split at h) <;> first
    | (cases h; done)
    | (cases h; rfl)

theorem buildArgsStep_error {σ : Sig} {E : Type} (p : ArgParser σ E) (i : Nat)
    (edArg : argument σ) (argsVal argsVal2 : List (StructField σ)) (err : BindError)
    (h : Parser.buildArgsStep p i edArg argsVal = (argsVal2, .error err)) :
    err.ofArgument = true := by
  unfold Parser.buildArgsStep at h
  split at h
  · rename_i e htf
    cases h
    unfold Parser.targetField at htf
    (repeat' split at htf) <;> first
      | (cases htf; done)
      | (cases htf; rfl)
  · cases h
  · split at h
    · cases h
    · split at h
      · cases h; rfl
      · split at h
        · cases h; exact buildArgsValue_error p _ _ _ _ _ _ _ (by assumption)
        · cases h
        · (repeat' split at h) <;> first
            | (cases h; done)
            | (cases h; exact Optional_setWrappedValue_error _ _ _ _ _ (by assumption))

theorem buildArgsLoop_error {σ : Sig} {E : Type} (p : ArgParser σ E)
    (args : List (argument σ)) :
    ∀ (i : Nat) (argsVal argsVal2 : List (StructField σ)) (err : BindError),
      Parser.buildArgsLoop p i args argsVal = (argsVal2, .error err) →
      err.ofArgument = true := by
  induction args with
  | nil => intro i a a2 err h; simp [Parser.buildArgsLoop] at h
  | cons edArg rest ih =>
    intro i a a2 err h
    simp only [Parser.buildArgsLoop] at h
    split at h
    · exact ih _ _ _ _ h
    · cases h; exact buildArgsStep_error p _ _ _ _ _ (by assumption)
    · cases h

end Ottl

namespace Ottl

theorem namedOrderViolated_true {σ : Sig} (args : List (argument σ)) :
    namedOrderViolated true args = true ↔ ∃ b ∈ args, b.Name = [] := by
  induction args with
  | nil => simp [namedOrderViolated]
  | cons a rest ih =>
    simp only [namedOrderViolated, Bool.not_true, Bool.false_and, Bool.false_eq_true, if_false,
      Bool.true_and, decide_eq_true_eq, List.mem_cons, exists_eq_or_imp]
    by_cases ha : a.Name = []
    · simp [ha]
    · simp [ha, ih]

theorem namedOrderViolated_false {σ : Sig} (args : List (argument σ)) :
    namedOrderViolated false args = true ↔ UnnamedAfterNamed args := by
  induction args with
  | nil =>
    simp only [namedOrderViolated, Bool.false_eq_true, false_iff]
    rintro ⟨i, j, a, b, _, h, _⟩
    simp at h
  | cons a rest ih =>
    simp only [namedOrderViolated, Bool.not_false, Bool.true_and, decide_eq_true_eq,
      Bool.false_and, Bool.false_eq_true, if_false]
    by_cases ha : a.Name = []
    · rw [if_neg (by simp [ha]), ih]
      constructor
      · rintro ⟨i, j, x, y, hij, hx, hy, hxn, hyn⟩
        exact ⟨i + 1, j + 1, x, y, by omega, by simpa using hx, by simpa using hy, hxn, hyn⟩
      · rintro ⟨i, j, x, y, hij, hx, hy, hxn, hyn⟩
        cases i with
        | zero =>
          simp only [List.getElem?_cons_zero, Option.some.injEq] at hx
          subst hx
          exact absurd ha hxn
        | succ i =>
          cases j with
          | zero => omega
          | succ j =>
            exact ⟨i, j, x, y, by omega, by simpa using hx, by simpa using hy, hxn, hyn⟩
    · rw [if_pos ha, namedOrderViolated_true]
      constructor
      · rintro ⟨b, hb, hbn⟩
        obtain ⟨j, hj⟩ := List.mem_iff_getElem?.mp hb
        exact ⟨0, j + 1, a, b, by omega, by simp, by simpa using hj, ha, hbn⟩
      · rintro ⟨i, j, x, y, hij, hx, hy, hxn, hyn⟩
        cases j with
        | zero => omega
        | succ j =>
          simp only [List.getElem?_cons_succ] at hy
          exact ⟨y, List.mem_iff_getElem?.mpr ⟨j, hy⟩, hyn⟩

/-- C14: `buildArgs` returns the error for an unnamed argument used after a
named argument if and only if some unnamed argument occurs after a named one in
the editor's argument list; the check comes first: when it fails the error is
returned whatever the number of arguments is, and the record is as it was. -/
theorem buildArgs_unnamed_after_named {σ : Sig} {E : Type} (p : ArgParser σ E)
    (ed : editor σ) (argsVal : List (StructField σ)) :
    ((Parser.buildArgs p ed argsVal).2 = .error .unnamedAfterNamed ↔
        UnnamedAfterNamed ed.Arguments)
      ∧ (UnnamedAfterNamed ed.Arguments →
          Parser.buildArgs p ed argsVal = (argsVal, .error .unnamedAfterNamed)) := by
  have hpos : UnnamedAfterNamed ed.Arguments →
      Parser.buildArgs p ed argsVal = (argsVal, .error .unnamedAfterNamed) := by
    intro h
    unfold Parser.buildArgs
    rw [if_pos ((namedOrderViolated_false _).mpr h)]
  refine ⟨⟨?_, fun h => by rw [hpos h]⟩, hpos⟩
  intro h
  by_contra hn
  have hv : ¬ namedOrderViolated false ed.Arguments = true :=
    fun hv => hn ((namedOrderViolated_false _).mp hv)
  unfold Parser.buildArgs at h
  rw [if_neg hv] at h
  split at h
  · cases h
  · have := buildArgsLoop_error p ed.Arguments 0 argsVal
      (Parser.buildArgsLoop p 0 ed.Arguments argsVal).1 .unnamedAfterNamed
      (Prod.ext rfl h)
    cases this

/-- C14 at the editor `truncate(limit=5, 7)`. -/
theorem buildArgs_unnamed_after_named_witness :
    UnnamedAfterNamed unnamedAfterNamedEditor.Arguments
      ∧ Parser.buildArgs sampleArgParser unnamedAfterNamedEditor
          (freshRecord truncateFields)
        = (freshRecord truncateFields, .error .unnamedAfterNamed) :=
  ⟨⟨0, 1, _, _, by decide, rfl, rfl, by decide, rfl⟩,
    (buildArgs_unnamed_after_named sampleArgParser unnamedAfterNamedEditor
      (freshRecord truncateFields)).2 ⟨0, 1, _, _, by decide, rfl, rfl, by decide, rfl⟩⟩

/-- C15 fails on the code as stated: the record with the one field `Extra` of
the struct type `OptionalExtra` has one field that is not an `Optional[T]`, and
`buildArgs` returns no error for it and an editor without arguments. -/
theorem buildArgs_arity_counterexample :
    ¬ UnnamedAfterNamed noArgumentsEditor.Arguments
      ∧ noArgumentsEditor.Arguments.length
          < (freshRecord extraFields : List (StructField sampleSig)).countP
              (fun f => match f.Typ with
                | .Optional _ => false
                | _ => true)
      ∧ Parser.buildArgs sampleArgParser noArgumentsEditor (freshRecord extraFields)
          = (freshRecord extraFields, .ok ()) :=
  ⟨(namedOrderViolated_false _).not.mp (by decide), by decide, rfl⟩

/-- C15, amended: for an editor with a valid order of unnamed and named
arguments, `buildArgs` returns the error for an incorrect number of arguments
if and only if the number of actual arguments is less than the number of
fields whose type name does not start with `Optional`, or greater than the
number of fields; the error then carries the number of fields and the number
of arguments, and the record is as it was. The name of every type
`Optional[T]` starts with `Optional`. -/
theorem buildArgs_arity {σ : Sig} {E : Type} (p : ArgParser σ E) (ed : editor σ)
    (argsVal : List (StructField σ)) (horder : ¬ UnnamedAfterNamed ed.Arguments) :
    ((∃ n m, (Parser.buildArgs p ed argsVal).2 = .error (.incorrectNumberOfArguments n m)) ↔
        (ed.Arguments.length
            < argsVal.countP (fun f => !hasPrefix f.Typ.Name (ascii "Optional"))
          ∨ argsVal.length < ed.Arguments.length))
      ∧ ((ed.Arguments.length
              < argsVal.countP (fun f => !hasPrefix f.Typ.Name (ascii "Optional"))
            ∨ argsVal.length < ed.Arguments.length) →
          Parser.buildArgs p ed argsVal
            = (argsVal,
                .error (.incorrectNumberOfArguments argsVal.length ed.Arguments.length)))
      ∧ (∀ T : GoType, hasPrefix (GoType.Optional T).Name (ascii "Optional") = true) := by
  have hv : ¬ namedOrderViolated false ed.Arguments = true :=
    fun hv => horder ((namedOrderViolated_false _).mp hv)
  have hpos : (ed.Arguments.length
        < argsVal.countP (fun f => !hasPrefix f.Typ.Name (ascii "Optional"))
      ∨ argsVal.length < ed.Arguments.length) →
      Parser.buildArgs p ed argsVal
        = (argsVal,
            .error (.incorrectNumberOfArguments argsVal.length ed.Arguments.length)) := by
    intro h
    unfold Parser.buildArgs
    rw [if_neg hv, if_pos (by simpa [requiredArgs] using h)]
  refine ⟨⟨?_, fun h => ⟨_, _, by rw [hpos h]⟩⟩, hpos, ?_⟩
  · rintro ⟨n, m, h⟩
    by_contra hn
    unfold Parser.buildArgs at h
    rw [if_neg hv, if_neg (by simpa [requiredArgs] using hn)] at h
    have := buildArgsLoop_error p ed.Arguments 0 argsVal
      (Parser.buildArgsLoop p 0 ed.Arguments argsVal).1 (.incorrectNumberOfArguments n m)
      (Prod.ext rfl h)
    cases this
  · intro T
    simp only [hasPrefix, GoType.Name, List.isPrefixOf_iff_prefix]
    exact List.prefix_append _ _

end Ottl

namespace Ottl

/-- C15 at the editor `truncate()`: the field `Limit` is not optional. -/
theorem buildArgs_arity_witness :
    ¬ UnnamedAfterNamed noArgumentsEditor.Arguments
      ∧ Parser.buildArgs sampleArgParser noArgumentsEditor (freshRecord truncateFields)
          = (freshRecord truncateFields, .error (.incorrectNumberOfArguments 2 0)) :=
  ⟨(namedOrderViolated_false _).not.mp (by decide),
    (buildArgs_arity sampleArgParser noArgumentsEditor (freshRecord truncateFields)
      ((namedOrderViolated_false _).not.mp (by decide))).2.1 (Or.inl (by decide))⟩

/-- C16 fails on the code: the factory of `noop` returns nil default
arguments, the editor `noop(1)` supplies one argument, and `newFunctionCall`
returns the expression of the factory with no error. -/
theorem newFunctionCall_nil_default_arguments :
    noopFactory.CreateDefaultArguments = .nil
      ∧ sampleArgParser.functions noopEditor.Function = some noopFactory
      ∧ noopEditor.Arguments.length = 1
      ∧ Parser.newFunctionCall sampleArgParser noopEditor
          = some ({ exprFunc := some (ascii "noop") }, none) := by
  refine ⟨rfl, rfl, rfl, rfl⟩

theorem createFunctionCall_cases {σ : Sig} {E : Type} (f : Factory σ E)
    (args : Option (List (StructField σ))) :
    (∃ fn, f.CreateFunction args = .ok fn
        ∧ createFunctionCall f args = ({ exprFunc := some fn }, none))
      ∨ (∃ err, f.CreateFunction args = .error err
        ∧ createFunctionCall f args = ({ exprFunc := none }, some (.createFunction (.ottl err)))) := by
  unfold createFunctionCall
  cases h : f.CreateFunction args with
  | ok fn => exact Or.inl ⟨fn, rfl, rfl⟩
  | error err => exact Or.inr ⟨err, rfl, rfl⟩

/-- C17: for every editor `newFunctionCall` does one of three things. It
returns no error together with the expression holding the function that the
registered factory's `CreateFunction` built; or it returns an error together
with the zero `Expr`; or it returns nothing, because `buildArgs` panicked in
a reflection call. The error is the undefined-function error exactly when the
editor's function name is not in the registry, and the result then depends on
no factory. -/
theorem newFunctionCall_result {σ : Sig} {E : Type} (p : ArgParser σ E) (ed : editor σ) :
    ((∃ f args fn, p.functions ed.Function = some f ∧ f.CreateFunction args = .ok fn
          ∧ Parser.newFunctionCall p ed = some ({ exprFunc := some fn }, none))
        ∨ (∃ err, Parser.newFunctionCall p ed = some ({ exprFunc := none }, some err))
        ∨ (∃ f fields args, p.functions ed.Function = some f
            ∧ f.CreateDefaultArguments = .pointer fields
            ∧ Parser.buildArgs p ed (freshRecord fields) = (args, .panic)
            ∧ Parser.newFunctionCall p ed = none))
      ∧ ((∃ expr name, Parser.newFunctionCall p ed = some (expr, some (.undefinedFunction name)))
          ↔ p.functions ed.Function = none)
      ∧ (p.functions ed.Function = none →
          Parser.newFunctionCall p ed
            = some ({ exprFunc := none }, some (.undefinedFunction ed.Function))) := by
  have hnone : p.functions ed.Function = none →
      Parser.newFunctionCall p ed
        = some ({ exprFunc := none }, some (.undefinedFunction ed.Function)) := by
    intro h
    unfold Parser.newFunctionCall
    rw [h]
  cases hf : p.functions ed.Function with
  | none =>
    have h := hnone hf
    exact ⟨Or.inr (Or.inl ⟨_, h⟩), ⟨fun _ => rfl, fun _ => ⟨_, _, h⟩⟩, fun _ => h⟩
  | some f =>
    have key :
        (∃ args fn, f.CreateFunction args = .ok fn
            ∧ Parser.newFunctionCall p ed = some ({ exprFunc := some fn }, none))
          ∨ (∃ err, Parser.newFunctionCall p ed = some ({ exprFunc := none }, some err)
              ∧ ∀ name, err ≠ .undefinedFunction name)
          ∨ (∃ fields args, f.CreateDefaultArguments = .pointer fields
              ∧ Parser.buildArgs p ed (freshRecord fields) = (args, .panic)
              ∧ Parser.newFunctionCall p ed = none) := by
      unfold Parser.newFunctionCall
      rw [hf]
      simp only
      cases hc : f.CreateDefaultArguments with
      | nil =>
        simp only
        rcases createFunctionCall_cases f none with ⟨fn, h1, h2⟩ | ⟨err, h1, h2⟩
        · rw [h2]; exact Or.inl ⟨none, fn, h1, rfl⟩
        · rw [h2]; exact Or.inr (Or.inl ⟨_, rfl, fun name hne => by cases hne⟩)
      | nonPointer =>
        exact Or.inr (Or.inl ⟨_, rfl, fun name hne => by cases hne⟩)
      | pointer fields =>
        simp only
        rcases hb : Parser.buildArgs p ed (freshRecord fields) with ⟨args, r⟩
        cases r with
        | panic => exact Or.inr (Or.inr ⟨fields, args, rfl, hb, rfl⟩)
        | error err => exact Or.inr (Or.inl ⟨_, rfl, fun name hne => by cases hne⟩)
        | ok u =>
          simp only
          rcases createFunctionCall_cases f (some args) with ⟨fn, h1, h2⟩ | ⟨err, h1, h2⟩
          · rw [h2]; exact Or.inl ⟨some args, fn, h1, rfl⟩
          · rw [h2]; exact Or.inr (Or.inl ⟨_, rfl, fun name hne => by cases hne⟩)
    refine ⟨?_, ?_, fun h => by cases h⟩
    · rcases key with ⟨args, fn, h1, h2⟩ | ⟨err, h1, _⟩ | ⟨fields, args, h1, h2, h3⟩
      · exact Or.inl ⟨f, args, fn, rfl, h1, h2⟩
      · exact Or.inr (Or.inl ⟨err, h1⟩)
      · exact Or.inr (Or.inr ⟨f, fields, args, rfl, h1, h2, h3⟩)
    · constructor
      · rintro ⟨expr, name, he⟩
        rcases key with ⟨args, fn, _, h2⟩ | ⟨err, h1, h3⟩ | ⟨fields, args, _, _, h3⟩
        · rw [h2] at he; cases he
        · rw [h1] at he
          simp only [Option.some.injEq, Prod.mk.injEq] at he
          exact absurd he.2 (h3 name)
        · rw [h3] at he; cases he
      · intro h; cases h

/-- C17 at the editors `truncate(5, suffix="...")`, which binds, and
`truncate()`, which does not, and at a function that is not registered. -/
theorem newFunctionCall_result_witness :
    Parser.newFunctionCall sampleArgParser truncateEditor
        = some ({ exprFunc := some (ascii "truncate") }, none)
      ∧ Parser.newFunctionCall sampleArgParser noArgumentsEditor
        = some ({ exprFunc := none },
            some (.parsingArguments (ascii "truncate") (.incorrectNumberOfArguments 2 0)))
      ∧ sampleArgParser.functions (ascii "missing") = none
      ∧ Parser.newFunctionCall sampleArgParser { Function := ascii "missing", Arguments := [] }
        = some ({ exprFunc := none }, some (.undefinedFunction (ascii "missing"))) :=
  ⟨rfl, rfl, rfl,
    (newFunctionCall_result sampleArgParser { Function := ascii "missing", Arguments := [] }).2.2
      rfl⟩

/-- C18: the zero `Optional[T]` is empty and `GetOr(d)` returns `d`; after a
`setWrappedValue(v)` that returns no error, which is the case when `v` is of
type `T`, and for `NewTestingOptional(v)`, the Optional is not empty and `Get()`
and `GetOr(d)` return `v`; `setWrappedValue` with a value that is not of type
`T` returns an error and leaves the Optional as it was. -/
theorem Optional_semantics {V : Type} (typeAssert : V → GoType → Bool) (T : GoType)
    (zero v : V) :
    (Optional.zero T zero).IsEmpty = true
      ∧ (∀ d, (Optional.zero T zero).GetOr d = d)
      ∧ (∀ o : Optional V, typeAssert v o.T = true →
          (o.setWrappedValue typeAssert v).2 = none)
      ∧ (∀ o : Optional V, (o.setWrappedValue typeAssert v).2 = none →
          (o.setWrappedValue typeAssert v).1.IsEmpty = false
            ∧ (o.setWrappedValue typeAssert v).1.Get = v
            ∧ ∀ d, (o.setWrappedValue typeAssert v).1.GetOr d = v)
      ∧ ((NewTestingOptional T v).IsEmpty = false ∧ (NewTestingOptional T v).Get = v
          ∧ ∀ d, (NewTestingOptional T v).GetOr d = v)
      ∧ (∀ o : Optional V, typeAssert v o.T = false →
          ∃ err, o.setWrappedValue typeAssert v = (o, some err)) := by
  refine ⟨rfl, fun d => rfl, ?_, ?_, ⟨rfl, rfl, fun d => rfl⟩, ?_⟩
  · intro o h
    simp [Optional.setWrappedValue, h]
  · intro o h
    unfold Optional.setWrappedValue at h ⊢
    split
    · exact ⟨rfl, rfl, fun d => rfl⟩
    · rename_i hn
      rw [if_neg hn] at h
      cases h
  · intro o h
    exact ⟨.cannotSetOptional o.T, by simp [Optional.setWrappedValue, h]⟩

/-- C18 at an `Optional[string]`: the string `a` is set, the integer 1 is
refused. -/
theorem Optional_semantics_witness :
    sampleTypeAssert (.string (ascii "a")) (.basic (ascii "string") .String) = true
      ∧ sampleTypeAssert (.int64 1) (.basic (ascii "string") .String) = false
      ∧ ((Optional.zero (.basic (ascii "string") .String) (Val.nil : Val sampleSig)).setWrappedValue
            sampleTypeAssert (.string (ascii "a"))).2 = none
      ∧ ∃ err, (Optional.zero (.basic (ascii "string") .String)
            (Val.nil : Val sampleSig)).setWrappedValue sampleTypeAssert (.int64 1)
          = (Optional.zero (.basic (ascii "string") .String) Val.nil, some err) :=
  ⟨by decide, by decide,
    (Optional_semantics sampleTypeAssert (.basic (ascii "string") .String) Val.nil
      (.string (ascii "a"))).2.2.1 _ (by decide),
    (Optional_semantics sampleTypeAssert (.basic (ascii "string") .String) Val.nil
      (.int64 1)).2.2.2.2.2 _ (by decide)⟩

end Ottl

/-! ## The fields of the argument record after `buildArgs` -/

namespace Ottl

theorem hasPrefix_Optional_Name (T : GoType) :
    hasPrefix (GoType.Optional T).Name (ascii "Optional") = true := by
  simp only [hasPrefix, GoType.Name, List.isPrefixOf_iff_prefix]
  exact List.prefix_append _ _

theorem recordType_freshRecord {σ : Sig} (fields : List (GoString × GoType)) :
    recordType (freshRecord fields : List (StructField σ)) = fields := by
  simp [recordType, freshRecord, Function.comp_def]

theorem recordType_setFieldValue {σ : Sig} (argsVal : List (StructField σ)) (k : Nat)
    (v : Val σ) : recordType (setFieldValue argsVal k v) = recordType argsVal := by
  induction argsVal generalizing k with
  | nil => cases k <;> rfl
  | cons f rest ih =>
    cases k with
    | zero => rfl
    | succ k =>
      have := ih k
      simp only [recordType, setFieldValue, List.modify_succ_cons, List.map_cons] at this ⊢
      rw [this]

theorem recordType_getElem? {σ : Sig} (argsVal : List (StructField σ)) (k : Nat) :
    (recordType argsVal)[k]? = (argsVal[k]?).map (fun f => (f.Name, f.Typ)) := by
  simp [recordType]

theorem getElem?_Typ_of_recordType {σ : Sig} {a b : List (StructField σ)}
    (h : recordType a = recordType b) (k : Nat) :
    (a[k]?).map (fun f => f.Typ) = (b[k]?).map (fun f => f.Typ) := by
  have h1 := congrArg (fun l => (l[k]?).map Prod.snd) h
  simpa [recordType_getElem?, Function.comp_def] using h1

theorem fieldByName_congr {σ : Sig} (name : GoString) :
    ∀ (a b : List (StructField σ)), recordType a = recordType b →
      fieldByName name a = fieldByName name b := by
  intro a
  induction a with
  | nil =>
    intro b h
    cases b with
    | nil => rfl
    | cons g rest => simp [recordType] at h
  | cons f rest ih =>
    intro b h
    cases b with
    | nil => simp [recordType] at h
    | cons g rest2 =>
      simp only [recordType, List.map_cons, List.cons.injEq, Prod.mk.injEq] at h
      obtain ⟨⟨hn, _⟩, ht⟩ := h
      simp only [fieldByName, hn]
      rw [ih rest2 ht]

theorem targetField_congr {σ : Sig} {E : Type} (p : ArgParser σ E)
    {a b : List (StructField σ)} (h : recordType a = recordType b) (i : Nat)
    (edArg : argument σ) :
    Parser.targetField p a i edArg = Parser.targetField p b i edArg := by
  have hl : a.length = b.length := by
    simpa [recordType] using congrArg List.length h
  unfold Parser.targetField
  rw [fieldByName_congr _ a b h, hl]

theorem setFieldValue_getElem?_ne {σ : Sig} (argsVal : List (StructField σ)) {k j : Nat}
    (v : Val σ) (h : k ≠ j) : (setFieldValue argsVal k v)[j]? = argsVal[j]? := by
  simp [setFieldValue, List.getElem?_modify_ne _ _ h]

theorem setFieldValue_getElem?_value {σ : Sig} (argsVal : List (StructField σ)) (k : Nat)
    (v : Val σ) (field : StructField σ) (h : argsVal[k]? = some field) :
    ((setFieldValue argsVal k v)[k]?).map (fun f => f.value) = some v := by
  simp [setFieldValue, h]

theorem Optional_setWrappedValue_ok {V : Type} (typeAssert : V → GoType → Bool)
    (o o2 : Optional V) (v : V) (h : o.setWrappedValue typeAssert v = (o2, none)) :
    o2.hasValue = true ∧ o2.val = v := by
  unfold Optional.setWrappedValue at h
  split at h
  · cases h; exact ⟨rfl, rfl⟩
  · cases h

/-- An iteration of the loop of `buildArgs` changes at most the value of the
field its argument targets. -/
theorem buildArgsStep_frame {σ : Sig} {E : Type} (p : ArgParser σ E) (i : Nat)
    (edArg : argument σ) (argsVal argsVal2 : List (StructField σ)) (r : BindResult Unit)
    (h : Parser.buildArgsStep p i edArg argsVal = (argsVal2, r)) :
    argsVal2 = argsVal
      ∨ ∃ k v, Parser.targetField p argsVal i edArg = .ok k
          ∧ argsVal2 = setFieldValue argsVal k v := by
  unfold Parser.buildArgsStep at h
  split at h
  · cases h; exact Or.inl rfl
  · cases h; exact Or.inl rfl
  · rename_i k htf
    (repeat' split at h) <;> first
      | (cases h; exact Or.inl rfl)
      | (cases h; exact Or.inr ⟨k, _, htf, rfl⟩)

theorem buildArgsStep_recordType {σ : Sig} {E : Type} (p : ArgParser σ E) (i : Nat)
    (edArg : argument σ) (argsVal argsVal2 : List (StructField σ)) (r : BindResult Unit)
    (h : Parser.buildArgsStep p i edArg argsVal = (argsVal2, r)) :
    recordType argsVal2 = recordType argsVal := by
  rcases buildArgsStep_frame p i edArg argsVal argsVal2 r h with h1 | ⟨k, v, _, h1⟩
  · rw [h1]
  · rw [h1, recordType_setFieldValue]

theorem buildArgsStep_other {σ : Sig} {E : Type} (p : ArgParser σ E) (i : Nat)
    (edArg : argument σ) (argsVal argsVal2 : List (StructField σ)) (r : BindResult Unit)
    (h : Parser.buildArgsStep p i edArg argsVal = (argsVal2, r)) (j : Nat)
    (hj : Parser.targetField p argsVal i edArg ≠ .ok j) :
    argsVal2[j]? = argsVal[j]? := by
  rcases buildArgsStep_frame p i edArg argsVal argsVal2 r h with h1 | ⟨k, v, htf, h1⟩
  · rw [h1]
  · rw [h1]
    apply setFieldValue_getElem?_ne
    rintro rfl
    exact hj htf

end Ottl

namespace Ottl

/-- An iteration of the loop of `buildArgs` that returns no error for a field
of type `Optional[T]` leaves in the field the value built for its argument
from the type `T`. -/
theorem buildArgsStep_ok_optional {σ : Sig} {E : Type} (p : ArgParser σ E) (i : Nat)
    (edArg : argument σ) (argsVal argsVal2 : List (StructField σ))
    (h : Parser.buildArgsStep p i edArg argsVal = (argsVal2, .ok ())) :
    ∃ k field, Parser.targetField p argsVal i edArg = .ok k ∧ argsVal[k]? = some field
      ∧ ∀ T, field.Typ = .Optional T →
          ∃ val o, (Parser.buildArgsValue p i edArg true T field.value).2 = .ok val
            ∧ argsVal2 = setFieldValue argsVal k (.Optional o)
            ∧ o.hasValue = true ∧ o.val = val := by
  unfold Parser.buildArgsStep at h
  split at h
  · cases h
  · cases h
  · rename_i k htf
    split at h
    · cases h
    · rename_i field hfield
      refine ⟨k, field, htf, hfield, ?_⟩
      intro T hT
      rw [hT] at h
      simp only [hasPrefix_Optional_Name, if_true] at h
      split at h
      · cases h
      · cases h
      · rename_i fv val hval
        split at h
        · rename_i optionalFieldRef
          split at h
          · cases h
          · rename_i o hset
            cases h
            obtain ⟨h1, h2⟩ := Optional_setWrappedValue_ok _ _ _ _ hset
            exact ⟨val, o, by rw [hval], rfl, h1, h2⟩
        · cases h

end Ottl

namespace Ottl

/-- The loop of `buildArgs` keeps the names and types of the fields, and the
fields that none of its arguments targets. -/
theorem buildArgsLoop_frame {σ : Sig} {E : Type} (p : ArgParser σ E)
    (rest : List (argument σ)) :
    ∀ (i : Nat) (argsVal argsVal2 : List (StructField σ)) (r : BindResult Unit),
      Parser.buildArgsLoop p i rest argsVal = (argsVal2, r) →
      recordType argsVal2 = recordType argsVal
        ∧ ∀ k, (∀ j a, rest[j]? = some a →
              Parser.targetField p argsVal (i + j) a ≠ .ok k) →
            argsVal2[k]? = argsVal[k]? := by
  induction rest with
  | nil =>
    intro i argsVal argsVal2 r h
    simp only [Parser.buildArgsLoop] at h
    cases h
    exact ⟨rfl, fun _ _ => rfl⟩
  | cons edArg rest ih =>
    intro i argsVal argsVal2 r h
    have hhead : ∀ k, (∀ j a, (edArg :: rest)[j]? = some a →
        Parser.targetField p argsVal (i + j) a ≠ .ok k) →
        Parser.targetField p argsVal i edArg ≠ .ok k := fun k hk => by simpa using hk 0 edArg (by simp)
    simp only [Parser.buildArgsLoop] at h
    split at h
    · rename_i argsVal1 _ hstep
      have hty := buildArgsStep_recordType p i edArg argsVal argsVal1 _ hstep
      obtain ⟨h1, h2⟩ := ih (i + 1) argsVal1 argsVal2 r h
      refine ⟨h1.trans hty, fun k hk => ?_⟩
      rw [h2 k, buildArgsStep_other p i edArg argsVal argsVal1 _ hstep k (hhead k hk)]
      intro j a hj
      rw [targetField_congr p hty, Nat.add_assoc, Nat.add_comm 1 j]
      exact hk (j + 1) a (by simpa using hj)
    · rename_i argsVal1 err hstep
      cases h
      exact ⟨buildArgsStep_recordType p i edArg argsVal _ _ hstep,
        fun k hk => buildArgsStep_other p i edArg argsVal _ _ hstep k (hhead k hk)⟩
    · rename_i argsVal1 hstep
      cases h
      exact ⟨buildArgsStep_recordType p i edArg argsVal _ _ hstep,
        fun k hk => buildArgsStep_other p i edArg argsVal _ _ hstep k (hhead k hk)⟩

/-- After the loop of `buildArgs` returned no error, a field of type
`Optional[T]` holds the value built for the last argument that targets it,
from the type `T` and the value the field had when that argument was
reached. -/
theorem buildArgsLoop_last {σ : Sig} {E : Type} (p : ArgParser σ E)
    (rest : List (argument σ)) :
    ∀ (i : Nat) (argsVal argsVal2 : List (StructField σ)),
      Parser.buildArgsLoop p i rest argsVal = (argsVal2, .ok ()) →
      ∀ (k : Nat) (T : GoType) (j : Nat) (a : argument σ),
        (argsVal[k]?).map (fun f => f.Typ) = some (.Optional T) →
        rest[j]? = some a →
        Parser.targetField p argsVal (i + j) a = .ok k →
        (∀ j2 a2, j < j2 → rest[j2]? = some a2 →
          Parser.targetField p argsVal (i + j2) a2 ≠ .ok k) →
        ∃ before val o,
          (Parser.buildArgsLoop p i (rest.take j) argsVal).1[k]? = some before
            ∧ (Parser.buildArgsValue p (i + j) a true T before.value).2 = .ok val
            ∧ (argsVal2[k]?).map (fun f => f.value) = some (.Optional o)
            ∧ o.hasValue = true ∧ o.val = val := by
  induction rest with
  | nil =>
    intro i argsVal argsVal2 _ k T j a _ hj
    simp at hj
  | cons edArg rest ih =>
    intro i argsVal argsVal2 h k T j a hT hj htf hlast
    simp only [Parser.buildArgsLoop] at h
    split at h
    · rename_i argsVal1 _ hstep
      have hty := buildArgsStep_recordType p i edArg argsVal argsVal1 _ hstep
      cases j with
      | zero =>
        simp only [List.getElem?_cons_zero, Option.some.injEq] at hj
        subst hj
        obtain ⟨k2, field, htf2, hfield, hopt⟩ :=
          buildArgsStep_ok_optional p i edArg argsVal argsVal1 hstep
        rw [Nat.add_zero] at htf
        rw [htf] at htf2
        cases htf2
        rw [hfield] at hT
        simp only [Option.map_some', Option.some.injEq] at hT
        obtain ⟨val, o, hval, hrec, ho1, ho2⟩ := hopt T hT
        refine ⟨field, val, o, ?_, ?_, ?_, ho1, ho2⟩
        · simpa [Parser.buildArgsLoop] using hfield
        · rw [Nat.add_zero]; exact hval
        · have hkeep := (buildArgsLoop_frame p rest (i + 1) argsVal1 argsVal2 _ h).2 k
            (by
              intro j2 a2 hj2
              rw [targetField_congr p hty, Nat.add_assoc, Nat.add_comm 1 j2]
              exact hlast (j2 + 1) a2 (Nat.succ_pos j2) (by simpa using hj2))
          rw [hkeep, hrec]
          exact setFieldValue_getElem?_value argsVal k _ field hfield
      | succ j =>
        simp only [List.getElem?_cons_succ] at hj
        have hT1 : (argsVal1[k]?).map (fun f => f.Typ) = some (.Optional T) := by
          rw [getElem?_Typ_of_recordType hty k]; exact hT
        have e : ∀ n : Nat, i + 1 + n = i + (n + 1) := fun n => by omega
        obtain ⟨before, val, o, hb, hval, hres, ho1, ho2⟩ :=
          ih (i + 1) argsVal1 argsVal2 h k T j a hT1 hj
            (by rw [targetField_congr p hty, e]; exact htf)
            (by
              intro j2 a2 hlt hj2
              rw [targetField_congr p hty, e]
              exact hlast (j2 + 1) a2 (Nat.succ_lt_succ hlt) (by simpa using hj2))
        refine ⟨before, val, o, ?_, ?_, hres, ho1, ho2⟩
        · simp only [List.take_succ_cons, Parser.buildArgsLoop, hstep]
          exact hb
        · rw [← e]; exact hval
    · cases h
    · cases h

end Ottl

namespace Ottl

/-- C19 fails on the code as stated: in `truncate(suffix="a", suffix="b")`
both arguments target the field `Suffix` of type `Optional[string]`, `buildArgs`
returns no error, the value built for the first argument is the string `a`,
and the field holds the string `b`. -/
theorem buildArgs_optional_fields_counterexample :
    Parser.buildArgs sampleArgParser sameNameEditor (freshRecord truncateFields)
        = ([⟨ascii "Limit", .basic (ascii "int64") .Int64, .nil⟩,
            ⟨ascii "Suffix", .Optional (.basic (ascii "string") .String),
              .Optional ⟨.basic (ascii "string") .String, .string (ascii "b"), true⟩⟩],
           .ok ())
      ∧ sameNameEditor.Arguments[0]? = some ⟨ascii "suffix", stringValue (ascii "a"), none⟩
      ∧ Parser.targetField sampleArgParser (freshRecord truncateFields) 0
          ⟨ascii "suffix", stringValue (ascii "a"), none⟩ = .ok 1
      ∧ (Parser.buildArgsValue sampleArgParser 0 ⟨ascii "suffix", stringValue (ascii "a"), none⟩
          true (.basic (ascii "string") .String)
          (zeroOf (.Optional (.basic (ascii "string") .String)))).2 = .ok (.string (ascii "a"))
      ∧ (Optional.mk (.basic (ascii "string") .String)
            (Val.string (ascii "b") : Val sampleSig) true).Get
          ≠ .string (ascii "a") := by
  refine ⟨rfl, rfl, rfl, rfl, ?_⟩
  intro h
  simp only [Optional.Get] at h
  injection h with h
  revert h
  decide

/-- C19, amended: when `buildArgs` returns no error over a fresh argument
record, each field of type `Optional[T]` that no actual argument targets is
left empty, and each one that some actual argument targets is not empty and
holds the value built, from the wrapped type `T`, for the last argument that
targets it. -/
theorem buildArgs_optional_fields {σ : Sig} {E : Type} (p : ArgParser σ E) (ed : editor σ)
    (fields : List (GoString × GoType)) (args : List (StructField σ))
    (h : Parser.buildArgs p ed (freshRecord fields) = (args, .ok ())) :
    ∀ (k : Nat) (name : GoString) (T : GoType), fields[k]? = some (name, .Optional T) →
      ((∀ j a, ed.Arguments[j]? = some a →
            Parser.targetField p (freshRecord fields) j a ≠ .ok k) →
          ∃ o, (args[k]?).map (fun f => f.value) = some (.Optional o) ∧ o.IsEmpty = true)
        ∧ (∀ j a, ed.Arguments[j]? = some a →
            Parser.targetField p (freshRecord fields) j a = .ok k →
            (∀ j2 a2, j < j2 → ed.Arguments[j2]? = some a2 →
              Parser.targetField p (freshRecord fields) j2 a2 ≠ .ok k) →
            ∃ before val o,
              (Parser.buildArgsLoop p 0 (ed.Arguments.take j) (freshRecord fields)).1[k]?
                  = some before
                ∧ (Parser.buildArgsValue p j a true T before.value).2 = .ok val
                ∧ (args[k]?).map (fun f => f.value) = some (.Optional o)
                ∧ o.IsEmpty = false ∧ o.Get = val) := by
  intro k name T hk
  have hloop : Parser.buildArgsLoop p 0 ed.Arguments (freshRecord fields) = (args, .ok ()) := by
    unfold Parser.buildArgs at h
    split at h
    · cases h
    · split at h
      · cases h
      · exact h
  have hfresh : (freshRecord fields : List (StructField σ))[k]?
      = some ⟨name, .Optional T, zeroOf (.Optional T)⟩ := by
    simp [freshRecord, hk]
  constructor
  · intro hno
    have hkeep := (buildArgsLoop_frame p ed.Arguments 0 _ _ _ hloop).2 k
      (fun j a hj => by rw [Nat.zero_add]; exact hno j a hj)
    refine ⟨⟨T, zeroOf T, false⟩, ?_, rfl⟩
    rw [hkeep, hfresh]
    rfl
  · intro j a hj htf hlast
    obtain ⟨before, val, o, hb, hval, hres, ho1, ho2⟩ :=
      buildArgsLoop_last p ed.Arguments 0 _ _ hloop k T j a (by rw [hfresh]; rfl) hj
        (by rw [Nat.zero_add]; exact htf)
        (fun j2 a2 hlt hj2 => by rw [Nat.zero_add]; exact hlast j2 a2 hlt hj2)
    rw [Nat.zero_add] at hval
    exact ⟨before, val, o, hb, hval, hres, by simp [Optional.IsEmpty, ho1], ho2⟩

end Ottl

namespace Ottl

/-- C19 at the editor `truncate(5, suffix="...")`: the field `Suffix` is
targeted by the second argument only, and holds the string built for it. -/
theorem buildArgs_optional_fields_witness :
    Parser.buildArgs sampleArgParser truncateEditor (freshRecord truncateFields)
        = ([⟨ascii "Limit", .basic (ascii "int64") .Int64, .int64 5⟩,
            ⟨ascii "Suffix", .Optional stringType,
              .Optional (NewTestingOptional stringType (.string (ascii "...")))⟩], .ok ())
      ∧ ∃ before val o,
          (Parser.buildArgsLoop sampleArgParser 0 (truncateEditor.Arguments.take 1)
              (freshRecord truncateFields)).1[1]? = some before
            ∧ (Parser.buildArgsValue sampleArgParser 1 (suffixArgument (ascii "...")) true
                stringType before.value).2 = .ok val
            ∧ (([⟨ascii "Limit", .basic (ascii "int64") .Int64, .int64 5⟩,
                  ⟨ascii "Suffix", .Optional stringType,
                    .Optional (NewTestingOptional stringType (.string (ascii "...")))⟩]
                  : List (StructField sampleSig))[1]?).map (fun f => f.value)
                = some (.Optional o)
            ∧ o.IsEmpty = false ∧ o.Get = val :=
  ⟨rfl,
    (buildArgs_optional_fields sampleArgParser truncateEditor truncateFields _ rfl
      1 (ascii "Suffix") stringType rfl).2 1 (suffixArgument (ascii "...")) rfl rfl
      (fun j2 a2 hlt hj2 => by
        obtain ⟨hlen, _⟩ := List.getElem?_eq_some.mp hj2
        simp only [truncateEditor, List.length_cons, List.length_nil] at hlen
        omega)⟩

/-- C20 fails on the code: an `Optional[string]` that holds the string `a`
holds the string `b` after `setWrappedValue`, which returns no error; and
`buildArgs` returns no error for `truncate(suffix="a", suffix="b")`, whose two
iterations both assign the field `Suffix`. -/
theorem Optional_set_once_counterexample :
    (NewTestingOptional stringType (Val.string (ascii "a") : Val sampleSig)).IsEmpty = false
      ∧ sampleTypeAssert (.string (ascii "b")) stringType = true
      ∧ (NewTestingOptional stringType (Val.string (ascii "a"))).setWrappedValue
            sampleTypeAssert (.string (ascii "b"))
          = (NewTestingOptional stringType (.string (ascii "b")), none)
      ∧ (NewTestingOptional stringType (Val.string (ascii "b") : Val sampleSig)).Get
          ≠ (NewTestingOptional stringType (Val.string (ascii "a") : Val sampleSig)).Get
      ∧ Parser.buildArgsStep sampleArgParser 0 (suffixArgument (ascii "a"))
            (freshRecord truncateFields)
          = (suffixRecord (NewTestingOptional stringType (.string (ascii "a"))), .ok ())
      ∧ Parser.buildArgsStep sampleArgParser 1 (suffixArgument (ascii "b"))
            (suffixRecord (NewTestingOptional stringType (.string (ascii "a"))))
          = (suffixRecord (NewTestingOptional stringType (.string (ascii "b"))), .ok ())
      ∧ Parser.buildArgs sampleArgParser sameNameEditor (freshRecord truncateFields)
          = (suffixRecord (NewTestingOptional stringType (.string (ascii "b"))), .ok ()) := by
  refine ⟨rfl, by decide, rfl, ?_, rfl, rfl, rfl⟩
  intro h
  simp only [Optional.Get, NewTestingOptional] at h
  injection h with h
  revert h
  decide

/-- C20, amended: an Optional can be set more than once. For every Optional
that already holds a value, `setWrappedValue` with a value of its type `T`
returns no error and replaces the held value, changing nothing else; and an
iteration of the loop of
`buildArgs` that returns no error for an argument targeting a field whose
Optional already holds a value leaves in the field the value built for that
argument. -/
theorem Optional_setWrappedValue_replaces {σ : Sig} {E : Type} (p : ArgParser σ E)
    (o : Optional (Val σ)) (v : Val σ) (hheld : o.hasValue = true)
    (hv : p.typeAssert v o.T = true) :
    o.setWrappedValue p.typeAssert v = ({ o with val := v }, none)
      ∧ (o.setWrappedValue p.typeAssert v).1.IsEmpty = false
      ∧ (o.setWrappedValue p.typeAssert v).1.Get = v
      ∧ ∀ (i : Nat) (edArg : argument σ) (argsVal argsVal2 : List (StructField σ)) (k : Nat)
          (field : StructField σ) (T : GoType),
          Parser.buildArgsStep p i edArg argsVal = (argsVal2, .ok ()) →
          Parser.targetField p argsVal i edArg = .ok k →
          argsVal[k]? = some field → field.Typ = .Optional T → field.value = .Optional o →
          ∃ val o2, (Parser.buildArgsValue p i edArg true T (.Optional o)).2 = .ok val
            ∧ (argsVal2[k]?).map (fun f => f.value) = some (.Optional o2)
            ∧ o2.IsEmpty = false ∧ o2.Get = val := by
  have hset : o.setWrappedValue p.typeAssert v = ({ o with val := v }, none) := by
    simp [Optional.setWrappedValue, hv, hheld]
  refine ⟨hset, by rw [hset]; simp [Optional.IsEmpty, hheld], by rw [hset]; rfl, ?_⟩
  intro i edArg argsVal argsVal2 k field T hstep htf hfield hT hval
  obtain ⟨k2, field2, htf2, hfield2, hopt⟩ :=
    buildArgsStep_ok_optional p i edArg argsVal argsVal2 hstep
  rw [htf] at htf2
  cases htf2
  rw [hfield] at hfield2
  cases hfield2
  obtain ⟨val, o2, h1, h2, h3, h4⟩ := hopt T hT
  rw [hval] at h1
  refine ⟨val, o2, h1, ?_, by simp [Optional.IsEmpty, h3], h4⟩
  rw [h2]
  exact setFieldValue_getElem?_value argsVal k _ field hfield

/-- C20 at an `Optional[string]` holding the string `a`, set to the string
`b`, and at the second iteration of `buildArgs` for
`truncate(suffix="a", suffix="b")`. -/
theorem Optional_setWrappedValue_replaces_witness :
    (NewTestingOptional stringType (Val.string (ascii "a") : Val sampleSig)).hasValue = true
      ∧ sampleArgParser.typeAssert (.string (ascii "b")) stringType = true
      ∧ (NewTestingOptional stringType (Val.string (ascii "a"))).setWrappedValue
            sampleArgParser.typeAssert (.string (ascii "b"))
          = (NewTestingOptional stringType (.string (ascii "b")), none)
      ∧ ∃ val o2,
          (Parser.buildArgsValue sampleArgParser 1 (suffixArgument (ascii "b")) true stringType
              (.Optional (NewTestingOptional stringType (.string (ascii "a"))))).2 = .ok val
            ∧ ((suffixRecord (NewTestingOptional stringType (.string (ascii "b"))))[1]?).map
                (fun f => f.value) = some (.Optional o2)
            ∧ o2.IsEmpty = false ∧ o2.Get = val :=
  ⟨rfl, by decide,
    (Optional_setWrappedValue_replaces sampleArgParser
      (NewTestingOptional stringType (.string (ascii "a"))) (.string (ascii "b")) rfl
      (by decide)).1,
    (Optional_setWrappedValue_replaces sampleArgParser
      (NewTestingOptional stringType (.string (ascii "a"))) (.string (ascii "b")) rfl
      (by decide)).2.2.2 1 (suffixArgument (ascii "b"))
      (suffixRecord (NewTestingOptional stringType (.string (ascii "a"))))
      (suffixRecord (NewTestingOptional stringType (.string (ascii "b")))) 1
      ⟨ascii "Suffix", .Optional stringType,
        .Optional (NewTestingOptional stringType (.string (ascii "a")))⟩ stringType
      rfl rfl rfl rfl rfl⟩

end Ottl

/-! ## The value built for one argument -/

namespace Ottl

/-- C21: for a target type named `string`, `int64`, `float64` or `bool`,
`buildArg` returns a value if and only if the argument holds a literal of that
kind (the field `String`, `Literal.Int`, `Literal.Float` or `Bool` is set), and
the value is then the literal; otherwise it returns the error `must be a
string`, `must be an int`, `must be a float` or `must be a bool`. So an
argument that is just an integer literal is refused for `float64`, and one that
is just a float literal for `int64`. -/
theorem buildArg_scalar {σ : Sig} {E : Type} (p : ArgParser σ E) (argVal : value σ)
    (argType : GoType) :
    (argType.Name = ascii "string" →
        (∀ s, argVal.String = some s → Parser.buildArg p argVal argType = .ok (.string s))
          ∧ (argVal.String = none → Parser.buildArg p argVal argType = .error .mustBeString))
      ∧ (argType.Name = ascii "float64" →
        (∀ pth f i c, argVal.Literal = some (.mk pth (some f) i c) →
            Parser.buildArg p argVal argType = .ok (.float64 f))
          ∧ (argVal.Literal = none → Parser.buildArg p argVal argType = .error .mustBeFloat)
          ∧ (∀ pth i c, argVal.Literal = some (.mk pth none i c) →
              Parser.buildArg p argVal argType = .error .mustBeFloat))
      ∧ (argType.Name = ascii "int64" →
        (∀ pth f i c, argVal.Literal = some (.mk pth f (some i) c) →
            Parser.buildArg p argVal argType = .ok (.int64 i))
          ∧ (argVal.Literal = none → Parser.buildArg p argVal argType = .error .mustBeInt)
          ∧ (∀ pth f c, argVal.Literal = some (.mk pth f none c) →
              Parser.buildArg p argVal argType = .error .mustBeInt))
      ∧ (argType.Name = ascii "bool" →
        (∀ b, argVal.Bool = some b → Parser.buildArg p argVal argType = .ok (.bool b))
          ∧ (argVal.Bool = none → Parser.buildArg p argVal argType = .error .mustBeBool)) := by
  have e1 : ascii "string" ≠ ascii "Enum" := by decide
  have e2 : ascii "float64" ≠ ascii "Enum" := by decide
  have e3 : ascii "float64" ≠ ascii "string" := by decide
  have e4 : ascii "int64" ≠ ascii "Enum" := by decide
  have e5 : ascii "int64" ≠ ascii "string" := by decide
  have e6 : ascii "int64" ≠ ascii "float64" := by decide
  have e7 : ascii "bool" ≠ ascii "Enum" := by decide
  have e8 : ascii "bool" ≠ ascii "string" := by decide
  have e9 : ascii "bool" ≠ ascii "float64" := by decide
  have e10 : ascii "bool" ≠ ascii "int64" := by decide
  refine ⟨fun hn => ⟨?_, ?_⟩, fun hn => ⟨?_, ?_, ?_⟩, fun hn => ⟨?_, ?_, ?_⟩,
    fun hn => ⟨?_, ?_⟩⟩
  · intro s hs
    unfold Parser.buildArg
    rw [hn, if_neg e1, if_pos rfl, hs]
  · intro hs
    unfold Parser.buildArg
    rw [hn, if_neg e1, if_pos rfl, hs]
  · intro pth f i c hl
    unfold Parser.buildArg
    rw [hn, if_neg e2, if_neg e3, if_pos rfl, hl]
  · intro hl
    unfold Parser.buildArg
    rw [hn, if_neg e2, if_neg e3, if_pos rfl, hl]
  · intro pth i c hl
    unfold Parser.buildArg
    rw [hn, if_neg e2, if_neg e3, if_pos rfl, hl]
  · intro pth f i c hl
    unfold Parser.buildArg
    rw [hn, if_neg e4, if_neg e5, if_neg e6, if_pos rfl, hl]
  · intro hl
    unfold Parser.buildArg
    rw [hn, if_neg e4, if_neg e5, if_neg e6, if_pos rfl, hl]
  · intro pth f c hl
    unfold Parser.buildArg
    rw [hn, if_neg e4, if_neg e5, if_neg e6, if_pos rfl, hl]
  · intro b hb
    unfold Parser.buildArg
    rw [hn, if_neg e7, if_neg e8, if_neg e9, if_neg e10, if_pos rfl, hb]
  · intro hb
    unfold Parser.buildArg
    rw [hn, if_neg e7, if_neg e8, if_neg e9, if_neg e10, if_pos rfl, hb]

end Ottl

namespace Ottl

/-- C21 at a string literal, an integer literal and a float literal. -/
theorem buildArg_scalar_witness :
    Parser.buildArg sampleArgParser (stringValue (ascii "a")) stringType = .ok (.string (ascii "a"))
      ∧ Parser.buildArg sampleArgParser (intValue 5) (.basic (ascii "float64") .Float64)
          = .error .mustBeFloat
      ∧ Parser.buildArg sampleArgParser (floatValue 2) (.basic (ascii "int64") .Int64)
          = .error .mustBeInt :=
  ⟨(buildArg_scalar sampleArgParser (stringValue (ascii "a")) stringType).1 rfl |>.1 _ rfl,
    (buildArg_scalar sampleArgParser (intValue 5) (.basic (ascii "float64") .Float64)).2.1 rfl
      |>.2.2 _ _ _ rfl,
    (buildArg_scalar sampleArgParser (floatValue 2) (.basic (ascii "int64") .Int64)).2.2.1 rfl
      |>.2.2 _ _ _ rfl⟩

theorem hasPrefix_first (name pre1 pre2 : GoString) (h1 : hasPrefix name pre1 = true)
    (h2 : hasPrefix name pre2 = true) :
    pre1.head? = none ∨ pre2.head? = none ∨ pre1.head? = pre2.head? := by
  cases pre1 with
  | nil => exact Or.inl rfl
  | cons a as =>
    cases pre2 with
    | nil => exact Or.inr (Or.inl rfl)
    | cons b bs =>
      cases name with
      | nil => simp [hasPrefix] at h1
      | cons c cs =>
        simp only [hasPrefix, List.isPrefixOf, Bool.and_eq_true, beq_iff_eq] at h1 h2
        refine Or.inr (Or.inr ?_)
        simp [h1.1, h2.1]

theorem buildStandardGetterSetter_ne_mustBePath {σ : Sig} {E : Type} (p : ArgParser σ E)
    (name : GoString) (getter : Val σ) :
    Parser.buildStandardGetterSetter p name getter ≠ .error .mustBePath := by
  intro h
  unfold Parser.buildStandardGetterSetter at h
  by_cases hc : (hasPrefix name (ascii "Setter") || hasPrefix name (ascii "GetSetter")
      || hasPrefix name (ascii "Getter")) = true
  · rw [if_pos hc] at h
    cases h
  rw [if_neg hc] at h
  clear hc
  by_cases hc : hasPrefix name (ascii "StringGetter") = true
  · rw [if_pos hc] at h
    cases h
  rw [if_neg hc] at h
  clear hc
  by_cases hc : hasPrefix name (ascii "StringLikeGetter") = true
  · rw [if_pos hc] at h
    cases h
  rw [if_neg hc] at h
  clear hc
  by_cases hc : hasPrefix name (ascii "FloatGetter") = true
  · rw [if_pos hc] at h
    cases h
  rw [if_neg hc] at h
  clear hc
  by_cases hc : hasPrefix name (ascii "FloatLikeGetter") = true
  · rw [if_pos hc] at h
    cases h
  rw [if_neg hc] at h
  clear hc
  by_cases hc : hasPrefix name (ascii "IntGetter") = true
  · rw [if_pos hc] at h
    cases h
  rw [if_neg hc] at h
  clear hc
  by_cases hc : hasPrefix name (ascii "IntLikeGetter") = true
  · rw [if_pos hc] at h
    cases h
  rw [if_neg hc] at h
  clear hc
  by_cases hc : hasPrefix name (ascii "PMapGetSetter") = true
  · rw [if_pos hc] at h
    split at h
    · cases h
    · cases h
  rw [if_neg hc] at h
  clear hc
  by_cases hc : hasPrefix name (ascii "PMapGetter") = true
  · rw [if_pos hc] at h
    cases h
  rw [if_neg hc] at h
  clear hc
  by_cases hc : hasPrefix name (ascii "PSliceGetter") = true
  · rw [if_pos hc] at h
    cases h
  rw [if_neg hc] at h
  clear hc
  by_cases hc : hasPrefix name (ascii "DurationGetter") = true
  · rw [if_pos hc] at h
    cases h
  rw [if_neg hc] at h
  clear hc
  by_cases hc : hasPrefix name (ascii "TimeGetter") = true
  · rw [if_pos hc] at h
    cases h
  rw [if_neg hc] at h
  clear hc
  by_cases hc : hasPrefix name (ascii "BoolGetter") = true
  · rw [if_pos hc] at h
    cases h
  rw [if_neg hc] at h
  clear hc
  by_cases hc : hasPrefix name (ascii "BoolLikeGetter") = true
  · rw [if_pos hc] at h
    cases h
  rw [if_neg hc] at h
  clear hc
  by_cases hc : hasPrefix name (ascii "ByteSliceLikeGetter") = true
  · rw [if_pos hc] at h
    cases h
  rw [if_neg hc] at h
  clear hc
  cases h

theorem buildStandardGetterSetter_getSetter {σ : Sig} {E : Type} (p : ArgParser σ E)
    (name : GoString) (getter : Val σ)
    (h : hasPrefix name (ascii "Setter") = true ∨ hasPrefix name (ascii "GetSetter") = true) :
    Parser.buildStandardGetterSetter p name getter = .ok getter := by
  unfold Parser.buildStandardGetterSetter
  rw [if_pos]
  rcases h with h | h <;> simp [h]

theorem buildStandardGetterSetter_pmapGetSetter {σ : Sig} {E : Type} (p : ArgParser σ E)
    (name : GoString) (getter : Val σ)
    (h : hasPrefix name (ascii "PMapGetSetter") = true) :
    Parser.buildStandardGetterSetter p name getter
      = if p.typeAssert getter setterType then .ok (.pmapGetSetter getter)
        else .error (.notSetter name) := by
  have hne : ∀ pre : GoString, pre.head? ≠ none →
      pre.head? ≠ (ascii "PMapGetSetter").head? → hasPrefix name pre = false := by
    intro pre h1 h2
    by_contra hc
    rw [Bool.not_eq_false] at hc
    rcases hasPrefix_first name pre (ascii "PMapGetSetter") hc h with h3 | h3 | h3
    · exact h1 h3
    · revert h3; decide
    · exact h2 h3
  unfold Parser.buildStandardGetterSetter
  rw [hne (ascii "Setter") (by decide) (by decide), hne (ascii "GetSetter") (by decide) (by decide),
    hne (ascii "Getter") (by decide) (by decide),
    hne (ascii "StringGetter") (by decide) (by decide),
    hne (ascii "StringLikeGetter") (by decide) (by decide),
    hne (ascii "FloatGetter") (by decide) (by decide),
    hne (ascii "FloatLikeGetter") (by decide) (by decide),
    hne (ascii "IntGetter") (by decide) (by decide),
    hne (ascii "IntLikeGetter") (by decide) (by decide), h]
  simp

end Ottl

namespace Ottl

theorem buildGetSetterFromPath_eq {σ : Sig} (p : Parser σ) (pth : path σ) :
    p.buildGetSetterFromPath pth
      = match p.newPath pth with
        | .error err => .error err
        | .panic => .panic
        | .ok np => p.parsePath np := by
  rw [Parser.buildGetSetterFromPath]

theorem buildArg_of_path_target {σ : Sig} {E : Type} (p : ArgParser σ E) (argVal : value σ)
    (argType : GoType)
    (hname : hasPrefix argType.Name (ascii "Setter") = true
      ∨ hasPrefix argType.Name (ascii "GetSetter") = true
      ∨ hasPrefix argType.Name (ascii "PMapGetSetter") = true) :
    Parser.buildArg p argVal argType
      = match argVal.Literal with
        | some (.mk (some pth) _ _ _) =>
          match p.toParser.buildGetSetterFromPath pth with
          | .error err => .error (.ottl err)
          | .panic => .panic
          | .ok gs =>
            match Parser.buildStandardGetterSetter p argType.Name (.getSetter gs) with
            | .error err => .error err
            | .ok v => .ok v
        | _ => .error .mustBePath := by
  have hne : ∀ s : GoString,
      ((hasPrefix s (ascii "Setter") = true ∨ hasPrefix s (ascii "GetSetter") = true
        ∨ hasPrefix s (ascii "PMapGetSetter") = true) → False) → argType.Name ≠ s := by
    intro s hs heq
    exact hs (heq ▸ hname)
  unfold Parser.buildArg
  rw [if_neg (hne (ascii "Enum") (by decide)), if_neg (hne (ascii "string") (by decide)),
    if_neg (hne (ascii "float64") (by decide)), if_neg (hne (ascii "int64") (by decide)),
    if_neg (hne (ascii "bool") (by decide)),
    if_pos (by rcases hname with h | h | h <;> simp [h])]

/-- C22: for a target type whose name starts with `Setter`, `GetSetter` or
`PMapGetSetter`, `buildArg` returns the error `must be a path` if and only if
the argument is not a path. For a path it returns the error of `newPath`, else
the error of `parsePath` on the chain `newPath` built, and else wraps the
GetSetter that `parsePath` returned with `buildStandardGetterSetter` by the
name of the type: the GetSetter itself for `Setter` and `GetSetter`, and a
`StandardPMapGetSetter` for `PMapGetSetter` when the GetSetter is a `Setter`. -/
theorem buildArg_path_target {σ : Sig} {E : Type} (p : ArgParser σ E) (argVal : value σ)
    (argType : GoType)
    (hname : hasPrefix argType.Name (ascii "Setter") = true
      ∨ hasPrefix argType.Name (ascii "GetSetter") = true
      ∨ hasPrefix argType.Name (ascii "PMapGetSetter") = true) :
    (Parser.buildArg p argVal argType = .error .mustBePath
        ↔ ¬ ∃ pth f i c, argVal.Literal = some (.mk (some pth) f i c))
      ∧ ∀ pth f i c, argVal.Literal = some (.mk (some pth) f i c) →
          (∀ err, p.toParser.newPath pth = .error err →
              Parser.buildArg p argVal argType = .error (.ottl err))
            ∧ (∀ np err, p.toParser.newPath pth = .ok np →
                p.toParser.parsePath np = .error err →
                Parser.buildArg p argVal argType = .error (.ottl err))
            ∧ (∀ np gs, p.toParser.newPath pth = .ok np → p.toParser.parsePath np = .ok gs →
                (Parser.buildArg p argVal argType
                    = match Parser.buildStandardGetterSetter p argType.Name (.getSetter gs) with
                      | .error err => .error err
                      | .ok v => .ok v)
                  ∧ (hasPrefix argType.Name (ascii "Setter") = true
                      ∨ hasPrefix argType.Name (ascii "GetSetter") = true →
                    Parser.buildArg p argVal argType = .ok (.getSetter gs))
                  ∧ (hasPrefix argType.Name (ascii "PMapGetSetter") = true →
                    p.typeAssert (.getSetter gs) setterType = true →
                    Parser.buildArg p argVal argType = .ok (.pmapGetSetter (.getSetter gs)))) := by
  have hb := buildArg_of_path_target p argVal argType hname
  have hpath : ∀ pth f i c, argVal.Literal = some (.mk (some pth) f i c) →
      Parser.buildArg p argVal argType
        = match p.toParser.buildGetSetterFromPath pth with
          | .error err => .error (.ottl err)
          | .panic => .panic
          | .ok gs =>
            match Parser.buildStandardGetterSetter p argType.Name (.getSetter gs) with
            | .error err => .error err
            | .ok v => .ok v := by
    intro pth f i c hl
    rw [hb, hl]
  constructor
  · constructor
    · intro h
      rintro ⟨pth, f, i, c, hl⟩
      rw [hpath pth f i c hl] at h
      cases hg : p.toParser.buildGetSetterFromPath pth with
      | error err => rw [hg] at h; cases h
      | panic => rw [hg] at h; cases h
      | ok gs =>
        rw [hg] at h
        simp only at h
        cases hs : Parser.buildStandardGetterSetter p argType.Name (.getSetter gs) with
        | error err =>
          rw [hs] at h
          simp only [BindResult.error.injEq] at h
          exact buildStandardGetterSetter_ne_mustBePath p _ _ (h ▸ hs)
        | ok v => rw [hs] at h; cases h
    · intro h
      rw [hb]
      cases hl : argVal.Literal with
      | none => rfl
      | some l =>
        cases l with
        | mk pth f i c =>
          cases pth with
          | none => rfl
          | some q => exact absurd ⟨q, f, i, c, hl⟩ h
  · intro pth f i c hl
    refine ⟨?_, ?_, ?_⟩
    · intro err he
      rw [hpath pth f i c hl, buildGetSetterFromPath_eq, he]
    · intro np err hn he
      rw [hpath pth f i c hl, buildGetSetterFromPath_eq, hn]
      simp only [he]
    · intro np gs hn hg
      have h1 : Parser.buildArg p argVal argType
          = match Parser.buildStandardGetterSetter p argType.Name (.getSetter gs) with
            | .error err => .error err
            | .ok v => .ok v := by
        rw [hpath pth f i c hl, buildGetSetterFromPath_eq, hn]
        simp only [hg]
      refine ⟨h1, ?_, ?_⟩
      · intro h
        rw [h1, buildStandardGetterSetter_getSetter p _ _ h]
      · intro h ht
        rw [h1, buildStandardGetterSetter_pmapGetSetter p _ _ h, if_pos ht]

end Ottl

namespace Ottl

/-- C22 at the path `span.attributes["k"].value` and at a string literal, for
the target type `GetSetter`. -/
theorem buildArg_path_target_witness :
    hasPrefix (interfaceType (ascii "GetSetter")).Name (ascii "GetSetter") = true
      ∧ Parser.buildArg sampleArgParser (pathValue spanAttributesPath)
          (interfaceType (ascii "GetSetter"))
        = .ok (.getSetter (ascii "span.attributes[k].value"))
      ∧ Parser.buildArg sampleArgParser (stringValue (ascii "a"))
          (interfaceType (ascii "GetSetter")) = .error .mustBePath :=
  ⟨by decide,
    ((buildArg_path_target sampleArgParser (pathValue spanAttributesPath)
      (interfaceType (ascii "GetSetter")) (Or.inr (Or.inl (by decide)))).2
        spanAttributesPath none none none rfl).2.2 spanAttributesChain _
        newPath_spanAttributesPath rfl |>.2.1 (Or.inr (by decide)),
    (buildArg_path_target sampleArgParser (stringValue (ascii "a"))
      (interfaceType (ascii "GetSetter")) (Or.inr (Or.inl (by decide)))).1.mpr
        (by rintro ⟨_, _, _, _, h⟩; cases h)⟩

end Ottl

namespace Ottl

theorem buildArgsStep_plain {σ : Sig} {E : Type} (p : ArgParser σ E) (i : Nat)
    (edArg : argument σ) (argsVal : List (StructField σ)) (k : Nat) (field : StructField σ)
    (val : Val σ) (htf : Parser.targetField p argsVal i edArg = .ok k)
    (hk : argsVal[k]? = some field)
    (hopt : hasPrefix field.Typ.Name (ascii "Optional") = false)
    (hfg : hasPrefix field.Typ.Name (ascii "FunctionGetter") = false)
    (hsg : hasPrefix field.Typ.Name (ascii "SliceGetter") = false)
    (hlg : hasPrefix field.Typ.Name (ascii "LiteralGetter") = false)
    (hkind : field.Typ.Kind ≠ .Slice)
    (hval : Parser.buildArg p edArg.Value field.Typ = .ok val)
    (hta : p.typeAssert val field.Typ = true) :
    Parser.buildArgsStep p i edArg argsVal = (setFieldValue argsVal k val, .ok ()) := by
  simp [Parser.buildArgsStep, htf, hk, hopt, Parser.buildArgsValue, hfg, hsg, hlg, hkind, hval,
    hta]

/-- C23: for a field whose type name starts with `FunctionGetter`, the switch
of `buildArgs` takes the function name from the enum symbol of the argument
when there is one, else from its function-name token, and returns the error
`invalid function name given` when there is neither. With a name, it returns an
undefined-function error if and only if the name is not in the registry, and
otherwise the value is the `StandardFunctionGetter` for that name, whatever the
registered factory is: no method of the factory contributes to the value. -/
theorem buildArgsValue_functionGetter {σ : Sig} {E : Type} (p : ArgParser σ E) (i : Nat)
    (arg : argument σ) (isOptional : Bool) (fieldType : GoType) (fv : Val σ)
    (h : hasPrefix fieldType.Name (ascii "FunctionGetter") = true) :
    (arg.Value.Enum = none → arg.FunctionName = none →
        Parser.buildArgsValue p i arg isOptional fieldType fv
          = (fv, .error .invalidFunctionName))
      ∧ ∀ name, (arg.Value.Enum = some name
            ∨ (arg.Value.Enum = none ∧ arg.FunctionName = some name)) →
          ((∃ n, (Parser.buildArgsValue p i arg isOptional fieldType fv).2
                = .error (.undefinedFunctionGetter n)) ↔ p.functions name = none)
            ∧ (p.functions name = none →
                Parser.buildArgsValue p i arg isOptional fieldType fv
                  = (fv, .error (.undefinedFunctionGetter name)))
            ∧ (∀ f, p.functions name = some f →
                Parser.buildArgsValue p i arg isOptional fieldType fv
                  = (fv, .ok (.functionGetter name))) := by
  constructor
  · intro h1 h2
    unfold Parser.buildArgsValue
    rw [if_pos h, h1, h2]
  · intro name hname
    have hnone : p.functions name = none →
        Parser.buildArgsValue p i arg isOptional fieldType fv
          = (fv, .error (.undefinedFunctionGetter name)) := by
      intro hf
      unfold Parser.buildArgsValue
      rw [if_pos h]
      rcases hname with h1 | ⟨h1, h2⟩
      · rw [h1]; simp only [hf]
      · rw [h1, h2]; simp only [hf]
    have hsome : ∀ f, p.functions name = some f →
        Parser.buildArgsValue p i arg isOptional fieldType fv
          = (fv, .ok (.functionGetter name)) := by
      intro f hf
      unfold Parser.buildArgsValue
      rw [if_pos h]
      rcases hname with h1 | ⟨h1, h2⟩
      · rw [h1]; simp only [hf]
      · rw [h1, h2]; simp only [hf]
    refine ⟨⟨?_, fun hf => ⟨name, by rw [hnone hf]⟩⟩, hnone, hsome⟩
    rintro ⟨n, hn⟩
    cases hf : p.functions name with
    | none => rfl
    | some f =>
      rw [hsome f hf] at hn
      cases hn

end Ottl

namespace Ottl

theorem newPath_bodyPath : plainParser.newPath bodyPath = .ok bodyChain := by
  simp [Parser.newPath, Parser.newPathLoop, Parser.newKeys, Parser.newKeysLoop,
    Parser.buildGetSetterFromPath, Parser.parsePath, bodyPath, plainParser,
    path.Fields, Parser.parsePathContext, path.Context, Parser.newKeyGetterRest]
  rfl

theorem buildArg_bodyPath :
    Parser.buildArg replaceArgParser (pathValue bodyPath) (interfaceType (ascii "GetSetter"))
      = .ok (.getSetter (ascii "body")) := by
  rw [buildArg_of_path_target replaceArgParser _ _ (Or.inr (Or.inl (by decide)))]
  have h : replaceArgParser.toParser.buildGetSetterFromPath bodyPath = .ok (ascii "body") := by
    have e : replaceArgParser.toParser = plainParser := rfl
    rw [e, buildGetSetterFromPath_eq, newPath_bodyPath]
    rfl
  simp only [pathValue, value.Literal, h]
  rfl

theorem buildArgs_replacePatternEditor :
    Parser.buildArgs replaceArgParser replacePatternEditor (freshRecord replacePatternFields)
      = (replacePatternRecord, .ok ()) := by
  have h0 : Parser.buildArgsStep replaceArgParser 0 ⟨[], pathValue bodyPath, none⟩
      (freshRecord replacePatternFields)
      = (setFieldValue (freshRecord replacePatternFields) 0 (.getSetter (ascii "body")),
          .ok ()) :=
    buildArgsStep_plain replaceArgParser 0 _ _ 0
      ⟨ascii "Target", interfaceType (ascii "GetSetter"), .nil⟩ _ rfl rfl (by decide)
      (by decide) (by decide) (by decide) (by decide) buildArg_bodyPath rfl
  have h1 : Parser.buildArgs replaceArgParser replacePatternEditor
      (freshRecord replacePatternFields)
      = Parser.buildArgsLoop replaceArgParser 0 replacePatternEditor.Arguments
          (freshRecord replacePatternFields) := rfl
  rw [h1]
  simp only [replacePatternEditor, Parser.buildArgsLoop, h0]
  rfl

end Ottl

namespace Ottl

/-- C23 at the editor `replace_pattern(body, "a", "b", SHA256)` with `SHA256`
registered: the value built for the fourth argument is the function getter of
`SHA256`, and after `buildArgs` the fourth field, of type
`Optional[FunctionGetter[K]]`, holds it. -/
theorem buildArgsValue_functionGetter_witness :
    hasPrefix functionGetterType.Name (ascii "FunctionGetter") = true
      ∧ Parser.buildArgsValue replaceArgParser 3 ⟨[], enumValue (ascii "SHA256"), none⟩ true
          functionGetterType (zeroOf (.Optional functionGetterType))
        = (zeroOf (.Optional functionGetterType), .ok (.functionGetter (ascii "SHA256")))
      ∧ Parser.buildArgs replaceArgParser replacePatternEditor
          (freshRecord replacePatternFields) = (replacePatternRecord, .ok ())
      ∧ (replacePatternRecord[3]?).map (fun f => f.value)
          = some (.Optional
              (NewTestingOptional functionGetterType (.functionGetter (ascii "SHA256")))) :=
  ⟨by decide,
    ((buildArgsValue_functionGetter replaceArgParser 3 ⟨[], enumValue (ascii "SHA256"), none⟩
      true functionGetterType (zeroOf (.Optional functionGetterType)) (by decide)).2
        (ascii "SHA256") (Or.inl rfl)).2.2 _ rfl,
    buildArgs_replacePatternEditor, rfl⟩

end Ottl

namespace Ottl

theorem hasPrefix_LiteralGetter_Name (V G : GoType) :
    hasPrefix (GoType.LiteralGetter V G).Name (ascii "LiteralGetter") = true
      ∧ hasPrefix (GoType.LiteralGetter V G).Name (ascii "FunctionGetter") = false
      ∧ hasPrefix (GoType.LiteralGetter V G).Name (ascii "SliceGetter") = false := by
  have h1 : hasPrefix (GoType.LiteralGetter V G).Name (ascii "LiteralGetter") = true := by
    simp only [hasPrefix, GoType.Name, List.isPrefixOf_iff_prefix]
    exact List.prefix_append _ _
  refine ⟨h1, ?_, ?_⟩
  · by_contra hc
    rw [Bool.not_eq_false] at hc
    have := hasPrefix_first _ _ _ hc h1
    revert this
    decide
  · by_contra hc
    rw [Bool.not_eq_false] at hc
    have := hasPrefix_first _ _ _ hc h1
    revert this
    decide

/-- C24 fails on the code as stated: for the parser `literalArgParser`, whose
typed getters implement the interface `literalGetter`, `buildArgs` returns no
error for `is_match(body)`, whose argument is a path, and the field
`Pattern LiteralGetter[K, string, StringGetter[K]]` holds a getter that reports
`isLiteral() = false`. -/
theorem buildArgs_literalGetter_counterexample :
    (pathValue bodyPath).Literal = some (.mk (some bodyPath) none none none)
      ∧ Parser.buildArgs literalArgParser isMatchEditor (freshRecord isMatchFields)
        = ([⟨ascii "Pattern", .LiteralGetter stringType stringGetterType,
              .LiteralGetter ⟨stringType, stringGetterType,
                .standard .StringGetter (.getter (ascii "body"))⟩⟩], .ok ())
      ∧ literalArgParser.literalGetter (.standard .StringGetter (.getter (ascii "body")))
        = some (false, .ok (.string (ascii "body"))) :=
  ⟨rfl, rfl, rfl⟩

/-- C24, amended: for a field of type `LiteralGetter[K, V, G]`, the switch of
`buildArgs` returns the error of `buildArg` when the getter cannot be built
for the type `G`; the error `getter type does not support literal values`
when the built getter does not implement the interface `literalGetter`; and
otherwise it sets the getter, with the error of `setWrappedValue` when the
getter is not a `G`. What `isLiteral()` of the getter reports is not used. -/
theorem buildArgsValue_literalGetter {σ : Sig} {E : Type} (p : ArgParser σ E) (i : Nat)
    (arg : argument σ) (isOptional : Bool) (V G : GoType) (fv : Val σ)
    (fieldVal : LiteralGetter (Val σ))
    (hw : wrappedField isOptional fv = .LiteralGetter fieldVal) :
    (∀ err, Parser.buildArg p arg.Value G = .error err →
        Parser.buildArgsValue p i arg isOptional (.LiteralGetter V G) fv = (fv, .error err))
      ∧ ∀ b, Parser.buildArg p arg.Value G = .ok b →
          (p.literalGetter b = none →
              Parser.buildArgsValue p i arg isOptional (.LiteralGetter V G) fv
                = (fv, .error .notLiteralGetter))
            ∧ ∀ isLiteral getLiteral, p.literalGetter b = some (isLiteral, getLiteral) →
                (p.typeAssert b fieldVal.G = true →
                    Parser.buildArgsValue p i arg isOptional (.LiteralGetter V G) fv
                      = (setWrappedField isOptional fv
                            (.LiteralGetter { fieldVal with getter := b }),
                          .ok (.LiteralGetter { fieldVal with getter := b })))
                  ∧ (p.typeAssert b fieldVal.G = false →
                      Parser.buildArgsValue p i arg isOptional (.LiteralGetter V G) fv
                        = (fv, .error (.cannotSetLiteralGetter fieldVal.G))) := by
  obtain ⟨h1, h2, h3⟩ := hasPrefix_LiteralGetter_Name V G
  have hu : Parser.buildArgsValue p i arg isOptional (.LiteralGetter V G) fv
      = match Parser.buildArg p arg.Value G with
        | .error err => (fv, .error err)
        | .panic => (fv, .panic)
        | .ok buildArg =>
          match p.literalGetter buildArg with
          | none => (fv, .error .notLiteralGetter)
          | some _ =>
            match fieldVal.setWrappedValue p.typeAssert buildArg with
            | (_, some err) => (fv, .error err)
            | (fieldVal2, none) =>
              (setWrappedField isOptional fv (.LiteralGetter fieldVal2),
                .ok (.LiteralGetter fieldVal2)) := by
    unfold Parser.buildArgsValue
    rw [h2, h3, h1]
    simp only [Bool.false_eq_true, if_false, if_true, hw]
  constructor
  · intro err he
    rw [hu, he]
  · intro b hb
    constructor
    · intro hn
      rw [hu, hb]
      simp only [hn]
    · intro isLiteral getLiteral hl
      constructor
      · intro ht
        rw [hu, hb]
        simp only [hl, LiteralGetter.setWrappedValue, ht, if_true]
      · intro ht
        rw [hu, hb]
        simp only [hl, LiteralGetter.setWrappedValue, ht, Bool.false_eq_true, if_false]

end Ottl

namespace Ottl

/-- C24 at the argument of `is_match(body)`: the getter of the path is set,
although it reports `isLiteral() = false`. -/
theorem buildArgsValue_literalGetter_witness :
    wrappedField false (zeroOf (.LiteralGetter stringType stringGetterType) : Val sampleSig)
        = .LiteralGetter ⟨stringType, stringGetterType, .nil⟩
      ∧ literalArgParser.literalGetter (.standard .StringGetter (.getter (ascii "body")))
        = some (false, .ok (.string (ascii "body")))
      ∧ Parser.buildArgsValue literalArgParser 0 ⟨[], pathValue bodyPath, none⟩ false
          (.LiteralGetter stringType stringGetterType)
          (zeroOf (.LiteralGetter stringType stringGetterType))
        = (.LiteralGetter ⟨stringType, stringGetterType,
              .standard .StringGetter (.getter (ascii "body"))⟩,
            .ok (.LiteralGetter ⟨stringType, stringGetterType,
              .standard .StringGetter (.getter (ascii "body"))⟩)) :=
  ⟨rfl, rfl,
    (((buildArgsValue_literalGetter literalArgParser 0 ⟨[], pathValue bodyPath, none⟩ false
      stringType stringGetterType (zeroOf (.LiteralGetter stringType stringGetterType))
      ⟨stringType, stringGetterType, .nil⟩ rfl).2
        (.standard .StringGetter (.getter (ascii "body"))) rfl).2 false _ rfl).1 rfl⟩

end Ottl

/-! ## Reading the literal of a LiteralGetter -/

namespace Ottl

/-- C25 on the code: a `LiteralGetter` made by `NewTestingLiteralGetter(false,
g)`, where `g.Get` returns the string `x`, has `IsLiteral() = false` and
`GetLiteral()` returns the string `x` with no error; and so does a
`LiteralGetter` that wraps a `standardGetter` with `literal = false`. -/
theorem GetLiteral_not_literal :
    NewTestingLiteralGetter true stringType stringGetterType false
        (.ok (Val.string (ascii "x") : Val sampleSig))
        = some ⟨stringType, stringGetterType, ⟨.ok (.string (ascii "x")), false⟩⟩
      ∧ LiteralGetter.IsLiteral mockLiteralGetter.literalGetter
          (⟨stringType, stringGetterType, ⟨.ok (Val.string (ascii "x") : Val sampleSig), false⟩⟩
            : LiteralGetter (mockLiteralGetter (Val sampleSig))) = false
      ∧ LiteralGetter.GetLiteral mockLiteralGetter.literalGetter anyTypeAssert
          (⟨stringType, stringGetterType, ⟨.ok (Val.string (ascii "x") : Val sampleSig), false⟩⟩
            : LiteralGetter (mockLiteralGetter (Val sampleSig)))
          = .ok (.string (ascii "x"))
      ∧ LiteralGetter.IsLiteral standardGetter.literalGetter
          (⟨anyType, getterType, ⟨.ok (Val.string (ascii "x") : Val sampleSig), false⟩⟩
            : LiteralGetter (standardGetter (Val sampleSig))) = false
      ∧ LiteralGetter.GetLiteral standardGetter.literalGetter anyTypeAssert
          (⟨anyType, getterType, ⟨.ok (Val.string (ascii "x") : Val sampleSig), false⟩⟩
            : LiteralGetter (standardGetter (Val sampleSig)))
          = .ok (.string (ascii "x")) :=
  ⟨rfl, rfl, rfl, rfl, rfl⟩

end Ottl

/-! ## Slice getters and slices of getters -/

namespace Ottl

/-- C26 fails on the code as stated: for the empty list and the item type
`Getter[K]`, `createStandardSliceGetter` returns a getter that reports
`isLiteral() = false`, while every element of the empty slice it built is a
literal getter reporting literal. -/
theorem createStandardSliceGetter_literal_counterexample :
    (listValue []).List = some []
      ∧ getterType.Kind = .Interface
      ∧ createStandardSliceGetter sampleArgParser.literalGetter (listValue []) getterType
          (Parser.buildSliceArg sampleArgParser) sampleArgParser.newGetter
        = .ok (.standardGetter false true (.slice getterType []) getterType)
      ∧ (Val.standardGetter false true (.slice getterType []) getterType
          : Val sampleSig).isLiteral = some false
      ∧ allLiterals sampleArgParser.literalGetter [] = true :=
  ⟨rfl, rfl, rfl, rfl, rfl⟩

/-- C26, amended: when `createStandardSliceGetter` returns a getter for a list
source, the getter holds the slice that `buildSliceArg` built, and it reports
`isLiteral() = true` if and only if the kind of the item type is `string`,
`uint8`, `float64` or `int64`, or the slice built is not empty and each of its
elements is a literal getter that reports literal. For an empty list the
second case does not apply. -/
theorem createStandardSliceGetter_literal {σ : Sig}
    (literalGetter : Val σ → Option (Bool × Except OttlError (Val σ))) (argVal : value σ)
    (T : GoType) (buildSliceArg : value σ → GoType → BindResult (Val σ))
    (buildGetter : value σ → Except OttlError σ.Getter) (vs : List (value σ)) (g : Val σ)
    (hl : argVal.List = some vs)
    (hok : createStandardSliceGetter literalGetter argVal T buildSliceArg buildGetter = .ok g) :
    ∃ slice literal, buildSliceArg argVal (sliceOf T) = .ok slice
      ∧ g = .standardGetter literal true slice T
      ∧ g.isLiteral = some literal
      ∧ (literal = true ↔
          ((T.Kind = .String ∨ T.Kind = .Uint8 ∨ T.Kind = .Float64 ∨ T.Kind = .Int64)
            ∨ ∃ T2 v rest, slice = .slice T2 (v :: rest)
                ∧ ∀ x ∈ v :: rest, ∃ r, literalGetter x = some (true, r))) := by
  have hall : ∀ xs : List (Val σ), allLiterals literalGetter xs = true
      ↔ ∀ x ∈ xs, ∃ r, literalGetter x = some (true, r) := by
    intro xs
    simp only [allLiterals, List.all_eq_true]
    constructor
    · intro h x hx
      have := h x hx
      cases hx2 : literalGetter x with
      | none => rw [hx2] at this; cases this
      | some br =>
        obtain ⟨b, r⟩ := br
        rw [hx2] at this
        simp only at this
        exact ⟨r, by rw [this]⟩
    · intro h x hx
      obtain ⟨r, hr⟩ := h x hx
      rw [hr]
  unfold createStandardSliceGetter at hok
  simp only [hl] at hok
  split at hok
  · cases hok
  · cases hok
  · rename_i slice hs
    simp only [BindResult.ok.injEq] at hok
    subst hok
    refine ⟨slice, _, hs, rfl, rfl, ?_⟩
    cases hk : T.Kind <;> simp only [hk] <;> split <;>
      first
        | (simp; done)
        | (simp [hall]; done)
        | (rename_i T2 v rest
           simp only [Bool.not_false, if_true, hall, reduceCtorEq, false_or, or_self]
           constructor
           · intro h
             exact ⟨T2, v, rest, rfl, h⟩
           · rintro ⟨_, _, _, he, h⟩
             cases he
             exact h)
        | (rename_i hns _
           simp only [Bool.false_eq_true, false_iff, reduceCtorEq, false_or, or_self]
           rintro ⟨T3, v3, rest3, he, _⟩
           exact hns T3 v3 rest3 he)

end Ottl

namespace Ottl

/-- C26 at the list `["a"]` with the item type `string`. -/
theorem createStandardSliceGetter_literal_witness :
    (listValue [stringValue (ascii "a")]).List = some [stringValue (ascii "a")]
      ∧ createStandardSliceGetter sampleArgParser.literalGetter
          (listValue [stringValue (ascii "a")]) stringType
          (Parser.buildSliceArg sampleArgParser) sampleArgParser.newGetter
        = .ok (.standardGetter true true (.slice stringType [.string (ascii "a")]) stringType)
      ∧ ∃ slice literal,
          Parser.buildSliceArg sampleArgParser (listValue [stringValue (ascii "a")])
              (sliceOf stringType) = .ok slice
            ∧ (Val.standardGetter true true (.slice stringType [.string (ascii "a")]) stringType
                : Val sampleSig) = .standardGetter literal true slice stringType
            ∧ (Val.standardGetter true true (.slice stringType [.string (ascii "a")]) stringType
                : Val sampleSig).isLiteral = some literal
            ∧ (literal = true ↔
                ((stringType.Kind = .String ∨ stringType.Kind = .Uint8
                    ∨ stringType.Kind = .Float64 ∨ stringType.Kind = .Int64)
                  ∨ ∃ T2 v rest, slice = .slice T2 (v :: rest)
                      ∧ ∀ x ∈ v :: rest, ∃ r, sampleArgParser.literalGetter x = some (true, r))) :=
  ⟨rfl, rfl,
    createStandardSliceGetter_literal sampleArgParser.literalGetter
      (listValue [stringValue (ascii "a")]) stringType (Parser.buildSliceArg sampleArgParser)
      sampleArgParser.newGetter [stringValue (ascii "a")] _ rfl rfl⟩

end Ottl

namespace Ottl

theorem hasPrefix_exclusive (name a b : GoString) (ha : hasPrefix name a = true)
    (hab : a.isPrefixOf b = false) (hba : b.isPrefixOf a = false) :
    ¬ (hasPrefix name b = true) := by
  intro hb
  simp only [hasPrefix, List.isPrefixOf_iff_prefix] at ha hb
  rcases List.prefix_or_prefix_of_prefix ha hb with h | h
  · rw [← List.isPrefixOf_iff_prefix, hab] at h
    cases h
  · rw [← List.isPrefixOf_iff_prefix, hba] at h
    cases h

theorem ne_of_hasPrefix (name a s : GoString) (ha : hasPrefix name a = true)
    (hs : hasPrefix s a = false) : name ≠ s := by
  rintro rfl
  rw [ha] at hs
  cases hs

theorem buildSliceLoop_ne_unsupported {σ : Sig} (typeAssert : Val σ → GoType → Bool)
    (T elem : GoType) (buildArg : value σ → GoType → BindResult (Val σ)) (name : GoString)
    (vs : List (value σ)) :
    ∀ (j : Nat) (n : GoString),
      buildSliceLoop typeAssert T elem buildArg name j vs ≠ .error (.unsupportedSliceType n) := by
  induction vs with
  | nil => intro j n h; simp [buildSliceLoop] at h
  | cons v rest ih =>
    intro j n h
    simp only [buildSliceLoop] at h
    split at h
    · cases h
    · cases h
    · split at h
      · split at h
        · rename_i heq
          simp only [BindResult.error.injEq] at h
          exact ih (j + 1) n (h ▸ heq)
        · cases h
        · cases h
      · cases h

theorem buildSlice_ne_unsupported {σ : Sig} (typeAssert : Val σ → GoType → Bool) (T : GoType)
    (argVal : value σ) (argType : GoType) (buildArg : value σ → GoType → BindResult (Val σ))
    (name n : GoString) :
    buildSlice typeAssert T argVal argType buildArg name ≠ .error (.unsupportedSliceType n) := by
  intro h
  unfold buildSlice at h
  split at h
  · cases h
  · cases h
  · split at h
    · cases h
    · split at h
      · rename_i heq
        simp only [BindResult.error.injEq] at h
        exact buildSliceLoop_ne_unsupported _ _ _ _ _ _ _ _ (h ▸ heq)
      · cases h
      · cases h

theorem buildSliceArg_Getter {σ : Sig} {E : Type} (p : ArgParser σ E) (argVal : value σ)
    (argType elem : GoType) (helem : argType.Elem = some elem)
    (h : hasPrefix elem.Name (ascii "Getter") = true) :
    Parser.buildSliceArg p argVal argType
      = buildSlice p.typeAssert (interfaceType (ascii "Getter")) argVal argType
          (Parser.buildArg p) elem.Name := by
  unfold Parser.buildSliceArg
  rw [helem]
  simp only
  rw [if_neg (ne_of_hasPrefix _ _ (ascii "uint8") h (by decide)),
    if_neg (ne_of_hasPrefix _ _ (ascii "string") h (by decide)),
    if_neg (ne_of_hasPrefix _ _ (ascii "float64") h (by decide)),
    if_neg (ne_of_hasPrefix _ _ (ascii "int64") h (by decide)),
    if_pos h]

theorem buildSliceArg_PMapGetter {σ : Sig} {E : Type} (p : ArgParser σ E) (argVal : value σ)
    (argType elem : GoType) (helem : argType.Elem = some elem)
    (h : hasPrefix elem.Name (ascii "PMapGetter") = true) :
    Parser.buildSliceArg p argVal argType
      = buildSlice p.typeAssert (interfaceType (ascii "PMapGetter")) argVal argType
          (Parser.buildArg p) elem.Name := by
  unfold Parser.buildSliceArg
  rw [helem]
  simp only
  rw [if_neg (ne_of_hasPrefix _ _ (ascii "uint8") h (by decide)),
    if_neg (ne_of_hasPrefix _ _ (ascii "string") h (by decide)),
    if_neg (ne_of_hasPrefix _ _ (ascii "float64") h (by decide)),
    if_neg (ne_of_hasPrefix _ _ (ascii "int64") h (by decide)),
    if_neg (hasPrefix_exclusive _ _ (ascii "Getter") h (by decide) (by decide)),
    if_pos h]

theorem buildSliceArg_PSliceGetter {σ : Sig} {E : Type} (p : ArgParser σ E) (argVal : value σ)
    (argType elem : GoType) (helem : argType.Elem = some elem)
    (h : hasPrefix elem.Name (ascii "PSliceGetter") = true) :
    Parser.buildSliceArg p argVal argType
      = buildSlice p.typeAssert (interfaceType (ascii "PSliceGetter")) argVal argType
          (Parser.buildArg p) elem.Name := by
  unfold Parser.buildSliceArg
  rw [helem]
  simp only
  rw [if_neg (ne_of_hasPrefix _ _ (ascii "uint8") h (by decide)),
    if_neg (ne_of_hasPrefix _ _ (ascii "string") h (by decide)),
    if_neg (ne_of_hasPrefix _ _ (ascii "float64") h (by decide)),
    if_neg (ne_of_hasPrefix _ _ (ascii "int64") h (by decide)),
    if_neg (hasPrefix_exclusive _ _ (ascii "Getter") h (by decide) (by decide)),
    if_neg (hasPrefix_exclusive _ _ (ascii "PMapGetter") h (by decide) (by decide)),
    if_pos h]

theorem buildSliceArg_StringGetter {σ : Sig} {E : Type} (p : ArgParser σ E) (argVal : value σ)
    (argType elem : GoType) (helem : argType.Elem = some elem)
    (h : hasPrefix elem.Name (ascii "StringGetter") = true) :
    Parser.buildSliceArg p argVal argType
      = buildSlice p.typeAssert (interfaceType (ascii "StringGetter")) argVal argType
          (Parser.buildArg p) elem.Name := by
  unfold Parser.buildSliceArg
  rw [helem]
  simp only
  rw [if_neg (ne_of_hasPrefix _ _ (ascii "uint8") h (by decide)),
    if_neg (ne_of_hasPrefix _ _ (ascii "string") h (by decide)),
    if_neg (ne_of_hasPrefix _ _ (ascii "float64") h (by decide)),
    if_neg (ne_of_hasPrefix _ _ (ascii "int64") h (by decide)),
    if_neg (hasPrefix_exclusive _ _ (ascii "Getter") h (by decide) (by decide)),
    if_neg (hasPrefix_exclusive _ _ (ascii "PMapGetter") h (by decide) (by decide)),
    if_neg (hasPrefix_exclusive _ _ (ascii "PSliceGetter") h (by decide) (by decide)),
    if_pos h]

theorem buildSliceArg_StringLikeGetter {σ : Sig} {E : Type} (p : ArgParser σ E) (argVal : value σ)
    (argType elem : GoType) (helem : argType.Elem = some elem)
    (h : hasPrefix elem.Name (ascii "StringLikeGetter") = true) :
    Parser.buildSliceArg p argVal argType
      = buildSlice p.typeAssert (interfaceType (ascii "StringLikeGetter")) argVal argType
          (Parser.buildArg p) elem.Name := by
  unfold Parser.buildSliceArg
  rw [helem]
  simp only
  rw [if_neg (ne_of_hasPrefix _ _ (ascii "uint8") h (by decide)),
    if_neg (ne_of_hasPrefix _ _ (ascii "string") h (by decide)),
    if_neg (ne_of_hasPrefix _ _ (ascii "float64") h (by decide)),
    if_neg (ne_of_hasPrefix _ _ (ascii "int64") h (by decide)),
    if_neg (hasPrefix_exclusive _ _ (ascii "Getter") h (by decide) (by decide)),
    if_neg (hasPrefix_exclusive _ _ (ascii "PMapGetter") h (by decide) (by decide)),
    if_neg (hasPrefix_exclusive _ _ (ascii "PSliceGetter") h (by decide) (by decide)),
    if_neg (hasPrefix_exclusive _ _ (ascii "StringGetter") h (by decide) (by decide)),
    if_pos h]

theorem buildSliceArg_FloatGetter {σ : Sig} {E : Type} (p : ArgParser σ E) (argVal : value σ)
    (argType elem : GoType) (helem : argType.Elem = some elem)
    (h : hasPrefix elem.Name (ascii "FloatGetter") = true) :
    Parser.buildSliceArg p argVal argType
      = buildSlice p.typeAssert (interfaceType (ascii "FloatGetter")) argVal argType
          (Parser.buildArg p) elem.Name := by
  unfold Parser.buildSliceArg
  rw [helem]
  simp only
  rw [if_neg (ne_of_hasPrefix _ _ (ascii "uint8") h (by decide)),
    if_neg (ne_of_hasPrefix _ _ (ascii "string") h (by decide)),
    if_neg (ne_of_hasPrefix _ _ (ascii "float64") h (by decide)),
    if_neg (ne_of_hasPrefix _ _ (ascii "int64") h (by decide)),
    if_neg (hasPrefix_exclusive _ _ (ascii "Getter") h (by decide) (by decide)),
    if_neg (hasPrefix_exclusive _ _ (ascii "PMapGetter") h (by decide) (by decide)),
    if_neg (hasPrefix_exclusive _ _ (ascii "PSliceGetter") h (by decide) (by decide)),
    if_neg (hasPrefix_exclusive _ _ (ascii "StringGetter") h (by decide) (by decide)),
    if_neg (hasPrefix_exclusive _ _ (ascii "StringLikeGetter") h (by decide) (by decide)),
    if_pos h]

theorem buildSliceArg_FloatLikeGetter {σ : Sig} {E : Type} (p : ArgParser σ E) (argVal : value σ)
    (argType elem : GoType) (helem : argType.Elem = some elem)
    (h : hasPrefix elem.Name (ascii "FloatLikeGetter") = true) :
    Parser.buildSliceArg p argVal argType
      = buildSlice p.typeAssert (interfaceType (ascii "FloatLikeGetter")) argVal argType
          (Parser.buildArg p) elem.Name := by
  unfold Parser.buildSliceArg
  rw [helem]
  simp only
  rw [if_neg (ne_of_hasPrefix _ _ (ascii "uint8") h (by decide)),
    if_neg (ne_of_hasPrefix _ _ (ascii "string") h (by decide)),
    if_neg (ne_of_hasPrefix _ _ (ascii "float64") h (by decide)),
    if_neg (ne_of_hasPrefix _ _ (ascii "int64") h (by decide)),
    if_neg (hasPrefix_exclusive _ _ (ascii "Getter") h (by decide) (by decide)),
    if_neg (hasPrefix_exclusive _ _ (ascii "PMapGetter") h (by decide) (by decide)),
    if_neg (hasPrefix_exclusive _ _ (ascii "PSliceGetter") h (by decide) (by decide)),
    if_neg (hasPrefix_exclusive _ _ (ascii "StringGetter") h (by decide) (by decide)),
    if_neg (hasPrefix_exclusive _ _ (ascii "StringLikeGetter") h (by decide) (by decide)),
    if_neg (hasPrefix_exclusive _ _ (ascii "FloatGetter") h (by decide) (by decide)),
    if_pos h]

theorem buildSliceArg_IntGetter {σ : Sig} {E : Type} (p : ArgParser σ E) (argVal : value σ)
    (argType elem : GoType) (helem : argType.Elem = some elem)
    (h : hasPrefix elem.Name (ascii "IntGetter") = true) :
    Parser.buildSliceArg p argVal argType
      = buildSlice p.typeAssert (interfaceType (ascii "IntGetter")) argVal argType
          (Parser.buildArg p) elem.Name := by
  unfold Parser.buildSliceArg
  rw [helem]
  simp only
  rw [if_neg (ne_of_hasPrefix _ _ (ascii "uint8") h (by decide)),
    if_neg (ne_of_hasPrefix _ _ (ascii "string") h (by decide)),
    if_neg (ne_of_hasPrefix _ _ (ascii "float64") h (by decide)),
    if_neg (ne_of_hasPrefix _ _ (ascii "int64") h (by decide)),
    if_neg (hasPrefix_exclusive _ _ (ascii "Getter") h (by decide) (by decide)),
    if_neg (hasPrefix_exclusive _ _ (ascii "PMapGetter") h (by decide) (by decide)),
    if_neg (hasPrefix_exclusive _ _ (ascii "PSliceGetter") h (by decide) (by decide)),
    if_neg (hasPrefix_exclusive _ _ (ascii "StringGetter") h (by decide) (by decide)),
    if_neg (hasPrefix_exclusive _ _ (ascii "StringLikeGetter") h (by decide) (by decide)),
    if_neg (hasPrefix_exclusive _ _ (ascii "FloatGetter") h (by decide) (by decide)),
    if_neg (hasPrefix_exclusive _ _ (ascii "FloatLikeGetter") h (by decide) (by decide)),
    if_pos h]

theorem buildSliceArg_IntLikeGetter {σ : Sig} {E : Type} (p : ArgParser σ E) (argVal : value σ)
    (argType elem : GoType) (helem : argType.Elem = some elem)
    (h : hasPrefix elem.Name (ascii "IntLikeGetter") = true) :
    Parser.buildSliceArg p argVal argType
      = buildSlice p.typeAssert (interfaceType (ascii "IntLikeGetter")) argVal argType
          (Parser.buildArg p) elem.Name := by
  unfold Parser.buildSliceArg
  rw [helem]
  simp only
  rw [if_neg (ne_of_hasPrefix _ _ (ascii "uint8") h (by decide)),
    if_neg (ne_of_hasPrefix _ _ (ascii "string") h (by decide)),
    if_neg (ne_of_hasPrefix _ _ (ascii "float64") h (by decide)),
    if_neg (ne_of_hasPrefix _ _ (ascii "int64") h (by decide)),
    if_neg (hasPrefix_exclusive _ _ (ascii "Getter") h (by decide) (by decide)),
    if_neg (hasPrefix_exclusive _ _ (ascii "PMapGetter") h (by decide) (by decide)),
    if_neg (hasPrefix_exclusive _ _ (ascii "PSliceGetter") h (by decide) (by decide)),
    if_neg (hasPrefix_exclusive _ _ (ascii "StringGetter") h (by decide) (by decide)),
    if_neg (hasPrefix_exclusive _ _ (ascii "StringLikeGetter") h (by decide) (by decide)),
    if_neg (hasPrefix_exclusive _ _ (ascii "FloatGetter") h (by decide) (by decide)),
    if_neg (hasPrefix_exclusive _ _ (ascii "FloatLikeGetter") h (by decide) (by decide)),
    if_neg (hasPrefix_exclusive _ _ (ascii "IntGetter") h (by decide) (by decide)),
    if_pos h]

theorem buildSliceArg_DurationGetter {σ : Sig} {E : Type} (p : ArgParser σ E) (argVal : value σ)
    (argType elem : GoType) (helem : argType.Elem = some elem)
    (h : hasPrefix elem.Name (ascii "DurationGetter") = true) :
    Parser.buildSliceArg p argVal argType
      = buildSlice p.typeAssert (interfaceType (ascii "DurationGetter")) argVal argType
          (Parser.buildArg p) elem.Name := by
  unfold Parser.buildSliceArg
  rw [helem]
  simp only
  rw [if_neg (ne_of_hasPrefix _ _ (ascii "uint8") h (by decide)),
    if_neg (ne_of_hasPrefix _ _ (ascii "string") h (by decide)),
    if_neg (ne_of_hasPrefix _ _ (ascii "float64") h (by decide)),
    if_neg (ne_of_hasPrefix _ _ (ascii "int64") h (by decide)),
    if_neg (hasPrefix_exclusive _ _ (ascii "Getter") h (by decide) (by decide)),
    if_neg (hasPrefix_exclusive _ _ (ascii "PMapGetter") h (by decide) (by decide)),
    if_neg (hasPrefix_exclusive _ _ (ascii "PSliceGetter") h (by decide) (by decide)),
    if_neg (hasPrefix_exclusive _ _ (ascii "StringGetter") h (by decide) (by decide)),
    if_neg (hasPrefix_exclusive _ _ (ascii "StringLikeGetter") h (by decide) (by decide)),
    if_neg (hasPrefix_exclusive _ _ (ascii "FloatGetter") h (by decide) (by decide)),
    if_neg (hasPrefix_exclusive _ _ (ascii "FloatLikeGetter") h (by decide) (by decide)),
    if_neg (hasPrefix_exclusive _ _ (ascii "IntGetter") h (by decide) (by decide)),
    if_neg (hasPrefix_exclusive _ _ (ascii "IntLikeGetter") h (by decide) (by decide)),
    if_pos h]

theorem buildSliceArg_TimeGetter {σ : Sig} {E : Type} (p : ArgParser σ E) (argVal : value σ)
    (argType elem : GoType) (helem : argType.Elem = some elem)
    (h : hasPrefix elem.Name (ascii "TimeGetter") = true) :
    Parser.buildSliceArg p argVal argType
      = buildSlice p.typeAssert (interfaceType (ascii "TimeGetter")) argVal argType
          (Parser.buildArg p) elem.Name := by
  unfold Parser.buildSliceArg
  rw [helem]
  simp only
  rw [if_neg (ne_of_hasPrefix _ _ (ascii "uint8") h (by decide)),
    if_neg (ne_of_hasPrefix _ _ (ascii "string") h (by decide)),
    if_neg (ne_of_hasPrefix _ _ (ascii "float64") h (by decide)),
    if_neg (ne_of_hasPrefix _ _ (ascii "int64") h (by decide)),
    if_neg (hasPrefix_exclusive _ _ (ascii "Getter") h (by decide) (by decide)),
    if_neg (hasPrefix_exclusive _ _ (ascii "PMapGetter") h (by decide) (by decide)),
    if_neg (hasPrefix_exclusive _ _ (ascii "PSliceGetter") h (by decide) (by decide)),
    if_neg (hasPrefix_exclusive _ _ (ascii "StringGetter") h (by decide) (by decide)),
    if_neg (hasPrefix_exclusive _ _ (ascii "StringLikeGetter") h (by decide) (by decide)),
    if_neg (hasPrefix_exclusive _ _ (ascii "FloatGetter") h (by decide) (by decide)),
    if_neg (hasPrefix_exclusive _ _ (ascii "FloatLikeGetter") h (by decide) (by decide)),
    if_neg (hasPrefix_exclusive _ _ (ascii "IntGetter") h (by decide) (by decide)),
    if_neg (hasPrefix_exclusive _ _ (ascii "IntLikeGetter") h (by decide) (by decide)),
    if_neg (hasPrefix_exclusive _ _ (ascii "DurationGetter") h (by decide) (by decide)),
    if_pos h]

theorem buildSliceArg_BoolGetter {σ : Sig} {E : Type} (p : ArgParser σ E) (argVal : value σ)
    (argType elem : GoType) (helem : argType.Elem = some elem)
    (h : hasPrefix elem.Name (ascii "BoolGetter") = true) :
    Parser.buildSliceArg p argVal argType = .error (.unsupportedSliceType elem.Name) := by
  unfold Parser.buildSliceArg
  rw [helem]
  simp only
  rw [if_neg (ne_of_hasPrefix _ _ (ascii "uint8") h (by decide)),
    if_neg (ne_of_hasPrefix _ _ (ascii "string") h (by decide)),
    if_neg (ne_of_hasPrefix _ _ (ascii "float64") h (by decide)),
    if_neg (ne_of_hasPrefix _ _ (ascii "int64") h (by decide)),
    if_neg (hasPrefix_exclusive _ _ (ascii "Getter") h (by decide) (by decide)),
    if_neg (hasPrefix_exclusive _ _ (ascii "PMapGetter") h (by decide) (by decide)),
    if_neg (hasPrefix_exclusive _ _ (ascii "PSliceGetter") h (by decide) (by decide)),
    if_neg (hasPrefix_exclusive _ _ (ascii "StringGetter") h (by decide) (by decide)),
    if_neg (hasPrefix_exclusive _ _ (ascii "StringLikeGetter") h (by decide) (by decide)),
    if_neg (hasPrefix_exclusive _ _ (ascii "FloatGetter") h (by decide) (by decide)),
    if_neg (hasPrefix_exclusive _ _ (ascii "FloatLikeGetter") h (by decide) (by decide)),
    if_neg (hasPrefix_exclusive _ _ (ascii "IntGetter") h (by decide) (by decide)),
    if_neg (hasPrefix_exclusive _ _ (ascii "IntLikeGetter") h (by decide) (by decide)),
    if_neg (hasPrefix_exclusive _ _ (ascii "DurationGetter") h (by decide) (by decide)),
    if_neg (hasPrefix_exclusive _ _ (ascii "TimeGetter") h (by decide) (by decide))]

theorem buildSliceArg_BoolLikeGetter {σ : Sig} {E : Type} (p : ArgParser σ E) (argVal : value σ)
    (argType elem : GoType) (helem : argType.Elem = some elem)
    (h : hasPrefix elem.Name (ascii "BoolLikeGetter") = true) :
    Parser.buildSliceArg p argVal argType = .error (.unsupportedSliceType elem.Name) := by
  unfold Parser.buildSliceArg
  rw [helem]
  simp only
  rw [if_neg (ne_of_hasPrefix _ _ (ascii "uint8") h (by decide)),
    if_neg (ne_of_hasPrefix _ _ (ascii "string") h (by decide)),
    if_neg (ne_of_hasPrefix _ _ (ascii "float64") h (by decide)),
    if_neg (ne_of_hasPrefix _ _ (ascii "int64") h (by decide)),
    if_neg (hasPrefix_exclusive _ _ (ascii "Getter") h (by decide) (by decide)),
    if_neg (hasPrefix_exclusive _ _ (ascii "PMapGetter") h (by decide) (by decide)),
    if_neg (hasPrefix_exclusive _ _ (ascii "PSliceGetter") h (by decide) (by decide)),
    if_neg (hasPrefix_exclusive _ _ (ascii "StringGetter") h (by decide) (by decide)),
    if_neg (hasPrefix_exclusive _ _ (ascii "StringLikeGetter") h (by decide) (by decide)),
    if_neg (hasPrefix_exclusive _ _ (ascii "FloatGetter") h (by decide) (by decide)),
    if_neg (hasPrefix_exclusive _ _ (ascii "FloatLikeGetter") h (by decide) (by decide)),
    if_neg (hasPrefix_exclusive _ _ (ascii "IntGetter") h (by decide) (by decide)),
    if_neg (hasPrefix_exclusive _ _ (ascii "IntLikeGetter") h (by decide) (by decide)),
    if_neg (hasPrefix_exclusive _ _ (ascii "DurationGetter") h (by decide) (by decide)),
    if_neg (hasPrefix_exclusive _ _ (ascii "TimeGetter") h (by decide) (by decide))]

theorem buildSliceArg_ByteSliceLikeGetter {σ : Sig} {E : Type} (p : ArgParser σ E) (argVal : value σ)
    (argType elem : GoType) (helem : argType.Elem = some elem)
    (h : hasPrefix elem.Name (ascii "ByteSliceLikeGetter") = true) :
    Parser.buildSliceArg p argVal argType = .error (.unsupportedSliceType elem.Name) := by
  unfold Parser.buildSliceArg
  rw [helem]
  simp only
  rw [if_neg (ne_of_hasPrefix _ _ (ascii "uint8") h (by decide)),
    if_neg (ne_of_hasPrefix _ _ (ascii "string") h (by decide)),
    if_neg (ne_of_hasPrefix _ _ (ascii "float64") h (by decide)),
    if_neg (ne_of_hasPrefix _ _ (ascii "int64") h (by decide)),
    if_neg (hasPrefix_exclusive _ _ (ascii "Getter") h (by decide) (by decide)),
    if_neg (hasPrefix_exclusive _ _ (ascii "PMapGetter") h (by decide) (by decide)),
    if_neg (hasPrefix_exclusive _ _ (ascii "PSliceGetter") h (by decide) (by decide)),
    if_neg (hasPrefix_exclusive _ _ (ascii "StringGetter") h (by decide) (by decide)),
    if_neg (hasPrefix_exclusive _ _ (ascii "StringLikeGetter") h (by decide) (by decide)),
    if_neg (hasPrefix_exclusive _ _ (ascii "FloatGetter") h (by decide) (by decide)),
    if_neg (hasPrefix_exclusive _ _ (ascii "FloatLikeGetter") h (by decide) (by decide)),
    if_neg (hasPrefix_exclusive _ _ (ascii "IntGetter") h (by decide) (by decide)),
    if_neg (hasPrefix_exclusive _ _ (ascii "IntLikeGetter") h (by decide) (by decide)),
    if_neg (hasPrefix_exclusive _ _ (ascii "DurationGetter") h (by decide) (by decide)),
    if_neg (hasPrefix_exclusive _ _ (ascii "TimeGetter") h (by decide) (by decide))]

end Ottl

namespace Ottl

/-- C27 fails on the code as stated: for a list and the element types
`BoolGetter[K]`, `BoolLikeGetter[K]` and `ByteSliceLikeGetter[K]`,
`buildSliceArg` answers `unsupported slice type`. -/
theorem buildSliceArg_getter_family_counterexample :
    Parser.buildSliceArg sampleArgParser (listValue [stringValue (ascii "a")])
        (sliceOf (interfaceType (ascii "BoolGetter")))
        = .error (.unsupportedSliceType (ascii "BoolGetter"))
      ∧ Parser.buildSliceArg sampleArgParser (listValue [stringValue (ascii "a")])
          (sliceOf (interfaceType (ascii "BoolLikeGetter")))
        = .error (.unsupportedSliceType (ascii "BoolLikeGetter"))
      ∧ Parser.buildSliceArg sampleArgParser (listValue [stringValue (ascii "a")])
          (sliceOf (interfaceType (ascii "ByteSliceLikeGetter")))
        = .error (.unsupportedSliceType (ascii "ByteSliceLikeGetter")) :=
  ⟨rfl, rfl, rfl⟩

/-- C27, amended: for a slice whose element type name starts with `Getter`,
`PMapGetter`, `PSliceGetter`, `StringGetter`, `StringLikeGetter`, `FloatGetter`,
`FloatLikeGetter`, `IntGetter`, `IntLikeGetter`, `DurationGetter` or
`TimeGetter`, `buildSliceArg` is `buildSlice` for that getter interface, with
`buildArg` building each element for the element type, and it does not answer
`unsupported slice type`; for an element type name that starts with
`BoolGetter`, `BoolLikeGetter` or `ByteSliceLikeGetter` it answers `unsupported
slice type`. -/
theorem buildSliceArg_getter_family {σ : Sig} {E : Type} (p : ArgParser σ E)
    (argVal : value σ) (argType elem : GoType) (helem : argType.Elem = some elem) :
    (∀ n ∈ ([
            ascii "Getter", ascii "PMapGetter", ascii "PSliceGetter", ascii "StringGetter",
            ascii "StringLikeGetter", ascii "FloatGetter", ascii "FloatLikeGetter",
            ascii "IntGetter", ascii "IntLikeGetter", ascii "DurationGetter",
            ascii "TimeGetter"] : List GoString),
        hasPrefix elem.Name n = true →
          Parser.buildSliceArg p argVal argType
              = buildSlice p.typeAssert (interfaceType n) argVal argType (Parser.buildArg p)
                  elem.Name
            ∧ ∀ name, Parser.buildSliceArg p argVal argType
                ≠ .error (.unsupportedSliceType name))
      ∧ (∀ n ∈ ([
            ascii "BoolGetter", ascii "BoolLikeGetter", ascii "ByteSliceLikeGetter"] : List GoString),
          hasPrefix elem.Name n = true →
            Parser.buildSliceArg p argVal argType
              = .error (.unsupportedSliceType elem.Name)) := by
  constructor
  · intro n hn h
    have key : Parser.buildSliceArg p argVal argType
        = buildSlice p.typeAssert (interfaceType n) argVal argType (Parser.buildArg p)
            elem.Name := by
      simp only [List.mem_cons, List.mem_singleton, List.not_mem_nil, or_false] at hn
      rcases hn with rfl | rfl | rfl | rfl | rfl | rfl | rfl | rfl | rfl | rfl | rfl
      · exact buildSliceArg_Getter p argVal argType elem helem h
      · exact buildSliceArg_PMapGetter p argVal argType elem helem h
      · exact buildSliceArg_PSliceGetter p argVal argType elem helem h
      · exact buildSliceArg_StringGetter p argVal argType elem helem h
      · exact buildSliceArg_StringLikeGetter p argVal argType elem helem h
      · exact buildSliceArg_FloatGetter p argVal argType elem helem h
      · exact buildSliceArg_FloatLikeGetter p argVal argType elem helem h
      · exact buildSliceArg_IntGetter p argVal argType elem helem h
      · exact buildSliceArg_IntLikeGetter p argVal argType elem helem h
      · exact buildSliceArg_DurationGetter p argVal argType elem helem h
      · exact buildSliceArg_TimeGetter p argVal argType elem helem h
    refine ⟨key, fun name hne => ?_⟩
    rw [key] at hne
    exact buildSlice_ne_unsupported _ _ _ _ _ _ _ hne
  · intro n hn h
    simp only [List.mem_cons, List.mem_singleton, List.not_mem_nil, or_false] at hn
    rcases hn with rfl | rfl | rfl
    · exact buildSliceArg_BoolGetter p argVal argType elem helem h
    · exact buildSliceArg_BoolLikeGetter p argVal argType elem helem h
    · exact buildSliceArg_ByteSliceLikeGetter p argVal argType elem helem h

/-- C27 at the list `["a"]` for a slice of `StringGetter[K]`. -/
theorem buildSliceArg_getter_family_witness :
    (sliceOf stringGetterType).Elem = some stringGetterType
      ∧ hasPrefix stringGetterType.Name (ascii "StringGetter") = true
      ∧ Parser.buildSliceArg sampleArgParser (listValue [stringValue (ascii "a")])
          (sliceOf stringGetterType)
        = .ok (.slice stringGetterType [.standard .StringGetter (.getter (ascii "a"))])
      ∧ Parser.buildSliceArg sampleArgParser (listValue [stringValue (ascii "a")])
          (sliceOf stringGetterType)
        = buildSlice sampleArgParser.typeAssert (interfaceType (ascii "StringGetter"))
            (listValue [stringValue (ascii "a")]) (sliceOf stringGetterType)
            (Parser.buildArg sampleArgParser) stringGetterType.Name :=
  ⟨rfl, by decide, rfl,
    ((buildSliceArg_getter_family sampleArgParser (listValue [stringValue (ascii "a")])
      (sliceOf stringGetterType) stringGetterType rfl).1 (ascii "StringGetter")
        (by simp) (by decide)).1⟩

end Ottl

/-! ## The keys of a chain -/

namespace Ottl

theorem newKeyGetterRest_ok {σ : Sig} (p : Parser σ) (conv : Option σ.converter)
    (math : Option σ.mathExpression) (getter g : Option σ.Getter)
    (h : p.newKeyGetterRest conv math getter = .ok g) :
    (g ≠ none ↔ (getter ≠ none ∨ conv ≠ none ∨ math ≠ none)) := by
  unfold Parser.newKeyGetterRest at h
  cases conv with
  | none =>
    cases math with
    | none =>
      simp only at h
      cases h
      simp
    | some m =>
      simp only at h
      split at h
      · cases h; simp
      · cases h
  | some c =>
    simp only at h
    cases hc : p.newGetterFromConverter c with
    | error e => rw [hc] at h; cases h
    | ok gc =>
      rw [hc] at h
      cases math with
      | none =>
        simp only at h
        cases h
        simp
      | some m =>
        simp only at h
        split at h
        · cases h; simp
        · cases h

theorem exposes_iff {σ : Sig} (q : Option (path σ)) (f : Option σ.float64) (i : Option Int)
    (c : Option σ.converter) (m : Option σ.mathExpression) (P A : Prop) (hA : A ↔ q ≠ none)
    (h : P ↔ (A ∨ c ≠ none ∨ m ≠ none)) :
    P ↔ ((∃ q2 f2 i2 c2, some (mathExprLiteral.mk q f i c) = some (.mk q2 f2 i2 c2)
          ∧ (q2 ≠ none ∨ c2 ≠ none)) ∨ m ≠ none) := by
  rw [h, hA]
  constructor
  · rintro (h1 | h1 | h1)
    · exact Or.inl ⟨q, f, i, c, rfl, Or.inl h1⟩
    · exact Or.inl ⟨q, f, i, c, rfl, Or.inr h1⟩
    · exact Or.inr h1
  · rintro (⟨q2, f2, i2, c2, he, h1⟩ | h1)
    · cases he
      rcases h1 with h1 | h1
      · exact Or.inl h1
      · exact Or.inr (Or.inl h1)
    · exact Or.inr (Or.inr h1)

/-- What the loop of `newKeys` returns: one `baseKey` for each key, in order,
with the `String` and the `Int` of the key, and a getter if and only if the
key has a path or a converter in `Expression`, or a `MathExpression`. -/
theorem newKeysLoop_shape {σ : Sig} (p : Parser σ) :
    ∀ (keys : List (key σ)) (ks : List (baseKey σ)), p.newKeysLoop keys = .ok ks →
      List.Forall₂ (fun k bk => bk.s = k.String ∧ bk.i = k.Int
        ∧ (bk.g ≠ none ↔
            ((∃ q f i c, k.Expression = some (.mk q f i c) ∧ (q ≠ none ∨ c ≠ none))
              ∨ k.MathExpression ≠ none))) keys ks := by
  intro keys
  induction keys with
  | nil =>
    intro ks h
    rw [Parser.newKeysLoop] at h
    cases h
    exact List.Forall₂.nil
  | cons k rest ih =>
    intro ks h
    obtain ⟨s, i, e, m⟩ := k
    cases e with
    | none =>
      rw [Parser.newKeysLoop] at h
      split at h
      · cases h
      · cases h
      · rename_i getter hg
        split at h
        · cases h
        · cases h
        · rename_i ks2 hks
          cases h
          refine List.Forall₂.cons ⟨rfl, rfl, ?_⟩ (ih ks2 hks)
          have := newKeyGetterRest_ok p none m none getter hg
          simpa [key.Expression, key.MathExpression] using this
    | some l =>
      obtain ⟨q, f, i2, c⟩ := l
      cases q with
      | none =>
        rw [Parser.newKeysLoop] at h
        split at h
        · cases h
        · cases h
        · rename_i getter hg
          split at h
          · cases h
          · cases h
          · rename_i ks2 hks
            cases h
            refine List.Forall₂.cons ⟨rfl, rfl, ?_⟩ (ih ks2 hks)
            exact exposes_iff none f i2 c m _ _ (by simp)
              (newKeyGetterRest_ok p c m none getter hg)
      | some q =>
        rw [Parser.newKeysLoop] at h
        split at h
        · cases h
        · cases h
        · rename_i g0 hg0
          split at h
          · cases h
          · cases h
          · rename_i getter hg
            split at h
            · cases h
            · cases h
            · rename_i ks2 hks
              cases h
              refine List.Forall₂.cons ⟨rfl, rfl, ?_⟩ (ih ks2 hks)
              exact exposes_iff (some q) f i2 c m _ _ (by simp)
                (newKeyGetterRest_ok p c m (some (σ.asGetter g0)) getter hg)

end Ottl

namespace Ottl

theorem newKeysLoop_plain {σ : Sig} (p : Parser σ) :
    ∀ keys : List (key σ), (∀ k ∈ keys, k.Expression = none ∧ k.MathExpression = none) →
      p.newKeysLoop keys = .ok (keys.map (fun k => { s := k.String, i := k.Int, g := none })) := by
  intro keys
  induction keys with
  | nil => intro _; rw [Parser.newKeysLoop]; rfl
  | cons k rest ih =>
    intro h
    have hk := h k (List.mem_cons_self _ _)
    have hrest := ih (fun k2 hk2 => h k2 (List.mem_cons_of_mem _ hk2))
    obtain ⟨s, i, e, m⟩ := k
    simp only [key.Expression, key.MathExpression] at hk
    obtain ⟨rfl, rfl⟩ := hk
    rw [Parser.newKeysLoop, hrest]
    rfl

/-- C28: `newKeys` returns nil exactly for an empty key list, and returns for
every list of string and integer keys. When it returns a list, the list has
one key for each parsed key, in the same order, and each key gives the `String`
and the `Int` of the parsed key and a non-nil `ExpressionGetter` when the
parsed key has a `MathExpression`, or a path or a converter in `Expression`; so
for a key as the parser builds it, `String`, `Int` and `ExpressionGetter` are
not all nil. -/
theorem newKeys_exposes {σ : Sig} (p : Parser σ) (keys : List (key σ)) :
    (p.newKeys keys = .ok none ↔ keys = [])
      ∧ ((∀ k ∈ keys, k.Expression = none ∧ k.MathExpression = none) →
          ∃ r, p.newKeys keys = .ok r)
      ∧ ∀ ks, p.newKeys keys = .ok (some ks) →
          ks.length = keys.length
            ∧ List.Forall₂ (fun k bk => bk.s = k.String ∧ bk.i = k.Int
                ∧ (k.MathExpression ≠ none → bk.g ≠ none)
                ∧ ((∃ q f i c, k.Expression = some (.mk q f i c) ∧ (q ≠ none ∨ c ≠ none)) →
                    bk.g ≠ none)
                ∧ (k.parsed = true → ¬ (bk.s = none ∧ bk.i = none ∧ bk.g = none))) keys ks := by
  refine ⟨?_, ?_, ?_⟩
  · constructor
    · intro h
      rw [Parser.newKeys] at h
      split at h
      · rename_i hlen
        exact List.length_eq_zero.mp hlen
      · split at h <;> cases h
    · rintro rfl
      exact newKeys_nil p
  · intro h
    rw [Parser.newKeys]
    split
    · exact ⟨_, rfl⟩
    · rw [newKeysLoop_plain p keys h]
      exact ⟨_, rfl⟩
  · intro ks h
    rw [Parser.newKeys] at h
    split at h
    · cases h
    · split at h
      · cases h
      · cases h
      · rename_i ks2 hks
        cases h
        have hsh := newKeysLoop_shape p keys ks hks
        refine ⟨hsh.length_eq.symm, hsh.imp ?_⟩
        rintro k bk ⟨hs, hi, hg⟩
        refine ⟨hs, hi, fun hm => hg.mpr (Or.inr hm), fun he => hg.mpr (Or.inl he), ?_⟩
        intro hp hall
        obtain ⟨h1, h2, h3⟩ := hall
        rw [hs] at h1
        rw [hi] at h2
        have hno : ¬ ((∃ q f i c, k.Expression = some (.mk q f i c) ∧ (q ≠ none ∨ c ≠ none))
            ∨ k.MathExpression ≠ none) := fun hx => (hg.mpr hx) h3
        obtain ⟨s, i, e, m⟩ := k
        simp only [key.String] at h1
        simp only [key.Int] at h2
        simp only [key.MathExpression, key.Expression, not_or, ne_eq, not_not] at hno
        subst h1 h2
        obtain ⟨hne, rfl⟩ := hno
        cases e with
        | none => simp [key.parsed, key.String, key.Int, key.MathExpression, key.Expression] at hp
        | some l =>
          obtain ⟨q, f, i2, c⟩ := l
          have hqc := hne ⟨q, f, i2, c, rfl, ?_⟩
          · exact hqc
          · simp only [key.parsed, key.String, key.Int, key.MathExpression, key.Expression,
              Option.isSome_none, Bool.or_self, Bool.false_or, Bool.or_eq_true] at hp
            rcases hp with hp | hp
            · left; intro h0; rw [h0] at hp; cases hp
            · right; intro h0; rw [h0] at hp; cases hp

/-- C28 at the keys of `attributes["k"][0][log.body]`, the last one held as a
math expression. -/
theorem newKeys_exposes_witness :
    spanLogParser.newKeys [.mk (some (ascii "k")) none none none, .mk none (some 0) none none,
          .mk none none none (some (ascii "log.body"))]
        = .ok (some [{ s := some (ascii "k"), i := none, g := none },
            { s := none, i := some 0, g := none },
            { s := none, i := none, g := some (ascii "log.body") }])
      ∧ ([{ s := some (ascii "k"), i := none, g := none },
            { s := none, i := some 0, g := none },
            { s := none, i := none, g := some (ascii "log.body") }] :
            List (baseKey sampleSig)).length
          = ([.mk (some (ascii "k")) none none none, .mk none (some 0) none none,
              .mk none none none (some (ascii "log.body"))] : List (key sampleSig)).length :=
  have h : spanLogParser.newKeys [.mk (some (ascii "k")) none none none,
        .mk none (some 0) none none, .mk none none none (some (ascii "log.body"))]
      = .ok (some [{ s := some (ascii "k"), i := none, g := none },
          { s := none, i := some 0, g := none },
          { s := none, i := none, g := some (ascii "log.body") }]) := by
    simp [Parser.newKeys, Parser.newKeysLoop, Parser.newKeyGetterRest, spanLogParser]
  ⟨h, ((newKeys_exposes spanLogParser _).2.2 _ h).1⟩

end Ottl

/-! ## The syslog exporter configuration -/

namespace Ottl

/-- C29: `Validate` returns nil when no rule is violated and otherwise the join
of a list of errors which holds, in the order `errUnsupportedPort`,
`errUnsupportedNetwork`, `errInvalidEndpoint`, `errUnsupportedProtocol`,
`errOctetCounting` and without repetition, exactly the errors of the violated
rules: the port error when the network in lower case is `tcp` or `udp` and the
port is outside 1..65535; the network error when the network in lower case is
none of `tcp`, `udp`, `unix`; the endpoint error when the endpoint is empty;
the protocol error when the protocol is neither `rfc3164` nor `rfc5424`; and
the octet-counting error when octet counting is enabled and the protocol is
not `rfc5424`. For `unix` the port is not looked at. -/
theorem Validate_errors (toLower : GoString → GoString) (cfg : syslogexporter.Config) :
    ∃ errs : List syslogexporter.ConfigError,
      (syslogexporter.Config.Validate toLower cfg).2 = (if errs = [] then none else some errs)
        ∧ errs.Sublist [.errUnsupportedPort, .errUnsupportedNetwork, .errInvalidEndpoint,
            .errUnsupportedProtocol, .errOctetCounting]
        ∧ (.errUnsupportedPort ∈ errs ↔
            ((toLower cfg.Network = ascii "tcp" ∨ toLower cfg.Network = ascii "udp")
              ∧ (cfg.Port < 1 ∨ 65535 < cfg.Port)))
        ∧ (.errUnsupportedNetwork ∈ errs ↔
            (toLower cfg.Network ≠ ascii "tcp" ∧ toLower cfg.Network ≠ ascii "udp"
              ∧ toLower cfg.Network ≠ ascii "unix"))
        ∧ (.errInvalidEndpoint ∈ errs ↔ cfg.Endpoint = [])
        ∧ (.errUnsupportedProtocol ∈ errs ↔
            (cfg.Protocol ≠ ascii "rfc3164" ∧ cfg.Protocol ≠ ascii "rfc5424"))
        ∧ (.errOctetCounting ∈ errs ↔
            (cfg.EnableOctetCounting = true ∧ cfg.Protocol ≠ ascii "rfc5424"))
        ∧ ((syslogexporter.Config.Validate toLower cfg).2 = none ↔ errs = []) := by
  have d1 : ascii "tcp" ≠ ascii "udp" := by decide
  have d2 : ascii "tcp" ≠ ascii "unix" := by decide
  have d3 : ascii "udp" ≠ ascii "unix" := by decide
  have d4 : ascii "udp" ≠ ascii "tcp" := by decide
  have d5 : ascii "unix" ≠ ascii "tcp" := by decide
  have d6 : ascii "unix" ≠ ascii "udp" := by decide
  have d7 : ascii "rfc3164" ≠ ascii "rfc5424" := by decide
  have d8 : ascii "rfc5424" ≠ ascii "rfc3164" := by decide
  have hnet : toLower cfg.Network = ascii "tcp" ∨ toLower cfg.Network = ascii "udp"
      ∨ toLower cfg.Network = ascii "unix"
      ∨ (toLower cfg.Network ≠ ascii "tcp" ∧ toLower cfg.Network ≠ ascii "udp"
        ∧ toLower cfg.Network ≠ ascii "unix") := by
    by_cases h1 : toLower cfg.Network = ascii "tcp"
    · exact Or.inl h1
    · by_cases h2 : toLower cfg.Network = ascii "udp"
      · exact Or.inr (Or.inl h2)
      · by_cases h3 : toLower cfg.Network = ascii "unix"
        · exact Or.inr (Or.inr (Or.inl h3))
        · exact Or.inr (Or.inr (Or.inr ⟨h1, h2, h3⟩))
  have hproto : cfg.Protocol = ascii "rfc3164" ∨ cfg.Protocol = ascii "rfc5424"
      ∨ (cfg.Protocol ≠ ascii "rfc3164" ∧ cfg.Protocol ≠ ascii "rfc5424") := by
    by_cases h1 : cfg.Protocol = ascii "rfc3164"
    · exact Or.inl h1
    · by_cases h2 : cfg.Protocol = ascii "rfc5424"
      · exact Or.inr (Or.inl h2)
      · exact Or.inr (Or.inr ⟨h1, h2⟩)
  refine ⟨((syslogexporter.Config.Validate toLower cfg).2).getD [], ?_⟩
  rcases hnet with h | h | h | ⟨ha, hb, hc⟩ <;> rcases hproto with g | g | ⟨ga, gb⟩
    <;> by_cases h2 : cfg.Port < 1 ∨ 65535 < cfg.Port
    <;> by_cases h4 : cfg.Endpoint = []
    <;> by_cases h7 : cfg.EnableOctetCounting = true
    <;> (simp [syslogexporter.Config.Validate, syslogexporter.TransportTypeTCP,
      syslogexporter.TransportTypeUDP, syslogexporter.TransportTypeUnix,
      syslogexporter.protocolRFC3164Str, syslogexporter.protocolRFC5424Str, *] <;> decide)

end Ottl

namespace Ottl

theorem Validate_sampleConfig :
    syslogexporter.Config.Validate syslogexporter.asciiToLower syslogexporter.sampleConfig
      = ({ syslogexporter.sampleConfig with Network := ascii "tcp" },
          some [.errUnsupportedPort, .errInvalidEndpoint, .errOctetCounting]) := by
  decide

end Ottl

/-! ## Localized time: unsupported layout elements -/

namespace Ottl

theorem isPrefixOf_drop_iff (s X : GoString) (lo : Nat) (hX : 0 < X.length) :
    X.isPrefixOf (s.drop lo) = true
      ↔ (s.length ≥ lo + X.length ∧ goSlice s lo (lo + X.length) = some X) := by
  rw [List.isPrefixOf_iff_prefix]
  constructor
  · intro h
    have hlen : X.length ≤ (s.drop lo).length := h.length_le
    rw [List.length_drop] at hlen
    have h1 : lo + X.length ≤ s.length := by omega
    refine ⟨h1, ?_⟩
    rw [goSlice_eq_some (Nat.le_add_right _ _) h1, Nat.add_sub_cancel_left]
    exact congrArg some (List.prefix_iff_eq_take.mp h).symm
  · rintro ⟨h1, h2⟩
    rw [goSlice_eq_some (Nat.le_add_right _ _) h1, Nat.add_sub_cancel_left] at h2
    simp only [Option.some.injEq] at h2
    rw [← h2]
    exact List.take_prefix _ _

theorem getElem?_of_isPrefixOf_drop (s X : GoString) (lo : Nat)
    (h : X.isPrefixOf (s.drop lo) = true) (k : Nat) (hk : k < X.length) :
    s[lo + k]? = X[k]? := by
  rw [List.isPrefixOf_iff_prefix] at h
  obtain ⟨t, ht⟩ := h
  rw [← List.getElem?_drop, ← ht, List.getElem?_append_left hk]

theorem isPrefixOf_trans (X Y s : GoString) (hXY : X.isPrefixOf Y = true)
    (h : Y.isPrefixOf s = true) : X.isPrefixOf s = true := by
  rw [List.isPrefixOf_iff_prefix] at *
  exact hXY.trans h

theorem toUpper_eq_M (d : UInt8) :
    localizedtime.toUpper d = (localizedtime.byte 'M').toNat
      ↔ (d = localizedtime.byte 'M' ∨ d = localizedtime.byte 'm') := by
  have hM : (localizedtime.byte 'M').toNat = 77 := by decide
  have e1 : d = localizedtime.byte 'M' ↔ d.toNat = 77 := by
    constructor
    · rintro rfl; decide
    · intro h
      apply UInt8.ext
      simpa [UInt8.toNat] using h
  have e2 : d = localizedtime.byte 'm' ↔ d.toNat = 109 := by
    constructor
    · rintro rfl; decide
    · intro h
      apply UInt8.ext
      simpa [UInt8.toNat] using h
  rw [hM, e1, e2]
  unfold localizedtime.toUpper
  split_ifs <;> omega

end Ottl

namespace Ottl

theorem drop_cons_cons_iff (s : GoString) (j : Nat) (c d : UInt8) :
    (∃ t, s.drop j = c :: d :: t) ↔ (s[j]? = some c ∧ s[j + 1]? = some d) := by
  constructor
  · rintro ⟨t, ht⟩
    have h0 := List.getElem?_drop s j 0
    have h1 := List.getElem?_drop s j 1
    rw [ht] at h0 h1
    simp only [List.getElem?_cons_zero, List.getElem?_cons_succ, Nat.add_zero] at h0 h1
    exact ⟨h0.symm, h1.symm⟩
  · rintro ⟨h0, h1⟩
    have e0 := List.getElem?_drop s j 0
    have e1 := List.getElem?_drop s j 1
    rw [Nat.add_zero, h0] at e0
    rw [h1] at e1
    cases hd : s.drop j with
    | nil => rw [hd] at e0; cases e0
    | cons a t =>
      rw [hd] at e0 e1
      simp only [List.getElem?_cons_zero, Option.some.injEq] at e0
      cases t with
      | nil => simp at e1
      | cons b t2 =>
        simp only [List.getElem?_cons_succ, List.getElem?_cons_zero, Option.some.injEq] at e1
        exact ⟨t2, by rw [e0, e1]⟩

/-- What it means that no translatable element starts at an offset. -/
theorem layoutElemAt_none (layout : GoString) (j : Nat)
    (h : localizedtime.layoutElemAt layout j = none) :
    (ascii "January").isPrefixOf (layout.drop j) = false
      ∧ ((ascii "Jan").isPrefixOf (layout.drop j) = true →
          localizedtime.startsWithLowerCase (layout.drop (j + 3)) = true)
      ∧ (ascii "Monday").isPrefixOf (layout.drop j) = false
      ∧ ((ascii "Mon").isPrefixOf (layout.drop j) = true →
          localizedtime.startsWithLowerCase (layout.drop (j + 3)) = true)
      ∧ (∀ c d, layout[j]? = some c → layout[j + 1]? = some d →
          (c = localizedtime.byte 'P' ∨ c = localizedtime.byte 'p') →
          ¬ (d = localizedtime.byte 'M' ∨ d = localizedtime.byte 'm')) := by
  unfold localizedtime.layoutElemAt at h
  split_ifs at h with h1 h2 h3 h4
  refine ⟨Bool.eq_false_iff.mpr h1, ?_, Bool.eq_false_iff.mpr h3, ?_, ?_⟩
  · intro hp
    by_contra hl
    exact h2 ⟨hp, by simpa using hl⟩
  · intro hp
    by_contra hl
    exact h4 ⟨hp, by simpa using hl⟩
  · intro c d hc hd hP hM
    obtain ⟨t, ht⟩ := (drop_cons_cons_iff layout j c d).mpr ⟨hc, hd⟩
    rw [ht] at h
    simp only [hP, hM, and_self, if_true] at h
    cases h

/-- What it means that a translatable element starts at an offset. -/
theorem layoutElemAt_some (layout : GoString) (j : Nat) (e : GoString)
    (h : localizedtime.layoutElemAt layout j = some e) :
    (e = ascii "January" ∧ (ascii "January").isPrefixOf (layout.drop j) = true)
      ∨ (e = ascii "Jan" ∧ (ascii "January").isPrefixOf (layout.drop j) = false
          ∧ (ascii "Jan").isPrefixOf (layout.drop j) = true
          ∧ localizedtime.startsWithLowerCase (layout.drop (j + 3)) = false)
      ∨ (e = ascii "Monday" ∧ (ascii "Monday").isPrefixOf (layout.drop j) = true)
      ∨ (e = ascii "Mon" ∧ (ascii "Monday").isPrefixOf (layout.drop j) = false
          ∧ (ascii "Mon").isPrefixOf (layout.drop j) = true
          ∧ localizedtime.startsWithLowerCase (layout.drop (j + 3)) = false)
      ∨ (e = ascii "PM" ∧ ∃ c d, layout[j]? = some c ∧ layout[j + 1]? = some d
          ∧ (c = localizedtime.byte 'P' ∨ c = localizedtime.byte 'p')
          ∧ (d = localizedtime.byte 'M' ∨ d = localizedtime.byte 'm')) := by
  unfold localizedtime.layoutElemAt at h
  split_ifs at h with h1 h2 h3 h4
  · cases h; exact Or.inl ⟨rfl, h1⟩
  · cases h; exact Or.inr (Or.inl ⟨rfl, Bool.eq_false_iff.mpr h1, h2.1, h2.2⟩)
  · cases h; exact Or.inr (Or.inr (Or.inl ⟨rfl, h3⟩))
  · cases h; exact Or.inr (Or.inr (Or.inr (Or.inl ⟨rfl, Bool.eq_false_iff.mpr h3, h4.1, h4.2⟩)))
  · split at h
    · rename_i c d t ht
      split_ifs at h with h5
      cases h
      exact Or.inr (Or.inr (Or.inr (Or.inr ⟨rfl, c, d,
        ((drop_cons_cons_iff layout j c d).mp ⟨t, ht⟩).1,
        ((drop_cons_cons_iff layout j c d).mp ⟨t, ht⟩).2, h5.1, h5.2⟩)))
    · cases h

/-- A translatable element starts with `J`, `M`, `P` or `p`, and its second
byte is `a`, `o`, `M` or `m`. -/
theorem layoutElemAt_bytes (layout : GoString) (j : Nat) (e : GoString)
    (h : localizedtime.layoutElemAt layout j = some e) :
    ∃ c d, layout[j]? = some c ∧ layout[j + 1]? = some d
      ∧ (c = localizedtime.byte 'J' ∨ c = localizedtime.byte 'M'
          ∨ c = localizedtime.byte 'P' ∨ c = localizedtime.byte 'p')
      ∧ (d = localizedtime.byte 'a' ∨ d = localizedtime.byte 'o'
          ∨ d = localizedtime.byte 'M' ∨ d = localizedtime.byte 'm') := by
  rcases layoutElemAt_some layout j e h with ⟨_, hp⟩ | ⟨_, _, hp, _⟩ | ⟨_, hp⟩ | ⟨_, _, hp, _⟩
    | ⟨_, c, d, hc, hd, h1, h2⟩
  · have h0 := getElem?_of_isPrefixOf_drop layout _ j hp 0 (by decide)
    have h1 := getElem?_of_isPrefixOf_drop layout _ j hp 1 (by decide)
    exact ⟨_, _, h0, h1, Or.inl rfl, Or.inl rfl⟩
  · have h0 := getElem?_of_isPrefixOf_drop layout _ j hp 0 (by decide)
    have h1 := getElem?_of_isPrefixOf_drop layout _ j hp 1 (by decide)
    exact ⟨_, _, h0, h1, Or.inl rfl, Or.inl rfl⟩
  · have h0 := getElem?_of_isPrefixOf_drop layout _ j hp 0 (by decide)
    have h1 := getElem?_of_isPrefixOf_drop layout _ j hp 1 (by decide)
    exact ⟨_, _, h0, h1, Or.inr (Or.inl rfl), Or.inr (Or.inl rfl)⟩
  · have h0 := getElem?_of_isPrefixOf_drop layout _ j hp 0 (by decide)
    have h1 := getElem?_of_isPrefixOf_drop layout _ j hp 1 (by decide)
    exact ⟨_, _, h0, h1, Or.inr (Or.inl rfl), Or.inr (Or.inl rfl)⟩
  · exact ⟨c, d, hc, hd, Or.inr (Or.inr h1), Or.inr (Or.inr h2)⟩

end Ottl

namespace Ottl

theorem isPrefixOf_drop_iff_of_length (s X : GoString) (lo n : Nat) (hX : X.length = n)
    (hn : 0 < n) :
    X.isPrefixOf (s.drop lo) = true
      ↔ (s.length ≥ lo + n ∧ goSlice s lo (lo + n) = some X) := by
  have := isPrefixOf_drop_iff s X lo (by omega)
  rwa [hX] at this

theorem FormatNamedElem_empty (equalFold : GoString → GoString → Bool) (value : GoString)
    (locale : localizedtime.Locale) (lookupTab stdTab : List GoString)
    (s : localizedtime.FormatState) :
    localizedtime.FormatNamedElem equalFold value locale [] lookupTab stdTab s = .ok s := by
  unfold localizedtime.FormatNamedElem
  rw [if_pos rfl]

theorem FormatNamedElem_unsupported (equalFold : GoString → GoString → Bool)
    (value : GoString) (locale : localizedtime.Locale) (layoutElem : GoString)
    (stdTab : List GoString) (s : localizedtime.FormatState) (h : layoutElem ≠ []) :
    localizedtime.FormatNamedElem equalFold value locale layoutElem [] stdTab s
      = .error (.ErrUnsupportedLayoutElem layoutElem locale.Language) := by
  unfold localizedtime.FormatNamedElem
  rw [if_neg h, if_pos (by rfl)]
  rfl

theorem FormatCaseJ_none (equalFold : GoString → GoString → Bool) (layout value : GoString)
    (locale : localizedtime.Locale) (s : localizedtime.FormatState)
    (h : localizedtime.layoutElemAt layout s.layoutOffset = none) :
    localizedtime.FormatCaseJ equalFold layout value locale s = .ok s := by
  obtain ⟨h1, h2, _, _, _⟩ := layoutElemAt_none layout s.layoutOffset h
  unfold localizedtime.FormatCaseJ
  by_cases hp : (ascii "Jan").isPrefixOf (layout.drop s.layoutOffset) = true
  · have hc := (isPrefixOf_drop_iff_of_length layout (ascii "Jan") s.layoutOffset 3 rfl
      (by decide)).mp hp
    rw [if_pos hc, if_neg (fun hc7 => by
      have := (isPrefixOf_drop_iff_of_length layout (ascii "January") s.layoutOffset 7 rfl
        (by decide)).mpr hc7
      rw [h1] at this
      cases this), goSliceFrom_eq_some hc.1]
    simp only [h2 hp, Bool.not_true, Bool.false_eq_true, if_false]
    exact FormatNamedElem_empty _ _ _ _ _ _
  · rw [if_neg (fun hc => hp
      ((isPrefixOf_drop_iff_of_length layout (ascii "Jan") s.layoutOffset 3 rfl
        (by decide)).mpr hc))]

theorem FormatCaseM_none (equalFold : GoString → GoString → Bool) (layout value : GoString)
    (locale : localizedtime.Locale) (s : localizedtime.FormatState)
    (h : localizedtime.layoutElemAt layout s.layoutOffset = none) :
    localizedtime.FormatCaseM equalFold layout value locale s = .ok s := by
  obtain ⟨_, _, h1, h2, _⟩ := layoutElemAt_none layout s.layoutOffset h
  unfold localizedtime.FormatCaseM
  by_cases hp : (ascii "Mon").isPrefixOf (layout.drop s.layoutOffset) = true
  · have hc := (isPrefixOf_drop_iff_of_length layout (ascii "Mon") s.layoutOffset 3 rfl
      (by decide)).mp hp
    rw [if_pos hc, if_neg (fun hc6 => by
      have := (isPrefixOf_drop_iff_of_length layout (ascii "Monday") s.layoutOffset 6 rfl
        (by decide)).mpr hc6
      rw [h1] at this
      cases this), goSliceFrom_eq_some hc.1]
    simp only [h2 hp, Bool.not_true, Bool.false_eq_true, if_false]
    exact FormatNamedElem_empty _ _ _ _ _ _
  · rw [if_neg (fun hc => hp
      ((isPrefixOf_drop_iff_of_length layout (ascii "Mon") s.layoutOffset 3 rfl
        (by decide)).mpr hc))]

theorem getElem?_of_lt_length (s : GoString) (i : Nat) (h : i < s.length) :
    ∃ c, s[i]? = some c :=
  ⟨s[i], List.getElem?_eq_getElem h⟩

theorem FormatCaseP_none (equalFold : GoString → GoString → Bool) (layout value : GoString)
    (locale : localizedtime.Locale) (s : localizedtime.FormatState) (c : UInt8)
    (hc : layout[s.layoutOffset]? = some c)
    (hP : c = localizedtime.byte 'P' ∨ c = localizedtime.byte 'p')
    (h : localizedtime.layoutElemAt layout s.layoutOffset = none) :
    localizedtime.FormatCaseP equalFold layout value locale s = .ok s := by
  obtain ⟨_, _, _, _, h5⟩ := layoutElemAt_none layout s.layoutOffset h
  unfold localizedtime.FormatCaseP
  by_cases hlen : layout.length ≥ s.layoutOffset + 2
  · rw [if_pos hlen]
    obtain ⟨d, hd⟩ := getElem?_of_lt_length layout (s.layoutOffset + 1) (by omega)
    rw [hd]
    simp only
    rw [if_neg (fun hu => h5 c d hc hd hP ((toUpper_eq_M d).mp hu))]
  · rw [if_neg hlen]

end Ottl

namespace Ottl

theorem countSpaces_le (l : GoString) : localizedtime.countSpaces l ≤ l.length := by
  induction l with
  | nil => simp [localizedtime.countSpaces]
  | cons c cs ih =>
    simp only [localizedtime.countSpaces, List.length_cons]
    split_ifs <;> omega

theorem skipSpaces_le (value : GoString) (offset : Nat) (h : offset ≤ value.length) :
    localizedtime.skipSpaces value offset ≤ value.length := by
  unfold localizedtime.skipSpaces
  have := countSpaces_le (value.drop offset)
  rw [List.length_drop] at this
  omega

theorem writeNextNonSpaceValue_ok (value : GoString) (offset max : Nat) (sb : GoString)
    (h : offset ≤ value.length) :
    ∃ valueOffset sb2,
      localizedtime.writeNextNonSpaceValue value offset max sb = .ok (valueOffset, sb2) := by
  unfold localizedtime.writeNextNonSpaceValue localizedtime.nextNonSpaceValue
  rw [if_neg (Nat.not_lt.mpr (skipSpaces_le value offset h))]
  exact ⟨_, _, rfl⟩

theorem layoutElemAt_none_of_byte (layout : GoString) (j : Nat) (c : UInt8)
    (hc : layout[j]? = some c)
    (hne : c ≠ localizedtime.byte 'J' ∧ c ≠ localizedtime.byte 'M'
      ∧ c ≠ localizedtime.byte 'P' ∧ c ≠ localizedtime.byte 'p') :
    localizedtime.layoutElemAt layout j = none := by
  cases h : localizedtime.layoutElemAt layout j with
  | none => rfl
  | some e =>
    obtain ⟨c2, d, h1, _, h3, _⟩ := layoutElemAt_bytes layout j e h
    rw [hc] at h1
    cases h1
    rcases h3 with h3 | h3 | h3 | h3
    · exact absurd h3 hne.1
    · exact absurd h3 hne.2.1
    · exact absurd h3 hne.2.2.1
    · exact absurd h3 hne.2.2.2

theorem layoutElemAt_none_of_next (layout : GoString) (j : Nat) (d : UInt8)
    (hd : layout[j + 1]? = some d)
    (hne : d ≠ localizedtime.byte 'a' ∧ d ≠ localizedtime.byte 'o'
      ∧ d ≠ localizedtime.byte 'M' ∧ d ≠ localizedtime.byte 'm') :
    localizedtime.layoutElemAt layout j = none := by
  cases h : localizedtime.layoutElemAt layout j with
  | none => rfl
  | some e =>
    obtain ⟨c, d2, _, h2, _, h4⟩ := layoutElemAt_bytes layout j e h
    rw [hd] at h2
    cases h2
    rcases h4 with h4 | h4 | h4 | h4
    · exact absurd h4 hne.1
    · exact absurd h4 hne.2.1
    · exact absurd h4 hne.2.2.1
    · exact absurd h4 hne.2.2.2

/-- The first `if` of the case `_` returns no error, and the bytes of the
layout it passes over start no translatable element. -/
theorem FormatCaseUnderscore2_ok (layout value : GoString) (s : localizedtime.FormatState) :
    ∃ s2, localizedtime.FormatCaseUnderscore2 layout value s = .ok s2
      ∧ (s2 = s ∨ (s2.written = true ∧ s.layoutOffset < s2.layoutOffset))
      ∧ ∀ j, s.layoutOffset + 1 ≤ j → j < s2.layoutOffset →
          localizedtime.layoutElemAt layout j = none := by
  have hnone : ∃ s2, (localizedtime.Result.ok s : localizedtime.Result _) = .ok s2
      ∧ (s2 = s ∨ (s2.written = true ∧ s.layoutOffset < s2.layoutOffset))
      ∧ ∀ j, s.layoutOffset + 1 ≤ j → j < s2.layoutOffset →
          localizedtime.layoutElemAt layout j = none :=
    ⟨s, rfl, Or.inl rfl, fun j h1 h2 => by omega⟩
  unfold localizedtime.FormatCaseUnderscore2
  by_cases hlen : layout.length ≥ s.layoutOffset + 2
  swap
  · rw [if_neg hlen]; exact hnone
  rw [if_pos hlen]
  obtain ⟨d, hd⟩ := getElem?_of_lt_length layout (s.layoutOffset + 1) (by omega)
  rw [hd]
  simp only
  by_cases hd2 : d = localizedtime.byte '2'
  swap
  · rw [if_neg hd2]; exact hnone
  rw [if_pos hd2]
  by_cases h2006 : layout.length ≥ s.layoutOffset + 5
      ∧ goSlice layout (s.layoutOffset + 1) (s.layoutOffset + 5) = some (ascii "2006")
  · by_cases hv : value.length ≥ s.valueOffset + 5
    · obtain ⟨vo, sb2, hw⟩ := writeNextNonSpaceValue_ok value s.valueOffset 5 s.sb (by omega)
      simp only [h2006, hv, and_self, if_true, hw, Nat.lt_irrefl, gt_iff_lt, Nat.zero_lt_succ]
      refine ⟨_, rfl, Or.inr ⟨rfl, by simp⟩, ?_⟩
      intro j h1 h2
      simp only at h2
      have hp : (ascii "2006").isPrefixOf (layout.drop (s.layoutOffset + 1)) = true :=
        (isPrefixOf_drop_iff_of_length layout (ascii "2006") (s.layoutOffset + 1) 4 rfl
          (by decide)).mpr ⟨by omega, h2006.2⟩
      obtain ⟨k, hk, rfl⟩ : ∃ k, k < 4 ∧ j = s.layoutOffset + 1 + k :=
        ⟨j - (s.layoutOffset + 1), by omega, by omega⟩
      have hb := getElem?_of_isPrefixOf_drop layout _ _ hp k hk
      interval_cases k
      · exact layoutElemAt_none_of_byte layout _ _ hb (by decide)
      · exact layoutElemAt_none_of_byte layout _ _ hb (by decide)
      · exact layoutElemAt_none_of_byte layout _ _ hb (by decide)
      · exact layoutElemAt_none_of_byte layout _ _ hb (by decide)
    · simp only [h2006, hv, and_self, if_true, if_false, Nat.lt_irrefl, gt_iff_lt]
      exact hnone
  · by_cases hv : value.length ≥ s.valueOffset + 2
    · obtain ⟨vo, sb2, hw⟩ := writeNextNonSpaceValue_ok value s.valueOffset 2 s.sb (by omega)
      simp only [h2006, hv, if_true, if_false, hw, gt_iff_lt, Nat.zero_lt_succ]
      refine ⟨_, rfl, Or.inr ⟨rfl, by simp⟩, ?_⟩
      intro j h1 h2
      simp only at h2
      have hj : j = s.layoutOffset + 1 := by omega
      subst hj
      exact layoutElemAt_none_of_byte layout _ _ hd (by rw [hd2]; decide)
    · simp only [h2006, hv, if_false, Nat.lt_irrefl, gt_iff_lt]
      exact hnone

end Ottl

namespace Ottl

/-- The second `if` of the case `_` returns no error, and the bytes of the
layout it passes over start no translatable element. -/
theorem FormatCaseUnderscore3_ok (layout value : GoString) (s : localizedtime.FormatState) :
    ∃ s3, localizedtime.FormatCaseUnderscore3 layout value s = .ok s3
      ∧ (s3 = s ∨ (s3.written = true ∧ s.layoutOffset < s3.layoutOffset))
      ∧ ∀ j, s.layoutOffset ≤ j → j < s3.layoutOffset →
          localizedtime.layoutElemAt layout j = none := by
  have hnone : ∃ s3, (localizedtime.Result.ok s : localizedtime.Result _) = .ok s3
      ∧ (s3 = s ∨ (s3.written = true ∧ s.layoutOffset < s3.layoutOffset))
      ∧ ∀ j, s.layoutOffset ≤ j → j < s3.layoutOffset →
          localizedtime.layoutElemAt layout j = none :=
    ⟨s, rfl, Or.inl rfl, fun j h1 h2 => by omega⟩
  unfold localizedtime.FormatCaseUnderscore3
  by_cases hlen : layout.length ≥ s.layoutOffset + 3
  swap
  · rw [if_neg hlen]; exact hnone
  rw [if_pos hlen]
  obtain ⟨c1, h1⟩ := getElem?_of_lt_length layout (s.layoutOffset + 1) (by omega)
  obtain ⟨c2, h2⟩ := getElem?_of_lt_length layout (s.layoutOffset + 2) (by omega)
  rw [h1, h2]
  simp only
  by_cases hc : c1 = localizedtime.byte '_' ∧ c2 = localizedtime.byte '2'
  swap
  · rw [if_neg hc]; exact hnone
  rw [if_pos hc]
  by_cases hv : value.length ≥ s.valueOffset + 3
  swap
  · rw [if_neg hv]; exact hnone
  rw [if_pos hv]
  obtain ⟨vo, sb2, hw⟩ := writeNextNonSpaceValue_ok value s.valueOffset 3 s.sb (by omega)
  rw [hw]
  refine ⟨_, rfl, Or.inr ⟨rfl, by simp⟩, ?_⟩
  intro j hj1 hj2
  simp only at hj2
  obtain ⟨k, hk, rfl⟩ : ∃ k, k < 3 ∧ j = s.layoutOffset + k :=
    ⟨j - s.layoutOffset, by omega, by omega⟩
  interval_cases k
  · exact layoutElemAt_none_of_next layout _ _ h1 (by rw [hc.1]; decide)
  · exact layoutElemAt_none_of_byte layout _ _ h1 (by rw [hc.1]; decide)
  · exact layoutElemAt_none_of_byte layout _ _ h2 (by rw [hc.2]; decide)

theorem FormatNotWritten_ok (value : GoString) (s : localizedtime.FormatState) :
    ∃ s2, localizedtime.FormatNotWritten value s = .ok s2
      ∧ (s.written = true → s2 = s)
      ∧ (s.written = false → s2.layoutOffset = s.layoutOffset + 1) := by
  unfold localizedtime.FormatNotWritten
  cases hw : s.written with
  | true =>
    simp only [Bool.not_true, Bool.false_eq_true, if_false]
    refine ⟨s, rfl, ?_, ?_⟩
    · intro _; rfl
    · intro h; cases h
  | false =>
    simp only [Bool.not_false, if_true]
    by_cases hv : value.length > s.valueOffset
    · rw [if_pos hv]
      obtain ⟨b, hb⟩ := getElem?_of_lt_length value s.valueOffset hv
      rw [hb]
      refine ⟨_, rfl, ?_, ?_⟩
      · intro h; cases h
      · intro _; rfl
    · rw [if_neg hv]
      refine ⟨_, rfl, ?_, ?_⟩
      · intro h; cases h
      · intro _; rfl

/-- The switch of `Format` at an offset where no translatable element starts:
it returns no error, it has either written and moved the layout offset
forward or changed nothing, and the bytes it passes over start no translatable
element. -/
theorem FormatSwitch_none (equalFold : GoString → GoString → Bool) (layout value : GoString)
    (locale : localizedtime.Locale) (c : UInt8) (s : localizedtime.FormatState)
    (hc : layout[s.layoutOffset]? = some c)
    (h : localizedtime.layoutElemAt layout s.layoutOffset = none) :
    ∃ s2, localizedtime.FormatSwitch equalFold layout value locale c s = .ok s2
      ∧ (s2 = s ∨ (s2.written = true ∧ s.layoutOffset < s2.layoutOffset))
      ∧ ∀ j, s.layoutOffset + 1 ≤ j → j < s2.layoutOffset →
          localizedtime.layoutElemAt layout j = none := by
  have hnone : ∃ s2, (localizedtime.Result.ok s : localizedtime.Result _) = .ok s2
      ∧ (s2 = s ∨ (s2.written = true ∧ s.layoutOffset < s2.layoutOffset))
      ∧ ∀ j, s.layoutOffset + 1 ≤ j → j < s2.layoutOffset →
          localizedtime.layoutElemAt layout j = none :=
    ⟨s, rfl, Or.inl rfl, fun j h1 h2 => by omega⟩
  unfold localizedtime.FormatSwitch
  by_cases hJ : c = localizedtime.byte 'J'
  · rw [if_pos hJ, FormatCaseJ_none _ _ _ _ _ h]; exact hnone
  rw [if_neg hJ]
  by_cases hM : c = localizedtime.byte 'M'
  · rw [if_pos hM, FormatCaseM_none _ _ _ _ _ h]; exact hnone
  rw [if_neg hM]
  by_cases hP : c = localizedtime.byte 'P' ∨ c = localizedtime.byte 'p'
  · rw [if_pos hP, FormatCaseP_none _ _ _ _ _ c hc hP h]; exact hnone
  rw [if_neg hP]
  by_cases hU : c = localizedtime.byte '_'
  swap
  · rw [if_neg hU]; exact hnone
  rw [if_pos hU]
  obtain ⟨s2, h2, h2w, h2n⟩ := FormatCaseUnderscore2_ok layout value s
  obtain ⟨s3, h3, h3w, h3n⟩ := FormatCaseUnderscore3_ok layout value s2
  rw [h2]
  simp only
  rw [h3]
  refine ⟨s3, rfl, ?_, ?_⟩
  · rcases h2w with rfl | ⟨_, hlt2⟩
    · exact h3w
    · rcases h3w with rfl | ⟨hw3, hlt3⟩
      · exact Or.inr ⟨by assumption, hlt2⟩
      · exact Or.inr ⟨hw3, Nat.lt_trans hlt2 hlt3⟩
  · intro j hj1 hj2
    by_cases hj : j < s2.layoutOffset
    · exact h2n j hj1 hj
    · exact h3n j (Nat.le_of_not_lt hj) hj2

/-- An iteration of the loop of `Format` at an offset where no translatable
element starts: it returns no error, moves the layout offset forward, and the
bytes it passes over start no translatable element. -/
theorem FormatStep_none (equalFold : GoString → GoString → Bool) (layout value : GoString)
    (locale : localizedtime.Locale) (layoutOffset valueOffset : Nat) (sb : GoString)
    (hlt : layoutOffset < layout.length)
    (h : localizedtime.layoutElemAt layout layoutOffset = none) :
    ∃ layoutOffset2 valueOffset2 sb2,
      localizedtime.FormatStep equalFold layout value locale layoutOffset valueOffset sb
          = .ok (layoutOffset2, valueOffset2, sb2)
        ∧ layoutOffset < layoutOffset2
        ∧ ∀ j, layoutOffset ≤ j → j < layoutOffset2 →
            localizedtime.layoutElemAt layout j = none := by
  obtain ⟨c, hc⟩ := getElem?_of_lt_length layout layoutOffset hlt
  obtain ⟨s2, h2, h2w, h2n⟩ := FormatSwitch_none equalFold layout value locale c
    { written := false, layoutOffset := layoutOffset, valueOffset := valueOffset, sb := sb }
    hc h
  obtain ⟨s3, h3, h3t, h3f⟩ := FormatNotWritten_ok value s2
  unfold localizedtime.FormatStep
  rw [hc]
  simp only
  rw [h2]
  simp only
  rw [h3]
  refine ⟨s3.layoutOffset, s3.valueOffset, s3.sb, rfl, ?_, ?_⟩
  · rcases h2w with rfl | ⟨hw, hl⟩
    · rw [h3f rfl]; exact Nat.lt_succ_self _
    · rw [h3t hw]; exact hl
  · intro j hj1 hj2
    rcases Nat.eq_or_lt_of_le hj1 with rfl | hj1
    · exact h
    · rcases h2w with rfl | ⟨hw, hl⟩
      · rw [h3f rfl] at hj2
        simp only at hj2
        omega
      · rw [h3t hw] at hj2
        exact h2n j hj1 hj2

end Ottl

namespace Ottl

theorem tableOf_cases (locale : localizedtime.Locale) :
    locale.tableOf (ascii "January") = locale.LongMonthNames
      ∧ locale.tableOf (ascii "Jan") = locale.ShortMonthNames
      ∧ locale.tableOf (ascii "Monday") = locale.LongDayNames
      ∧ locale.tableOf (ascii "Mon") = locale.ShortDayNames
      ∧ locale.tableOf (ascii "PM") = locale.DayPeriods := by
  refine ⟨?_, ?_, ?_, ?_, ?_⟩ <;> unfold localizedtime.Locale.tableOf
  · rw [if_pos rfl]
  · rw [if_neg (by decide), if_pos rfl]
  · rw [if_neg (by decide), if_neg (by decide), if_pos rfl]
  · rw [if_neg (by decide), if_neg (by decide), if_neg (by decide), if_pos rfl]
  · rw [if_neg (by decide), if_neg (by decide), if_neg (by decide), if_neg (by decide)]

/-- An iteration of the loop of `Format` at an offset where a translatable
element starts whose table in the locale is empty returns the error for that
element. -/
theorem FormatStep_unsupported (equalFold : GoString → GoString → Bool)
    (layout value : GoString) (locale : localizedtime.Locale) (layoutOffset valueOffset : Nat)
    (sb elem : GoString) (h : localizedtime.layoutElemAt layout layoutOffset = some elem)
    (hempty : locale.tableOf elem = []) :
    localizedtime.FormatStep equalFold layout value locale layoutOffset valueOffset sb
      = .error (.ErrUnsupportedLayoutElem elem locale.Language) := by
  obtain ⟨t1, t2, t3, t4, t5⟩ := tableOf_cases locale
  rcases layoutElemAt_some layout layoutOffset elem h with ⟨rfl, hp⟩ | ⟨rfl, hn, hp, hl⟩
    | ⟨rfl, hp⟩ | ⟨rfl, hn, hp, hl⟩ | ⟨rfl, c, d, hc, hd, hP, hM⟩
  · have hc : layout[layoutOffset]? = some (localizedtime.byte 'J') :=
      getElem?_of_isPrefixOf_drop layout _ layoutOffset hp 0 (by decide)
    have h3 := (isPrefixOf_drop_iff_of_length layout (ascii "Jan") layoutOffset 3 rfl
      (by decide)).mp (isPrefixOf_trans _ _ _ (by decide) hp)
    have h7 := (isPrefixOf_drop_iff_of_length layout (ascii "January") layoutOffset 7 rfl
      (by decide)).mp hp
    rw [t1] at hempty
    unfold localizedtime.FormatStep
    rw [hc]
    simp only
    unfold localizedtime.FormatSwitch
    rw [if_pos rfl]
    unfold localizedtime.FormatCaseJ
    simp only
    rw [if_pos h3, if_pos h7, hempty, FormatNamedElem_unsupported _ _ _ _ _ _ (by decide)]
  · have hc : layout[layoutOffset]? = some (localizedtime.byte 'J') :=
      getElem?_of_isPrefixOf_drop layout _ layoutOffset hp 0 (by decide)
    have h3 := (isPrefixOf_drop_iff_of_length layout (ascii "Jan") layoutOffset 3 rfl
      (by decide)).mp hp
    have h7 : ¬ (layout.length ≥ layoutOffset + 7
        ∧ goSlice layout layoutOffset (layoutOffset + 7) = some (ascii "January")) := by
      intro hc7
      have := (isPrefixOf_drop_iff_of_length layout (ascii "January") layoutOffset 7 rfl
        (by decide)).mpr hc7
      rw [hn] at this
      cases this
    rw [t2] at hempty
    unfold localizedtime.FormatStep
    rw [hc]
    simp only
    unfold localizedtime.FormatSwitch
    rw [if_pos rfl]
    unfold localizedtime.FormatCaseJ
    simp only
    rw [if_pos h3, if_neg h7, goSliceFrom_eq_some h3.1]
    simp only [hl, Bool.not_false, if_true]
    rw [hempty, FormatNamedElem_unsupported _ _ _ _ _ _ (by decide)]
  · have hc : layout[layoutOffset]? = some (localizedtime.byte 'M') :=
      getElem?_of_isPrefixOf_drop layout _ layoutOffset hp 0 (by decide)
    have h3 := (isPrefixOf_drop_iff_of_length layout (ascii "Mon") layoutOffset 3 rfl
      (by decide)).mp (isPrefixOf_trans _ _ _ (by decide) hp)
    have h6 := (isPrefixOf_drop_iff_of_length layout (ascii "Monday") layoutOffset 6 rfl
      (by decide)).mp hp
    rw [t3] at hempty
    unfold localizedtime.FormatStep
    rw [hc]
    simp only
    unfold localizedtime.FormatSwitch
    rw [if_neg (by decide), if_pos rfl]
    unfold localizedtime.FormatCaseM
    simp only
    rw [if_pos h3, if_pos h6, hempty, FormatNamedElem_unsupported _ _ _ _ _ _ (by decide)]
  · have hc : layout[layoutOffset]? = some (localizedtime.byte 'M') :=
      getElem?_of_isPrefixOf_drop layout _ layoutOffset hp 0 (by decide)
    have h3 := (isPrefixOf_drop_iff_of_length layout (ascii "Mon") layoutOffset 3 rfl
      (by decide)).mp hp
    have h6 : ¬ (layout.length ≥ layoutOffset + 6
        ∧ goSlice layout layoutOffset (layoutOffset + 6) = some (ascii "Monday")) := by
      intro hc6
      have := (isPrefixOf_drop_iff_of_length layout (ascii "Monday") layoutOffset 6 rfl
        (by decide)).mpr hc6
      rw [hn] at this
      cases this
    rw [t4] at hempty
    unfold localizedtime.FormatStep
    rw [hc]
    simp only
    unfold localizedtime.FormatSwitch
    rw [if_neg (by decide), if_pos rfl]
    unfold localizedtime.FormatCaseM
    simp only
    rw [if_pos h3, if_neg h6, goSliceFrom_eq_some h3.1]
    simp only [hl, Bool.not_false, if_true]
    rw [hempty, FormatNamedElem_unsupported _ _ _ _ _ _ (by decide)]
  · have hnJ : c ≠ localizedtime.byte 'J' := by
      rcases hP with rfl | rfl <;> decide
    have hnM : c ≠ localizedtime.byte 'M' := by
      rcases hP with rfl | rfl <;> decide
    have hlen : layout.length ≥ layoutOffset + 2 := by
      by_contra hlt
      rw [List.getElem?_eq_none (by omega)] at hd
      cases hd
    rw [t5] at hempty
    unfold localizedtime.FormatStep
    rw [hc]
    simp only
    unfold localizedtime.FormatSwitch
    rw [if_neg hnJ, if_neg hnM, if_pos hP]
    unfold localizedtime.FormatCaseP
    simp only
    rw [if_pos hlen, hd]
    simp only
    rw [if_pos ((toUpper_eq_M d).mpr hM), hempty, if_pos (by rfl)]
    rfl

end Ottl

namespace Ottl

theorem FormatLoop_unsupported (equalFold : GoString → GoString → Bool)
    (layout value : GoString) (locale : localizedtime.Locale) (i : Nat) (elem : GoString)
    (helem : localizedtime.layoutElemAt layout i = some elem)
    (hempty : locale.tableOf elem = []) :
    ∀ (fuel layoutOffset valueOffset : Nat) (sb : GoString), layoutOffset ≤ i →
      i - layoutOffset < fuel →
      (∀ j, layoutOffset ≤ j → j < i → localizedtime.layoutElemAt layout j = none) →
      localizedtime.FormatLoop equalFold layout value locale fuel layoutOffset valueOffset sb
        = .error (.ErrUnsupportedLayoutElem elem locale.Language) := by
  have hi : i < layout.length := by
    obtain ⟨c, _, hc, _⟩ := layoutElemAt_bytes layout i elem helem
    by_contra hge
    rw [List.getElem?_eq_none (by omega)] at hc
    cases hc
  intro fuel
  induction fuel with
  | zero => intro lo vo sb _ h; omega
  | succ fuel ih =>
    intro lo vo sb hle hfuel hnone
    unfold localizedtime.FormatLoop
    rw [if_pos (Nat.lt_of_le_of_lt hle hi)]
    simp only
    rcases Nat.eq_or_lt_of_le hle with rfl | hlt
    · rw [FormatStep_unsupported equalFold layout value locale lo vo sb elem helem hempty]
    · obtain ⟨lo2, vo2, sb2, hstep, hadv, hskip⟩ :=
        FormatStep_none equalFold layout value locale lo vo sb (Nat.lt_trans hlt hi)
          (hnone lo (Nat.le_refl _) hlt)
      have hle2 : lo2 ≤ i := by
        by_contra hgt
        have := hskip i hle (Nat.lt_of_not_le hgt)
        rw [helem] at this
        cases this
      rw [hstep]
      simp only
      exact ih lo2 vo2 sb2 hle2 (by omega)
        (fun j hj1 hj2 => hnone j (Nat.le_trans (Nat.le_of_lt hadv) hj1) hj2)

/-- C30: when the first translatable element of a layout (the element
`January`, `Jan`, `Monday`, `Mon`, or the day period, a `P` or `p` followed by
an `M` or `m`, at the least offset where one starts) is one whose table in the
locale is empty, `Format` returns the error `ErrUnsupportedLayoutElem` with the
name of the element (`January`, `Jan`, `Monday`, `Mon` or `PM`) and the
language of the locale, for every value; and `Parse` and `ParseInLocation`
return the zero time with that error. -/
theorem Format_unsupported (lib : localizedtime.TimeLib) (layout value : GoString)
    (locale : localizedtime.Locale) (location : lib.Location) (i : Nat) (elem : GoString)
    (helem : localizedtime.layoutElemAt layout i = some elem)
    (hfirst : ∀ j, j < i → localizedtime.layoutElemAt layout j = none)
    (hempty : locale.tableOf elem = []) :
    (∀ equalFold, localizedtime.Format equalFold layout value locale
        = .error (.ErrUnsupportedLayoutElem elem locale.Language))
      ∧ localizedtime.Parse lib layout value locale
        = some (lib.zero, some (.ErrUnsupportedLayoutElem elem locale.Language))
      ∧ localizedtime.ParseInLocation lib layout value locale location
        = some (lib.zero, some (.ErrUnsupportedLayoutElem elem locale.Language)) := by
  have hi : i < layout.length := by
    obtain ⟨c, _, hc, _⟩ := layoutElemAt_bytes layout i elem helem
    by_contra hge
    rw [List.getElem?_eq_none (by omega)] at hc
    cases hc
  have hF : ∀ equalFold, localizedtime.Format equalFold layout value locale
      = .error (.ErrUnsupportedLayoutElem elem locale.Language) := by
    intro equalFold
    unfold localizedtime.Format
    rw [FormatLoop_unsupported equalFold layout value locale i elem helem hempty
      layout.length 0 0 [] (Nat.zero_le _) (by omega) (fun j _ hj => hfirst j hj)]
  refine ⟨hF, ?_, ?_⟩
  · unfold localizedtime.Parse
    rw [hF]
  · unfold localizedtime.ParseInLocation
    rw [hF]

/-- C30 at the layout `_2 Mon` and a locale without day names. -/
theorem Format_unsupported_witness :
    localizedtime.layoutElemAt (ascii "_2 Mon") 3 = some (ascii "Mon")
      ∧ (∀ j, j < 3 → localizedtime.layoutElemAt (ascii "_2 Mon") j = none)
      ∧ localizedtime.monthsLocale.tableOf (ascii "Mon") = []
      ∧ localizedtime.Format localizedtime.textTimeLib.EqualFold (ascii "_2 Mon")
          (ascii " 3 Tue") localizedtime.monthsLocale
        = .error (.ErrUnsupportedLayoutElem (ascii "Mon") (ascii "xx"))
      ∧ localizedtime.Parse localizedtime.textTimeLib (ascii "_2 Mon") (ascii " 3 Tue")
          localizedtime.monthsLocale
        = some ([], some (.ErrUnsupportedLayoutElem (ascii "Mon") (ascii "xx"))) :=
  have h1 : ∀ j, j < 3 → localizedtime.layoutElemAt (ascii "_2 Mon") j = none := by
    intro j hj
    interval_cases j <;> decide
  ⟨by decide, h1, by decide,
    (Format_unsupported localizedtime.textTimeLib (ascii "_2 Mon") (ascii " 3 Tue")
      localizedtime.monthsLocale () 3 (ascii "Mon") (by decide) h1 (by decide)).1 _,
    (Format_unsupported localizedtime.textTimeLib (ascii "_2 Mon") (ascii " 3 Tue")
      localizedtime.monthsLocale () 3 (ascii "Mon") (by decide) h1 (by decide)).2.1⟩

end Ottl

/-! ## The flags of a chain in a reachable state -/

namespace Ottl

theorem keyless_setFetched {σ : Sig} (p : basePath σ)
    (h : ∀ s ∈ p.segments, s.keys = none → s.fetchedKeys = false) :
    ∀ s ∈ p.setFetched.segments, s.keys = none → s.fetchedKeys = false := by
  cases p with
  | nil => exact h
  | mk c n k nx f fk t =>
    simp only [basePath.setFetched, basePath.segments, List.mem_cons, forall_eq_or_imp,
      basePath.keys, basePath.fetchedKeys] at h ⊢
    exact h

theorem keyless_Next {σ : Sig} (p : basePath σ)
    (h : ∀ s ∈ p.segments, s.keys = none → s.fetchedKeys = false) :
    ∀ s ∈ p.Next.segments, s.keys = none → s.fetchedKeys = false := by
  cases p with
  | nil => exact h
  | mk c n k nx f fk t =>
    simp only [basePath.Next, basePath.segments, List.mem_cons, forall_eq_or_imp,
      basePath.keys, basePath.fetchedKeys] at h ⊢
    exact ⟨h.1, keyless_setFetched nx h.2⟩

theorem keyless_Keys {σ : Sig} (p : basePath σ)
    (h : ∀ s ∈ p.segments, s.keys = none → s.fetchedKeys = false) :
    ∀ s ∈ p.Keys.segments, s.keys = none → s.fetchedKeys = false := by
  cases p with
  | nil => exact h
  | mk c n k nx f fk t =>
    simp only [basePath.Keys, basePath.segments, List.mem_cons, forall_eq_or_imp,
      basePath.keys, basePath.fetchedKeys] at h ⊢
    refine ⟨fun hk => ?_, h.2⟩
    subst hk
    simpa using h.1 rfl

theorem keyless_updateAt {σ : Sig} (f : basePath σ → basePath σ)
    (hf : ∀ p : basePath σ, (∀ s ∈ p.segments, s.keys = none → s.fetchedKeys = false) →
      ∀ s ∈ (f p).segments, s.keys = none → s.fetchedKeys = false) (i : Nat) :
    ∀ p : basePath σ, (∀ s ∈ p.segments, s.keys = none → s.fetchedKeys = false) →
      ∀ s ∈ (p.updateAt f i).segments, s.keys = none → s.fetchedKeys = false := by
  induction i with
  | zero => intro p h; simpa [basePath.updateAt] using hf p h
  | succ i ih =>
    intro p h
    cases p with
    | nil => exact h
    | mk c n k nx fl fk t =>
      simp only [basePath.updateAt, basePath.segments, List.mem_cons, forall_eq_or_imp,
        basePath.keys, basePath.fetchedKeys] at h ⊢
      exact ⟨h.1, ih nx h.2⟩

theorem keyless_runCalls {σ : Sig} (calls : List PathCall) :
    ∀ p : basePath σ, (∀ s ∈ p.segments, s.keys = none → s.fetchedKeys = false) →
      ∀ s ∈ (runCalls calls p).segments, s.keys = none → s.fetchedKeys = false := by
  induction calls with
  | nil => intro p h; exact h
  | cons c rest ih =>
    intro p h
    simp only [runCalls, List.foldl_cons]
    apply ih
    cases c with
    | next i => exact keyless_updateAt basePath.Next keyless_Next i p h
    | keys i => exact keyless_updateAt basePath.Keys keyless_Keys i p h

/-- C31: in every state that a chain built by `newPath` reaches through calls
of `Next()` and `Keys()`, a segment without keys has `fetchedKeys = false`; no
later call takes a flag that is set back to false; and `isComplete` returns no
error exactly when every segment has `fetched = true` and has `fetchedKeys`
equal to whether it has keys. -/
theorem reachable_flags_invariant {σ : Sig} (p : Parser σ) (pth : path σ) (chain : basePath σ)
    (hnew : p.newPath pth = .ok chain) (calls more : List PathCall) :
    (∀ s ∈ (runCalls calls chain).segments, s.keys = none → s.fetchedKeys = false)
      ∧ (∀ j, ((runCalls calls chain).nth j).fetched = true →
          ((runCalls (calls ++ more) chain).nth j).fetched = true)
      ∧ (∀ j, ((runCalls calls chain).nth j).fetchedKeys = true →
          ((runCalls (calls ++ more) chain).nth j).fetchedKeys = true)
      ∧ ((runCalls calls chain).isComplete = .ok () ↔
          ∀ s ∈ (runCalls calls chain).segments,
            s.fetched = true ∧ s.fetchedKeys = s.keys.isSome) := by
  obtain ⟨_, _, _, h2, h3, _⟩ := newPath_ok_shape p pth chain hnew
  have hkeyless := keyless_runCalls calls chain (fun s hs _ => (h2 s hs).2.2)
  have hgrow := FlagsGrow.runCalls more (runCalls calls chain)
  rw [← runCalls_append] at hgrow
  have hne : chain ≠ .nil := by
    rintro rfl
    cases h3
  have hne2 : runCalls calls chain ≠ .nil := by
    intro h0
    have := (FlagsGrow.runCalls calls chain 0).1
    rw [nth_zero, nth_zero] at this
    exact hne (this.mp h0)
  refine ⟨hkeyless, fun j => (hgrow j).2.2.1, fun j => (hgrow j).2.2.2, ?_⟩
  rw [isComplete_iff_segments _ hne2]
  constructor
  · intro h s hs
    refine ⟨(h s hs).1, ?_⟩
    cases hk : s.keys with
    | none => simpa using hkeyless s hs hk
    | some ks => simpa using (h s hs).2 (by simp [hk])
  · intro h s hs
    refine ⟨(h s hs).1, fun hk => ?_⟩
    rw [(h s hs).2]
    cases hks : s.keys with
    | none => exact absurd hks hk
    | some ks => rfl

/-- C31 at the chain of `span.attributes["k"].value`, after the resolver called
`Keys()` and `Next()` on the first segment. -/
theorem reachable_flags_invariant_witness :
    spanLogParser.newPath spanAttributesPath = .ok spanAttributesChain
      ∧ (∀ s ∈ (runCalls [.keys 0, .next 0] spanAttributesChain).segments,
          s.keys = none → s.fetchedKeys = false)
      ∧ ((runCalls [.keys 0, .next 0] spanAttributesChain).isComplete = .ok () ↔
          ∀ s ∈ (runCalls [.keys 0, .next 0] spanAttributesChain).segments,
            s.fetched = true ∧ s.fetchedKeys = s.keys.isSome) :=
  ⟨newPath_spanAttributesPath,
    (reachable_flags_invariant spanLogParser spanAttributesPath spanAttributesChain
      newPath_spanAttributesPath [.keys 0, .next 0] []).1,
    (reachable_flags_invariant spanLogParser spanAttributesPath spanAttributesChain
      newPath_spanAttributesPath [.keys 0, .next 0] []).2.2.2⟩

end Ottl

/-! ## The slice built from a list argument -/

namespace Ottl

theorem buildSliceLoop_ok {σ : Sig} (typeAssert : Val σ → GoType → Bool) (T elem : GoType)
    (buildArg : value σ → GoType → BindResult (Val σ)) (name : GoString) :
    ∀ (vs : List (value σ)) (us : List (Val σ)) (j : Nat),
      List.Forall₂ (fun v u => buildArg v elem = .ok u ∧ typeAssert u T = true) vs us →
      buildSliceLoop typeAssert T elem buildArg name j vs = .ok us := by
  intro vs us j h
  induction h generalizing j with
  | nil => rfl
  | cons hhead _ ih =>
    simp only [buildSliceLoop, hhead.1, hhead.2, if_true, ih]

theorem buildSliceLoop_first_failure {σ : Sig} (typeAssert : Val σ → GoType → Bool)
    (T elem : GoType) (buildArg : value σ → GoType → BindResult (Val σ)) (name : GoString)
    (v : value σ) (post : List (value σ)) :
    ∀ (pre : List (value σ)) (us : List (Val σ)) (j : Nat),
      List.Forall₂ (fun v u => buildArg v elem = .ok u ∧ typeAssert u T = true) pre us →
      (∀ err, buildArg v elem = .error err →
          buildSliceLoop typeAssert T elem buildArg name j (pre ++ v :: post)
            = .error (.listArgument (j + pre.length) err))
        ∧ (∀ u, buildArg v elem = .ok u → typeAssert u T = false →
          buildSliceLoop typeAssert T elem buildArg name j (pre ++ v :: post)
            = .error (.invalidElementType (j + pre.length) name))
        ∧ (buildArg v elem = .panic →
          buildSliceLoop typeAssert T elem buildArg name j (pre ++ v :: post) = .panic) := by
  intro pre us j h
  induction h generalizing j with
  | nil =>
    refine ⟨fun err he => ?_, fun u hu ht => ?_, fun hp => ?_⟩
    · simp [buildSliceLoop, he]
    · simp [buildSliceLoop, hu, ht]
    · simp [buildSliceLoop, hp]
  | @cons a b l1 l2 hhead _ ih =>
    obtain ⟨h1, h2, h3⟩ := ih (j + 1)
    have e : j + 1 + l1.length = j + (l1.length + 1) := by omega
    refine ⟨fun err he => ?_, fun u hu ht => ?_, fun hp => ?_⟩
    · rw [List.cons_append]
      simp only [buildSliceLoop, hhead.1, hhead.2, if_true, h1 err he, List.length_cons, e]
    · rw [List.cons_append]
      simp only [buildSliceLoop, hhead.1, hhead.2, if_true, h2 u hu ht, List.length_cons, e]
    · rw [List.cons_append]
      simp only [buildSliceLoop, hhead.1, hhead.2, if_true, h3 hp]

theorem buildSlice_of_list {σ : Sig} (typeAssert : Val σ → GoType → Bool) (T : GoType)
    (argVal : value σ) (argType : GoType) (buildArg : value σ → GoType → BindResult (Val σ))
    (name : GoString) (vs : List (value σ)) (elem : GoType) (hlist : argVal.List = some vs)
    (helem : argType.Elem = some elem) :
    (∀ vals, buildSliceLoop typeAssert T elem buildArg name 0 vs = .ok vals →
        buildSlice typeAssert T argVal argType buildArg name = .ok (.slice T vals))
      ∧ (∀ err, buildSliceLoop typeAssert T elem buildArg name 0 vs = .error err →
        buildSlice typeAssert T argVal argType buildArg name = .error err)
      ∧ (buildSliceLoop typeAssert T elem buildArg name 0 vs = .panic →
        buildSlice typeAssert T argVal argType buildArg name = .panic) := by
  unfold buildSlice
  rw [hlist]
  cases vs with
  | nil =>
    refine ⟨fun vals h => ?_, fun err h => ?_, fun h => ?_⟩
    · simp only [buildSliceLoop, BindResult.ok.injEq] at h
      subst h
      rfl
    · simp [buildSliceLoop] at h
    · simp [buildSliceLoop] at h
  | cons v rest =>
    simp only [helem]
    refine ⟨fun vals h => ?_, fun err h => ?_, fun h => ?_⟩
    · rw [h]
    · rw [h]
    · rw [h]

/-- C32: for an argument that is no list, `buildSlice[T]` returns the error
that it must be a list of the named type. For a list and a slice type with
element type `elem`: when `buildArg` builds every element of the list for
`elem` and each built value is a `T`, the result is the slice of the built
values, one per element and in the order of the list; when the element at
index `j` is the first one that `buildArg` fails to build or whose built
value is not a `T`, the result is the error of that case with the index `j`
(the panic of `buildArg` when it panics). -/
theorem buildSlice_spec {σ : Sig} (typeAssert : Val σ → GoType → Bool) (T : GoType)
    (argVal : value σ) (argType : GoType) (buildArg : value σ → GoType → BindResult (Val σ))
    (name : GoString) :
    (argVal.List = none →
        buildSlice typeAssert T argVal argType buildArg name = .error (.mustBeList name))
      ∧ ∀ (vs : List (value σ)) (elem : GoType), argVal.List = some vs →
          argType.Elem = some elem →
          (∀ us, List.Forall₂ (fun v u => buildArg v elem = .ok u ∧ typeAssert u T = true)
                vs us →
              buildSlice typeAssert T argVal argType buildArg name = .ok (.slice T us)
                ∧ us.length = vs.length)
            ∧ ∀ (pre : List (value σ)) (v : value σ) (post : List (value σ))
                (us : List (Val σ)), vs = pre ++ v :: post →
                List.Forall₂ (fun v u => buildArg v elem = .ok u ∧ typeAssert u T = true)
                  pre us →
                (∀ err, buildArg v elem = .error err →
                    buildSlice typeAssert T argVal argType buildArg name
                      = .error (.listArgument pre.length err))
                  ∧ (∀ u, buildArg v elem = .ok u → typeAssert u T = false →
                    buildSlice typeAssert T argVal argType buildArg name
                      = .error (.invalidElementType pre.length name))
                  ∧ (buildArg v elem = .panic →
                    buildSlice typeAssert T argVal argType buildArg name = .panic) := by
  refine ⟨fun h => ?_, fun vs elem hlist helem => ⟨fun us h => ?_, ?_⟩⟩
  · unfold buildSlice
    rw [h]
  · exact ⟨(buildSlice_of_list typeAssert T argVal argType buildArg name vs elem hlist helem).1
      us (buildSliceLoop_ok typeAssert T elem buildArg name vs us 0 h), h.length_eq.symm⟩
  · intro pre v post us hvs h
    obtain ⟨h1, h2, h3⟩ :=
      buildSliceLoop_first_failure typeAssert T elem buildArg name v post pre us 0 h
    obtain ⟨_, g2, g3⟩ :=
      buildSlice_of_list typeAssert T argVal argType buildArg name vs elem hlist helem
    rw [hvs] at g2 g3
    simp only [Nat.zero_add] at h1 h2 h3
    exact ⟨fun err he => g2 _ (h1 err he), fun u hu ht => g2 _ (h2 u hu ht),
      fun hp => g3 (h3 hp)⟩

/-- C32 at the list `["a", "b"]` built as a slice of strings, and at the list
`["a", 5]`, whose element at index 1 is no string. -/
theorem buildSlice_spec_witness :
    buildSlice sampleTypeAssert stringType (listValue [stringValue (ascii "a"),
        stringValue (ascii "b")]) (sliceOf stringType) (Parser.buildArg sampleArgParser)
        (ascii "string")
      = .ok (.slice stringType [.string (ascii "a"), .string (ascii "b")])
    ∧ buildSlice sampleTypeAssert stringType (listValue [stringValue (ascii "a"), intValue 5])
        (sliceOf stringType) (Parser.buildArg sampleArgParser) (ascii "string")
      = .error (.listArgument 1 .mustBeString) :=
  ⟨(((buildSlice_spec sampleTypeAssert stringType (listValue [stringValue (ascii "a"),
        stringValue (ascii "b")]) (sliceOf stringType) (Parser.buildArg sampleArgParser)
        (ascii "string")).2 _ stringType rfl rfl).1
      [.string (ascii "a"), .string (ascii "b")]
      (.cons ⟨rfl, rfl⟩ (.cons ⟨rfl, rfl⟩ .nil))).1,
    ((((buildSlice_spec sampleTypeAssert stringType (listValue [stringValue (ascii "a"),
        intValue 5]) (sliceOf stringType) (Parser.buildArg sampleArgParser)
        (ascii "string")).2 _ stringType rfl rfl).2
      [stringValue (ascii "a")] (intValue 5) [] [.string (ascii "a")] rfl
      (.cons ⟨rfl, rfl⟩ .nil)).1 .mustBeString rfl)⟩

end Ottl

/-! ## Slice getters at run time -/

namespace Ottl

theorem GetLoop_all {σ : Sig} (typeAssert : Val σ → GoType → Bool) (T : GoType) :
    ∀ elems : List (Val σ), (∀ v ∈ elems, typeAssert v T = true) →
      SliceGetter.GetLoop typeAssert T elems = .ok elems := by
  intro elems
  induction elems with
  | nil => intro _; rfl
  | cons v rest ih =>
    intro h
    simp only [SliceGetter.GetLoop, h v (List.mem_cons_self _ _), if_true,
      ih (fun w hw => h w (List.mem_cons_of_mem _ hw))]

theorem GetLoop_some_not {σ : Sig} (typeAssert : Val σ → GoType → Bool) (T : GoType) :
    ∀ elems : List (Val σ), (∃ v ∈ elems, typeAssert v T = false) →
      SliceGetter.GetLoop typeAssert T elems = .error (.invalidSliceItemType T) := by
  intro elems
  induction elems with
  | nil => rintro ⟨v, hv, _⟩; cases hv
  | cons v rest ih =>
    rintro ⟨w, hw, hwT⟩
    cases hv : typeAssert v T with
    | false => simp [SliceGetter.GetLoop, hv]
    | true =>
      have hrest : ∃ u ∈ rest, typeAssert u T = false := by
        rcases List.mem_cons.mp hw with rfl | hw2
        · rw [hv] at hwT; cases hwT
        · exact ⟨w, hw2, hwT⟩
      simp only [SliceGetter.GetLoop, hv, if_true, ih hrest]

theorem sliceOf_injective {T U : GoType} (h : sliceOf T = sliceOf U) : T = U := by
  simp only [sliceOf, GoType.slice.injEq, true_and] at h
  exact h

/-- C33: `SliceGetter[K, T].Get` returns the error of the wrapped getter when
that fails; returns a `[]T` that the getter yields as it is; for a `[]any`
whose elements are all of type `T` returns the same elements, in the same
order; and returns an error and no slice when some element of the `[]any` is
not a `T`, or when the value is neither a `[]T` nor a `[]any`. -/
theorem SliceGetter_Get_spec {σ : Sig} (typeAssert : Val σ → GoType → Bool)
    (s : SliceGetter (Val σ)) :
    (∀ err, SliceGetter.Get typeAssert s (.error err) = .error err)
      ∧ (∀ elems, SliceGetter.Get typeAssert s (.ok (.value (sliceOf s.T) elems)) = .ok elems)
      ∧ (∀ elems, (∀ v ∈ elems, typeAssert v s.T = true) →
          SliceGetter.Get typeAssert s (.ok (.value (sliceOf anyType) elems)) = .ok elems)
      ∧ (∀ elems, s.T ≠ anyType → (∃ v ∈ elems, typeAssert v s.T = false) →
          SliceGetter.Get typeAssert s (.ok (.value (sliceOf anyType) elems))
            = .error (.invalidSliceItemType s.T))
      ∧ (∀ val : AnyValue σ, val.TypeOf ≠ some (sliceOf s.T) →
          val.TypeOf ≠ some (sliceOf anyType) →
          SliceGetter.Get typeAssert s (.ok val) = .error (.invalidSliceValue s.T)) := by
  refine ⟨fun err => rfl, fun elems => ?_, fun elems h => ?_, fun elems hT h => ?_,
    fun val h1 h2 => ?_⟩
  · simp [SliceGetter.Get, AnyValue.TypeOf, AnyValue.elems]
  · by_cases hT : s.T = anyType
    · simp [SliceGetter.Get, AnyValue.TypeOf, AnyValue.elems, hT]
    · have hne : sliceOf anyType ≠ sliceOf s.T := fun e => hT (sliceOf_injective e).symm
      simp [SliceGetter.Get, AnyValue.TypeOf, AnyValue.elems, hne, GetLoop_all typeAssert s.T elems h]
  · have hne : sliceOf anyType ≠ sliceOf s.T := fun e => hT (sliceOf_injective e).symm
    simp [SliceGetter.Get, AnyValue.TypeOf, AnyValue.elems, hne,
      GetLoop_some_not typeAssert s.T elems h]
  · simp [SliceGetter.Get, h1, h2]

/-- C33 at a `SliceGetter[K, string]` whose getter yields the `[]any` with
the strings `a` and `b`, and the one with the string `a` and the integer 5. -/
theorem SliceGetter_Get_spec_witness :
    SliceGetter.Get sampleTypeAssert ⟨stringType, false, .nil⟩
        (.ok (.value (sliceOf anyType) [.string (ascii "a"), .string (ascii "b")]))
      = .ok [.string (ascii "a"), .string (ascii "b")]
    ∧ SliceGetter.Get sampleTypeAssert ⟨stringType, false, .nil⟩
        (.ok (.value (sliceOf anyType) [.string (ascii "a"), .int64 5]))
      = .error (.invalidSliceItemType stringType) :=
  ⟨(SliceGetter_Get_spec sampleTypeAssert ⟨stringType, false, .nil⟩).2.2.1 _
      (by decide),
    (SliceGetter_Get_spec sampleTypeAssert ⟨stringType, false, .nil⟩).2.2.2.1 _
      (by decide) ⟨.int64 5, by simp, by decide⟩⟩

end Ottl

/-! ## The text of a segment -/

namespace Ottl

/-- C34 fails on the code: in the chain of `span.attributes["k"].value` the
segment `value` is the last one, the text of the sub-path that starts at it is
`value`, and its `String()` is the text of the whole path, the same as for the
segment before it. -/
theorem String_sub_path_counterexample :
    spanLogParser.newPath spanAttributesPath = .ok spanAttributesChain
      ∧ (spanAttributesChain.nth 1).Name = ascii "value"
      ∧ (spanAttributesChain.nth 1).nextPath = .nil
      ∧ subPathText spanAttributesPath 1 = ascii "value"
      ∧ (spanAttributesChain.nth 1).String = ascii "span.attributes[k].value"
      ∧ (spanAttributesChain.nth 1).String = (spanAttributesChain.nth 0).String
      ∧ (spanAttributesChain.nth 1).String ≠ subPathText spanAttributesPath 1 :=
  ⟨newPath_spanAttributesPath, rfl, rfl, by decide, rfl, rfl, by decide⟩

/-- On a chain built by `newPath`, `String()` of every segment is the text
that `buildOriginalText` writes for the whole path, context and all fields. -/
theorem String_whole_path {σ : Sig} (p : Parser σ) (pth : path σ) (chain : basePath σ)
    (hnew : p.newPath pth = .ok chain) :
    (∀ s ∈ chain.segments, s.String = buildOriginalText pth)
      ∧ (∀ s ∈ chain.segments, ∀ t ∈ chain.segments, s.String = t.String) := by
  obtain ⟨_, _, _, h2, _, _⟩ := newPath_ok_shape p pth chain hnew
  exact ⟨fun s hs => (h2 s hs).2.1,
    fun s hs t ht => ((h2 s hs).2.1).trans ((h2 t ht).2.1).symm⟩

end Ottl

/-! ## Localized time: the lookup of a name -/

namespace Ottl

theorem skipSpaces_of_gt (val : GoString) (offset : Nat) (h : val.length < offset) :
    localizedtime.skipSpaces val offset = offset := by
  unfold localizedtime.skipSpaces
  rw [List.drop_eq_nil_of_le (Nat.le_of_lt h)]
  rfl

theorem matchesAt_length {equalFold : GoString → GoString → Bool} {val : GoString} {n : Nat}
    {v : GoString} (h : localizedtime.matchesAt equalFold val n v = true) :
    ((val.drop n).take v.length).length = v.length := by
  simp only [localizedtime.matchesAt, Bool.and_eq_true, decide_eq_true_eq] at h
  rw [List.length_take, List.length_drop]
  omega

theorem lookupLoop_spec (equalFold : GoString → GoString → Bool) (val : GoString) (n : Nat)
    (stdTab : List GoString) :
    ∀ (rest pre : List GoString) (stdValue value : GoString),
      (pre ++ rest).length ≤ stdTab.length →
      (∀ i std, i < (pre ++ rest).length → stdTab[i]? = some std → std ≠ []) →
      ((stdValue = [] ∧ value = [] ∧ ∀ v ∈ pre, localizedtime.matchesAt equalFold val n v = false)
        ∨ ∃ k v, localizedtime.IsLongestMatch equalFold val n pre k v
            ∧ stdTab[k]? = some stdValue ∧ value = (val.drop n).take v.length) →
      ∃ stdValue2 value2,
        localizedtime.lookupLoop equalFold val n stdTab pre.length rest stdValue value
            = .ok (stdValue2, value2)
          ∧ ((stdValue2 = [] ∧ value2 = []
                ∧ ∀ v ∈ pre ++ rest, localizedtime.matchesAt equalFold val n v = false)
            ∨ ∃ k v, localizedtime.IsLongestMatch equalFold val n (pre ++ rest) k v
                ∧ stdTab[k]? = some stdValue2 ∧ value2 = (val.drop n).take v.length) := by
  intro rest
  induction rest with
  | nil =>
    intro pre stdValue value _ _ hinv
    refine ⟨stdValue, value, rfl, ?_⟩
    simpa using hinv
  | cons v rest ih =>
    intro pre stdValue value hlen hstd hinv
    have happ : pre ++ v :: rest = (pre ++ [v]) ++ rest := by simp
    have hlen2 : (pre ++ [v]).length = pre.length + 1 := by simp
    have hpre : pre.length < (pre ++ v :: rest).length := by simp
    -- the state after the entry `v` satisfies the invariant for `pre ++ [v]`
    have keep : ∀ std2 value2,
        ((std2 = [] ∧ value2 = []
            ∧ ∀ w ∈ pre ++ [v], localizedtime.matchesAt equalFold val n w = false)
          ∨ ∃ k w, localizedtime.IsLongestMatch equalFold val n (pre ++ [v]) k w
              ∧ stdTab[k]? = some std2 ∧ value2 = (val.drop n).take w.length) →
        ∃ stdValue2 value2b,
          localizedtime.lookupLoop equalFold val n stdTab (pre.length + 1) rest std2 value2
              = .ok (stdValue2, value2b)
            ∧ ((stdValue2 = [] ∧ value2b = []
                  ∧ ∀ w ∈ pre ++ v :: rest, localizedtime.matchesAt equalFold val n w = false)
              ∨ ∃ k w, localizedtime.IsLongestMatch equalFold val n (pre ++ v :: rest) k w
                  ∧ stdTab[k]? = some stdValue2 ∧ value2b = (val.drop n).take w.length) := by
      intro std2 value2 h2
      have := ih (pre ++ [v]) std2 value2 (by rw [← happ]; exact hlen)
        (by rw [← happ]; exact hstd) h2
      rw [hlen2, ← happ] at this
      exact this
    -- an entry that does not match leaves the invariant as it is
    have extend : localizedtime.matchesAt equalFold val n v = false →
        ((stdValue = [] ∧ value = []
            ∧ ∀ w ∈ pre ++ [v], localizedtime.matchesAt equalFold val n w = false)
          ∨ ∃ k w, localizedtime.IsLongestMatch equalFold val n (pre ++ [v]) k w
              ∧ stdTab[k]? = some stdValue ∧ value = (val.drop n).take w.length) := by
      intro hv
      rcases hinv with ⟨h1, h2, h3⟩ | ⟨k, w, ⟨hk, hm, hlong, hearly⟩, hstdk, hval⟩
      · left
        refine ⟨h1, h2, fun w hw => ?_⟩
        rcases List.mem_append.mp hw with hw | hw
        · exact h3 w hw
        · rw [List.mem_singleton.mp hw]; exact hv
      · right
        have hklt : k < pre.length := by
          by_contra hge
          rw [List.getElem?_eq_none (Nat.le_of_not_lt hge)] at hk
          cases hk
        refine ⟨k, w, ⟨?_, hm, ?_, ?_⟩, hstdk, hval⟩
        · rw [List.getElem?_append_left hklt]; exact hk
        · intro j u hj hu
          by_cases hjlt : j < pre.length
          · rw [List.getElem?_append_left hjlt] at hj
            exact hlong j u hj hu
          · rw [List.getElem?_append_right (Nat.le_of_not_lt hjlt)] at hj
            have : u = v := by
              cases hji : j - pre.length with
              | zero => rw [hji] at hj; simpa using hj.symm
              | succ m => rw [hji] at hj; simp at hj
            rw [this, hv] at hu
            cases hu
        · intro j u hjk hj hu
          rw [List.getElem?_append_left (Nat.lt_trans hjk hklt)] at hj
          exact hearly j u hjk hj hu
    rw [localizedtime.lookupLoop]
    by_cases hguard : stdValue ≠ [] ∧ v.length ≤ value.length
    · rw [if_pos hguard]
      apply keep
      rcases hinv with ⟨h1, _, _⟩ | ⟨k, w, ⟨hk, hm, hlong, hearly⟩, hstdk, hval⟩
      · exact absurd h1 hguard.1
      · right
        have hklt : k < pre.length := by
          by_contra hge
          rw [List.getElem?_eq_none (Nat.le_of_not_lt hge)] at hk
          cases hk
        refine ⟨k, w, ⟨?_, hm, ?_, ?_⟩, hstdk, hval⟩
        · rw [List.getElem?_append_left hklt]; exact hk
        · intro j u hj hu
          by_cases hjlt : j < pre.length
          · rw [List.getElem?_append_left hjlt] at hj
            exact hlong j u hj hu
          · rw [List.getElem?_append_right (Nat.le_of_not_lt hjlt)] at hj
            have : u = v := by
              cases hji : j - pre.length with
              | zero => rw [hji] at hj; simpa using hj.symm
              | succ m => rw [hji] at hj; simp at hj
            rw [this]
            have := hguard.2
            rw [hval, matchesAt_length hm] at this
            exact this
        · intro j u hjk hj hu
          rw [List.getElem?_append_left (Nat.lt_trans hjk hklt)] at hj
          exact hearly j u hjk hj hu
    · rw [if_neg hguard]
      by_cases hfit : n + v.length > val.length
      · rw [if_pos hfit]
        apply keep
        apply extend
        simp only [localizedtime.matchesAt, Bool.and_eq_false_imp, decide_eq_true_eq]
        intro h
        omega
      · rw [if_neg hfit]
        have hfit2 : n + v.length ≤ val.length := Nat.le_of_not_lt hfit
        rw [goSlice_eq_some (Nat.le_add_right _ _) hfit2, Nat.add_sub_cancel_left]
        simp only
        have hclen : ((val.drop n).take v.length).length = v.length := by
          rw [List.length_take, List.length_drop]
          omega
        by_cases hmatch : equalFold ((val.drop n).take v.length) v = true
        · rw [if_pos ⟨hclen, hmatch⟩]
          have hidx : pre.length < stdTab.length := Nat.lt_of_lt_of_le hpre hlen
          obtain ⟨std, hstdv⟩ : ∃ std, stdTab[pre.length]? = some std :=
            ⟨stdTab[pre.length], List.getElem?_eq_getElem hidx⟩
          rw [hstdv]
          simp only
          apply keep
          right
          have hmv : localizedtime.matchesAt equalFold val n v = true := by
            simp [localizedtime.matchesAt, hfit2, hmatch]
          have hprev : ∀ j u, j < pre.length → pre[j]? = some u →
              localizedtime.matchesAt equalFold val n u = true → u.length < v.length := by
            intro j u _ hj hu
            rcases hinv with ⟨_, _, h3⟩ | ⟨k, w, ⟨hk, hm, hlong, _⟩, hstdk, hval⟩
            · rw [h3 u (List.getElem?_mem hj)] at hu
              cases hu
            · have hklt : k < pre.length := by
                by_contra hge
                rw [List.getElem?_eq_none (Nat.le_of_not_lt hge)] at hk
                cases hk
              have hne : stdValue ≠ [] :=
                hstd k stdValue (Nat.lt_trans hklt hpre) hstdk
              have h1 := hlong j u hj hu
              have h2 : ¬ v.length ≤ value.length := fun h => hguard ⟨hne, h⟩
              rw [hval, matchesAt_length hm] at h2
              omega
          refine ⟨pre.length, v, ⟨by simp, hmv, ?_, ?_⟩, hstdv, rfl⟩
          · intro j u hj hu
            by_cases hjlt : j < pre.length
            · rw [List.getElem?_append_left hjlt] at hj
              exact Nat.le_of_lt (hprev j u hjlt hj hu)
            · rw [List.getElem?_append_right (Nat.le_of_not_lt hjlt)] at hj
              have : u = v := by
                cases hji : j - pre.length with
                | zero => rw [hji] at hj; simpa using hj.symm
                | succ m => rw [hji] at hj; simp at hj
              rw [this]
          · intro j u hjlt hj hu
            rw [List.getElem?_append_left hjlt] at hj
            exact hprev j u hjlt hj hu
        · rw [if_neg (fun h => hmatch h.2)]
          apply keep
          apply extend
          simp only [localizedtime.matchesAt, Bool.and_eq_false_imp, decide_eq_true_eq]
          intro _
          simpa using hmatch

end Ottl

namespace Ottl

/-- The test of `lookup` for an earlier match is `stdValue != ""`: with a
standard table whose first entry is empty, which none of the tables of the
package is, and the lookup table `ab`, `a`, both entries match the value `ab`,
and `lookup` returns the standard entry and the text of the second one. -/
theorem lookup_empty_standard_entry :
    [ascii "ab", ascii "a"].length ≤ [([] : GoString), ascii "X"].length
      ∧ localizedtime.matchesAt localizedtime.textTimeLib.EqualFold (ascii "ab") 0 (ascii "ab")
          = true
      ∧ localizedtime.matchesAt localizedtime.textTimeLib.EqualFold (ascii "ab") 0 (ascii "a")
          = true
      ∧ (ascii "a").length < (ascii "ab").length
      ∧ localizedtime.lookup localizedtime.textTimeLib.EqualFold [ascii "ab", ascii "a"] 0
          (ascii "ab") [[], ascii "X"]
        = .ok (0, ascii "X", ascii "a") := by
  refine ⟨by decide, by decide, by decide, by decide, by decide⟩

/-- What `lookup` returns for a lookup table no longer than the standard
table, when the standard table has no empty entry at the indices of the lookup
table. -/
theorem lookup_spec_of_nonempty (equalFold : GoString → GoString → Bool) (lookupTab : List GoString)
    (offset : Nat) (val : GoString) (stdTab : List GoString)
    (hlen : lookupTab.length ≤ stdTab.length)
    (hstd : ∀ i std, i < lookupTab.length → stdTab[i]? = some std → std ≠ []) :
    ∃ stdValue value,
      localizedtime.lookup equalFold lookupTab offset val stdTab
          = .ok (localizedtime.skipSpaces val offset, stdValue, value)
        ∧ ((stdValue = []
              ∧ ∀ v ∈ lookupTab,
                  localizedtime.matchesAt equalFold val (localizedtime.skipSpaces val offset) v
                    = false)
          ∨ ∃ k v,
              localizedtime.IsLongestMatch equalFold val (localizedtime.skipSpaces val offset)
                  lookupTab k v
                ∧ stdTab[k]? = some stdValue ∧ stdValue ≠ []
                ∧ value = (val.drop (localizedtime.skipSpaces val offset)).take v.length) := by
  unfold localizedtime.lookup
  by_cases hgt : localizedtime.skipSpaces val offset > val.length
  · rw [if_pos hgt]
    have hoff : val.length < offset := by
      by_contra hle
      exact absurd (skipSpaces_le val offset (Nat.le_of_not_lt hle)) (Nat.not_le.mpr hgt)
    refine ⟨[], val, by rw [skipSpaces_of_gt val offset hoff], Or.inl ⟨rfl, fun v _ => ?_⟩⟩
    simp only [localizedtime.matchesAt, Bool.and_eq_false_imp, decide_eq_true_eq]
    intro h
    omega
  · rw [if_neg hgt]
    obtain ⟨stdValue, value, hloop, hres⟩ :=
      lookupLoop_spec equalFold val (localizedtime.skipSpaces val offset) stdTab lookupTab []
        [] [] (by simpa using hlen) (by simpa using hstd)
        (Or.inl ⟨rfl, rfl, fun v hv => by cases hv⟩)
    simp only [List.length_nil, List.nil_append] at hloop hres
    rw [hloop]
    refine ⟨stdValue, value, rfl, ?_⟩
    rcases hres with ⟨h1, _, h3⟩ | ⟨k, v, hk, hstdk, hval⟩
    · exact Or.inl ⟨h1, h3⟩
    · have hklt : k < lookupTab.length := by
        by_contra hge
        have := hk.1
        rw [List.getElem?_eq_none (Nat.le_of_not_lt hge)] at this
        cases this
      exact Or.inr ⟨k, v, hk, hstdk, hstd k stdValue hklt hstdk, hval⟩

theorem standard_tables_nonempty (stdTab : List GoString)
    (hstd : stdTab ∈ [localizedtime.longDayNamesStd, localizedtime.shortDayNamesStd,
      localizedtime.shortMonthNamesStd, localizedtime.longMonthNamesStd,
      localizedtime.dayPeriodsStd]) :
    ∀ std ∈ stdTab, std ≠ [] := by
  simp only [List.mem_cons, List.mem_singleton, List.not_mem_nil, or_false] at hstd
  rcases hstd with rfl | rfl | rfl | rfl | rfl <;> decide

/-- C35: `lookup` is called by `writeLayoutValue` with one of the five standard
tables of the package. For such a standard table and a lookup table no longer
than it, `lookup` returns as offset the position after the white space skipped
from `offset`; when no entry of the lookup table equals, without regard to
case, the bytes of `val` at that position, the standard value returned is
empty; otherwise the standard value is the entry of the standard table at the
index of the longest entry that does, the earliest one among those of its
length, and the text returned is the text matched. -/
theorem lookup_spec (equalFold : GoString → GoString → Bool) (lookupTab : List GoString)
    (offset : Nat) (val : GoString) (stdTab : List GoString)
    (hlen : lookupTab.length ≤ stdTab.length)
    (hstd : stdTab ∈ [localizedtime.longDayNamesStd, localizedtime.shortDayNamesStd,
      localizedtime.shortMonthNamesStd, localizedtime.longMonthNamesStd,
      localizedtime.dayPeriodsStd]) :
    ∃ stdValue value,
      localizedtime.lookup equalFold lookupTab offset val stdTab
          = .ok (localizedtime.skipSpaces val offset, stdValue, value)
        ∧ ((stdValue = []
              ∧ ∀ v ∈ lookupTab,
                  localizedtime.matchesAt equalFold val (localizedtime.skipSpaces val offset) v
                    = false)
          ∨ ∃ k v,
              localizedtime.IsLongestMatch equalFold val (localizedtime.skipSpaces val offset)
                  lookupTab k v
                ∧ stdTab[k]? = some stdValue ∧ stdValue ≠ []
                ∧ value = (val.drop (localizedtime.skipSpaces val offset)).take v.length) :=
  lookup_spec_of_nonempty equalFold lookupTab offset val stdTab hlen
    (fun _ std _ h => standard_tables_nonempty stdTab hstd std (List.getElem?_mem h))

/-- C35 at the day periods `am`, `pm` and the value ` pm`. -/
theorem lookup_spec_witness :
    [ascii "am", ascii "pm"].length ≤ localizedtime.dayPeriodsStd.length
      ∧ localizedtime.dayPeriodsStd ∈ [localizedtime.longDayNamesStd,
          localizedtime.shortDayNamesStd, localizedtime.shortMonthNamesStd,
          localizedtime.longMonthNamesStd, localizedtime.dayPeriodsStd]
      ∧ ∃ stdValue value,
          localizedtime.lookup localizedtime.textTimeLib.EqualFold [ascii "am", ascii "pm"] 0
              (ascii " pm") localizedtime.dayPeriodsStd
            = .ok (localizedtime.skipSpaces (ascii " pm") 0, stdValue, value)
          ∧ ((stdValue = []
                ∧ ∀ v ∈ [ascii "am", ascii "pm"],
                    localizedtime.matchesAt localizedtime.textTimeLib.EqualFold (ascii " pm")
                      (localizedtime.skipSpaces (ascii " pm") 0) v = false)
            ∨ ∃ k v,
                localizedtime.IsLongestMatch localizedtime.textTimeLib.EqualFold (ascii " pm")
                    (localizedtime.skipSpaces (ascii " pm") 0) [ascii "am", ascii "pm"] k v
                  ∧ localizedtime.dayPeriodsStd[k]? = some stdValue ∧ stdValue ≠ []
                  ∧ value = ((ascii " pm").drop (localizedtime.skipSpaces (ascii " pm") 0)).take
                      v.length) :=
  ⟨by decide, by simp,
    lookup_spec localizedtime.textTimeLib.EqualFold [ascii "am", ascii "pm"] 0 (ascii " pm")
      localizedtime.dayPeriodsStd (by decide) (by simp)⟩

end Ottl

/-! ## The required fields of the argument record after `buildArgs` -/

namespace Ottl

/-- An iteration of the loop of `buildArgs` that returns no error for a field
whose type name does not start with `Optional` leaves in the field the value
built for its argument from the type of the field. -/
theorem buildArgsStep_ok_required {σ : Sig} {E : Type} (p : ArgParser σ E) (i : Nat)
    (edArg : argument σ) (argsVal argsVal2 : List (StructField σ))
    (h : Parser.buildArgsStep p i edArg argsVal = (argsVal2, .ok ())) :
    ∃ k field, Parser.targetField p argsVal i edArg = .ok k ∧ argsVal[k]? = some field
      ∧ (hasPrefix field.Typ.Name (ascii "Optional") = false →
          ∃ val, (Parser.buildArgsValue p i edArg false field.Typ field.value).2 = .ok val
            ∧ argsVal2 = setFieldValue argsVal k val) := by
  unfold Parser.buildArgsStep at h
  split at h
  · cases h
  · cases h
  · rename_i k htf
    split at h
    · cases h
    · rename_i field hfield
      refine ⟨k, field, htf, hfield, ?_⟩
      intro hreq
      simp only [hreq, Bool.false_eq_true, if_false] at h
      split at h
      · cases h
      · cases h
      · rename_i fv val hval
        split at h
        · cases h
          exact ⟨val, by rw [hval], rfl⟩
        · cases h

/-- After the loop of `buildArgs` returned no error, a field whose type name
does not start with `Optional` holds the value built for the last argument
that targets it, from the type of the field and the value the field had when
that argument was reached. -/
theorem buildArgsLoop_last_required {σ : Sig} {E : Type} (p : ArgParser σ E)
    (rest : List (argument σ)) :
    ∀ (i : Nat) (argsVal argsVal2 : List (StructField σ)),
      Parser.buildArgsLoop p i rest argsVal = (argsVal2, .ok ()) →
      ∀ (k : Nat) (T : GoType) (j : Nat) (a : argument σ),
        (argsVal[k]?).map (fun f => f.Typ) = some T →
        hasPrefix T.Name (ascii "Optional") = false →
        rest[j]? = some a →
        Parser.targetField p argsVal (i + j) a = .ok k →
        (∀ j2 a2, j < j2 → rest[j2]? = some a2 →
          Parser.targetField p argsVal (i + j2) a2 ≠ .ok k) →
        ∃ before val,
          (Parser.buildArgsLoop p i (rest.take j) argsVal).1[k]? = some before
            ∧ (Parser.buildArgsValue p (i + j) a false T before.value).2 = .ok val
            ∧ (argsVal2[k]?).map (fun f => f.value) = some val := by
  induction rest with
  | nil =>
    intro i argsVal argsVal2 _ k T j a _ _ hj
    simp at hj
  | cons edArg rest ih =>
    intro i argsVal argsVal2 h k T j a hT hreq hj htf hlast
    simp only [Parser.buildArgsLoop] at h
    split at h
    · rename_i argsVal1 _ hstep
      have hty := buildArgsStep_recordType p i edArg argsVal argsVal1 _ hstep
      cases j with
      | zero =>
        simp only [List.getElem?_cons_zero, Option.some.injEq] at hj
        subst hj
        obtain ⟨k2, field, htf2, hfield, hval⟩ :=
          buildArgsStep_ok_required p i edArg argsVal argsVal1 hstep
        rw [Nat.add_zero] at htf
        rw [htf] at htf2
        cases htf2
        rw [hfield] at hT
        simp only [Option.map_some', Option.some.injEq] at hT
        subst hT
        obtain ⟨val, hval, hrec⟩ := hval hreq
        refine ⟨field, val, ?_, ?_, ?_⟩
        · simpa [Parser.buildArgsLoop] using hfield
        · rw [Nat.add_zero]; exact hval
        · have hkeep := (buildArgsLoop_frame p rest (i + 1) argsVal1 argsVal2 _ h).2 k
            (by
              intro j2 a2 hj2
              rw [targetField_congr p hty, Nat.add_assoc, Nat.add_comm 1 j2]
              exact hlast (j2 + 1) a2 (Nat.succ_pos j2) (by simpa using hj2))
          rw [hkeep, hrec]
          exact setFieldValue_getElem?_value argsVal k _ field hfield
      | succ j =>
        simp only [List.getElem?_cons_succ] at hj
        have hT1 : (argsVal1[k]?).map (fun f => f.Typ) = some T := by
          rw [getElem?_Typ_of_recordType hty k]; exact hT
        have e : ∀ n : Nat, i + 1 + n = i + (n + 1) := fun n => by omega
        obtain ⟨before, val, hb, hval, hres⟩ :=
          ih (i + 1) argsVal1 argsVal2 h k T j a hT1 hreq hj
            (by rw [targetField_congr p hty, e]; exact htf)
            (by
              intro j2 a2 hlt hj2
              rw [targetField_congr p hty, e]
              exact hlast (j2 + 1) a2 (Nat.succ_lt_succ hlt) (by simpa using hj2))
        refine ⟨before, val, ?_, ?_, hres⟩
        · simp only [List.take_succ_cons, Parser.buildArgsLoop, hstep]
          exact hb
        · rw [← e]; exact hval
    · cases h
    · cases h

/-- C36 fails on the code as stated: for `truncate(suffix="x")` `buildArgs`
returns no error; the field `Limit`, whose type `int64` is not Optional, is
the target of no argument and holds its zero value. -/
theorem buildArgs_required_fields_counterexample :
    Parser.buildArgs sampleArgParser suffixOnlyEditor (freshRecord truncateFields)
        = ([⟨ascii "Limit", .basic (ascii "int64") .Int64, .nil⟩,
            ⟨ascii "Suffix", .Optional (.basic (ascii "string") .String),
              .Optional ⟨.basic (ascii "string") .String, .string (ascii "x"), true⟩⟩],
           .ok ())
      ∧ truncateFields[0]? = some (ascii "Limit", .basic (ascii "int64") .Int64)
      ∧ hasPrefix (GoType.basic (ascii "int64") .Int64).Name (ascii "Optional") = false
      ∧ suffixOnlyEditor.Arguments = [suffixArgument (ascii "x")]
      ∧ Parser.targetField sampleArgParser (freshRecord truncateFields) 0
          (suffixArgument (ascii "x")) = .ok 1
      ∧ (zeroOf (.basic (ascii "int64") .Int64) : Val sampleSig) = .nil := by
  refine ⟨rfl, rfl, by decide, rfl, rfl, rfl⟩

/-- C36, amended: when `buildArgs` returns no error over a fresh argument
record, the number of arguments is at least the number of fields whose type
name does not start with `Optional` and at most the number of fields; a field
whose type name does not start with `Optional` is left at its zero value when
no argument targets it, and holds the value built for the last argument that
targets it otherwise; and when every argument is unnamed, the argument at
position `k` targets the field at position `k`. -/
theorem buildArgs_required_fields {σ : Sig} {E : Type} (p : ArgParser σ E) (ed : editor σ)
    (fields : List (GoString × GoType)) (args : List (StructField σ))
    (h : Parser.buildArgs p ed (freshRecord fields) = (args, .ok ())) :
    (requiredArgs (freshRecord fields : List (StructField σ)) ≤ ed.Arguments.length
        ∧ ed.Arguments.length ≤ fields.length)
      ∧ (∀ (k : Nat) (name : GoString) (T : GoType), fields[k]? = some (name, T) →
          hasPrefix T.Name (ascii "Optional") = false →
          ((∀ j a, ed.Arguments[j]? = some a →
                Parser.targetField p (freshRecord fields) j a ≠ .ok k) →
              (args[k]?).map (fun f => f.value) = some (zeroOf T))
            ∧ (∀ j a, ed.Arguments[j]? = some a →
                Parser.targetField p (freshRecord fields) j a = .ok k →
                (∀ j2 a2, j < j2 → ed.Arguments[j2]? = some a2 →
                  Parser.targetField p (freshRecord fields) j2 a2 ≠ .ok k) →
                ∃ before val,
                  (Parser.buildArgsLoop p 0 (ed.Arguments.take j) (freshRecord fields)).1[k]?
                      = some before
                    ∧ (Parser.buildArgsValue p j a false T before.value).2 = .ok val
                    ∧ (args[k]?).map (fun f => f.value) = some val))
      ∧ ((∀ a ∈ ed.Arguments, a.Name = []) →
          ∀ k a, ed.Arguments[k]? = some a →
            Parser.targetField p (freshRecord fields) k a = .ok k) := by
  have hcount : ¬ (ed.Arguments.length < requiredArgs (freshRecord fields : List (StructField σ))
      ∨ ed.Arguments.length > (freshRecord fields : List (StructField σ)).length) := by
    intro hc
    unfold Parser.buildArgs at h
    split at h
    · cases h
    · rw [if_pos (by simpa using hc)] at h
      cases h
  have hloop : Parser.buildArgsLoop p 0 ed.Arguments (freshRecord fields) = (args, .ok ()) := by
    unfold Parser.buildArgs at h
    split at h
    · cases h
    · split at h
      · cases h
      · exact h
  have hlenf : (freshRecord fields : List (StructField σ)).length = fields.length := by
    simp [freshRecord]
  refine ⟨⟨by omega, by omega⟩, ?_, ?_⟩
  · intro k name T hk hreq
    have hfresh : (freshRecord fields : List (StructField σ))[k]?
        = some ⟨name, T, zeroOf T⟩ := by
      simp [freshRecord, hk]
    constructor
    · intro hno
      have hkeep := (buildArgsLoop_frame p ed.Arguments 0 _ _ _ hloop).2 k
        (fun j a hj => by rw [Nat.zero_add]; exact hno j a hj)
      rw [hkeep, hfresh]
      rfl
    · intro j a hj htf hlast
      obtain ⟨before, val, hb, hval, hres⟩ :=
        buildArgsLoop_last_required p ed.Arguments 0 _ _ hloop k T j a (by rw [hfresh]; rfl)
          hreq hj (by rw [Nat.zero_add]; exact htf)
          (fun j2 a2 hlt hj2 => by rw [Nat.zero_add]; exact hlast j2 a2 hlt hj2)
      rw [Nat.zero_add] at hval
      exact ⟨before, val, hb, hval, hres⟩
  · intro hun k a hk
    have hklt : k < ed.Arguments.length := by
      by_contra hge
      rw [List.getElem?_eq_none (Nat.le_of_not_lt hge)] at hk
      cases hk
    unfold Parser.targetField
    rw [if_pos (hun a (List.getElem?_mem hk)), if_pos (by omega)]

/-- C36, amended, at the editor `truncate(5, suffix="...")`: the field `Limit`
holds the integer built for the first argument. -/
theorem buildArgs_required_fields_witness :
    Parser.buildArgs sampleArgParser truncateEditor (freshRecord truncateFields)
        = ([⟨ascii "Limit", .basic (ascii "int64") .Int64, .int64 5⟩,
            ⟨ascii "Suffix", .Optional (.basic (ascii "string") .String),
              .Optional ⟨.basic (ascii "string") .String, .string (ascii "..."), true⟩⟩],
           .ok ())
      ∧ requiredArgs (freshRecord truncateFields : List (StructField sampleSig))
          ≤ truncateEditor.Arguments.length
      ∧ truncateEditor.Arguments.length ≤ truncateFields.length :=
  ⟨rfl,
    (buildArgs_required_fields sampleArgParser truncateEditor truncateFields _ rfl).1.1,
    (buildArgs_required_fields sampleArgParser truncateEditor truncateFields _ rfl).1.2⟩

end Ottl

/-! ## Localized time: layouts without translatable elements -/

namespace Ottl

theorem FormatStep_plain (equalFold : GoString → GoString → Bool) (layout value : GoString)
    (locale : localizedtime.Locale) (layoutOffset valueOffset : Nat) (sb : GoString) (c : UInt8)
    (hc : layout[layoutOffset]? = some c)
    (hplain : c ≠ localizedtime.byte 'J' ∧ c ≠ localizedtime.byte 'M'
      ∧ c ≠ localizedtime.byte 'P' ∧ c ≠ localizedtime.byte 'p'
      ∧ c ≠ localizedtime.byte '_') :
    (∀ b, value[valueOffset]? = some b →
        localizedtime.FormatStep equalFold layout value locale layoutOffset valueOffset sb
          = .ok (layoutOffset + 1, valueOffset + (localizedtime.runeBytes b).length,
              sb ++ localizedtime.runeBytes b))
      ∧ (value.length ≤ valueOffset →
        localizedtime.FormatStep equalFold layout value locale layoutOffset valueOffset sb
          = .ok (layoutOffset + 1, valueOffset, sb)) := by
  obtain ⟨hJ, hM, hP, hp, hU⟩ := hplain
  have hsw : localizedtime.FormatSwitch equalFold layout value locale c
      { written := false, layoutOffset := layoutOffset, valueOffset := valueOffset, sb := sb }
      = .ok { written := false, layoutOffset := layoutOffset, valueOffset := valueOffset,
              sb := sb } := by
    unfold localizedtime.FormatSwitch
    rw [if_neg hJ, if_neg hM, if_neg (by rintro (h | h); exact hP h; exact hp h), if_neg hU]
  constructor
  · intro b hb
    have hlt : valueOffset < value.length := by
      by_contra hge
      rw [List.getElem?_eq_none (Nat.le_of_not_lt hge)] at hb
      cases hb
    unfold localizedtime.FormatStep
    rw [hc]
    simp only
    rw [hsw]
    simp only [localizedtime.FormatNotWritten, Bool.not_false, if_true, gt_iff_lt, hlt, hb]
  · intro hge
    unfold localizedtime.FormatStep
    rw [hc]
    simp only
    rw [hsw]
    simp only [localizedtime.FormatNotWritten, Bool.not_false, if_true, gt_iff_lt,
      Nat.not_lt.mpr hge, if_false]

theorem FormatLoop_plain_ascii (equalFold : GoString → GoString → Bool)
    (layout value : GoString) (locale : localizedtime.Locale)
    (hlayout : ∀ c ∈ layout, c ≠ localizedtime.byte 'J' ∧ c ≠ localizedtime.byte 'M'
      ∧ c ≠ localizedtime.byte 'P' ∧ c ≠ localizedtime.byte 'p'
      ∧ c ≠ localizedtime.byte '_')
    (hvalue : ∀ b ∈ value, b.toNat < 128) :
    ∀ (fuel layoutOffset valueOffset : Nat), layout.length - layoutOffset ≤ fuel →
      valueOffset ≤ value.length →
      ∃ valueOffset2, valueOffset2 ≤ value.length
        ∧ localizedtime.FormatLoop equalFold layout value locale fuel layoutOffset valueOffset
            (value.take valueOffset) = .ok (valueOffset2, value.take valueOffset2) := by
  intro fuel
  induction fuel with
  | zero =>
    intro lo vo hf hvo
    unfold localizedtime.FormatLoop
    rw [if_neg (by omega)]
    exact ⟨vo, hvo, rfl⟩
  | succ fuel ih =>
    intro lo vo hf hvo
    unfold localizedtime.FormatLoop
    by_cases hlt : lo < layout.length
    swap
    · rw [if_neg hlt]; exact ⟨vo, hvo, rfl⟩
    rw [if_pos hlt]
    simp only
    obtain ⟨c, hc⟩ := getElem?_of_lt_length layout lo hlt
    obtain ⟨hstep1, hstep2⟩ := FormatStep_plain equalFold layout value locale lo vo
      (value.take vo) c hc (hlayout c (List.getElem?_mem hc))
    by_cases hv : vo < value.length
    · obtain ⟨b, hb⟩ := getElem?_of_lt_length value vo hv
      have hrune : localizedtime.runeBytes b = [b] := by
        unfold localizedtime.runeBytes
        rw [if_pos (hvalue b (List.getElem?_mem hb))]
      have htake : value.take vo ++ [b] = value.take (vo + 1) := by
        rw [List.take_succ, hb]
        rfl
      rw [hstep1 b hb, hrune, htake]
      exact ih (lo + 1) (vo + 1) (by omega) hv
    · rw [hstep2 (Nat.le_of_not_lt hv)]
      exact ih (lo + 1) vo (by omega) hvo

/-- For a layout without the bytes `J`, `M`, `P`, `p`, `_` and a value whose
bytes are all below 128, `Format` returns the value as it is. -/
theorem Format_plain_ascii (equalFold : GoString → GoString → Bool) (layout value : GoString)
    (locale : localizedtime.Locale)
    (hlayout : ∀ c ∈ layout, c ≠ localizedtime.byte 'J' ∧ c ≠ localizedtime.byte 'M'
      ∧ c ≠ localizedtime.byte 'P' ∧ c ≠ localizedtime.byte 'p'
      ∧ c ≠ localizedtime.byte '_')
    (hvalue : ∀ b ∈ value, b.toNat < 128) :
    localizedtime.Format equalFold layout value locale = .ok value := by
  obtain ⟨vo, hvo, h⟩ := FormatLoop_plain_ascii equalFold layout value locale hlayout hvalue
    layout.length 0 0 (by omega) (Nat.zero_le _)
  unfold localizedtime.Format
  rw [show ([] : GoString) = value.take 0 from rfl, h]
  simp only
  rw [if_pos hvo, goSliceFrom_eq_some hvo]
  simp only [List.take_append_drop]

/-- C37 fails on the code: the layout `x` has none of the bytes `J`, `M`,
`P`, `p`, `_`, and for the value with the two bytes `C3 A9`, the UTF-8 text of
the letter e with an acute accent, `Format` returns the bytes `C3 83`: the byte
`C3` is written as the code point U+00C3, in two bytes, and the value offset
moves by the two bytes written, past the byte `A9`. -/
theorem Format_non_ascii_value :
    (∀ c ∈ ascii "x", c ≠ localizedtime.byte 'J' ∧ c ≠ localizedtime.byte 'M'
        ∧ c ≠ localizedtime.byte 'P' ∧ c ≠ localizedtime.byte 'p'
        ∧ c ≠ localizedtime.byte '_')
      ∧ localizedtime.FormatStep localizedtime.textTimeLib.EqualFold (ascii "x") [0xC3, 0xA9]
          localizedtime.monthsLocale 0 0 []
        = .ok (1, 2, [0xC3, 0x83])
      ∧ localizedtime.Format localizedtime.textTimeLib.EqualFold (ascii "x") [0xC3, 0xA9]
          localizedtime.monthsLocale
        = .ok [0xC3, 0x83]
      ∧ ([0xC3, 0x83] : GoString) ≠ [0xC3, 0xA9] := by
  refine ⟨by decide, by decide, by decide, by decide⟩

end Ottl

/-! ## The getter of a slice at evaluation, and its literal -/

namespace Ottl

theorem createStandardSliceGetterLoop_ne_panic {σ : Sig}
    (buildSliceItemGetter : GoString → Val σ → Except BindError (Val σ))
    (literal : Val σ → Val σ) (sliceItemType elemType : GoType) :
    ∀ elems : List (Val σ),
      createStandardSliceGetterLoop buildSliceItemGetter literal sliceItemType elemType elems
        ≠ .panic := by
  intro elems
  induction elems with
  | nil => intro h; cases h
  | cons rawVal rest ih =>
    intro h
    unfold createStandardSliceGetterLoop at h
    split at h
    · split at h
      · cases h
      · cases h
      · rename_i hp; exact ih hp
    · split at h
      · cases h
      · split at h
        · cases h
        · cases h
        · rename_i hp; exact ih hp

theorem createStandardSliceGetterRest_ne_panic {σ : Sig}
    (buildSliceItemGetter : GoString → Val σ → Except BindError (Val σ))
    (literal : Val σ → Val σ) (sliceItemType elemType : GoType) (elems : List (Val σ)) :
    createStandardSliceGetterRest buildSliceItemGetter literal sliceItemType elemType elems
      ≠ .panic := by
  intro h
  unfold createStandardSliceGetterRest at h
  split at h
  · cases h
  · cases h
  · rename_i hp
    exact createStandardSliceGetterLoop_ne_panic _ _ _ _ _ hp

/-- The function stored in the getter does not panic for a value that is not
nil: it returns a slice or an error. A type of kind slice has an element
type. -/
theorem createStandardSliceGetterFunc_ne_panic {σ : Sig}
    (buildSliceItemGetter : GoString → Val σ → Except BindError (Val σ))
    (literal : Val σ → Val σ) (sliceItemType : GoType)
    (valueGetter : Except OttlError (AnyValue σ)) (hnil : valueGetter ≠ .ok .nil)
    (helem : ∀ typ elems, valueGetter = .ok (.value typ elems) → typ.Kind = .Slice →
      typ.Elem ≠ none) :
    createStandardSliceGetterFunc buildSliceItemGetter literal sliceItemType valueGetter
      ≠ .panic := by
  intro h
  cases valueGetter with
  | error err => cases h
  | ok values =>
    cases values with
    | nil => exact hnil rfl
    | pcommonSlice raw => exact createStandardSliceGetterRest_ne_panic _ _ _ _ _ h
    | pcommonValue slice typ =>
      cases slice with
      | none => cases h
      | some raw => exact createStandardSliceGetterRest_ne_panic _ _ _ _ _ h
    | value typ elems =>
      simp only [createStandardSliceGetterFunc, AnyValue.TypeOf, AnyValue.elems,
        Option.some.injEq] at h
      split at h
      · cases h
      · split at h
        · cases h
        · rename_i hk
          have hslice : typ.Kind = .Slice := by simpa using hk
          cases he : typ.Elem with
          | none => exact helem typ elems rfl hslice he
          | some elemType =>
            rw [he] at h
            exact createStandardSliceGetterRest_ne_panic _ _ _ _ _ h

/-- C39 fails on the code: for the string argument `x`, which is no list,
`createStandardSliceGetter` returns a getter that reads its source at
evaluation, and when the source yields the nil value the function stored in
the getter panics, whatever the item type is: `reflect.TypeOf` returns the nil
type for it, and the call `valuesType.Kind()` follows. A value that is no slice
and not nil gives an error. -/
theorem createStandardSliceGetterFunc_nil :
    (stringValue (ascii "x")).List = none
      ∧ createStandardSliceGetter sampleArgParser.literalGetter (stringValue (ascii "x"))
          stringType (Parser.buildSliceArg sampleArgParser) sampleArgParser.newGetter
        = .ok (.standardGetter false false (.getter (ascii "x")) stringType)
      ∧ (∀ (buildSliceItemGetter : GoString → Val sampleSig → Except BindError (Val sampleSig))
          (literal : Val sampleSig → Val sampleSig) (sliceItemType : GoType),
          createStandardSliceGetterFunc buildSliceItemGetter literal sliceItemType (.ok .nil)
            = .panic)
      ∧ createStandardSliceGetterFunc (Parser.buildStandardGetterSetter sampleArgParser) id
            stringType (.ok (.value stringType []))
          = .error (.expectedSliceKind .String) := by
  refine ⟨rfl, rfl, fun _ _ _ => rfl, rfl⟩

/-- C40 fails on the code: for an argument record with the one field
`Values SliceGetter[K, string]` and the list argument `["a"]`, `buildArgs`
returns no error and leaves in the field a `SliceGetter` whose `isLiteral()`
is true and whose `getLiteral()` returns the error that the value is not a
literal, whatever its getter returns: `getLiteral` tests the field `literal`
of the `SliceGetter`, which `setWrappedValue` leaves at its zero value for
every getter it is given. -/
theorem SliceGetter_getLiteral_not_literal :
    Parser.buildArgs sampleArgParser sliceGetterEditor (freshRecord sliceGetterFields)
        = ([⟨ascii "Values", .SliceGetter stringType,
              .SliceGetter ⟨stringType, false,
                .standardGetter true true (.slice stringType [.string (ascii "a")])
                  stringType⟩⟩],
           .ok ())
      ∧ SliceGetter.isLiteral Val.isLiteral
          (⟨stringType, false,
            .standardGetter true true (.slice stringType [.string (ascii "a")]) stringType⟩ :
            SliceGetter (Val sampleSig)) = true
      ∧ (∀ getterGet : GetResult (AnyValue sampleSig),
          SliceGetter.getLiteral sampleTypeAssert
              ⟨stringType, false,
                .standardGetter true true (.slice stringType [.string (ascii "a")])
                  stringType⟩ getterGet
            = .error .notLiteral)
      ∧ (∀ (typeAssert : Val sampleSig → GoType → Bool) (T : GoType) (get : Val sampleSig)
          (getterGet : GetResult (AnyValue sampleSig)),
          SliceGetter.getLiteral typeAssert
              ((⟨T, false, .nil⟩ : SliceGetter (Val sampleSig)).setWrappedValue typeAssert
                get).1 getterGet
            = .error .notLiteral) := by
  refine ⟨rfl, rfl, fun _ => rfl, fun typeAssert T get _ => ?_⟩
  unfold SliceGetter.setWrappedValue SliceGetter.getLiteral
  split <;> rfl

end Ottl

/-! ## Localized time: `Format` returns -/

namespace Ottl

theorem lookupLoop_ok (equalFold : GoString → GoString → Bool) (val : GoString) (n : Nat)
    (stdTab : List GoString) :
    ∀ (rest : List GoString) (i : Nat) (stdValue value : GoString),
      i + rest.length ≤ stdTab.length →
      ∃ stdValue2 value2,
        localizedtime.lookupLoop equalFold val n stdTab i rest stdValue value
          = .ok (stdValue2, value2) := by
  intro rest
  induction rest with
  | nil => intro i stdValue value _; exact ⟨stdValue, value, rfl⟩
  | cons v rest ih =>
    intro i stdValue value hlen
    simp only [List.length_cons] at hlen
    have hnext : ∀ std2 value2, ∃ stdValue2 value2b,
        localizedtime.lookupLoop equalFold val n stdTab (i + 1) rest std2 value2
          = .ok (stdValue2, value2b) :=
      fun std2 value2 => ih (i + 1) std2 value2 (by omega)
    rw [localizedtime.lookupLoop]
    by_cases hguard : stdValue ≠ [] ∧ v.length ≤ value.length
    · rw [if_pos hguard]; exact hnext _ _
    rw [if_neg hguard]
    by_cases hfit : n + v.length > val.length
    · rw [if_pos hfit]; exact hnext _ _
    rw [if_neg hfit, goSlice_eq_some (Nat.le_add_right _ _) (Nat.le_of_not_lt hfit)]
    simp only
    by_cases hmatch : ((val.drop n).take (n + v.length - n)).length = v.length
        ∧ equalFold ((val.drop n).take (n + v.length - n)) v = true
    · rw [if_pos hmatch]
      obtain ⟨std, hstd⟩ : ∃ std, stdTab[i]? = some std :=
        ⟨stdTab[i], List.getElem?_eq_getElem (by omega)⟩
      rw [hstd]
      exact hnext _ _
    · rw [if_neg hmatch]; exact hnext _ _

theorem writeLayoutValue_total (equalFold : GoString → GoString → Bool)
    (lookupTab stdTab : List GoString) (valueOffset : Nat) (value sb : GoString)
    (hlen : lookupTab.length ≤ stdTab.length) :
    (∃ valueOffset2 sb2,
        localizedtime.writeLayoutValue equalFold lookupTab stdTab valueOffset value sb
          = .ok (valueOffset2, sb2))
      ∨ localizedtime.writeLayoutValue equalFold lookupTab stdTab valueOffset value sb
          = .error .ErrLayoutMismatch := by
  unfold localizedtime.writeLayoutValue localizedtime.lookup
  by_cases hgt : localizedtime.skipSpaces value valueOffset > value.length
  · rw [if_pos hgt]
    exact Or.inr rfl
  · rw [if_neg hgt]
    obtain ⟨std, v, h⟩ := lookupLoop_ok equalFold value
      (localizedtime.skipSpaces value valueOffset) stdTab lookupTab 0 [] []
      (by simpa using hlen)
    rw [h]
    simp only
    by_cases hstd : std = []
    · rw [if_pos hstd]; exact Or.inr rfl
    · rw [if_neg hstd]; exact Or.inl ⟨_, _, rfl⟩

theorem FormatNamedElem_total (equalFold : GoString → GoString → Bool) (value : GoString)
    (locale : localizedtime.Locale) (layoutElem : GoString) (lookupTab stdTab : List GoString)
    (s : localizedtime.FormatState) (hlen : lookupTab.length ≤ stdTab.length) :
    (∃ err, localizedtime.FormatNamedElem equalFold value locale layoutElem lookupTab stdTab s
        = .error err)
      ∨ ∃ s2, localizedtime.FormatNamedElem equalFold value locale layoutElem lookupTab stdTab s
            = .ok s2
          ∧ (s2 = s ∨ (s2.written = true ∧ s.layoutOffset < s2.layoutOffset)) := by
  unfold localizedtime.FormatNamedElem
  by_cases he : layoutElem = []
  · rw [if_pos he]; exact Or.inr ⟨s, rfl, Or.inl rfl⟩
  rw [if_neg he]
  by_cases ht : lookupTab.length = 0
  · rw [if_pos ht]; exact Or.inl ⟨_, rfl⟩
  rw [if_neg ht]
  rcases writeLayoutValue_total equalFold lookupTab stdTab s.valueOffset value s.sb hlen with
    ⟨vo, sb2, h⟩ | h
  · rw [h]
    refine Or.inr ⟨_, rfl, Or.inr ⟨rfl, ?_⟩⟩
    have : 0 < layoutElem.length := List.length_pos.mpr he
    simp only
    omega
  · rw [h]; exact Or.inl ⟨_, rfl⟩

theorem FormatCaseJ_total (equalFold : GoString → GoString → Bool) (layout value : GoString)
    (locale : localizedtime.Locale) (s : localizedtime.FormatState)
    (hlong : locale.LongMonthNames.length ≤ localizedtime.longMonthNamesStd.length)
    (hshort : locale.ShortMonthNames.length ≤ localizedtime.shortMonthNamesStd.length) :
    (∃ err, localizedtime.FormatCaseJ equalFold layout value locale s = .error err)
      ∨ ∃ s2, localizedtime.FormatCaseJ equalFold layout value locale s = .ok s2
          ∧ (s2 = s ∨ (s2.written = true ∧ s.layoutOffset < s2.layoutOffset)) := by
  unfold localizedtime.FormatCaseJ
  split_ifs with h1 h2
  · exact FormatNamedElem_total _ _ _ _ _ _ _ hlong
  · rw [goSliceFrom_eq_some h1.1]
    simp only
    split_ifs
    · exact FormatNamedElem_total _ _ _ _ _ _ _ hshort
    · exact FormatNamedElem_total _ _ _ _ _ _ _ (Nat.le_refl _)
  · exact Or.inr ⟨s, rfl, Or.inl rfl⟩

theorem FormatCaseM_total (equalFold : GoString → GoString → Bool) (layout value : GoString)
    (locale : localizedtime.Locale) (s : localizedtime.FormatState)
    (hlong : locale.LongDayNames.length ≤ localizedtime.longDayNamesStd.length)
    (hshort : locale.ShortDayNames.length ≤ localizedtime.shortDayNamesStd.length) :
    (∃ err, localizedtime.FormatCaseM equalFold layout value locale s = .error err)
      ∨ ∃ s2, localizedtime.FormatCaseM equalFold layout value locale s = .ok s2
          ∧ (s2 = s ∨ (s2.written = true ∧ s.layoutOffset < s2.layoutOffset)) := by
  unfold localizedtime.FormatCaseM
  split_ifs with h1 h2
  · exact FormatNamedElem_total _ _ _ _ _ _ _ hlong
  · rw [goSliceFrom_eq_some h1.1]
    simp only
    split_ifs
    · exact FormatNamedElem_total _ _ _ _ _ _ _ hshort
    · exact FormatNamedElem_total _ _ _ _ _ _ _ (Nat.le_refl _)
  · exact Or.inr ⟨s, rfl, Or.inl rfl⟩

theorem FormatCaseP_total (equalFold : GoString → GoString → Bool) (layout value : GoString)
    (locale : localizedtime.Locale) (s : localizedtime.FormatState)
    (hperiods : locale.DayPeriods.length ≤ localizedtime.dayPeriodsStd.length) :
    (∃ err, localizedtime.FormatCaseP equalFold layout value locale s = .error err)
      ∨ ∃ s2, localizedtime.FormatCaseP equalFold layout value locale s = .ok s2
          ∧ (s2 = s ∨ (s2.written = true ∧ s.layoutOffset < s2.layoutOffset)) := by
  unfold localizedtime.FormatCaseP
  by_cases hlen : layout.length ≥ s.layoutOffset + 2
  swap
  · rw [if_neg hlen]; exact Or.inr ⟨s, rfl, Or.inl rfl⟩
  rw [if_pos hlen]
  obtain ⟨c, hc⟩ := getElem?_of_lt_length layout (s.layoutOffset + 1) (by omega)
  rw [hc]
  simp only
  by_cases hM : localizedtime.toUpper c = (localizedtime.byte 'M').toNat
  swap
  · rw [if_neg hM]; exact Or.inr ⟨s, rfl, Or.inl rfl⟩
  rw [if_pos hM]
  by_cases ht : locale.DayPeriods.length = 0
  · rw [if_pos ht]; exact Or.inl ⟨_, rfl⟩
  rw [if_neg ht]
  rcases writeLayoutValue_total equalFold locale.DayPeriods localizedtime.dayPeriodsStd
      s.valueOffset value s.sb hperiods with ⟨vo, sb2, h⟩ | h
  · rw [h]
    exact Or.inr ⟨_, rfl, Or.inr ⟨rfl, by simp⟩⟩
  · rw [h]; exact Or.inl ⟨_, rfl⟩

theorem FormatSwitch_total (equalFold : GoString → GoString → Bool) (layout value : GoString)
    (locale : localizedtime.Locale) (c : UInt8) (s : localizedtime.FormatState)
    (h1 : locale.LongDayNames.length ≤ localizedtime.longDayNamesStd.length)
    (h2 : locale.ShortDayNames.length ≤ localizedtime.shortDayNamesStd.length)
    (h3 : locale.LongMonthNames.length ≤ localizedtime.longMonthNamesStd.length)
    (h4 : locale.ShortMonthNames.length ≤ localizedtime.shortMonthNamesStd.length)
    (h5 : locale.DayPeriods.length ≤ localizedtime.dayPeriodsStd.length) :
    (∃ err, localizedtime.FormatSwitch equalFold layout value locale c s = .error err)
      ∨ ∃ s2, localizedtime.FormatSwitch equalFold layout value locale c s = .ok s2
          ∧ (s2 = s ∨ (s2.written = true ∧ s.layoutOffset < s2.layoutOffset)) := by
  unfold localizedtime.FormatSwitch
  by_cases hJ : c = localizedtime.byte 'J'
  · rw [if_pos hJ]; exact FormatCaseJ_total _ _ _ _ _ h3 h4
  rw [if_neg hJ]
  by_cases hM : c = localizedtime.byte 'M'
  · rw [if_pos hM]; exact FormatCaseM_total _ _ _ _ _ h1 h2
  rw [if_neg hM]
  by_cases hP : c = localizedtime.byte 'P' ∨ c = localizedtime.byte 'p'
  · rw [if_pos hP]; exact FormatCaseP_total _ _ _ _ _ h5
  rw [if_neg hP]
  by_cases hU : c = localizedtime.byte '_'
  swap
  · rw [if_neg hU]; exact Or.inr ⟨s, rfl, Or.inl rfl⟩
  rw [if_pos hU]
  obtain ⟨s2, e2, h2w, _⟩ := FormatCaseUnderscore2_ok layout value s
  obtain ⟨s3, e3, h3w, _⟩ := FormatCaseUnderscore3_ok layout value s2
  rw [e2]
  simp only
  rw [e3]
  refine Or.inr ⟨s3, rfl, ?_⟩
  rcases h2w with rfl | ⟨hw2, hlt2⟩
  · exact h3w
  · rcases h3w with rfl | ⟨hw3, hlt3⟩
    · exact Or.inr ⟨hw2, hlt2⟩
    · exact Or.inr ⟨hw3, Nat.lt_trans hlt2 hlt3⟩

theorem FormatStep_total (equalFold : GoString → GoString → Bool) (layout value : GoString)
    (locale : localizedtime.Locale) (layoutOffset valueOffset : Nat) (sb : GoString)
    (h1 : locale.LongDayNames.length ≤ localizedtime.longDayNamesStd.length)
    (h2 : locale.ShortDayNames.length ≤ localizedtime.shortDayNamesStd.length)
    (h3 : locale.LongMonthNames.length ≤ localizedtime.longMonthNamesStd.length)
    (h4 : locale.ShortMonthNames.length ≤ localizedtime.shortMonthNamesStd.length)
    (h5 : locale.DayPeriods.length ≤ localizedtime.dayPeriodsStd.length)
    (hlt : layoutOffset < layout.length) :
    (∃ err, localizedtime.FormatStep equalFold layout value locale layoutOffset valueOffset sb
        = .error err)
      ∨ ∃ layoutOffset2 valueOffset2 sb2,
          localizedtime.FormatStep equalFold layout value locale layoutOffset valueOffset sb
              = .ok (layoutOffset2, valueOffset2, sb2)
            ∧ layoutOffset < layoutOffset2 := by
  obtain ⟨c, hc⟩ := getElem?_of_lt_length layout layoutOffset hlt
  unfold localizedtime.FormatStep
  rw [hc]
  simp only
  rcases FormatSwitch_total equalFold layout value locale c
      { written := false, layoutOffset := layoutOffset, valueOffset := valueOffset, sb := sb }
      h1 h2 h3 h4 h5 with ⟨err, he⟩ | ⟨s2, hs2, hw⟩
  · rw [he]; exact Or.inl ⟨err, rfl⟩
  · rw [hs2]
    simp only
    obtain ⟨s3, e3, h3t, h3f⟩ := FormatNotWritten_ok value s2
    rw [e3]
    refine Or.inr ⟨s3.layoutOffset, s3.valueOffset, s3.sb, rfl, ?_⟩
    rcases hw with rfl | ⟨hw, hl⟩
    · rw [h3f rfl]; exact Nat.lt_succ_self _
    · rw [h3t hw]; exact hl

theorem FormatLoop_total (equalFold : GoString → GoString → Bool) (layout value : GoString)
    (locale : localizedtime.Locale)
    (h1 : locale.LongDayNames.length ≤ localizedtime.longDayNamesStd.length)
    (h2 : locale.ShortDayNames.length ≤ localizedtime.shortDayNamesStd.length)
    (h3 : locale.LongMonthNames.length ≤ localizedtime.longMonthNamesStd.length)
    (h4 : locale.ShortMonthNames.length ≤ localizedtime.shortMonthNamesStd.length)
    (h5 : locale.DayPeriods.length ≤ localizedtime.dayPeriodsStd.length) :
    ∀ (fuel layoutOffset valueOffset : Nat) (sb : GoString),
      layout.length - layoutOffset ≤ fuel →
      (∃ err, localizedtime.FormatLoop equalFold layout value locale fuel layoutOffset
          valueOffset sb = .error err)
        ∨ ∃ valueOffset2 sb2, localizedtime.FormatLoop equalFold layout value locale fuel
            layoutOffset valueOffset sb = .ok (valueOffset2, sb2) := by
  intro fuel
  induction fuel with
  | zero =>
    intro lo vo sb hf
    unfold localizedtime.FormatLoop
    rw [if_neg (by omega)]
    exact Or.inr ⟨vo, sb, rfl⟩
  | succ fuel ih =>
    intro lo vo sb hf
    unfold localizedtime.FormatLoop
    by_cases hlt : lo < layout.length
    swap
    · rw [if_neg hlt]; exact Or.inr ⟨vo, sb, rfl⟩
    rw [if_pos hlt]
    simp only
    rcases FormatStep_total equalFold layout value locale lo vo sb h1 h2 h3 h4 h5 hlt with
      ⟨err, he⟩ | ⟨lo2, vo2, sb2, hs, hadv⟩
    · rw [he]; exact Or.inl ⟨err, rfl⟩
    · rw [hs]
      exact ih lo2 vo2 sb2 (by omega)

/-- C38: for a locale whose tables of names are no longer than the standard
tables they stand for, every iteration of the loop of `Format` that starts at
a layout offset inside the layout returns an error or moves the layout offset
forward, and `Format` returns a string or an error: no index or slice is out
of range, and the loop ends within as many iterations as the layout has
bytes. -/
theorem Format_total (equalFold : GoString → GoString → Bool) (layout value : GoString)
    (locale : localizedtime.Locale)
    (h1 : locale.LongDayNames.length ≤ localizedtime.longDayNamesStd.length)
    (h2 : locale.ShortDayNames.length ≤ localizedtime.shortDayNamesStd.length)
    (h3 : locale.LongMonthNames.length ≤ localizedtime.longMonthNamesStd.length)
    (h4 : locale.ShortMonthNames.length ≤ localizedtime.shortMonthNamesStd.length)
    (h5 : locale.DayPeriods.length ≤ localizedtime.dayPeriodsStd.length) :
    (∀ (layoutOffset valueOffset : Nat) (sb : GoString), layoutOffset < layout.length →
        (∃ err, localizedtime.FormatStep equalFold layout value locale layoutOffset valueOffset
            sb = .error err)
          ∨ ∃ layoutOffset2 valueOffset2 sb2,
              localizedtime.FormatStep equalFold layout value locale layoutOffset valueOffset sb
                  = .ok (layoutOffset2, valueOffset2, sb2)
                ∧ layoutOffset < layoutOffset2)
      ∧ ((∃ pv, localizedtime.Format equalFold layout value locale = .ok pv)
          ∨ ∃ err, localizedtime.Format equalFold layout value locale = .error err) := by
  refine ⟨fun lo vo sb hlt =>
    FormatStep_total equalFold layout value locale lo vo sb h1 h2 h3 h4 h5 hlt, ?_⟩
  unfold localizedtime.Format
  rcases FormatLoop_total equalFold layout value locale h1 h2 h3 h4 h5 layout.length 0 0 []
      (by omega) with ⟨err, he⟩ | ⟨vo, sb, hs⟩
  · rw [he]; exact Or.inr ⟨err, rfl⟩
  · rw [hs]
    simp only
    by_cases hv : value.length ≥ vo
    · rw [if_pos hv, goSliceFrom_eq_some hv]
      exact Or.inl ⟨_, rfl⟩
    · rw [if_neg hv]
      exact Or.inl ⟨_, rfl⟩

/-- C38 at the layout `_2 Jan`, the value ` 3 Feb` and a locale with month
names only. -/
theorem Format_total_witness :
    localizedtime.monthsLocale.LongDayNames.length ≤ localizedtime.longDayNamesStd.length
      ∧ localizedtime.monthsLocale.ShortDayNames.length
          ≤ localizedtime.shortDayNamesStd.length
      ∧ localizedtime.monthsLocale.LongMonthNames.length
          ≤ localizedtime.longMonthNamesStd.length
      ∧ localizedtime.monthsLocale.ShortMonthNames.length
          ≤ localizedtime.shortMonthNamesStd.length
      ∧ localizedtime.monthsLocale.DayPeriods.length ≤ localizedtime.dayPeriodsStd.length
      ∧ ((∃ pv, localizedtime.Format localizedtime.textTimeLib.EqualFold (ascii "_2 Jan")
              (ascii " 3 Feb") localizedtime.monthsLocale = .ok pv)
          ∨ ∃ err, localizedtime.Format localizedtime.textTimeLib.EqualFold (ascii "_2 Jan")
              (ascii " 3 Feb") localizedtime.monthsLocale = .error err) :=
  ⟨by decide, by decide, by decide, by decide, by decide,
    (Format_total localizedtime.textTimeLib.EqualFold (ascii "_2 Jan") (ascii " 3 Feb")
      localizedtime.monthsLocale (by decide) (by decide) (by decide) (by decide)
      (by decide)).2⟩

end Ottl

/-! ## The context check of a path, and `newPath` -/

namespace Ottl

theorem newPathLoop_error {σ : Sig} (p : Parser σ) (pc text : GoString)
    (fields : List (field σ)) :
    ∀ err, p.newPathLoop pc text fields = .error err →
      ∃ f ∈ fields, p.newKeys f.Keys = .error err := by
  induction fields with
  | nil =>
    intro err h
    rw [newPathLoop_nil] at h
    cases h
  | cons f rest ih =>
    intro err h
    cases f with
    | mk name fkeys =>
      rw [Parser.newPathLoop] at h
      cases h1 : p.newPathLoop pc text rest with
      | error e =>
        rw [h1] at h
        simp only [Outcome.error.injEq] at h
        subst h
        obtain ⟨g, hg, hk⟩ := ih e h1
        exact ⟨g, List.mem_cons_of_mem _ hg, hk⟩
      | panic =>
        rw [h1] at h
        cases h
      | ok cur =>
        rw [h1] at h
        simp only at h
        cases h2 : p.newKeys fkeys with
        | error e =>
          rw [h2] at h
          simp only [Outcome.error.injEq] at h
          subst h
          exact ⟨_, List.mem_cons_self _ _, h2⟩
        | panic =>
          rw [h2] at h
          cases h
        | ok keys =>
          rw [h2] at h
          cases h

theorem newPath_error_of_parsePathContext_ok {σ : Sig} (p : Parser σ) (pth : path σ)
    (hfields : pth.Fields ≠ []) (herr : (p.parsePathContext pth).2.2 = none) (err : OttlError)
    (h : p.newPath pth = .error err) :
    ∃ f ∈ (p.parsePathContext pth).2.1, p.newKeys f.Keys = .error err := by
  rw [newPath_of_parsePathContext_ok p pth hfields herr] at h
  split at h
  · rename_i e hl
    simp only [Outcome.error.injEq] at h
    subst h
    exact newPathLoop_error p _ _ _ e hl
  · cases h
  · cases h
  · cases h

/-- C6 fails on the code as stated: for the context names `span` and `log`,
the path `span.attributes[body]` has a context that is not blank and is in the
set, `parsePathContext` returns no error for it, and `newPath` returns the
missing-context error, for the path `body` of its key. -/
theorem newPath_context_check_counterexample :
    0 < spanLogParser.pathContextNames.length ∧ spanKeyPath.Fields ≠ []
      ∧ spanKeyPath.Context ≠ [] ∧ spanKeyPath.Context ∈ spanLogParser.pathContextNames
      ∧ spanLogParser.parsePathContext spanKeyPath
          = (spanKeyPath.Context, spanKeyPath.Fields, none)
      ∧ spanLogParser.newPath spanKeyPath = .error (.missingContext (ascii "body")) := by
  have h1 : ascii "span" ≠ [] := by decide
  refine ⟨by decide, by simp [spanKeyPath, path.Fields], by decide, by decide,
    parsePathContext_valid spanLogParser spanKeyPath (by decide) (by decide) (by decide), ?_⟩
  simp [Parser.newPath, Parser.newPathLoop, Parser.newKeys, Parser.newKeysLoop,
    Parser.buildGetSetterFromPath, spanKeyPath, spanLogParser, path.Fields,
    Parser.parsePathContext, path.Context, h1, buildOriginalText, buildOriginalFieldsText]

/-- C6, amended: for a parser with a non-empty context-names set and a path
with at least one field, `parsePathContext` returns the missing-context error
exactly when the path's context is blank, the invalid-context error exactly
when the context is non-blank and not in the set, and otherwise no error
together with the path's context and its fields unchanged. `newPath` returns
the two errors in the same two cases; otherwise it succeeds exactly when the
keys of every field can be built, and an error it returns is the error of
`newKeys` for one of the fields. -/
theorem parsePathContext_context_check {σ : Sig} (p : Parser σ) (pth : path σ)
    (hnames : 0 < p.pathContextNames.length) (hfields : pth.Fields ≠ []) :
    ((∃ t, (p.parsePathContext pth).2.2 = some (.missingContext t)) ↔ pth.Context = [])
      ∧ ((∃ c t, (p.parsePathContext pth).2.2 = some (.invalidContext c t)) ↔
          (pth.Context ≠ [] ∧ pth.Context ∉ p.pathContextNames))
      ∧ ((p.parsePathContext pth).2.2 = none ↔
          (pth.Context ≠ [] ∧ pth.Context ∈ p.pathContextNames))
      ∧ (pth.Context = [] →
          (p.parsePathContext pth).2.2 = some (.missingContext (buildOriginalText pth))
            ∧ p.newPath pth = .error (.missingContext (buildOriginalText pth)))
      ∧ (pth.Context ≠ [] → pth.Context ∉ p.pathContextNames →
          (p.parsePathContext pth).2.2
              = some (.invalidContext pth.Context (buildOriginalText pth))
            ∧ p.newPath pth = .error (.invalidContext pth.Context (buildOriginalText pth)))
      ∧ (pth.Context ≠ [] → pth.Context ∈ p.pathContextNames →
          p.parsePathContext pth = (pth.Context, pth.Fields, none)
            ∧ ((∃ chain, p.newPath pth = .ok chain) ↔
                ∀ f ∈ pth.Fields, ∃ keys, p.newKeys f.Keys = .ok keys)
            ∧ (∀ err, p.newPath pth = .error err →
                ∃ f ∈ pth.Fields, p.newKeys f.Keys = .error err)) := by
  obtain ⟨c1, c2, c3, c4, c5, c6⟩ := parsePathContext_cases p pth hnames hfields
  refine ⟨c1, c2, c3, c4, c5, ?_⟩
  intro hctx hmem
  have hv := c6 hctx hmem
  refine ⟨hv, ?_, ?_⟩
  · rw [newPath_succeeds_iff, hv]
    simp only [hfields, ne_eq, not_false_eq_true, true_and]
  · intro err h
    have := newPath_error_of_parsePathContext_ok p pth hfields (by rw [hv]) err h
    rw [hv] at this
    exact this

/-- C6, amended, at the path `foo.attributes["k"]` for the context names
`span` and `log`: the context `foo` is rejected as invalid. -/
theorem parsePathContext_context_check_witness :
    0 < spanLogParser.pathContextNames.length ∧ fooAttributesPath.Fields ≠ []
      ∧ spanLogParser.newPath fooAttributesPath
          = .error (.invalidContext (ascii "foo") (ascii "foo.attributes[k]")) :=
  ⟨by decide, by simp [fooAttributesPath, path.Fields],
    ((parsePathContext_context_check spanLogParser fooAttributesPath (by decide)
      (by simp [fooAttributesPath, path.Fields])).2.2.2.2.1 (by decide) (by decide)).2⟩

end Ottl
